import Mathlib

/-!
Freeciv packet codec: a shallow embedding of `common/packets.c`.

Conventions of the embedding.

* A C `int` is a Lean `Int`.  Where the source converts between `int` and
  `unsigned int` (32 bits) the conversion is written out (`to_unsigned`,
  `to_int`).  An `unsigned long` is 32 bits wide as well.
* Memory reached through an `unsigned char *` is a `List Nat`; a pointer into
  it is an offset.  A cell is read modulo 256 (`peek`), so every list denotes
  a byte array.
* The `put_*` functions return the bytes they store at `buffer`; the pointer
  they return in C is `buffer` advanced by the length of that list.  A
  `send_packet_*` function returns the `cptr - buffer` bytes it hands to
  `send_connection_data`.
* Destinations (`int *val`, `char *mystring`, `char *str`) are never `NULL`
  at any call site of the file, so the operations return the value stored
  there.  A string result lists the `char`s written, terminator included.
* `assert` is modelled: a function whose assertion fails returns `none`.
* Log output (`freelog`) is not modelled.
-/

namespace Packets

/-! ## Integers -/

/-- Conversion of an `int` to `unsigned int` (32 bits). -/
def to_unsigned (v : Int) : Nat := (v % 4294967296).toNat

/-- Conversion of an `unsigned int` to `int` (32 bits, two's complement). -/
def to_int (x : Nat) : Int :=
  if x % 4294967296 < 2147483648 then ((x % 4294967296 : Nat) : Int)
  else ((x % 4294967296 : Nat) : Int) - 4294967296

/-- Source lines 123-126: swap bytes on an integer considered as 16 bits. -/
def swab_uint16 (val : Nat) : Nat :=
  ((val &&& 0xFF) <<< 8) ||| ((val &&& 0xFF00) >>> 8)

/-- Source lines 131-135: swap bytes on an integer considered as 32 bits. -/
def swab_uint32 (val : Nat) : Nat :=
  ((val &&& 0xFF) <<< 24) ||| ((val &&& 0xFF00) <<< 8)
    ||| ((val &&& 0xFF0000) >>> 8) ||| ((val &&& 0xFF000000) >>> 24)

/-- Source lines 140-143: `(*ptr) = swab_uint16(*ptr)`. -/
def swab_puint16 (v : Int) : Int := to_int (swab_uint16 (to_unsigned v))

/-- Source lines 148-151: `(*ptr) = swab_uint32(*ptr)`. -/
def swab_puint32 (v : Int) : Int := to_int (swab_uint32 (to_unsigned v))

/-! ## Memory -/

/-- The `unsigned char` at offset `i`. -/
def peek (mem : List Nat) (i : Nat) : Nat := mem.getD i 0 % 256

/-- Store `bytes` at offset `p`, cell by cell. -/
def poke (mem : List Nat) (p : Nat) : List Nat → List Nat
  | [] => mem
  | b :: bs => poke (mem.set p b) (p + 1) bs

/-- Source lines 461-467: the value and the advanced pointer. -/
def get_uint8 (buffer : List Nat) (p : Nat) : Int × Nat :=
  ((peek buffer p : Nat), p + 1)

/-- Source lines 488-492: stores `val & 0xff`. -/
def put_uint8 (val : Int) : List Nat := [(val % 256).toNat]

/-- Source lines 499-507: the two bytes at `buffer` in network order. -/
def get_uint16 (buffer : List Nat) (p : Nat) : Int × Nat :=
  ((peek buffer p * 256 + peek buffer (p + 1) : Nat), p + 2)

/-- Source lines 512-524: as `get_uint16`, values above `0x7fff` lowered by
`0x10000`. -/
def get_sint16 (buffer : List Nat) (p : Nat) : Int × Nat :=
  let newval : Int := ((peek buffer p * 256 + peek buffer (p + 1) : Nat) : Int)
  (if newval > 0x7fff then newval - 0x10000 else newval, p + 2)

/-- Source lines 529-534: `htons(val)`, the low 16 bits in network order. -/
def put_uint16 (val : Int) : List Nat :=
  let x := (val % 65536).toNat
  [x / 256, x % 256]

/-- Source lines 541-549: the four bytes at `buffer` in network order,
assigned to an `int`. -/
def get_uint32 (buffer : List Nat) (p : Nat) : Int × Nat :=
  (to_int (peek buffer p * 16777216 + peek buffer (p + 1) * 65536
    + peek buffer (p + 2) * 256 + peek buffer (p + 3)), p + 4)

/-- Source lines 577-582: `htonl(val)`, the 32 bits in network order. -/
def put_uint32 (val : Int) : List Nat :=
  let x := to_unsigned val
  [x / 16777216, x / 65536 % 256, x / 256 % 256, x % 256]

/-- Source lines 591-605: count byte, `count` elements, then the `stop`
value in the last slot of the allocated vector. -/
def get_uint8_vec8 (buffer : List Nat) (p : Nat) (stop : Int) : List Int × Nat :=
  let count := (get_uint8 buffer p).1.toNat
  ((List.range count).map (fun inx => (get_uint8 buffer (p + 1 + inx)).1) ++ [stop],
    p + 1 + count)

/-- Source lines 655-669: as `get_uint8_vec8` with 16-bit elements. -/
def get_uint16_vec8 (buffer : List Nat) (p : Nat) (stop : Int) : List Int × Nat :=
  let count := (get_uint8 buffer p).1.toNat
  ((List.range count).map (fun inx => (get_uint16 buffer (p + 1 + 2 * inx)).1) ++ [stop],
    p + 1 + 2 * count)

/-- The elements of a vector before the first `stop`. -/
def vec_until (stop : Int) : List Int → List Int
  | [] => []
  | v :: vs => if v = stop then [] else v :: vec_until stop vs

/-- Source lines 634-646: a zero count byte patched to the number of elements
found before `stop`, and the elements. -/
def put_uint8_vec8 (val : List Int) (stop : Int) : List Nat :=
  let elems := vec_until stop val
  put_uint8 (elems.length : Int) ++ (elems.map put_uint8).flatten

/-- Source lines 698-710: as `put_uint8_vec8` with 16-bit elements. -/
def put_uint16_vec8 (val : List Int) (stop : Int) : List Nat :=
  let elems := vec_until stop val
  put_uint8 (elems.length : Int) ++ (elems.map put_uint16).flatten

/-- The characters of a `char` array before its first `'\0'`; their number is
`strlen`. -/
def c_string (str : List Nat) : List Nat := str.takeWhile (fun ch => ch ≠ 0)

/-- Source lines 935-940: `strlen(mystring) + 1` chars, the string and its
terminator. -/
def put_string (mystring : List Nat) : List Nat := c_string mystring ++ [0]

/-! ## The cursor -/

/-- Source lines 65-74.  `base` is the memory at `base`, `ptr` the offset
`ptr - base`. -/
structure pack_iter where
  len : Int
  type : Int
  base : List Nat
  ptr : Nat
  swap_bytes : Bool
  short_packet : Bool
  bad_string : Bool
  bad_bit_string : Bool
  deriving DecidableEq, Repr

/-- Source lines 402-410. -/
def pack_iter_remaining (piter : pack_iter) : Int :=
  if piter.short_packet then -1 else piter.len - (piter.ptr : Int)

/-- Source lines 719-728. -/
def iget_uint8 (piter : pack_iter) : Int × pack_iter :=
  if pack_iter_remaining piter < 1 then
    (0, { piter with short_packet := true })
  else
    let r := get_uint8 piter.base piter.ptr
    (r.1, { piter with ptr := r.2 })

/-- Source lines 754-766. -/
def iget_uint16 (piter : pack_iter) : Int × pack_iter :=
  if pack_iter_remaining piter < 2 then
    (0, { piter with short_packet := true })
  else
    let r := get_uint16 piter.base piter.ptr
    (if piter.swap_bytes then swab_puint16 r.1 else r.1, { piter with ptr := r.2 })

/-- Source lines 774-786. -/
def iget_sint16 (piter : pack_iter) : Int × pack_iter :=
  if pack_iter_remaining piter < 2 then
    (0, { piter with short_packet := true })
  else
    let r := get_sint16 piter.base piter.ptr
    (if piter.swap_bytes then swab_puint16 r.1 else r.1, { piter with ptr := r.2 })

/-- Source lines 794-806. -/
def iget_uint32 (piter : pack_iter) : Int × pack_iter :=
  if pack_iter_remaining piter < 4 then
    (0, { piter with short_packet := true })
  else
    let r := get_uint32 piter.base piter.ptr
    (if piter.swap_bytes then swab_puint32 r.1 else r.1, { piter with ptr := r.2 })

/-- Source lines 835-852: `none` is the `NULL` vector of a short packet. -/
def iget_uint8_vec8 (piter : pack_iter) (stop : Int) : Option (List Int) × pack_iter :=
  if pack_iter_remaining piter < 1 then
    (none, { piter with short_packet := true })
  else
    let count := (get_uint8 piter.base piter.ptr).1 + 1
    if pack_iter_remaining piter < count then
      (none, { piter with short_packet := true })
    else
      let r := get_uint8_vec8 piter.base piter.ptr stop
      (some r.1, { piter with ptr := r.2 })

/-- Source lines 885-903. -/
def iget_uint16_vec8 (piter : pack_iter) (stop : Int) : Option (List Int) × pack_iter :=
  if pack_iter_remaining piter < 1 then
    (none, { piter with short_packet := true })
  else
    let count := (get_uint8 piter.base piter.ptr).1 * 2 + 1
    if pack_iter_remaining piter < count then
      (none, { piter with short_packet := true })
    else
      let r := get_uint16_vec8 piter.base piter.ptr stop
      (some r.1, { piter with ptr := r.2 })

/-- Source line 967, the loop
`for(c=piter->ptr; *c && (c-piter->base) < piter->len; c++) ;`
started at `c`: the final `c`, and the offsets at which `*c` was evaluated.
The condition evaluates `*c` first and the bound second. -/
def iget_string_scan (base : List Nat) (len : Int) : Nat → Nat → Nat × List Nat
  | 0, c => (c, [])
  | fuel + 1, c =>
    if peek base c = 0 then (c, [c])
    else if (c : Int) < len then
      let r := iget_string_scan base len fuel (c + 1)
      (r.1, c :: r.2)
    else (c, [c])

/-- The scan of `iget_string` on a cursor; the loop leaves after at most
`len - ptr + 1` evaluations of its condition. -/
def iget_string_c (piter : pack_iter) : Nat × List Nat :=
  iget_string_scan piter.base piter.len ((piter.len - (piter.ptr : Int)).toNat + 1) piter.ptr

/-- Source lines 951-988, for a destination `mystring` of `navail` chars. -/
def iget_string (piter : pack_iter) (navail : Int) : Option (List Nat × pack_iter) :=
  if navail ≤ 0 then none
  else if pack_iter_remaining piter < 1 then
    some ([0], { piter with short_packet := true })
  else
    let c := (iget_string_c piter).1
    let unterminated : Bool := decide ((c : Int) ≥ piter.len)
    let ps_len : Int :=
      if unterminated then pack_iter_remaining piter else (c : Int) - (piter.ptr : Int)
    let piter1 : pack_iter :=
      if unterminated then { piter with short_packet := true, bad_string := true } else piter
    let too_long : Bool := decide (ps_len ≥ navail)
    let len : Int := if too_long then navail - 1 else ps_len
    let piter2 : pack_iter := if too_long then { piter1 with bad_string := true } else piter1
    let mystring := (List.range len.toNat).map (fun i => peek piter.base (piter.ptr + i)) ++ [0]
    let piter3 : pack_iter :=
      if piter2.short_packet then piter2
      else { piter2 with ptr := piter2.ptr + (ps_len + 1).toNat }
    some (mystring, piter3)

/-- Source lines 1000-1001 and 1019-1020: the transmitted cells of the 5x5
city map. -/
def city_map_index : List Nat :=
  [1, 2, 3, 5, 6, 7, 8, 9, 10, 11, 13, 14, 15, 16, 17, 18, 19, 21, 22, 23]

/-- Source lines 998-1010: four bytes, five base-3 digits each.  `str` lists
the characters of the map. -/
def put_city_map (str : List Nat) : List Nat :=
  [0, 5, 10, 15].map fun i =>
    let d := fun k => ((str.getD (city_map_index.getD (i + k) 0) 0 : Nat) : Int) - 48
    ((d 0 * 81 + d 1 * 27 + d 2 * 9 + d 3 * 3 + d 4 * 1) % 256).toNat

/-- Source lines 1042-1056, one round of the loop for the cells
`index[i] .. index[i+4]`. -/
def iget_city_map_round (piter : pack_iter) (str : List Nat) (i : Nat) : List Nat × pack_iter :=
  let at_ := fun k => city_map_index.getD (i + k) 0
  if piter.short_packet then
    (((((str.set (at_ 0) 48).set (at_ 1) 48).set (at_ 2) 48).set (at_ 3) 48).set (at_ 4) 48,
      piter)
  else
    let j := peek piter.base piter.ptr
    (((((str.set (at_ 0) (48 + j / 81)).set (at_ 1) (48 + j % 81 / 27)).set (at_ 2)
        (48 + j % 81 % 27 / 9)).set (at_ 3) (48 + j % 81 % 27 % 9 / 3)).set (at_ 4)
        (48 + j % 81 % 27 % 9 % 3),
      { piter with ptr := piter.ptr + 1 })

/-- Source lines 1017-1057, for a destination `str` of `navail` chars: the
26 chars written. -/
def iget_city_map (piter : pack_iter) (navail : Int) : Option (List Nat × pack_iter) :=
  if navail < 26 then none
  else
    let piter0 : pack_iter :=
      if pack_iter_remaining piter < 4 then { piter with short_packet := true } else piter
    let str0 := ((((((List.replicate 26 0).set 0 50).set 4 50).set 12 49).set 20 50).set 24
      50).set 25 0
    let r1 := iget_city_map_round piter0 str0 0
    let r2 := iget_city_map_round r1.2 r1.1 5
    let r3 := iget_city_map_round r2.2 r2.1 10
    let r4 := iget_city_map_round r3.2 r3.1 15
    some (r4.1, r4.2)

/-- Source lines 1069-1074, the loop of `put_bit_string` on the characters
not yet packed: one byte for every eight of them, bit `b` set for a `'1'`. -/
def put_bit_string_bytes : Nat → List Nat → List Nat
  | 0, _ => []
  | fuel + 1, str =>
    if str = [] then []
    else
      ((List.range 8).foldl
          (fun data b => if str.getD b 0 = 49 then data ||| (1 <<< b) else data) 0)
        :: put_bit_string_bytes fuel (str.drop 8)

/-- Source lines 1062-1077: the length byte `strlen(str)` and the packed
bits. -/
def put_bit_string (str : List Nat) : List Nat :=
  ((c_string str).length % 256) :: put_bit_string_bytes (c_string str).length (c_string str)

/-- Source lines 1112-1119, the loop of `iget_bit_string` from bit `i` on:
the cursor after it and the chars stored at `str[i] ..` (those below
`navail`). -/
def iget_bit_string_loop (npack navail : Nat) : Nat → Nat → pack_iter → List Nat × pack_iter
  | 0, _, piter => ([], piter)
  | fuel + 1, i, piter =>
    if i < npack then
      let r := iget_uint8 piter
      let data := r.1.toNat
      let bits := ((List.range 8).filter (fun b => i + b < npack ∧ i + b < navail)).map
        (fun b => if data &&& (1 <<< b) ≠ 0 then 49 else 48)
      let rest := iget_bit_string_loop npack navail fuel (i + 8) r.2
      (bits ++ rest.1, rest.2)
    else ([], piter)

/-- Source lines 1089-1130, for a destination `str` of `navail` chars. -/
def iget_bit_string (piter : pack_iter) (navail : Int) : Option (List Nat × pack_iter) :=
  if navail ≤ 0 then none
  else if pack_iter_remaining piter < 1 then
    some ([0], { piter with short_packet := true })
  else
    let r := iget_uint8 piter
    let npack := r.1
    if npack ≤ 0 then
      some ([0], { r.2 with bad_bit_string := decide (npack < 0) })
    else
      let l := iget_bit_string_loop npack.toNat navail.toNat npack.toNat 0 r.2
      let str := if npack < navail then l.1 ++ [0] else l.1.take (navail.toNat - 1) ++ [0]
      let piter1 : pack_iter :=
        if npack < navail then l.2 else { l.2 with bad_bit_string := true }
      let piter2 : pack_iter :=
        if piter1.short_packet then { piter1 with bad_bit_string := true } else piter1
      some (str, piter2)

/-- Source lines 1136-1146: entries up to and including the first `A_LAST`,
at most `MAX_NUM_TECH_LIST` of them. -/
def put_tech_list (A_LAST : Int) : Nat → List Int → List Nat
  | 0, _ => []
  | n + 1, techs =>
    put_uint8 (techs.headD 0) ++
      (if techs.headD 0 = A_LAST then [] else put_tech_list A_LAST n techs.tail)

/-- Source lines 1154-1166, with `n` entries of `techs` left to fill. -/
def iget_tech_list_from (A_LAST : Int) : Nat → pack_iter → List Int × pack_iter
  | 0, piter => ([], piter)
  | n + 1, piter =>
    let r := iget_uint8 piter
    if r.1 = A_LAST then (List.replicate (n + 1) A_LAST, r.2)
    else
      let rest := iget_tech_list_from A_LAST n r.2
      (r.1 :: rest.1, rest.2)

/-- Source lines 1154-1166. -/
def iget_tech_list (MAX_NUM_TECH_LIST : Nat) (A_LAST : Int) (piter : pack_iter) :
    List Int × pack_iter :=
  iget_tech_list_from A_LAST MAX_NUM_TECH_LIST piter

/-! ## Declarations of the headers

`packets.c` includes `packets.h`, `capability.h` and the game headers, which
are not part of the sources at hand.  The constants it takes from them are
collected here. -/

/-- Constants declared in the headers.  `sizeof_city_map` and
`sizeof_improvements` are `sizeof(packet->city_map)` and
`sizeof(packet->improvements)` of `struct packet_city_info`;
`sizeof_message` is `sizeof(packet->message)` of
`struct packet_generic_message`. -/
structure header where
  MAX_LEN_NAME : Int
  MAX_LEN_WORKLIST : Nat
  MAX_NUM_TECH_LIST : Nat
  MAX_NUM_LEADERS : Nat
  A_LAST : Int
  WEF_END : Int
  WEF_IMPR : Int
  WEF_UNIT : Int
  CONTAMINATION_POLLUTION : Int
  GAME_START_YEAR : Int
  sizeof_city_map : Int
  sizeof_improvements : Int
  sizeof_message : Int
  E_NOEVENT : Int
  E_WONDER_OBSOLETE : Int
  B_PALACE : Nat
  B_CITY : Nat
  CITY_MAP_SIZE : Nat
  C_TILE_EMPTY : Int

/-- Modelled from the spec: `has_capability` of `capability.h`, the
capability-set membership query; a capability set is the list of its
tokens. -/
def has_capability (cap : String) (capability : List String) : Bool :=
  decide (cap ∈ capability)

/-- The `struct socket_packet_buffer` of a connection: `ndata` bytes held at
the front of the array `data`. -/
structure socket_packet_buffer where
  ndata : Nat
  data : List Nat
  deriving DecidableEq, Repr

/-- The fields of `struct connection` that `packets.c` uses.  Only
`send_packet_join_game_reply` reads `id`; the examples leave it 0. -/
structure connection where
  used : Bool
  first_packet : Bool
  byte_swap : Bool
  buffer : socket_packet_buffer
  capability : List String
  id : Int := 0
  deriving DecidableEq, Repr

/-- Source lines 368-374.  The `memcpy` moves the `ndata - len` bytes that
follow the packet to the front of the array. -/
def remove_packet_from_buffer (buffer : socket_packet_buffer) : socket_packet_buffer :=
  let len := (get_uint16 buffer.data 0).1.toNat
  { ndata := buffer.ndata - len
    data := (buffer.data.drop len).take (buffer.ndata - len) ++ buffer.data.drop (buffer.ndata - len) }

/-- Source lines 383-395. -/
def pack_iter_init (pc : connection) : Option pack_iter :=
  if pc.buffer.ndata < 3 then none
  else
    let r := get_uint16 pc.buffer.data 0
    let t := get_uint8 pc.buffer.data r.2
    some
      { len := r.1
        type := t.1
        base := pc.buffer.data
        ptr := t.2
        swap_bytes := pc.byte_swap
        short_packet := decide (r.1 < 3)
        bad_string := false
        bad_bit_string := false }

/-- The `struct worklist` of `worklist.h`. -/
structure worklist where
  is_valid : Int
  name : List Nat
  wlefs : List Int
  wlids : List Int
  deriving DecidableEq, Repr

/-- Source lines 1180-1195, one slot of the loop of `put_worklist`. -/
def put_worklist_slot (H : header) (pc : connection) (wlef wlid : Int) : List Nat :=
  if !has_capability "worklist_true_ids" pc.capability then
    if wlef = H.WEF_END then put_uint16 284
    else if wlef = H.WEF_UNIT then put_uint16 (wlid + 68)
    else put_uint16 wlid
  else
    put_uint8 wlef ++ put_uint8 wlid

/-- Source lines 1173-1198. -/
def put_worklist (H : header) (pwl : worklist) (pc : connection) : List Nat :=
  put_uint8 pwl.is_valid ++ put_string pwl.name ++
    ((List.range H.MAX_LEN_WORKLIST).map fun i =>
      put_worklist_slot H pc (pwl.wlefs.getD i 0) (pwl.wlids.getD i 0)).flatten

/-- Source lines 1212-1232, one slot of the loop of `iget_worklist`: the
pair `(wlefs[i], wlids[i])`. -/
def iget_worklist_slot (H : header) (pc : connection) (piter : pack_iter) :
    (Int × Int) × pack_iter :=
  if !has_capability "worklist_true_ids" pc.capability then
    let r := iget_uint16 piter
    if r.1 = 284 then ((H.WEF_END, 0), r.2)
    else if r.1 ≥ 68 then ((H.WEF_UNIT, r.1 - 68), r.2)
    else ((H.WEF_IMPR, r.1), r.2)
  else
    let r1 := iget_uint8 piter
    let r2 := iget_uint8 r1.2
    ((r1.1, r2.1), r2.2)

/-- Source lines 1212-1232, `n` slots of the loop. -/
def iget_worklist_slots (H : header) (pc : connection) :
    Nat → pack_iter → List (Int × Int) × pack_iter
  | 0, piter => ([], piter)
  | n + 1, piter =>
    let r := iget_worklist_slot H pc piter
    let rest := iget_worklist_slots H pc n r.2
    (r.1 :: rest.1, rest.2)

/-- Source lines 1205-1233. -/
def iget_worklist (H : header) (piter : pack_iter) (pc : connection) :
    Option (worklist × pack_iter) :=
  let r1 := iget_uint8 piter
  match iget_string r1.2 H.MAX_LEN_NAME with
  | none => none
  | some r2 =>
    let r3 := iget_worklist_slots H pc H.MAX_LEN_WORKLIST r2.2
    some ({ is_valid := r1.1, name := r2.1, wlefs := r3.1.map Prod.fst, wlids := r3.1.map Prod.snd },
      r3.2)

/-! ## Packets embedded field by field -/

/-- The `struct packet_diplomacy_info` of `packets.h`. -/
structure packet_diplomacy_info where
  plrno0 : Int
  plrno1 : Int
  plrno_from : Int
  clause_type : Int
  value : Int
  deriving DecidableEq, Repr

/-- Source lines 1238-1252: the `cptr - buffer` bytes handed to
`send_connection_data`. -/
def send_packet_diplomacy_info (pt : Int) (packet : packet_diplomacy_info) : List Nat :=
  let body := put_uint8 pt ++ put_uint32 packet.plrno0 ++ put_uint32 packet.plrno1
    ++ put_uint32 packet.plrno_from ++ put_uint32 packet.clause_type ++ put_uint32 packet.value
  put_uint16 ((2 + body.length : Nat) : Int) ++ body

/-- Source lines 1257-1275: the struct, the cursor handed to `pack_iter_end`,
and the connection. -/
def receive_packet_diplomacy_info (pc : connection) :
    Option (packet_diplomacy_info × pack_iter × connection) :=
  match pack_iter_init pc with
  | none => none
  | some iter =>
    let r1 := iget_uint32 iter
    let r2 := iget_uint32 r1.2
    let r3 := iget_uint32 r2.2
    let r4 := iget_uint32 r3.2
    let r5 := iget_uint32 r4.2
    some ({ plrno0 := r1.1, plrno1 := r2.1, plrno_from := r3.1, clause_type := r4.1,
            value := r5.1 },
      r5.2, { pc with buffer := remove_packet_from_buffer pc.buffer })

/-- The `struct packet_ruleset_tech` of `packets.h`; `helptext` is `none` for
the `NULL` pointer. -/
structure packet_ruleset_tech where
  id : Int
  req0 : Int
  req1 : Int
  flags : Int
  name : List Nat
  helptext : Option (List Nat)
  deriving DecidableEq, Repr

/-- Source lines 3112-3118 of `receive_packet_ruleset_tech`: the fields
before the help text, and the cursor after them. -/
def receive_packet_ruleset_tech_fields (H : header) (iter : pack_iter) :
    Option (packet_ruleset_tech × pack_iter) :=
  let r1 := iget_uint8 iter
  let r2 := iget_uint8 r1.2
  let r3 := iget_uint8 r2.2
  let r4 := iget_uint32 r3.2
  match iget_string r4.2 H.MAX_LEN_NAME with
  | none => none
  | some r5 =>
    some ({ id := r1.1, req0 := r2.1, req1 := r3.1, flags := r4.1, name := r5.1,
            helptext := none }, r5.2)

/-- Source lines 3104-3131.  `sizeof(packet->name)` is `MAX_LEN_NAME`. -/
def receive_packet_ruleset_tech (H : header) (pc : connection) :
    Option (packet_ruleset_tech × pack_iter × connection) :=
  match pack_iter_init pc with
  | none => none
  | some iter =>
    match receive_packet_ruleset_tech_fields H iter with
    | none => none
    | some r =>
      let len := pack_iter_remaining r.2
      if len ≠ 0 then
        match iget_string r.2 len with
        | none => none
        | some h =>
          some ({ r.1 with helptext := some h.1 }, h.2,
            { pc with buffer := remove_packet_from_buffer pc.buffer })
      else
        some (r.1, r.2, { pc with buffer := remove_packet_from_buffer pc.buffer })

/-- The `struct packet_ruleset_nation` of `packets.h`.  `leader_name` and
`leader_sex` list the elements the decoder stores at indices `0, 1, ..` of
arrays declared with `MAX_NUM_LEADERS` elements. -/
structure packet_ruleset_nation where
  id : Int
  name : List Nat
  name_plural : List Nat
  graphic_str : List Nat
  graphic_alt : List Nat
  leader_count : Int
  leader_name : List (List Nat)
  leader_sex : List Int
  city_style : Int
  deriving DecidableEq, Repr

/-- Source lines 3698-3701 of `receive_packet_ruleset_nation`: the rounds
`i, i+1, ..` of the loop while `i < leader_count`, `fuel` bounding their
number; the pairs stored at `leader_name[i]`, `leader_sex[i]`. -/
def receive_packet_ruleset_nation_leaders (H : header) (leader_count : Int) :
    Nat → Nat → pack_iter → Option (List (List Nat × Int) × pack_iter)
  | 0, _, iter => some ([], iter)
  | fuel + 1, i, iter =>
    if (i : Int) < leader_count then
      match iget_string iter H.MAX_LEN_NAME with
      | none => none
      | some r1 =>
        let r2 := iget_uint8 r1.2
        match receive_packet_ruleset_nation_leaders H leader_count fuel (i + 1) r2.2 with
        | none => none
        | some rest => some ((r1.1, r2.1) :: rest.1, rest.2)
    else some ([], iter)

/-- Source lines 3682-3707.  The `sizeof` of each string field is
`MAX_LEN_NAME`. -/
def receive_packet_ruleset_nation (H : header) (pc : connection) :
    Option (packet_ruleset_nation × pack_iter × connection) :=
  match pack_iter_init pc with
  | none => none
  | some iter =>
    let r1 := iget_uint8 iter
    match iget_string r1.2 H.MAX_LEN_NAME with
    | none => none
    | some r2 =>
    match iget_string r2.2 H.MAX_LEN_NAME with
    | none => none
    | some r3 =>
    match iget_string r3.2 H.MAX_LEN_NAME with
    | none => none
    | some r4 =>
    match iget_string r4.2 H.MAX_LEN_NAME with
    | none => none
    | some r5 =>
      let r6 := iget_uint8 r5.2
      match receive_packet_ruleset_nation_leaders H r6.1 r6.1.toNat 0 r6.2 with
      | none => none
      | some r7 =>
        let r8 := iget_uint8 r7.2
        some ({ id := r1.1, name := r2.1, name_plural := r3.1, graphic_str := r4.1,
                graphic_alt := r5.1, leader_count := r6.1,
                leader_name := r7.1.map Prod.fst, leader_sex := r7.1.map Prod.snd,
                city_style := r8.1 },
          r8.2, { pc with buffer := remove_packet_from_buffer pc.buffer })

/-- The `struct packet_ruleset_game` of `packets.h`. -/
structure packet_ruleset_game where
  min_city_center_food : Int
  min_city_center_shield : Int
  min_city_center_trade : Int
  min_dist_bw_cities : Int
  init_vis_radius_sq : Int
  hut_overflight : Int
  pillage_select : Int
  nuke_contamination : Int
  deriving DecidableEq, Repr

/-- Source lines 3789-3814: the struct, the cursor handed to `pack_iter_end`,
and the connection. -/
def receive_packet_ruleset_game (H : header) (pc : connection) :
    Option (packet_ruleset_game × pack_iter × connection) :=
  match pack_iter_init pc with
  | none => none
  | some iter =>
    let r1 := iget_uint8 iter
    let r2 := iget_uint8 r1.2
    let r3 := iget_uint8 r2.2
    let r4 := iget_uint8 r3.2
    let r5 := iget_uint8 r4.2
    let r6 := iget_uint8 r5.2
    let r7 := iget_uint8 r6.2
    let r8 : Int × pack_iter :=
      if has_capability "nuclear_fallout" pc.capability then iget_uint8 r7.2
      else (H.CONTAMINATION_POLLUTION, r7.2)
    some ({ min_city_center_food := r1.1, min_city_center_shield := r2.1,
            min_city_center_trade := r3.1, min_dist_bw_cities := r4.1,
            init_vis_radius_sq := r5.1, hut_overflight := r6.1, pillage_select := r7.1,
            nuke_contamination := r8.1 },
      r8.2, { pc with buffer := remove_packet_from_buffer pc.buffer })

/-- The `struct packet_city_info` of `packets.h`.  `trade` and `trade_value`
list the four elements of the arrays. -/
structure packet_city_info where
  id : Int
  owner : Int
  x : Int
  y : Int
  name : List Nat
  size : Int
  ppl_happy : Int
  ppl_content : Int
  ppl_unhappy : Int
  ppl_elvis : Int
  ppl_scientist : Int
  ppl_taxman : Int
  food_prod : Int
  food_surplus : Int
  shield_prod : Int
  shield_surplus : Int
  trade_prod : Int
  corruption : Int
  luxury_total : Int
  tax_total : Int
  science_total : Int
  food_stock : Int
  shield_stock : Int
  pollution : Int
  currently_building : Int
  turn_last_built : Int
  turn_changed_target : Int
  changed_from_id : Int
  before_change_shields : Int
  worklist : worklist
  is_building_unit : Int
  did_buy : Int
  did_sell : Int
  was_happy : Int
  airlift : Int
  diplomat_investigate : Int
  changed_from_is_unit : Int
  city_map : List Nat
  improvements : List Nat
  city_options : Int
  trade : List Int
  trade_value : List Int

/-- Two structs are equal when all their fields are. -/
instance : DecidableEq packet_city_info := fun a b =>
  decidable_of_iff
    (a.id = b.id ∧ a.owner = b.owner ∧ a.x = b.x ∧ a.y = b.y ∧ a.name = b.name ∧
      a.size = b.size ∧ a.ppl_happy = b.ppl_happy ∧ a.ppl_content = b.ppl_content ∧
      a.ppl_unhappy = b.ppl_unhappy ∧ a.ppl_elvis = b.ppl_elvis ∧
      a.ppl_scientist = b.ppl_scientist ∧ a.ppl_taxman = b.ppl_taxman ∧
      a.food_prod = b.food_prod ∧ a.food_surplus = b.food_surplus ∧
      a.shield_prod = b.shield_prod ∧ a.shield_surplus = b.shield_surplus ∧
      a.trade_prod = b.trade_prod ∧ a.corruption = b.corruption ∧
      a.luxury_total = b.luxury_total ∧ a.tax_total = b.tax_total ∧
      a.science_total = b.science_total ∧ a.food_stock = b.food_stock ∧
      a.shield_stock = b.shield_stock ∧ a.pollution = b.pollution ∧
      a.currently_building = b.currently_building ∧ a.turn_last_built = b.turn_last_built ∧
      a.turn_changed_target = b.turn_changed_target ∧ a.changed_from_id = b.changed_from_id ∧
      a.before_change_shields = b.before_change_shields ∧ a.worklist = b.worklist ∧
      a.is_building_unit = b.is_building_unit ∧ a.did_buy = b.did_buy ∧ a.did_sell = b.did_sell ∧
      a.was_happy = b.was_happy ∧ a.airlift = b.airlift ∧
      a.diplomat_investigate = b.diplomat_investigate ∧
      a.changed_from_is_unit = b.changed_from_is_unit ∧ a.city_map = b.city_map ∧
      a.improvements = b.improvements ∧ a.city_options = b.city_options ∧ a.trade = b.trade ∧
      a.trade_value = b.trade_value)
    (by cases a; cases b; simp only [packet_city_info.mk.injEq])

instance : Repr packet_city_info := ⟨fun p _ => repr (p.id, p.owner, p.x, p.y, p.name)⟩

/-- Source lines 2262-2292 of `receive_packet_city_info`: the fields from
`id` to `currently_building` and the cursor after them.  The fields assigned
later are shown as 0 or empty.  `sizeof(packet->name)` is `MAX_LEN_NAME`. -/
def receive_packet_city_info_first (H : header) (iter : pack_iter) :
    Option (packet_city_info × pack_iter) :=
  let r1 := iget_uint16 iter
  let r2 := iget_uint8 r1.2
  let r3 := iget_uint8 r2.2
  let r4 := iget_uint8 r3.2
  match iget_string r4.2 H.MAX_LEN_NAME with
  | none => none
  | some r5 =>
    let r6 := iget_uint8 r5.2
    let r7 := iget_uint8 r6.2
    let r8 := iget_uint8 r7.2
    let r9 := iget_uint8 r8.2
    let r10 := iget_uint8 r9.2
    let r11 := iget_uint8 r10.2
    let r12 := iget_uint8 r11.2
    let r13 := iget_uint8 r12.2
    let r14 := iget_uint8 r13.2
    let r15 := iget_uint16 r14.2
    let r16 := iget_uint16 r15.2
    let r17 := iget_uint16 r16.2
    let r18 := iget_uint16 r17.2
    let r19 := iget_uint16 r18.2
    let r20 := iget_uint16 r19.2
    let r21 := iget_uint16 r20.2
    let r22 := iget_uint16 r21.2
    let r23 := iget_uint16 r22.2
    let r24 := iget_uint16 r23.2
    let r25 := iget_uint8 r24.2
    some ({ id := r1.1, owner := r2.1, x := r3.1, y := r4.1, name := r5.1, size := r6.1,
            ppl_happy := r7.1, ppl_content := r8.1, ppl_unhappy := r9.1, ppl_elvis := r10.1,
            ppl_scientist := r11.1, ppl_taxman := r12.1, food_prod := r13.1,
            food_surplus := if r14.1 > 127 then r14.1 - 256 else r14.1,
            shield_prod := r15.1,
            shield_surplus := if r16.1 > 32767 then r16.1 - 65536 else r16.1,
            trade_prod := r17.1, corruption := r18.1, luxury_total := r19.1,
            tax_total := r20.1, science_total := r21.1, food_stock := r22.1,
            shield_stock := r23.1, pollution := r24.1, currently_building := r25.1,
            turn_last_built := 0, turn_changed_target := 0, changed_from_id := 0,
            before_change_shields := 0,
            worklist := { is_valid := 0, name := [], wlefs := [], wlids := [] },
            is_building_unit := 0, did_buy := 0, did_sell := 0, was_happy := 0, airlift := 0,
            diplomat_investigate := 0, changed_from_is_unit := 0, city_map := [],
            improvements := [], city_options := 0, trade := [], trade_value := [] },
      r25.2)

/-- The value `(data >> k) & 1` for the `data` that `iget_uint8` yields (never
negative). -/
def flag_bit (data : Int) (k : Nat) : Int := ((data.toNat >>> k) &&& 1 : Nat)

/-- Source lines 2328-2334 of `receive_packet_city_info`, with `n` trade
routes left to fill: the pairs `(trade[data], trade_value[data])`. -/
def receive_packet_city_info_trade : Nat → pack_iter → List (Int × Int) × pack_iter
  | 0, iter => ([], iter)
  | n + 1, iter =>
    if pack_iter_remaining iter < 3 then (List.replicate (n + 1) (0, 0), iter)
    else
      let r1 := iget_uint16 iter
      let r2 := iget_uint8 r1.2
      let rest := receive_packet_city_info_trade n r2.2
      ((r1.1, r2.1) :: rest.1, rest.2)

/-- Source lines 2294-2335 of `receive_packet_city_info`: the fields after
`currently_building`, given the struct and the cursor as
`receive_packet_city_info_first` leaves them. -/
def receive_packet_city_info_rest (H : header) (pc : connection)
    (first : packet_city_info × pack_iter) : Option (packet_city_info × pack_iter) :=
  let packet := first.1
  let fix := has_capability "production_change_fix" pc.capability
  let g1 := if fix then iget_sint16 first.2 else (H.GAME_START_YEAR, first.2)
  let g2 := if fix then iget_sint16 g1.2 else (H.GAME_START_YEAR, g1.2)
  let g3 := if fix then iget_uint8 g2.2 else (packet.currently_building, g2.2)
  let g4 := if fix then iget_uint16 g3.2 else (packet.shield_stock, g3.2)
  match iget_worklist H g4.2 pc with
  | none => none
  | some w =>
    let d := iget_uint8 w.2
    match iget_city_map d.2 H.sizeof_city_map with
    | none => none
    | some m =>
      match iget_bit_string m.2 H.sizeof_improvements with
      | none => none
      | some b =>
        let o := iget_uint8 b.2
        let t := receive_packet_city_info_trade 4 o.2
        some ({ packet with
                turn_last_built := g1.1, turn_changed_target := g2.1, changed_from_id := g3.1,
                before_change_shields := g4.1, worklist := w.1,
                is_building_unit := flag_bit d.1 0, did_buy := flag_bit d.1 1,
                did_sell := flag_bit d.1 2, was_happy := flag_bit d.1 3,
                airlift := flag_bit d.1 4, diplomat_investigate := flag_bit d.1 5,
                changed_from_is_unit := if fix then flag_bit d.1 6 else flag_bit d.1 0,
                city_map := m.1, improvements := b.1, city_options := o.1,
                trade := t.1.map Prod.fst, trade_value := t.1.map Prod.snd },
          t.2)

/-- Source lines 2252-2340: the struct, the cursor handed to `pack_iter_end`,
and the connection. -/
def receive_packet_city_info (H : header) (pc : connection) :
    Option (packet_city_info × pack_iter × connection) :=
  match pack_iter_init pc with
  | none => none
  | some iter =>
    match receive_packet_city_info_first H iter with
    | none => none
    | some first =>
      match receive_packet_city_info_rest H pc first with
      | none => none
      | some r =>
        some (r.1, r.2, { pc with buffer := remove_packet_from_buffer pc.buffer })

/-! ## The frame reader -/

/-- The receive functions named in the `switch` of
`get_packet_from_connection` (source lines 198-362). -/
inductive receive_fn where
  | receive_packet_req_join_game
  | receive_packet_join_game_reply
  | receive_packet_generic_message
  | receive_packet_unit_info
  | receive_packet_city_info
  | receive_packet_short_city
  | receive_packet_move_unit
  | receive_packet_before_new_year
  | receive_packet_new_year
  | receive_packet_tile_info
  | receive_packet_generic_values
  | receive_packet_generic_integer
  | receive_packet_alloc_nation
  | receive_packet_player_info
  | receive_packet_game_info
  | receive_packet_map_info
  | receive_packet_city_request
  | receive_packet_player_request
  | receive_packet_unit_request
  | receive_packet_unit_connect
  | receive_packet_unittype_info
  | receive_packet_unit_combat
  | receive_packet_nuke_tile
  | receive_packet_diplomat_action
  | receive_packet_diplomacy_info
  | receive_packet_ruleset_control
  | receive_packet_ruleset_tech
  | receive_packet_ruleset_unit
  | receive_packet_ruleset_building
  | receive_packet_ruleset_terrain
  | receive_packet_ruleset_terrain_control
  | receive_packet_ruleset_government
  | receive_packet_ruleset_government_ruler_title
  | receive_packet_ruleset_nation
  | receive_packet_ruleset_city
  | receive_packet_ruleset_game
  | receive_packet_spaceship_info
  | receive_packet_spaceship_action
  | receive_packet_city_name_suggestion
  | receive_packet_sabotage_list
  | receive_packet_conn_info
  deriving DecidableEq, Repr

/-- What `get_packet_from_connection` takes from outside this development.

* `registry`: the `case` labels of the `switch` are values of
  `enum packet_type`, declared in `packets.h`; `registry t` is the receive
  function of the label with value `t`, `none` for the `default` case.
* `extracts`: for a receive function whose field list is not embedded below,
  whether the statements between its `pack_iter_init` and its
  `pack_iter_end` run to their end (no assertion of an `iget_` operation
  fails) on the connection. -/
structure env where
  H : header
  registry : Int → Option receive_fn
  extracts : receive_fn → connection → Bool

/-- The struct a receive function returns.  For a receive function whose
field list is not embedded, `fields_of` records only which function made the
struct. -/
inductive packet where
  | diplomacy_info (p : packet_diplomacy_info)
  | ruleset_tech (p : packet_ruleset_tech)
  | ruleset_nation (p : packet_ruleset_nation)
  | ruleset_game (p : packet_ruleset_game)
  | city_info (p : packet_city_info)
  | fields_of (f : receive_fn)
  deriving DecidableEq, Repr

/-- The call `return receive_packet_...(pc)` of a `case`.  Every receive
function of the file is `pack_iter_init`, its field list, `pack_iter_end`,
`remove_packet_from_buffer(pc->buffer)` and `return` of the struct. -/
def receive (E : env) (f : receive_fn) (pc : connection) : Option (packet × connection) :=
  match f with
  | .receive_packet_diplomacy_info =>
    (receive_packet_diplomacy_info pc).map fun r => (packet.diplomacy_info r.1, r.2.2)
  | .receive_packet_ruleset_tech =>
    (receive_packet_ruleset_tech E.H pc).map fun r => (packet.ruleset_tech r.1, r.2.2)
  | .receive_packet_ruleset_nation =>
    (receive_packet_ruleset_nation E.H pc).map fun r => (packet.ruleset_nation r.1, r.2.2)
  | .receive_packet_ruleset_game =>
    (receive_packet_ruleset_game E.H pc).map fun r => (packet.ruleset_game r.1, r.2.2)
  | .receive_packet_city_info =>
    (receive_packet_city_info E.H pc).map fun r => (packet.city_info r.1, r.2.2)
  | g =>
    match pack_iter_init pc with
    | none => none
    | some _ =>
      if E.extracts g pc then
        some (packet.fields_of g, { pc with buffer := remove_packet_from_buffer pc.buffer })
      else none

/-- What a call of `get_packet_from_connection` leaves: the pointer returned
(`none` for `NULL`), `*ptype` if it was assigned, and the connection. -/
structure received where
  packet : Option packet
  ptype : Option Int
  pc : connection
  deriving DecidableEq, Repr

/-- Source lines 156-363.  `none`: an assertion failed in the receive
function. -/
def get_packet_from_connection (E : env) (pc : connection) : Option received :=
  if pc.used = false then some { packet := none, ptype := none, pc := pc }
  else if pc.buffer.ndata < 3 then some { packet := none, ptype := none, pc := pc }
  else
    let len := (get_uint16 pc.buffer.data 0).1
    let type := (get_uint8 pc.buffer.data 2).1
    let pc1 : connection :=
      if pc.first_packet then
        { pc with byte_swap := decide (len > 1024), first_packet := false }
      else pc
    let len1 : Int := if pc1.byte_swap then swab_puint16 len else len
    if len1 > (pc1.buffer.ndata : Int) then some { packet := none, ptype := none, pc := pc1 }
    else
      let pc2 : connection :=
        if pc1.byte_swap then
          { pc1 with buffer := { pc1.buffer with data := poke pc1.buffer.data 0 (put_uint16 len1) } }
        else pc1
      match E.registry type with
      | none =>
        some { packet := none, ptype := some type
               pc := { pc2 with buffer := remove_packet_from_buffer pc2.buffer } }
      | some f =>
        (receive E f pc2).map fun r => { packet := some r.1, ptype := some type, pc := r.2 }

/-! ## The send side -/

/-- The `struct packet_generic_integer` of `packets.h`. -/
structure packet_generic_integer where
  value : Int
  deriving DecidableEq, Repr

/-- Source lines 2678-2686: the `cptr - buffer` bytes handed to
`send_connection_data`. -/
def send_packet_generic_integer (type : Int) (packet : packet_generic_integer) : List Nat :=
  let body := put_uint8 type ++ put_uint32 packet.value
  put_uint16 ((2 + body.length : Nat) : Int) ++ body

/-- The fields of `struct packet_join_game_reply` that the send function
reads. -/
structure packet_join_game_reply where
  you_can_join : Int
  message : List Nat
  capability : List Nat
  deriving DecidableEq, Repr

/-- Source lines 2617-2640: the `cptr - buffer` bytes handed to
`send_connection_data`.  The type code is the enum constant of `packets.h`.
On a connection in the old byte order the length goes through `swab_uint16`
before `put_uint16` (lines 2633-2637). -/
def send_packet_join_game_reply (PACKET_JOIN_GAME_REPLY : Int) (pc : connection)
    (reply : packet_join_game_reply) : List Nat :=
  let body := put_uint8 PACKET_JOIN_GAME_REPLY ++ put_uint32 reply.you_can_join
    ++ put_string reply.message ++ put_string reply.capability
    ++ (if has_capability "conn_info" pc.capability then put_uint32 pc.id else [])
  let n : Nat := 2 + body.length
  (if pc.byte_swap then put_uint16 ((swab_uint16 n : Nat) : Int) else put_uint16 (n : Int))
    ++ body

/-- The send functions of the file. -/
inductive send_fn where
  | send_packet_diplomacy_info
  | send_packet_diplomat_action
  | send_packet_nuke_tile
  | send_packet_unit_combat
  | send_packet_unit_request
  | send_packet_unit_connect
  | send_packet_player_request
  | send_packet_city_request
  | send_packet_player_info
  | send_packet_conn_info
  | send_packet_game_info
  | send_packet_map_info
  | send_packet_tile_info
  | send_packet_new_year
  | send_packet_unittype_info
  | send_packet_before_new_year
  | send_packet_unit_info
  | send_packet_city_info
  | send_packet_short_city
  | send_packet_move_unit
  | send_packet_req_join_game
  | send_packet_join_game_reply
  | send_packet_generic_message
  | send_packet_generic_integer
  | send_packet_alloc_nation
  | send_packet_generic_values
  | send_packet_ruleset_control
  | send_packet_ruleset_unit
  | send_packet_ruleset_tech
  | send_packet_ruleset_building
  | send_packet_ruleset_terrain
  | send_packet_ruleset_terrain_control
  | send_packet_ruleset_government
  | send_packet_ruleset_government_ruler_title
  | send_packet_ruleset_nation
  | send_packet_ruleset_city
  | send_packet_ruleset_game
  | send_packet_spaceship_info
  | send_packet_spaceship_action
  | send_packet_city_name_suggestion
  | send_packet_sabotage_list
  deriving DecidableEq, Repr

/-- What a send function stores behind the two length bytes: the type code
it gives to `put_uint8(buffer+2, ...)`, and the bytes its field list stores
from `buffer+3` on. -/
structure frame_body where
  type : Int
  fields : List Nat
  deriving DecidableEq, Repr

/-- The statements every send function has around its field list:
`cptr=put_uint8(buffer+2, type)`, the fields, `put_uint16(buffer, cptr-buffer)`
and `send_connection_data(pc, buffer, cptr-buffer)`.  The bytes sent. -/
def send_frame (b : frame_body) : List Nat :=
  put_uint16 ((3 + b.fields.length : Nat) : Int) ++ put_uint8 b.type ++ b.fields

/-- The bytes the send function `f` hands to `send_connection_data`, `none`
when it returns without sending; `body g` is what the field list of `g`
stores, and `identity` says whether `req->packet_use == UNIT_INFO_IDENTITY`
in the struct given to `send_packet_unit_info`.  Five functions differ from
`send_frame`:
* `send_packet_conn_info` returns 0 at once on a connection without the
  capability `conn_info` (lines 1757-1759);
* `send_packet_ruleset_game` returns 0 at once on a connection without the
  capability `game_ruleset` (lines 3765-3767);
* `send_packet_unit_info` returns 0 at once on a connection without the
  capability `diplomat_investigate_fix` unless the packet is used for
  identity (lines 2119-2123);
* `send_packet_short_city` ends in `return send_packet_city_info(pc, &old)`
  on a connection without the capability `packet_short_city` (lines
  2350-2416);
* `send_packet_join_game_reply` stores `swab_uint16(cptr-buffer)` as the
  length on a connection in the old byte order (lines 2633-2637). -/
def send (body : send_fn → frame_body) (identity : Bool) (pc : connection) :
    send_fn → Option (List Nat)
  | .send_packet_conn_info =>
    if has_capability "conn_info" pc.capability then
      some (send_frame (body .send_packet_conn_info))
    else none
  | .send_packet_ruleset_game =>
    if has_capability "game_ruleset" pc.capability then
      some (send_frame (body .send_packet_ruleset_game))
    else none
  | .send_packet_unit_info =>
    if !has_capability "diplomat_investigate_fix" pc.capability && !identity then none
    else some (send_frame (body .send_packet_unit_info))
  | .send_packet_short_city =>
    if has_capability "packet_short_city" pc.capability then
      some (send_frame (body .send_packet_short_city))
    else some (send_frame (body .send_packet_city_info))
  | .send_packet_join_game_reply =>
    let b := body .send_packet_join_game_reply
    let n : Nat := 3 + b.fields.length
    some ((if pc.byte_swap then put_uint16 ((swab_uint16 n : Nat) : Int) else put_uint16 (n : Int))
      ++ put_uint8 b.type ++ b.fields)
  | f => some (send_frame (body f))

/-! ## Vocabulary of the statements -/

/-- How a read operation may change a cursor `p` into `q`: the packet, its
length and the byte order stay; the read offset does not go back; it stays
at most `len` if it was; and a cursor that was short stays short where it
was. -/
structure cursor_step (p q : pack_iter) : Prop where
  len_eq : q.len = p.len
  type_eq : q.type = p.type
  base_eq : q.base = p.base
  swap_eq : q.swap_bytes = p.swap_bytes
  ptr_le : p.ptr ≤ q.ptr
  within : (p.ptr : Int) ≤ p.len → (q.ptr : Int) ≤ p.len
  sticky : p.short_packet = true → q.short_packet = true ∧ q.ptr = p.ptr

/-- A read that either advances and leaves `short_packet` as it was, or sets
`short_packet` and does not advance. -/
def all_or_nothing (p q : pack_iter) : Prop :=
  (q.short_packet = true ∧ q.ptr = p.ptr) ∨ (q.short_packet = p.short_packet)

/-- The length read in canonical order from the front of the buffer (source
line 166). -/
def header_len (pc : connection) : Int := (get_uint16 pc.buffer.data 0).1

/-- The type code at the front of the buffer (source line 167). -/
def header_type (pc : connection) : Int := (get_uint8 pc.buffer.data 2).1

/-- The byte order `get_packet_from_connection` works with: decided by the
first packet (source lines 169-180), kept afterwards. -/
def resolved_byte_swap (pc : connection) : Bool :=
  if pc.first_packet then decide (header_len pc > 1024) else pc.byte_swap

/-- The declared length of the packet at the front of the buffer, after
resolving the byte order. -/
def declared_length (pc : connection) : Int :=
  if resolved_byte_swap pc then swab_puint16 (header_len pc) else header_len pc

/-- The bytes a buffer holds: the first `ndata` bytes of its array. -/
def held (buffer : socket_packet_buffer) : List Nat := buffer.data.take buffer.ndata

/-- The connection handed to the receive function: byte order resolved, and
in byte-swap mode the length rewritten in canonical order (source lines
169-192). -/
def dispatched (pc : connection) : connection :=
  let pc1 : connection :=
    if pc.first_packet then
      { pc with byte_swap := decide (header_len pc > 1024), first_packet := false }
    else pc
  if pc1.byte_swap then
    { pc1 with buffer := { pc1.buffer with data := poke pc1.buffer.data 0 (put_uint16 (declared_length pc)) } }
  else pc1

/-- Values of the header constants as in Freeciv's headers of the 1.12
series (`MAX_LEN_NAME` 32, worklists of 16 entries, tech lists of 10, 16
leaders per nation; the enum `worklist_elem_flag` starts at `WEF_END = 0`;
messages of `MAX_LEN_MSG` = 1536 chars; `E_NOEVENT` is -1 and 70 stands for
`E_WONDER_OBSOLETE`; city walls and palace are improvements 7 and 21; the
city map is 5x5 with `C_TILE_EMPTY = 0`).  The headers are not part of the
sources at hand; the examples use these values. -/
def freeciv_header : header :=
  { MAX_LEN_NAME := 32, MAX_LEN_WORKLIST := 16, MAX_NUM_TECH_LIST := 10, MAX_NUM_LEADERS := 16,
    A_LAST := 89, WEF_END := 0, WEF_IMPR := 1, WEF_UNIT := 2,
    CONTAMINATION_POLLUTION := 1, GAME_START_YEAR := -4000,
    sizeof_city_map := 26, sizeof_improvements := 69,
    sizeof_message := 1536, E_NOEVENT := -1, E_WONDER_OBSOLETE := 70,
    B_PALACE := 21, B_CITY := 7, CITY_MAP_SIZE := 5, C_TILE_EMPTY := 0 }

/-- The receive function `f` runs to its end on `pc`: none of its assertions
fails. -/
def completes (E : env) (f : receive_fn) (pc : connection) : Prop :=
  (receive E f pc).isSome = true

/-- The array cells hold `unsigned char` values, and the `ndata` bytes held
lie within the array. -/
def well_formed (buffer : socket_packet_buffer) : Prop :=
  (∀ b ∈ buffer.data, b < 256) ∧ buffer.ndata ≤ buffer.data.length

/-- An assignment of type codes for the examples: 7 is a generic message (as
in the example of the specification), 10 a generic integer, 50 a diplomacy
packet, 61 and 68 the technology and nation rulesets; receive functions
whose field lists are not embedded run to their end. -/
def sample_env : env :=
  { H := freeciv_header
    registry := fun t =>
      if t = 7 then some receive_fn.receive_packet_generic_message
      else if t = 10 then some receive_fn.receive_packet_generic_integer
      else if t = 50 then some receive_fn.receive_packet_diplomacy_info
      else if t = 61 then some receive_fn.receive_packet_ruleset_tech
      else if t = 68 then some receive_fn.receive_packet_ruleset_nation
      else none
    extracts := fun _ _ => true }

/-- A connection in use, past its first packet, holding `bytes`. -/
def sample_connection (byte_swap : Bool) (bytes : List Nat) : connection :=
  { used := true, first_packet := false, byte_swap := byte_swap
    buffer := { ndata := bytes.length, data := bytes }, capability := [] }

/-- The connection after the first-packet step (source lines 169-180). -/
def byte_order_resolved (pc : connection) : connection :=
  if pc.first_packet then
    { pc with byte_swap := decide (header_len pc > 1024), first_packet := false }
  else pc

/-- The values of a 32-bit `int`. -/
def is_int32 (v : Int) : Prop := -2147483648 ≤ v ∧ v ≤ 2147483647

/-- The byte at offset `z` is the first zero byte at or after offset `s`: the
terminator of the string that starts at `s`. -/
def first_zero (base : List Nat) (s z : Nat) : Prop :=
  s ≤ z ∧ peek base z = 0 ∧ ∀ k, s ≤ k → k < z → peek base k ≠ 0

/-- The number of bytes of the tech list that starts at offset `ptr`: its
entries up to and including the first `A_LAST`, at most `n` of them. -/
def tech_list_extent (A_LAST : Int) (base : List Nat) : Nat → Nat → Nat
  | 0, _ => 0
  | n + 1, ptr =>
    if ((peek base ptr : Nat) : Int) = A_LAST then 1
    else 1 + tech_list_extent A_LAST base n (ptr + 1)

/-- The read offset and `short_packet` are as before the operation. -/
def stays_short (p q : pack_iter) : Prop :=
  q.short_packet = true ∧ pack_iter_remaining q = -1 ∧ q.ptr = p.ptr

/-- A cursor just behind the 3-byte header of the packet held in `base`, as
`pack_iter_init` leaves it on a packet of declared length `len`. -/
def sample_cursor (len : Int) (base : List Nat) (swap_bytes : Bool) : pack_iter :=
  { len := len, type := 7, base := base, ptr := 3, swap_bytes := swap_bytes,
    short_packet := decide (len < 3), bad_string := false, bad_bit_string := false }

/-- A read that needs `needs` bytes: it leaves the read offset at most
`len`, and sets `short_packet` when fewer than `needs` bytes remain. -/
def bounded_read (p q : pack_iter) (needs : Int) : Prop :=
  (q.ptr : Int) ≤ p.len ∧ (pack_iter_remaining p < needs → q.short_packet = true)

/-- The memory `buffer` holds `bytes` from offset `p` on. -/
def stored_at (buffer : List Nat) (p : Nat) (bytes : List Nat) : Prop :=
  ∀ i, i < bytes.length → peek buffer (p + i) = bytes.getD i 0

/-- The cursor is positioned at `bytes`: they are the next bytes of its
packet, all within the declared length. -/
def positioned_at (p : pack_iter) (bytes : List Nat) : Prop :=
  (bytes.length : Int) ≤ pack_iter_remaining p ∧ stored_at p.base p.ptr bytes

/-- A string without a `0x00` byte. -/
def no_zero (s : List Nat) : Prop := ∀ ch ∈ s, ch ≠ 0

/-- A string of `'0'` and `'1'` characters. -/
def is_bit_string (s : List Nat) : Prop := ∀ ch ∈ s, ch = 48 ∨ ch = 49

/-- A cursor at offset `ptr` of a packet of declared length `len` held in
`base`, no flag set. -/
def cursor_at (len : Int) (base : List Nat) (ptr : Nat) (swap_bytes : Bool) : pack_iter :=
  { len := len, type := 7, base := base, ptr := ptr, swap_bytes := swap_bytes,
    short_packet := false, bad_string := false, bad_bit_string := false }

instance (v : Int) : Decidable (is_int32 v) := by
  unfold is_int32; infer_instance

instance (buffer : List Nat) (p : Nat) (bytes : List Nat) :
    Decidable (stored_at buffer p bytes) := by
  unfold stored_at; infer_instance

instance (p : pack_iter) (bytes : List Nat) : Decidable (positioned_at p bytes) := by
  unfold positioned_at; infer_instance

instance (s : List Nat) : Decidable (no_zero s) := by
  unfold no_zero; infer_instance

instance (s : List Nat) : Decidable (is_bit_string s) := by
  unfold is_bit_string; infer_instance

/-- A field list for the examples: whatever the send function, it stores the
four bytes of the 32-bit value 300 behind the type code 10. -/
def sample_body : send_fn → frame_body :=
  fun _ => { type := 10, fields := put_uint32 300 }

/-- Every entry of `t` after the first `A_LAST` is `A_LAST` too. -/
def sentinel_padded (A_LAST : Int) (t : List Int) : Prop :=
  ∀ j, j < t.length → ∀ i, i ≤ j → t.getD i 0 = A_LAST → t.getD j 0 = A_LAST

instance (A_LAST : Int) (t : List Int) : Decidable (sentinel_padded A_LAST t) := by
  unfold sentinel_padded; infer_instance

/-- The character for bit `k` of a packed bit field whose first data byte
lies at offset `start`: bit `k mod 8` of byte `k div 8`, bit 0 being the
least significant. -/
def bit_char (base : List Nat) (start k : Nat) : Nat :=
  if peek base (start + k / 8) / 2 ^ (k % 8) % 2 = 1 then 49 else 48

/-- The decoding of a legacy worklist slot from its 16-bit value `v`, case
by case: 284 marks the end, values from 68 on denote a unit with id `v - 68`,
values below 68 an improvement. -/
def legacy_slot (H : header) (v : Int) : Int × Int :=
  if v = 284 then (H.WEF_END, 0)
  else if v ≥ 68 ∧ v ≠ 284 then (H.WEF_UNIT, v - 68)
  else (H.WEF_IMPR, v)

/-- A connection in use, past its first packet, in network byte order, with
the capabilities `caps` and an empty buffer. -/
def peer (caps : List String) : connection :=
  { used := true, first_packet := false, byte_swap := false
    buffer := { ndata := 0, data := [] }, capability := caps }

/-- The header constants of `freeciv_header` with worklists of two entries,
for the examples. -/
def short_worklist_header : header := { freeciv_header with MAX_LEN_WORKLIST := 2 }

/-- A worklist entry `(kind, id)` that the legacy encoding carries: the end
mark with id 0, an improvement with id below 68, or a unit with id below
216. -/
def legacy_entry (H : header) (x : Int × Int) : Prop :=
  (x.1 = H.WEF_END ∧ x.2 = 0) ∨ (x.1 = H.WEF_IMPR ∧ 0 ≤ x.2 ∧ x.2 < 68)
    ∨ (x.1 = H.WEF_UNIT ∧ 0 ≤ x.2 ∧ x.2 < 216)

instance (H : header) (x : Int × Int) : Decidable (legacy_entry H x) := by
  unfold legacy_entry; infer_instance

/-- The three values of `enum worklist_elem_flag` differ. -/
def distinct_kinds (H : header) : Prop :=
  H.WEF_END ≠ H.WEF_UNIT ∧ H.WEF_IMPR ≠ H.WEF_END ∧ H.WEF_IMPR ≠ H.WEF_UNIT

instance (H : header) : Decidable (distinct_kinds H) := by
  unfold distinct_kinds; infer_instance

/-- The connection `pc` with `bytes` in its buffer. -/
def holding (pc : connection) (bytes : List Nat) : connection :=
  { pc with buffer := { ndata := bytes.length, data := bytes } }

/-- The cursor of `pack_iter_init` on `pc`, moved to the offset `ptr`, with
`short_packet` as given and the other flags clear. -/
def cursor_of (pc : connection) (ptr : Nat) (short_packet : Bool) : pack_iter :=
  { len := header_len pc, type := header_type pc, base := pc.buffer.data, ptr := ptr,
    swap_bytes := pc.byte_swap, short_packet := short_packet, bad_string := false,
    bad_bit_string := false }

/-- A city-info packet of 54 bytes for the examples: the fields up to
`currently_building` (33 and 23 for `shield_stock` and
`currently_building`), a worklist of two entries, the flag byte 64 (bit 6
set, bit 0 clear), the city map, two improvement bits and `city_options`. -/
def sample_city_info : List Nat :=
  [0, 54, 20, 0, 9, 1, 2, 3, 97, 0, 5, 1, 2, 1, 0, 1, 0, 10, 255, 0, 7, 255, 254, 0, 3, 0, 1,
    0, 1, 0, 1, 0, 1, 0, 20, 0, 33, 0, 4, 23, 1, 0, 0, 23, 1, 28, 64, 141, 140, 140, 32, 2, 1, 3]

/-- The two's-complement signed reading of a 16-bit value `n`. -/
def signed16 (n : Nat) : Int := if n % 65536 ≥ 32768 then ((n % 65536 : Nat) : Int) - 65536 else ((n % 65536 : Nat) : Int)

/-- Every element of the list is an `unsigned char` value. -/
def all_bytes (l : List Nat) : Prop := ∀ b ∈ l, b < 256

instance (l : List Nat) : Decidable (all_bytes l) := by
  unfold all_bytes; infer_instance

/-- The memories `b1` and `b2` hold the same bytes at every offset below
`len`. -/
def agree (len : Int) (b1 b2 : List Nat) : Prop :=
  ∀ i : Nat, (i : Int) < len → peek b2 i = peek b1 i

/-- The cursor `p` over another memory `b`, with the type code `t`. -/
def rebase (p : pack_iter) (b : List Nat) (t : Int) : pack_iter :=
  { p with base := b, type := t }

/-! ## More packets embedded field by field

The receive functions below are not routed through `receive`: there they
count among the functions whose field list enters through `env.extracts`. -/

/-- Source lines 2783-2797: the struct, the cursor handed to `pack_iter_end`,
and the connection. -/
def receive_packet_generic_integer (pc : connection) :
    Option (packet_generic_integer × pack_iter × connection) :=
  match pack_iter_init pc with
  | none => none
  | some iter =>
    let r := iget_uint32 iter
    some ({ value := r.1 }, r.2, { pc with buffer := remove_packet_from_buffer pc.buffer })

/-- The `struct packet_generic_message` of `packets.h`. -/
structure packet_generic_message where
  x : Int
  y : Int
  event : Int
  message : List Nat
  deriving DecidableEq, Repr

/-- Source lines 2645-2673: the `cptr - buffer` bytes handed to
`send_connection_data`. -/
def send_packet_generic_message (H : header) (pc : connection) (type : Int)
    (packet : packet_generic_message) : List Nat :=
  let xy :=
    if packet.y < 0 ∧ has_capability "event00_fix" pc.capability = false then
      put_uint8 0 ++ put_uint8 0
    else put_uint8 packet.x ++ put_uint8 packet.y
  let event :=
    if packet.event = H.E_WONDER_OBSOLETE
        ∧ has_capability "event_wonder_obsolete" pc.capability = false then
      put_uint32 H.E_NOEVENT
    else put_uint32 packet.event
  let body := put_uint8 type ++ xy ++ event ++ put_string packet.message
  put_uint16 ((2 + body.length : Nat) : Int) ++ body

/-- Source lines 2752-2778: the struct, the cursor handed to `pack_iter_end`,
and the connection. -/
def receive_packet_generic_message (H : header) (pc : connection) :
    Option (packet_generic_message × pack_iter × connection) :=
  match pack_iter_init pc with
  | none => none
  | some iter =>
    let r1 := iget_uint8 iter
    let r2 := iget_uint8 r1.2
    let nowhere : Bool :=
      decide (r1.1 = 0 ∧ r2.1 = 0 ∧ has_capability "event00_fix" pc.capability = false)
    let r3 := iget_uint32 r2.2
    match iget_string r3.2 H.sizeof_message with
    | none => none
    | some r4 =>
      some ({ x := if nowhere then -1 else r1.1, y := if nowhere then -1 else r2.1,
              event := r3.1, message := r4.1 },
        r4.2, { pc with buffer := remove_packet_from_buffer pc.buffer })

/-- Source line 536: `#define put_sint16(b,v) put_uint16(b,v)`. -/
def put_sint16 (val : Int) : List Nat := put_uint16 val

/-- Source lines 2237-2242 of `send_packet_city_info`: the trade routes whose
`trade` entry is not 0, in order. -/
def send_packet_city_info_trade (req : packet_city_info) : List Nat :=
  ((List.range 4).map fun data =>
    if req.trade.getD data 0 ≠ 0 then
      put_uint16 (req.trade.getD data 0) ++ put_uint8 (req.trade_value.getD data 0)
    else []).flatten

/-- Source lines 2220-2228 of `send_packet_city_info`: the flag byte. -/
def send_packet_city_info_flags (pc : connection) (req : packet_city_info) : Nat :=
  (if req.is_building_unit ≠ 0 then 1 else 0)
    ||| (if req.did_buy ≠ 0 then 2 else 0)
    ||| (if req.did_sell ≠ 0 then 4 else 0)
    ||| (if req.was_happy ≠ 0 then 8 else 0)
    ||| (if req.airlift ≠ 0 then 16 else 0)
    ||| (if req.diplomat_investigate ≠ 0 then 32 else 0)
    ||| (if has_capability "production_change_fix" pc.capability then
          (if req.changed_from_is_unit ≠ 0 then 64 else 0)
        else 0)

/-- Source lines 2174-2247: the `cptr - buffer` bytes handed to
`send_connection_data`.  The type code is the enum constant of `packets.h`. -/
def send_packet_city_info (H : header) (PACKET_CITY_INFO : Int) (pc : connection)
    (req : packet_city_info) : List Nat :=
  let body := put_uint8 PACKET_CITY_INFO
    ++ put_uint16 req.id ++ put_uint8 req.owner ++ put_uint8 req.x ++ put_uint8 req.y
    ++ put_string req.name
    ++ put_uint8 req.size ++ put_uint8 req.ppl_happy ++ put_uint8 req.ppl_content
    ++ put_uint8 req.ppl_unhappy ++ put_uint8 req.ppl_elvis ++ put_uint8 req.ppl_scientist
    ++ put_uint8 req.ppl_taxman
    ++ put_uint8 req.food_prod ++ put_uint8 req.food_surplus
    ++ put_uint16 req.shield_prod ++ put_uint16 req.shield_surplus
    ++ put_uint16 req.trade_prod ++ put_uint16 req.corruption
    ++ put_uint16 req.luxury_total ++ put_uint16 req.tax_total ++ put_uint16 req.science_total
    ++ put_uint16 req.food_stock ++ put_uint16 req.shield_stock ++ put_uint16 req.pollution
    ++ put_uint8 req.currently_building
    ++ (if has_capability "production_change_fix" pc.capability then
          put_sint16 req.turn_last_built ++ put_sint16 req.turn_changed_target
            ++ put_uint8 req.changed_from_id ++ put_uint16 req.before_change_shields
        else [])
    ++ put_worklist H req.worklist pc
    ++ put_uint8 (send_packet_city_info_flags pc req : Nat)
    ++ put_city_map req.city_map
    ++ put_bit_string req.improvements
    ++ put_uint8 req.city_options
    ++ send_packet_city_info_trade req
  put_uint16 ((2 + body.length : Nat) : Int) ++ body

/-- The `struct packet_short_city` of `packets.h`. -/
structure packet_short_city where
  id : Int
  owner : Int
  x : Int
  y : Int
  name : List Nat
  size : Int
  happy : Int
  capital : Int
  walls : Int
  deriving DecidableEq, Repr

/-- Source lines 2352-2414 of `send_packet_short_city`: the struct `old`
handed to `send_packet_city_info` for a peer without the capability
`packet_short_city`.  `old` is an automatic variable: the fields the source
does not assign (`turn_last_built`, `turn_changed_target`, `changed_from_id`,
`before_change_shields`, `changed_from_is_unit`) are those of `fresh`, what
the memory held.  `init` is the worklist as `init_worklist` of `worklist.c`
leaves it and `num_impr_types` is `game.num_impr_types`; neither is part of
the sources at hand.  The strings list the chars up to the terminator. -/
def send_packet_short_city_old (H : header) (num_impr_types : Nat) (init : worklist)
    (fresh : packet_city_info) (req : packet_short_city) : packet_city_info :=
  { fresh with
    id := req.id, owner := req.owner, x := req.x, y := req.y
    name := (c_string req.name).take (H.MAX_LEN_NAME - 1).toNat ++ [0]
    size := req.size
    ppl_happy := 0
    ppl_content := if req.happy ≠ 0 then req.size else 0
    ppl_unhappy := if req.happy ≠ 0 then 0 else req.size
    ppl_elvis := req.size, ppl_scientist := 0, ppl_taxman := 0
    trade := [0, 0, 0, 0], trade_value := [0, 0, 0, 0]
    food_prod := 0, food_surplus := 0, shield_prod := 0, shield_surplus := 0
    trade_prod := 0, corruption := 0, luxury_total := 0, tax_total := 0, science_total := 0
    food_stock := 0, shield_stock := 0, pollution := 0, city_options := 0
    is_building_unit := 0, currently_building := 0
    worklist := init
    diplomat_investigate := 0, airlift := 0, did_buy := 0, did_sell := 0, was_happy := 0
    improvements :=
      let zeros := List.replicate num_impr_types 48
      let palace := if req.capital ≠ 0 then zeros.set H.B_PALACE 49 else zeros
      let walls := if req.walls ≠ 0 then palace.set H.B_CITY 49 else palace
      walls ++ [0]
    city_map :=
      List.replicate (H.CITY_MAP_SIZE * H.CITY_MAP_SIZE) (H.C_TILE_EMPTY + 48).toNat ++ [0] }

/-- Source lines 2345-2433: the `cptr - buffer` bytes handed to
`send_connection_data`.  The type codes are the enum constants of
`packets.h`. -/
def send_packet_short_city (H : header) (PACKET_SHORT_CITY PACKET_CITY_INFO : Int)
    (num_impr_types : Nat) (init : worklist) (fresh : packet_city_info) (pc : connection)
    (req : packet_short_city) : List Nat :=
  if has_capability "packet_short_city" pc.capability = false then
    send_packet_city_info H PACKET_CITY_INFO pc
      (send_packet_short_city_old H num_impr_types init fresh req)
  else
    let i : Nat := (if req.happy ≠ 0 then 1 else 0) ||| (if req.capital ≠ 0 then 2 else 0)
      ||| (if req.walls ≠ 0 then 4 else 0)
    let body := put_uint8 PACKET_SHORT_CITY
      ++ put_uint16 req.id ++ put_uint8 req.owner ++ put_uint8 req.x ++ put_uint8 req.y
      ++ put_string req.name
      ++ put_uint8 req.size
      ++ put_uint8 (i : Nat)
    put_uint16 ((2 + body.length : Nat) : Int) ++ body

/-- Source lines 2440-2466: the struct, the cursor handed to `pack_iter_end`,
and the connection.  `sizeof(packet->name)` is `MAX_LEN_NAME`. -/
def receive_packet_short_city (H : header) (pc : connection) :
    Option (packet_short_city × pack_iter × connection) :=
  match pack_iter_init pc with
  | none => none
  | some iter =>
    let r1 := iget_uint16 iter
    let r2 := iget_uint8 r1.2
    let r3 := iget_uint8 r2.2
    let r4 := iget_uint8 r3.2
    match iget_string r4.2 H.MAX_LEN_NAME with
    | none => none
    | some r5 =>
      let r6 := iget_uint8 r5.2
      let i := iget_uint8 r6.2
      some ({ id := r1.1, owner := r2.1, x := r3.1, y := r4.1, name := r5.1, size := r6.1,
              happy := ((i.1.toNat &&& 1 : Nat) : Int),
              capital := ((i.1.toNat &&& 2 : Nat) : Int),
              walls := ((i.1.toNat &&& 4 : Nat) : Int) },
        i.2, { pc with buffer := remove_packet_from_buffer pc.buffer })

/-- The `struct terrain_misc` of the game headers, the struct of the
terrain-control ruleset packet; `river_help_text` is `none` for the `NULL`
pointer. -/
structure terrain_misc where
  river_style : Int
  may_road : Int
  may_irrigate : Int
  may_mine : Int
  may_transform : Int
  ocean_reclaim_requirement : Int
  land_channel_requirement : Int
  river_move_mode : Int
  river_defense_bonus : Int
  river_trade_incr : Int
  fortress_defense_bonus : Int
  road_superhighway_trade_bonus : Int
  rail_food_bonus : Int
  rail_shield_bonus : Int
  rail_trade_bonus : Int
  farmland_supermarket_food_bonus : Int
  pollution_food_penalty : Int
  pollution_shield_penalty : Int
  pollution_trade_penalty : Int
  fallout_food_penalty : Int
  fallout_shield_penalty : Int
  fallout_trade_penalty : Int
  river_help_text : Option (List Nat)

/-- Source lines 3417-3446 of `receive_packet_ruleset_terrain_control`: the
fields before the help text, and the cursor after them.  The struct comes
from `fc_malloc`, which does not clear it: a field the function does not
assign keeps what the memory held, the value it has in `fresh`. -/
def receive_packet_ruleset_terrain_control_fields (fresh : terrain_misc) (pc : connection)
    (iter : pack_iter) : terrain_misc × pack_iter :=
  let r1 := iget_uint8 iter
  let r2 := iget_uint8 r1.2
  let r3 := iget_uint8 r2.2
  let r4 := iget_uint8 r3.2
  let r5 := iget_uint8 r4.2
  let r6 := iget_uint8 r5.2
  let r7 : Int × pack_iter :=
    if has_capability "land_channel_requirement" pc.capability then iget_uint8 r6.2
    else (0, r6.2)
  let r8 := iget_uint8 r7.2
  let r9 := iget_uint16 r8.2
  let r10 := iget_uint16 r9.2
  let r11 := iget_uint16 r10.2
  let r12 := iget_uint16 r11.2
  let r13 := iget_uint16 r12.2
  let r14 := iget_uint16 r13.2
  let r15 := iget_uint16 r14.2
  let r16 := iget_uint16 r15.2
  let r17 := iget_uint16 r16.2
  let r18 := iget_uint16 r17.2
  let r19 := iget_uint16 r18.2
  let packet : terrain_misc :=
    { fresh with
      river_style := r1.1, may_road := r2.1, may_irrigate := r3.1, may_mine := r4.1
      may_transform := r5.1, ocean_reclaim_requirement := r6.1
      land_channel_requirement := r7.1, river_move_mode := r8.1
      river_defense_bonus := r9.1, river_trade_incr := r10.1
      fortress_defense_bonus := r11.1, road_superhighway_trade_bonus := r12.1
      rail_food_bonus := r13.1, rail_shield_bonus := r14.1, rail_trade_bonus := r15.1
      farmland_supermarket_food_bonus := r16.1, pollution_food_penalty := r17.1
      pollution_shield_penalty := r18.1, pollution_trade_penalty := r19.1 }
  if has_capability "nuclear_fallout" pc.capability then
    let r20 := iget_uint16 r19.2
    let r21 := iget_uint16 r20.2
    let r22 := iget_uint16 r21.2
    ({ packet with fallout_food_penalty := r20.1, fallout_shield_penalty := r21.1,
                   fallout_trade_penalty := r22.1 }, r22.2)
  else (packet, r19.2)

/-- Source lines 3409-3459: the struct, the cursor handed to `pack_iter_end`,
and the connection; `fresh` is the struct as `fc_malloc` returns it. -/
def receive_packet_ruleset_terrain_control (fresh : terrain_misc) (pc : connection) :
    Option (terrain_misc × pack_iter × connection) :=
  match pack_iter_init pc with
  | none => none
  | some iter =>
    let r := receive_packet_ruleset_terrain_control_fields fresh pc iter
    let len := pack_iter_remaining r.2
    if len ≠ 0 then
      match iget_string r.2 len with
      | none => none
      | some h =>
        some ({ r.1 with river_help_text := some h.1 }, h.2,
          { pc with buffer := remove_packet_from_buffer pc.buffer })
    else
      some ({ r.1 with river_help_text := none }, r.2,
        { pc with buffer := remove_packet_from_buffer pc.buffer })

/-! ## Examples for the packets above -/

/-- A worklist without name or entries, for the examples. -/
def blank_worklist : worklist := { is_valid := 0, name := [0], wlefs := [0, 0], wlids := [0, 0] }

/-- A city-info struct with every field 0 or empty, for the examples. -/
def blank_city_info : packet_city_info :=
  { id := 0, owner := 0, x := 0, y := 0, name := [0], size := 0, ppl_happy := 0,
    ppl_content := 0, ppl_unhappy := 0, ppl_elvis := 0, ppl_scientist := 0, ppl_taxman := 0,
    food_prod := 0, food_surplus := 0, shield_prod := 0, shield_surplus := 0, trade_prod := 0,
    corruption := 0, luxury_total := 0, tax_total := 0, science_total := 0, food_stock := 0,
    shield_stock := 0, pollution := 0, currently_building := 0, turn_last_built := 0,
    turn_changed_target := 0, changed_from_id := 0, before_change_shields := 0,
    worklist := blank_worklist, is_building_unit := 0, did_buy := 0, did_sell := 0,
    was_happy := 0, airlift := 0, diplomat_investigate := 0, changed_from_is_unit := 0,
    city_map := [48, 48, 48, 48, 48, 48, 48, 48, 48, 48, 48, 48, 48, 48, 48, 48, 48, 48, 48,
      48, 48, 48, 48, 48, 48, 0],
    improvements := [48, 49, 0], city_options := 0, trade := [0, 0, 0, 0],
    trade_value := [0, 0, 0, 0] }

/-- A short city packet with `happy` and `capital` set, for the examples. -/
def sample_short_city : packet_short_city :=
  { id := 300, owner := 1, x := 2, y := 3, name := [97, 0], size := 5, happy := 1,
    capital := 1, walls := 0 }

/-- A `terrain_misc` whose memory holds the value `v` in every field, for the
examples. -/
def stale_terrain (v : Int) : terrain_misc :=
  { river_style := v, may_road := v, may_irrigate := v, may_mine := v, may_transform := v,
    ocean_reclaim_requirement := v, land_channel_requirement := v, river_move_mode := v,
    river_defense_bonus := v, river_trade_incr := v, fortress_defense_bonus := v,
    road_superhighway_trade_bonus := v, rail_food_bonus := v, rail_shield_bonus := v,
    rail_trade_bonus := v, farmland_supermarket_food_bonus := v, pollution_food_penalty := v,
    pollution_shield_penalty := v, pollution_trade_penalty := v, fallout_food_penalty := v,
    fallout_shield_penalty := v, fallout_trade_penalty := v, river_help_text := none }

/-- A terrain-control packet of 33 bytes for the examples: the type code 80,
the byte 1 for each of the seven 8-bit fields, eleven 16-bit fields of value
50, and an empty help text. -/
def sample_terrain_control : List Nat :=
  [0, 33, 80, 1, 1, 1, 1, 1, 1, 1, 0, 50, 0, 50, 0, 50, 0, 50, 0, 50, 0, 50, 0, 50, 0, 50, 0,
    50, 0, 50, 0, 50, 0]


/-- A city-info struct with two trade routes in use, in the first two
entries, for the examples. -/
def sample_trade_city : packet_city_info :=
  { blank_city_info with trade := [5, 7, 0, 0], trade_value := [9, 2, 0, 0] }

/-- A city-info struct whose only trade route in use is the second entry, for
the examples. -/
def gap_trade_city : packet_city_info :=
  { blank_city_info with trade := [0, 5, 0, 0], trade_value := [0, 9, 0, 0] }

/-- A city-info struct with one trade route in use and a `trade_value` left in
an entry that is not in use, for the examples. -/
def idle_value_city : packet_city_info :=
  { blank_city_info with trade := [5, 0, 0, 0], trade_value := [9, 3, 0, 0] }
/-! # Theorems -/

/-! ## Arithmetic of the byte swaps -/

theorem and_mask_shift (val k n : Nat) :
    val &&& ((2 ^ n - 1) <<< k) = ((val >>> k) % 2 ^ n) <<< k := by
  apply Nat.eq_of_testBit_eq
  intro i
  simp only [Nat.testBit_and, Nat.testBit_shiftLeft, Nat.testBit_two_pow_sub_one,
    Nat.testBit_mod_two_pow, Nat.testBit_shiftRight]
  by_cases h : k ≤ i
  · have : k + (i - k) = i := by omega
    simp [h, this, Bool.and_comm]
  · simp [h]

theorem or_eq_add (a b i : Nat) (h : b < 2 ^ i) : (a * 2 ^ i) ||| b = a * 2 ^ i + b := by
  have := Nat.mul_add_lt_is_or h a
  rw [Nat.mul_comm] at this
  exact this.symm

theorem swab_uint16_eq (val : Nat) :
    swab_uint16 val = (val % 256) * 256 + val / 256 % 256 := by
  unfold swab_uint16
  have h1 : val &&& 0xFF = val % 256 := by
    have := and_mask_shift val 0 8
    simpa using this
  have h2 : val &&& 0xFF00 = (val / 256 % 256) * 256 := by
    have := and_mask_shift val 8 8
    simpa [Nat.shiftLeft_eq, Nat.shiftRight_eq_div_pow] using this
  rw [h1, h2, Nat.shiftLeft_eq, Nat.shiftRight_eq_div_pow]
  have := or_eq_add (val % 256) (val / 256 % 256 * 256 / 2 ^ 8) 8 (by omega)
  rw [this]
  omega

theorem swab_uint32_eq (val : Nat) :
    swab_uint32 val = (val % 256) * 16777216 + (val / 256 % 256) * 65536
      + (val / 65536 % 256) * 256 + val / 16777216 % 256 := by
  unfold swab_uint32
  have h1 : val &&& 0xFF = val % 256 := by
    have := and_mask_shift val 0 8
    simpa using this
  have h2 : val &&& 0xFF00 = (val / 256 % 256) * 256 := by
    have := and_mask_shift val 8 8
    simpa [Nat.shiftLeft_eq, Nat.shiftRight_eq_div_pow] using this
  have h3 : val &&& 0xFF0000 = (val / 65536 % 256) * 65536 := by
    have := and_mask_shift val 16 8
    simpa [Nat.shiftLeft_eq, Nat.shiftRight_eq_div_pow] using this
  have h4 : val &&& 0xFF000000 = (val / 16777216 % 256) * 16777216 := by
    have := and_mask_shift val 24 8
    simpa [Nat.shiftLeft_eq, Nat.shiftRight_eq_div_pow] using this
  rw [h1, h2, h3, h4]
  simp only [Nat.shiftLeft_eq, Nat.shiftRight_eq_div_pow]
  have e1 := or_eq_add (val % 256) (val / 256 % 256 * 256 * 2 ^ 8) 24 (by omega)
  rw [e1]
  have e2 := or_eq_add ((val % 256) * 256 + val / 256 % 256) (val / 65536 % 256 * 65536 / 2 ^ 8) 16
    (by omega)
  have e2' : val % 256 * 2 ^ 24 + val / 256 % 256 * 256 * 2 ^ 8
      = ((val % 256) * 256 + val / 256 % 256) * 2 ^ 16 := by omega
  rw [e2', e2]
  have e3 := or_eq_add (((val % 256) * 256 + val / 256 % 256) * 256 + val / 65536 % 256)
    (val / 16777216 % 256 * 16777216 / 2 ^ 24) 8 (by omega)
  have e3' : (val % 256 * 256 + val / 256 % 256) * 2 ^ 16 + val / 65536 % 256 * 65536 / 2 ^ 8
      = (((val % 256) * 256 + val / 256 % 256) * 256 + val / 65536 % 256) * 2 ^ 8 := by omega
  rw [e3', e3]
  omega

theorem peek_lt (mem : List Nat) (i : Nat) : peek mem i < 256 := by
  unfold peek; omega

/-! ## Steps of the cursor -/

theorem cursor_step.refl (p : pack_iter) : cursor_step p p :=
  ⟨rfl, rfl, rfl, rfl, le_rfl, fun h => h, fun h => ⟨h, rfl⟩⟩

theorem cursor_step.trans {p q r : pack_iter} (h1 : cursor_step p q) (h2 : cursor_step q r) :
    cursor_step p r := by
  refine ⟨h2.len_eq.trans h1.len_eq, h2.type_eq.trans h1.type_eq, h2.base_eq.trans h1.base_eq,
    h2.swap_eq.trans h1.swap_eq, le_trans h1.ptr_le h2.ptr_le, ?_, ?_⟩
  · intro h
    have a := h1.within h
    have b := h2.within (by rw [h1.len_eq]; exact a)
    rw [h1.len_eq] at b
    exact b
  · intro h
    have a := h1.sticky h
    have b := h2.sticky a.1
    exact ⟨b.1, b.2.trans a.2⟩

theorem cursor_step_flags (p : pack_iter) (s bs bb : Bool) (hs : p.short_packet = true → s = true) :
    cursor_step p { p with short_packet := s, bad_string := bs, bad_bit_string := bb } :=
  ⟨rfl, rfl, rfl, rfl, le_rfl, fun h => h, fun h => ⟨hs h, rfl⟩⟩

theorem cursor_step_advance (p : pack_iter) (n : Nat) (bs bb : Bool)
    (h : (n : Int) ≤ pack_iter_remaining p) :
    cursor_step p { p with ptr := p.ptr + n, bad_string := bs, bad_bit_string := bb } := by
  unfold pack_iter_remaining at h
  by_cases hs : p.short_packet = true
  · simp only [hs, if_true] at h; omega
  · simp only [hs, if_false] at h
    refine ⟨rfl, rfl, rfl, rfl, ?_, ?_, ?_⟩
    · simp
    · intro _; simp only; push_cast; omega
    · intro h'; exact absurd h' hs

theorem iget_uint8_step (p : pack_iter) :
    cursor_step p (iget_uint8 p).2 ∧ all_or_nothing p (iget_uint8 p).2 := by
  unfold iget_uint8
  by_cases h1 : pack_iter_remaining p < 1
  · simp only [h1, if_true]
    exact ⟨cursor_step_flags p true _ _ (fun _ => rfl), Or.inl ⟨rfl, rfl⟩⟩
  · simp only [h1, if_false]
    exact ⟨cursor_step_advance p 1 _ _ (by push_cast; omega), Or.inr rfl⟩

theorem iget_uint16_step (p : pack_iter) :
    cursor_step p (iget_uint16 p).2 ∧ all_or_nothing p (iget_uint16 p).2 := by
  unfold iget_uint16
  by_cases h1 : pack_iter_remaining p < 2
  · simp only [h1, if_true]
    exact ⟨cursor_step_flags p true _ _ (fun _ => rfl), Or.inl ⟨rfl, rfl⟩⟩
  · simp only [h1, if_false]
    exact ⟨cursor_step_advance p 2 _ _ (by push_cast; omega), Or.inr rfl⟩

theorem iget_sint16_step (p : pack_iter) :
    cursor_step p (iget_sint16 p).2 ∧ all_or_nothing p (iget_sint16 p).2 := by
  unfold iget_sint16
  by_cases h1 : pack_iter_remaining p < 2
  · simp only [h1, if_true]
    exact ⟨cursor_step_flags p true _ _ (fun _ => rfl), Or.inl ⟨rfl, rfl⟩⟩
  · simp only [h1, if_false]
    exact ⟨cursor_step_advance p 2 _ _ (by push_cast; omega), Or.inr rfl⟩

theorem iget_uint32_step (p : pack_iter) :
    cursor_step p (iget_uint32 p).2 ∧ all_or_nothing p (iget_uint32 p).2 := by
  unfold iget_uint32
  by_cases h1 : pack_iter_remaining p < 4
  · simp only [h1, if_true]
    exact ⟨cursor_step_flags p true _ _ (fun _ => rfl), Or.inl ⟨rfl, rfl⟩⟩
  · simp only [h1, if_false]
    exact ⟨cursor_step_advance p 4 _ _ (by push_cast; omega), Or.inr rfl⟩

theorem iget_uint8_vec8_step (p : pack_iter) (stop : Int) :
    cursor_step p (iget_uint8_vec8 p stop).2 ∧ all_or_nothing p (iget_uint8_vec8 p stop).2 := by
  unfold iget_uint8_vec8
  have hb := peek_lt p.base p.ptr
  by_cases h1 : pack_iter_remaining p < 1
  · simp only [h1, if_true]
    exact ⟨cursor_step_flags p true _ _ (fun _ => rfl), Or.inl ⟨rfl, rfl⟩⟩
  · simp only [h1, if_false]
    by_cases h2 : pack_iter_remaining p < (get_uint8 p.base p.ptr).1 + 1
    · simp only [h2, if_true]
      exact ⟨cursor_step_flags p true _ _ (fun _ => rfl), Or.inl ⟨rfl, rfl⟩⟩
    · simp only [h2, if_false]
      refine ⟨?_, Or.inr rfl⟩
      have := cursor_step_advance p (1 + (peek p.base p.ptr)) p.bad_string p.bad_bit_string
        (by simp only [get_uint8] at h2; push_cast; omega)
      simpa [get_uint8_vec8, get_uint8, Nat.add_assoc] using this

theorem iget_uint16_vec8_step (p : pack_iter) (stop : Int) :
    cursor_step p (iget_uint16_vec8 p stop).2 ∧ all_or_nothing p (iget_uint16_vec8 p stop).2 := by
  unfold iget_uint16_vec8
  have hb := peek_lt p.base p.ptr
  by_cases h1 : pack_iter_remaining p < 1
  · simp only [h1, if_true]
    exact ⟨cursor_step_flags p true _ _ (fun _ => rfl), Or.inl ⟨rfl, rfl⟩⟩
  · simp only [h1, if_false]
    by_cases h2 : pack_iter_remaining p < (get_uint8 p.base p.ptr).1 * 2 + 1
    · simp only [h2, if_true]
      exact ⟨cursor_step_flags p true _ _ (fun _ => rfl), Or.inl ⟨rfl, rfl⟩⟩
    · simp only [h2, if_false]
      refine ⟨?_, Or.inr rfl⟩
      have := cursor_step_advance p (1 + 2 * (peek p.base p.ptr)) p.bad_string p.bad_bit_string
        (by simp only [get_uint8] at h2; push_cast; omega)
      simpa [get_uint16_vec8, get_uint8, Nat.add_assoc] using this

/-- The scan of `iget_string`, given enough rounds: it stops at the first
zero byte at or after `c`, or at `len` if there is none before; it evaluates
`*c` at every offset from `c` to its stop, the stop included. -/
theorem iget_string_scan_spec (base : List Nat) (len : Int) (fuel c : Nat)
    (hfuel : (len - (c : Int)).toNat + 1 ≤ fuel) :
    c ≤ (iget_string_scan base len fuel c).1
    ∧ ((c : Int) ≤ len → ((iget_string_scan base len fuel c).1 : Int) ≤ len)
    ∧ (∀ k, c ≤ k → k < (iget_string_scan base len fuel c).1 → peek base k ≠ 0)
    ∧ (((iget_string_scan base len fuel c).1 : Int) < len →
        peek base (iget_string_scan base len fuel c).1 = 0)
    ∧ (iget_string_scan base len fuel c).2
        = List.range' c ((iget_string_scan base len fuel c).1 - c + 1) := by
  induction fuel generalizing c with
  | zero => omega
  | succ n ih =>
    unfold iget_string_scan
    by_cases h0 : peek base c = 0
    · rw [if_pos h0]
      refine ⟨le_rfl, fun h => h, ?_, fun _ => h0, ?_⟩
      · intro k h1 h2; omega
      · simp
    · rw [if_neg h0]
      by_cases h1 : (c : Int) < len
      · rw [if_pos h1]
        dsimp only
        have ih' := ih (c + 1) (by omega)
        obtain ⟨a1, a2, a3, a4, a5⟩ := ih'
        refine ⟨by omega, fun _ => a2 (by push_cast; omega), ?_, a4, ?_⟩
        · intro k hk1 hk2
          by_cases hkc : k = c
          · subst hkc; exact h0
          · exact a3 k (by omega) hk2
        · rw [a5]
          have : (iget_string_scan base len n (c + 1)).1 - c + 1
              = ((iget_string_scan base len n (c + 1)).1 - (c + 1) + 1) + 1 := by omega
          rw [this]
          exact (List.range'_succ _ _ _).symm
      · rw [if_neg h1]
        refine ⟨le_rfl, fun h => h, ?_, fun h => absurd h h1, ?_⟩
        · intro k h1 h2; omega
        · simp

theorem iget_string_c_spec (p : pack_iter) :
    p.ptr ≤ (iget_string_c p).1
    ∧ ((p.ptr : Int) ≤ p.len → ((iget_string_c p).1 : Int) ≤ p.len)
    ∧ (∀ k, p.ptr ≤ k → k < (iget_string_c p).1 → peek p.base k ≠ 0)
    ∧ (((iget_string_c p).1 : Int) < p.len → peek p.base (iget_string_c p).1 = 0)
    ∧ (iget_string_c p).2 = List.range' p.ptr ((iget_string_c p).1 - p.ptr + 1) :=
  iget_string_scan_spec p.base p.len _ p.ptr le_rfl

theorem iget_string_some (p : pack_iter) (navail : Int) (h : 0 < navail) :
    ∃ r, iget_string p navail = some r := by
  unfold iget_string
  split_ifs with h1 h2
  · omega
  · exact ⟨_, rfl⟩
  · exact ⟨_, rfl⟩

theorem iget_string_step (p : pack_iter) (navail : Int) (r : List Nat × pack_iter)
    (h : iget_string p navail = some r) : cursor_step p r.2 ∧ all_or_nothing p r.2 := by
  unfold iget_string at h
  obtain ⟨c1, c2, -, -, -⟩ := iget_string_c_spec p
  split_ifs at h with h1 h2
  · simp only [Option.some.injEq] at h
    subst h
    exact ⟨cursor_step_flags p true _ _ (fun _ => rfl), Or.inl ⟨rfl, rfl⟩⟩
  · simp only [Option.some.injEq] at h
    subst h
    have hs : p.short_packet = false := by
      unfold pack_iter_remaining at h2
      by_contra hc
      simp only [Bool.not_eq_false] at hc
      simp [hc] at h2
    have hr : pack_iter_remaining p = p.len - (p.ptr : Int) := by
      unfold pack_iter_remaining; simp [hs]
    rw [hr] at h2
    by_cases hu : ((iget_string_c p).1 : Int) ≥ p.len
    · simp only [hu, decide_True, if_true]
      constructor
      · refine ⟨?_, ?_, ?_, ?_, ?_, ?_, ?_⟩ <;> split_ifs <;> simp_all
      · left
        split_ifs <;> simp_all
    · simp only [hu, decide_False, if_false, Bool.false_eq_true]
      have hlt : ((iget_string_c p).1 : Int) < p.len := by omega
      have hadv : p.ptr + (((iget_string_c p).1 : Int) - (p.ptr : Int) + 1).toNat
          = (iget_string_c p).1 + 1 := by omega
      constructor
      · refine ⟨?_, ?_, ?_, ?_, ?_, ?_, ?_⟩ <;> split_ifs <;> simp_all <;> omega
      · right
        split_ifs <;> simp_all

theorem iget_city_map_some (p : pack_iter) (navail : Int) (h : 26 ≤ navail) :
    ∃ r, iget_city_map p navail = some r := by
  unfold iget_city_map
  rw [if_neg (by omega)]
  exact ⟨_, rfl⟩

theorem iget_city_map_step (p : pack_iter) (navail : Int) (r : List Nat × pack_iter)
    (h : iget_city_map p navail = some r) : cursor_step p r.2 ∧ all_or_nothing p r.2 := by
  unfold iget_city_map at h
  split_ifs at h with h1 h2
  · simp only [iget_city_map_round, if_true, Option.some.injEq] at h
    subst h
    exact ⟨cursor_step_flags p true _ _ (fun _ => rfl), Or.inl ⟨rfl, rfl⟩⟩
  · have hs : p.short_packet = false := by
      unfold pack_iter_remaining at h2
      by_contra hc
      simp only [Bool.not_eq_false] at hc
      simp [hc] at h2
    simp only [iget_city_map_round, hs, Bool.false_eq_true, if_false, Option.some.injEq] at h
    subst h
    refine ⟨?_, Or.inr hs.symm⟩
    have := cursor_step_advance p 4 p.bad_string p.bad_bit_string (by push_cast; omega)
    simpa [hs, Nat.add_assoc] using this

theorem iget_bit_string_loop_step (npack navail fuel i : Nat) (p : pack_iter) :
    cursor_step p (iget_bit_string_loop npack navail fuel i p).2 := by
  induction fuel generalizing i p with
  | zero => exact cursor_step.refl p
  | succ n ih =>
    unfold iget_bit_string_loop
    dsimp only
    split_ifs with h
    · exact cursor_step.trans (iget_uint8_step p).1 (ih (i + 8) (iget_uint8 p).2)
    · exact cursor_step.refl p

theorem iget_bit_string_some (p : pack_iter) (navail : Int) (h : 0 < navail) :
    ∃ r, iget_bit_string p navail = some r := by
  unfold iget_bit_string
  dsimp only
  split_ifs <;> first | omega | exact ⟨_, rfl⟩

theorem iget_bit_string_step (p : pack_iter) (navail : Int) (r : List Nat × pack_iter)
    (h : iget_bit_string p navail = some r) : cursor_step p r.2 := by
  unfold iget_bit_string at h
  dsimp only at h
  split_ifs at h with h1 h2 h3 h4 h5 h5
  · simp only [Option.some.injEq] at h
    subst h
    exact cursor_step_flags p true _ _ (fun _ => rfl)
  · simp only [Option.some.injEq] at h
    subst h
    exact cursor_step.trans (iget_uint8_step p).1
      (cursor_step_flags (iget_uint8 p).2 _ _ _ (fun h => h))
  all_goals
    simp only [Option.some.injEq] at h
    subst h
    have l := cursor_step.trans (iget_uint8_step p).1
      (iget_bit_string_loop_step (iget_uint8 p).1.toNat navail.toNat (iget_uint8 p).1.toNat 0
        (iget_uint8 p).2)
    first
      | exact l
      | exact cursor_step.trans l (cursor_step_flags _ _ _ _ (fun h => h))

theorem iget_tech_list_from_step (A_LAST : Int) (n : Nat) (p : pack_iter) :
    cursor_step p (iget_tech_list_from A_LAST n p).2 := by
  induction n generalizing p with
  | zero => exact cursor_step.refl p
  | succ n ih =>
    unfold iget_tech_list_from
    dsimp only
    split_ifs with h
    · exact (iget_uint8_step p).1
    · exact cursor_step.trans (iget_uint8_step p).1 (ih (iget_uint8 p).2)

theorem iget_tech_list_step (MAX_NUM_TECH_LIST : Nat) (A_LAST : Int) (p : pack_iter) :
    cursor_step p (iget_tech_list MAX_NUM_TECH_LIST A_LAST p).2 :=
  iget_tech_list_from_step A_LAST MAX_NUM_TECH_LIST p

theorem iget_worklist_slot_step (H : header) (pc : connection) (p : pack_iter) :
    cursor_step p (iget_worklist_slot H pc p).2 := by
  unfold iget_worklist_slot
  dsimp only
  split_ifs
  · exact (iget_uint16_step p).1
  · exact (iget_uint16_step p).1
  · exact (iget_uint16_step p).1
  · exact cursor_step.trans (iget_uint8_step p).1 (iget_uint8_step _).1

theorem iget_worklist_slots_step (H : header) (pc : connection) (n : Nat) (p : pack_iter) :
    cursor_step p (iget_worklist_slots H pc n p).2 := by
  induction n generalizing p with
  | zero => exact cursor_step.refl p
  | succ n ih =>
    unfold iget_worklist_slots
    exact cursor_step.trans (iget_worklist_slot_step H pc p) (ih _)

theorem iget_worklist_some (H : header) (p : pack_iter) (pc : connection)
    (h : 0 < H.MAX_LEN_NAME) : ∃ r, iget_worklist H p pc = some r := by
  unfold iget_worklist
  obtain ⟨r, hr⟩ := iget_string_some (iget_uint8 p).2 H.MAX_LEN_NAME h
  simp only [hr]
  exact ⟨_, rfl⟩

theorem iget_worklist_step (H : header) (p : pack_iter) (pc : connection)
    (r : worklist × pack_iter) (h : iget_worklist H p pc = some r) : cursor_step p r.2 := by
  unfold iget_worklist at h
  cases hs : iget_string (iget_uint8 p).2 H.MAX_LEN_NAME with
  | none => simp [hs] at h
  | some r2 =>
    simp only [hs, Option.some.injEq] at h
    subst h
    exact cursor_step.trans (iget_uint8_step p).1
      (cursor_step.trans (iget_string_step _ _ r2 hs).1 (iget_worklist_slots_step H pc _ _))

/-! ## The frame reader -/

/-- C10. A connection whose buffer holds fewer than 3 bytes: no packet is
returned, `*ptype` is not assigned, and the connection (buffer, `byte_swap`,
`first_packet`) is left as it was. -/
theorem get_packet_short_header (E : env) (pc : connection) (h : pc.buffer.ndata < 3) :
    get_packet_from_connection E pc = some { packet := none, ptype := none, pc := pc } := by
  unfold get_packet_from_connection
  by_cases hu : pc.used = false
  · rw [if_pos hu]
  · rw [if_neg hu, if_pos h]

theorem get_packet_short_header_witness :
    (sample_connection false [0, 23]).buffer.ndata < 3 ∧
    get_packet_from_connection sample_env (sample_connection false [0, 23])
      = some { packet := none, ptype := none, pc := sample_connection false [0, 23] } :=
  ⟨by decide, get_packet_short_header sample_env (sample_connection false [0, 23]) (by decide)⟩

theorem byte_order_resolved_swap (pc : connection) :
    (byte_order_resolved pc).byte_swap = resolved_byte_swap pc := by
  unfold byte_order_resolved resolved_byte_swap
  split_ifs <;> rfl

theorem get_packet_incomplete_eq (E : env) (pc : connection) (hu : pc.used = true)
    (h3 : 3 ≤ pc.buffer.ndata) (h : (pc.buffer.ndata : Int) < declared_length pc) :
    get_packet_from_connection E pc
      = some { packet := none, ptype := none, pc := byte_order_resolved pc } := by
  unfold get_packet_from_connection
  rw [if_neg (by simp [hu]), if_neg (by omega)]
  unfold declared_length resolved_byte_swap header_len at h
  unfold byte_order_resolved header_len
  by_cases hf : pc.first_packet = true
  · simp only [hf, if_true] at h ⊢
    rw [if_pos h]
  · simp only [hf, if_false, Bool.false_eq_true] at h ⊢
    rw [if_pos h]

theorem get_packet_complete_eq (E : env) (pc : connection) (hu : pc.used = true)
    (h3 : 3 ≤ pc.buffer.ndata) (h : declared_length pc ≤ (pc.buffer.ndata : Int)) :
    get_packet_from_connection E pc
      = match E.registry (header_type pc) with
        | none =>
          some { packet := none, ptype := some (header_type pc)
                 pc := { dispatched pc with
                         buffer := remove_packet_from_buffer (dispatched pc).buffer } }
        | some f =>
          (receive E f (dispatched pc)).map fun r =>
            { packet := some r.1, ptype := some (header_type pc), pc := r.2 } := by
  unfold get_packet_from_connection
  rw [if_neg (by simp [hu]), if_neg (by omega)]
  unfold declared_length resolved_byte_swap header_len at h
  unfold dispatched declared_length resolved_byte_swap header_len header_type
  by_cases hf : pc.first_packet = true
  · simp only [hf, if_true] at h ⊢
    rw [if_neg (by omega)]
  · simp only [hf, if_false, Bool.false_eq_true] at h ⊢
    rw [if_neg (by omega)]

/-- C9, as the code has it. A connection whose buffer holds at least 3 bytes
but fewer than the declared length of the packet at its front: no packet is
returned and the buffer (bytes and byte count) is left as it was.  With
`first_packet` clear, or on a closed connection, the whole connection is left
as it was; on the first packet of a connection in use the call has decided
`byte_swap` (set iff the length read in canonical order exceeds 1024) and
cleared `first_packet`. -/
theorem get_packet_incomplete (E : env) (pc : connection) (h3 : 3 ≤ pc.buffer.ndata)
    (h : (pc.buffer.ndata : Int) < declared_length pc) :
    ∃ r, get_packet_from_connection E pc = some r ∧ r.packet = none ∧ r.ptype = none
      ∧ r.pc.buffer = pc.buffer ∧ r.pc.used = pc.used ∧ r.pc.capability = pc.capability
      ∧ (pc.first_packet = false ∨ pc.used = false → r.pc = pc)
      ∧ (pc.first_packet = true ∧ pc.used = true →
          r.pc.first_packet = false ∧ r.pc.byte_swap = decide (header_len pc > 1024)) := by
  by_cases hu : pc.used = true
  · refine ⟨_, get_packet_incomplete_eq E pc hu h3 h, rfl, rfl, ?_⟩
    unfold byte_order_resolved
    by_cases hf : pc.first_packet = true
    · simp [hf, hu]
    · simp [hf]
  · refine ⟨{ packet := none, ptype := none, pc := pc }, ?_, rfl, rfl, rfl, rfl, rfl,
      fun _ => rfl, fun h' => absurd h'.2 hu⟩
    unfold get_packet_from_connection
    rw [if_pos (by simpa using hu)]

theorem get_packet_incomplete_witness :
    3 ≤ (sample_connection false [0, 23, 50, 1, 2]).buffer.ndata ∧
    (((sample_connection false [0, 23, 50, 1, 2]).buffer.ndata : Nat) : Int)
      < declared_length (sample_connection false [0, 23, 50, 1, 2]) ∧
    ∃ r, get_packet_from_connection sample_env (sample_connection false [0, 23, 50, 1, 2]) = some r
      ∧ r.packet = none ∧ r.ptype = none
      ∧ r.pc.buffer = (sample_connection false [0, 23, 50, 1, 2]).buffer
      ∧ r.pc.used = (sample_connection false [0, 23, 50, 1, 2]).used
      ∧ r.pc.capability = (sample_connection false [0, 23, 50, 1, 2]).capability
      ∧ ((sample_connection false [0, 23, 50, 1, 2]).first_packet = false
          ∨ (sample_connection false [0, 23, 50, 1, 2]).used = false →
          r.pc = sample_connection false [0, 23, 50, 1, 2])
      ∧ ((sample_connection false [0, 23, 50, 1, 2]).first_packet = true
          ∧ (sample_connection false [0, 23, 50, 1, 2]).used = true →
          r.pc.first_packet = false
          ∧ r.pc.byte_swap = decide (header_len (sample_connection false [0, 23, 50, 1, 2]) > 1024)) :=
  ⟨by decide, by decide,
    get_packet_incomplete sample_env (sample_connection false [0, 23, 50, 1, 2]) (by decide)
      (by decide)⟩

/-- C9 as stated fails: a connection in use with `first_packet` set,
`byte_swap` clear and the three bytes `05 00 07` buffered.  The length read in
canonical order is 1280, so the connection is taken to be in the old byte
order and the declared length is 5: the packet is incomplete.  No packet is
returned and the buffer is untouched, yet `byte_swap` has been set and
`first_packet` cleared. -/
theorem get_packet_incomplete_mutates_flags :
    let pc : connection :=
      { used := true, first_packet := true, byte_swap := false
        buffer := { ndata := 3, data := [5, 0, 7] }, capability := [] }
    3 ≤ pc.buffer.ndata ∧ declared_length pc = 5 ∧
    get_packet_from_connection sample_env pc
      = some { packet := none, ptype := none
               pc := { pc with byte_swap := true, first_packet := false } }
    ∧ ({ pc with byte_swap := true, first_packet := false } : connection).first_packet
        ≠ pc.first_packet
    ∧ ({ pc with byte_swap := true, first_packet := false } : connection).byte_swap
        ≠ pc.byte_swap := by
  decide

theorem receive_buffer (E : env) (f : receive_fn) (pc : connection) (r : packet × connection)
    (h : receive E f pc = some r) :
    r.2 = { pc with buffer := remove_packet_from_buffer pc.buffer } := by
  cases hi : pack_iter_init pc with
  | none =>
    cases f <;>
      simp [receive, receive_packet_diplomacy_info, receive_packet_ruleset_tech,
        receive_packet_ruleset_nation, receive_packet_ruleset_game, receive_packet_city_info,
        hi] at h
  | some iter =>
    cases f
    case receive_packet_diplomacy_info =>
      simp only [receive, receive_packet_diplomacy_info, hi, Option.map_some',
        Option.some.injEq] at h
      rw [← h]
    case receive_packet_ruleset_tech =>
      simp only [receive, receive_packet_ruleset_tech, hi] at h
      cases hf : receive_packet_ruleset_tech_fields E.H iter with
      | none => simp [hf] at h
      | some q =>
        simp only [hf] at h
        split_ifs at h with hl
        · cases hs : iget_string q.2 (pack_iter_remaining q.2) with
          | none => simp [hs] at h
          | some hh =>
            simp only [hs, Option.map_some', Option.some.injEq] at h
            rw [← h]
        · simp only [Option.map_some', Option.some.injEq] at h
          rw [← h]
    case receive_packet_ruleset_nation =>
      simp only [receive, receive_packet_ruleset_nation, hi] at h
      repeat' split at h
      all_goals first
        | (simp only [Option.map_none', reduceCtorEq] at h)
        | (simp only [Option.map_some', Option.some.injEq] at h; rw [← h])
    case receive_packet_ruleset_game =>
      simp only [receive, receive_packet_ruleset_game, hi, Option.map_some',
        Option.some.injEq] at h
      rw [← h]
    case receive_packet_city_info =>
      simp only [receive, receive_packet_city_info, hi] at h
      repeat' split at h
      all_goals first
        | (simp only [Option.map_none', reduceCtorEq] at h)
        | (simp only [Option.map_some', Option.some.injEq] at h; rw [← h])
    all_goals
      simp only [receive, hi] at h
      split_ifs at h
      simp only [Option.some.injEq] at h
      rw [← h]

theorem held_remove (b : socket_packet_buffer) (hcap : b.ndata ≤ b.data.length) :
    held (remove_packet_from_buffer b)
      = (held b).drop (get_uint16 b.data 0).1.toNat := by
  unfold held remove_packet_from_buffer
  simp only
  rw [List.take_append_of_le_length (by simp; omega), List.take_take, List.drop_take]
  simp

theorem data_cons3 (l : List Nat) (h : 3 ≤ l.length) : ∃ a b c rest, l = a :: b :: c :: rest := by
  match l, h with
  | a :: b :: c :: rest, _ => exact ⟨a, b, c, rest, rfl⟩

theorem swab_puint16_eq (v : Int) (h0 : 0 ≤ v) (h1 : v < 65536) :
    swab_puint16 v = ((v.toNat % 256) * 256 + v.toNat / 256 : Nat) := by
  unfold swab_puint16 to_int to_unsigned
  rw [swab_uint16_eq]
  have e : (v % 4294967296).toNat = v.toNat := by omega
  rw [e]
  have hv : v.toNat < 65536 := by omega
  have h2 : v.toNat / 256 % 256 = v.toNat / 256 := by omega
  rw [h2]
  have h3 : (v.toNat % 256 * 256 + v.toNat / 256) % 4294967296
      = v.toNat % 256 * 256 + v.toNat / 256 := by omega
  rw [h3, if_pos (by omega)]

theorem header_len_range (pc : connection) : 0 ≤ header_len pc ∧ header_len pc < 65536 := by
  unfold header_len get_uint16
  have h0 := peek_lt pc.buffer.data 0
  have h1 := peek_lt pc.buffer.data (0 + 1)
  simp only
  constructor <;> omega

theorem declared_length_range (pc : connection) :
    0 ≤ declared_length pc ∧ declared_length pc < 65536 := by
  have h := header_len_range pc
  unfold declared_length
  split_ifs
  · rw [swab_puint16_eq _ h.1 h.2]
    constructor <;> omega
  · exact h

/-- The buffer handed to the receive function carries the declared length in
canonical order, and apart from a declared length of 1 read in the old byte
order, removing that many bytes from it leaves what removing them from the
original buffer leaves. -/
theorem dispatched_buffer (pc : connection) (hwf : well_formed pc.buffer)
    (h3 : 3 ≤ pc.buffer.ndata)
    (hedge : ¬ (resolved_byte_swap pc = true ∧ declared_length pc = 1)) :
    (dispatched pc).buffer.ndata = pc.buffer.ndata
    ∧ (dispatched pc).buffer.data.length = pc.buffer.data.length
    ∧ (get_uint16 (dispatched pc).buffer.data 0).1 = declared_length pc
    ∧ (get_uint8 (dispatched pc).buffer.data 2).1 = header_type pc
    ∧ (held (dispatched pc).buffer).drop (declared_length pc).toNat
        = (held pc.buffer).drop (declared_length pc).toNat := by
  obtain ⟨hbytes, hcap⟩ := hwf
  obtain ⟨a, b, c, rest, hd⟩ := data_cons3 pc.buffer.data (by omega)
  have hrange := declared_length_range pc
  have hswap := byte_order_resolved_swap pc
  have ha : a < 256 := hbytes a (by rw [hd]; simp)
  have hb : b < 256 := hbytes b (by rw [hd]; simp)
  by_cases hs : resolved_byte_swap pc = true
  · have hL1 : declared_length pc ≠ 1 := fun h => hedge ⟨hs, h⟩
    have hdisp : (dispatched pc).buffer
        = { ndata := pc.buffer.ndata
            data := ((declared_length pc) % 65536).toNat / 256
              :: ((declared_length pc) % 65536).toNat % 256 :: c :: rest } := by
      unfold dispatched
      unfold byte_order_resolved at hswap
      simp only [hs] at hswap
      simp only [hswap, if_true]
      split_ifs <;> simp [hd, poke, put_uint16]
    have hhl : header_len pc = ((a * 256 + b : Nat) : Int) := by
      unfold header_len get_uint16
      rw [hd]
      simp only [peek, List.getD_cons_zero, zero_add, List.getD_cons_succ]
      have e1 : a % 256 = a := by omega
      have e2 : b % 256 = b := by omega
      rw [e1, e2]
    have hlen : declared_length pc = ((b * 256 + a : Nat) : Int) := by
      have hh := header_len_range pc
      unfold declared_length
      rw [if_pos hs, swab_puint16_eq _ hh.1 hh.2, hhl, Int.toNat_ofNat]
      have e1 : (a * 256 + b) % 256 = b := by omega
      have e2 : (a * 256 + b) / 256 = a := by omega
      rw [e1, e2]
    have hx : (declared_length pc % 65536).toNat = b * 256 + a := by rw [hlen]; omega
    have e3 : (b * 256 + a) / 256 = b := by omega
    have e4 : (b * 256 + a) % 256 = a := by omega
    rw [hx, e3, e4] at hdisp
    rw [hdisp]
    refine ⟨rfl, by simp [hd], ?_, ?_, ?_⟩
    · simp only [get_uint16, peek, List.getD_cons_zero, zero_add, List.getD_cons_succ]
      rw [hlen]
      have e5 : b % 256 = b := by omega
      have e6 : a % 256 = a := by omega
      rw [e5, e6]
    · simp only [header_type, get_uint8, peek, hd, List.getD_cons_zero, List.getD_cons_succ]
    · unfold held
      simp only [hd]
      obtain ⟨n, hn⟩ : ∃ n, pc.buffer.ndata = n + 3 := ⟨pc.buffer.ndata - 3, by omega⟩
      rw [hn]
      by_cases hz : declared_length pc = 0
      · have ha0 : a = 0 := by omega
        have hb0 : b = 0 := by omega
        simp [hz, ha0, hb0]
      · obtain ⟨m, hm⟩ : ∃ m, (declared_length pc).toNat = m + 2 :=
          ⟨(declared_length pc).toNat - 2, by omega⟩
        rw [hm]
        simp [List.take, List.drop]
  · have hdisp : (dispatched pc).buffer = pc.buffer := by
      unfold dispatched
      unfold byte_order_resolved at hswap
      simp only [Bool.not_eq_true] at hs
      simp only [hs] at hswap
      simp only [hswap, Bool.false_eq_true, if_false]
      split_ifs <;> rfl
    rw [hdisp]
    refine ⟨rfl, rfl, ?_, rfl, rfl⟩
    unfold declared_length
    rw [if_neg hs]
    rfl

theorem dispatched_fields (pc : connection) :
    (dispatched pc).used = pc.used ∧ (dispatched pc).capability = pc.capability
    ∧ (dispatched pc).first_packet = false ∧ (dispatched pc).byte_swap = resolved_byte_swap pc
    ∧ (dispatched pc).buffer.ndata = pc.buffer.ndata := by
  unfold dispatched resolved_byte_swap
  by_cases hf : pc.first_packet = true
  · simp only [hf, if_true]
    split_ifs <;> simp_all
  · simp only [Bool.not_eq_true] at hf
    simp only [hf, Bool.false_eq_true, if_false]
    split_ifs <;> simp_all

/-- A diplomacy packet is decoded without any assertion. -/
theorem completes_diplomacy_info (E : env) (pc : connection) (h3 : 3 ≤ pc.buffer.ndata) :
    completes E receive_fn.receive_packet_diplomacy_info pc := by
  unfold completes receive receive_packet_diplomacy_info pack_iter_init
  rw [if_neg (by omega)]
  rfl

/-- C1, as the code has it. A connection in use whose buffer holds at least 3
bytes, whose declared length `L` (byte order resolved) is at most the number
of bytes held, and whose type code is in the registry: when the receive
function runs to its end (none of its assertions fails), and unless `L = 1`
was read in the old byte order, `get_packet_from_connection` returns a
packet and leaves the buffer holding the old bytes with exactly the first
`L` removed.  Nothing is assumed about `short_packet`, `bad_string` or
`bad_bit_string`. -/
theorem get_packet_removes_packet (E : env) (pc : connection) (f : receive_fn)
    (hu : pc.used = true) (hwf : well_formed pc.buffer) (h3 : 3 ≤ pc.buffer.ndata)
    (hL : declared_length pc ≤ (pc.buffer.ndata : Int))
    (hreg : E.registry (header_type pc) = some f)
    (hcomp : completes E f (dispatched pc))
    (hedge : ¬ (resolved_byte_swap pc = true ∧ declared_length pc = 1)) :
    ∃ r, get_packet_from_connection E pc = some r
      ∧ r.packet.isSome = true ∧ r.ptype = some (header_type pc)
      ∧ (r.pc.buffer.ndata : Int) = (pc.buffer.ndata : Int) - declared_length pc
      ∧ held r.pc.buffer = (held pc.buffer).drop (declared_length pc).toNat := by
  rw [get_packet_complete_eq E pc hu h3 hL]
  simp only [hreg]
  unfold completes at hcomp
  obtain ⟨r, hr⟩ := Option.isSome_iff_exists.mp hcomp
  have hb := receive_buffer E f (dispatched pc) r hr
  obtain ⟨d1, d2, d3, -, d5⟩ := dispatched_buffer pc hwf h3 hedge
  have hrange := declared_length_range pc
  rw [hr]
  simp only [Option.map_some']
  refine ⟨_, rfl, rfl, rfl, ?_, ?_⟩
  · simp only [hb, remove_packet_from_buffer, d1, d3]
    omega
  · simp only [hb]
    rw [held_remove _ (by rw [d1, d2]; exact hwf.2), d3, d5]

theorem get_packet_removes_packet_witness :
    (sample_connection false [0, 5, 50, 1, 2, 9]).used = true
    ∧ well_formed (sample_connection false [0, 5, 50, 1, 2, 9]).buffer
    ∧ 3 ≤ (sample_connection false [0, 5, 50, 1, 2, 9]).buffer.ndata
    ∧ declared_length (sample_connection false [0, 5, 50, 1, 2, 9])
        ≤ ((sample_connection false [0, 5, 50, 1, 2, 9]).buffer.ndata : Int)
    ∧ sample_env.registry (header_type (sample_connection false [0, 5, 50, 1, 2, 9]))
        = some receive_fn.receive_packet_diplomacy_info
    ∧ completes sample_env receive_fn.receive_packet_diplomacy_info
        (dispatched (sample_connection false [0, 5, 50, 1, 2, 9]))
    ∧ ¬ (resolved_byte_swap (sample_connection false [0, 5, 50, 1, 2, 9]) = true
          ∧ declared_length (sample_connection false [0, 5, 50, 1, 2, 9]) = 1)
    ∧ ∃ r, get_packet_from_connection sample_env (sample_connection false [0, 5, 50, 1, 2, 9])
          = some r
      ∧ r.packet.isSome = true
      ∧ r.ptype = some (header_type (sample_connection false [0, 5, 50, 1, 2, 9]))
      ∧ (r.pc.buffer.ndata : Int)
          = ((sample_connection false [0, 5, 50, 1, 2, 9]).buffer.ndata : Int)
            - declared_length (sample_connection false [0, 5, 50, 1, 2, 9])
      ∧ held r.pc.buffer
          = (held (sample_connection false [0, 5, 50, 1, 2, 9]).buffer).drop
              (declared_length (sample_connection false [0, 5, 50, 1, 2, 9])).toNat :=
  have hwf : well_formed (sample_connection false [0, 5, 50, 1, 2, 9]).buffer :=
    ⟨by decide, by decide⟩
  have hcomp : completes sample_env receive_fn.receive_packet_diplomacy_info
      (dispatched (sample_connection false [0, 5, 50, 1, 2, 9])) := by
    unfold completes; decide
  ⟨rfl, hwf, by decide, by decide, by decide, hcomp, by decide,
    get_packet_removes_packet sample_env (sample_connection false [0, 5, 50, 1, 2, 9])
      receive_fn.receive_packet_diplomacy_info rfl hwf (by decide) (by decide) (by decide)
      hcomp (by decide)⟩

/-- C1 as stated fails, at three connections whose buffer holds a whole
packet of a registered type.
* A closed connection (`used` = 0) holding the 5-byte diplomacy packet
  `00 05 32 01 02`: `NULL` is returned and the buffer keeps its 5 bytes.
* A connection in the old byte order holding `01 00 32` (declared length 1):
  a packet is returned, and the buffer then holds `01 32`, not the old bytes
  with the first removed, `00 32`.
* A connection holding `00 03 3D`, a technology ruleset packet cut after its
  header: the assertion of `iget_string` fails and nothing is returned. -/
theorem get_packet_removes_packet_fails :
    (let pc : connection :=
      { used := false, first_packet := false, byte_swap := false
        buffer := { ndata := 5, data := [0, 5, 50, 1, 2] }, capability := [] }
     3 ≤ pc.buffer.ndata ∧ declared_length pc = 5
     ∧ sample_env.registry (header_type pc) = some receive_fn.receive_packet_diplomacy_info
     ∧ get_packet_from_connection sample_env pc
        = some { packet := none, ptype := none, pc := pc })
    ∧ (let pc := sample_connection true [1, 0, 50]
       3 ≤ pc.buffer.ndata ∧ declared_length pc = 1
       ∧ sample_env.registry (header_type pc) = some receive_fn.receive_packet_diplomacy_info
       ∧ (get_packet_from_connection sample_env pc).map (fun r => held r.pc.buffer)
          = some [1, 50]
       ∧ (held pc.buffer).drop 1 = [0, 50])
    ∧ (let pc := sample_connection false [0, 3, 61]
       3 ≤ pc.buffer.ndata ∧ declared_length pc = 3
       ∧ sample_env.registry (header_type pc) = some receive_fn.receive_packet_ruleset_tech
       ∧ get_packet_from_connection sample_env pc = none) := by
  decide

theorem to_int_to_unsigned_bytes (v : Int) (h : is_int32 v) :
    to_int (to_unsigned v / 16777216 % 256 * 16777216 + to_unsigned v / 65536 % 256 * 65536
      + to_unsigned v / 256 % 256 * 256 + to_unsigned v % 256) = v := by
  unfold is_int32 at h
  unfold to_int to_unsigned
  generalize hx : (v % 4294967296).toNat = x
  have hx' : (x : Int) = v % 4294967296 := by omega
  have hlt : x < 4294967296 := by omega
  have e : x / 16777216 % 256 * 16777216 + x / 65536 % 256 * 65536
      + x / 256 % 256 * 256 + x % 256 = x := by omega
  rw [e]
  have e2 : x % 4294967296 = x := by omega
  rw [e2]
  split_ifs <;> omega

theorem send_packet_diplomacy_info_bytes (pt : Int) (packet : packet_diplomacy_info) :
    send_packet_diplomacy_info pt packet
      = [0, 23, (pt % 256).toNat] ++ put_uint32 packet.plrno0 ++ put_uint32 packet.plrno1
        ++ put_uint32 packet.plrno_from ++ put_uint32 packet.clause_type
        ++ put_uint32 packet.value := by
  simp [send_packet_diplomacy_info, put_uint8, put_uint16, put_uint32]

theorem receive_diplomacy_info_of_sent (pc : connection) (pt : Int)
    (packet : packet_diplomacy_info) (rest : List Nat)
    (hswap : pc.byte_swap = false) (hpt0 : 0 ≤ pt) (hpt1 : pt < 256)
    (h0 : is_int32 packet.plrno0) (h1 : is_int32 packet.plrno1)
    (h2 : is_int32 packet.plrno_from) (h3 : is_int32 packet.clause_type)
    (h4 : is_int32 packet.value)
    (hbuf : pc.buffer = { ndata := 23, data := send_packet_diplomacy_info pt packet ++ rest }) :
    receive_packet_diplomacy_info pc
      = some (packet,
          { len := 23, type := pt, base := send_packet_diplomacy_info pt packet ++ rest,
            ptr := 23, swap_bytes := false, short_packet := false, bad_string := false,
            bad_bit_string := false },
          { pc with
            buffer := { ndata := 0, data := send_packet_diplomacy_info pt packet ++ rest } }) := by
  have e0 := to_int_to_unsigned_bytes _ h0
  have e1 := to_int_to_unsigned_bytes _ h1
  have e2 := to_int_to_unsigned_bytes _ h2
  have e3 := to_int_to_unsigned_bytes _ h3
  have e4 := to_int_to_unsigned_bytes _ h4
  lift pt to Nat using hpt0
  have hpt : pt < 256 := by omega
  unfold receive_packet_diplomacy_info pack_iter_init
  rw [hbuf, send_packet_diplomacy_info_bytes]
  simp [iget_uint32, pack_iter_remaining, get_uint32, get_uint16, get_uint8, peek, put_uint32,
    hswap, remove_packet_from_buffer, e0, e1, e2, e3, e4, Nat.mod_eq_of_lt hpt]
  rw [max_eq_left (by omega)]
  omega


/-- C2, as the code has it. The bytes `send_packet_diplomacy_info` writes for
a struct of five 32-bit values, under a type code `pt` of a diplomacy packet,
placed in the empty buffer of a connection in use that is not in byte-swap
mode: `get_packet_from_connection` returns a struct with the same five
values and the type code `pt`, and leaves the buffer empty; the cursor the
decoder ends with has consumed the whole packet and has no flag set.
`rest` is whatever the buffer array holds behind the bytes placed. -/
theorem diplomacy_info_round_trip (E : env) (pc : connection) (pt : Int)
    (info : packet_diplomacy_info) (rest : List Nat)
    (hu : pc.used = true) (hswap : pc.byte_swap = false)
    (hpt0 : 0 ≤ pt) (hpt1 : pt < 256)
    (hreg : E.registry pt = some receive_fn.receive_packet_diplomacy_info)
    (h0 : is_int32 info.plrno0) (h1 : is_int32 info.plrno1)
    (h2 : is_int32 info.plrno_from) (h3 : is_int32 info.clause_type)
    (h4 : is_int32 info.value)
    (hbuf : pc.buffer
      = { ndata := (send_packet_diplomacy_info pt info).length
          data := send_packet_diplomacy_info pt info ++ rest }) :
    ∃ r iter, get_packet_from_connection E pc = some r
      ∧ r.packet = some (packet.diplomacy_info info) ∧ r.ptype = some pt
      ∧ r.pc.buffer.ndata = 0 ∧ held r.pc.buffer = []
      ∧ receive_packet_diplomacy_info (dispatched pc) = some (info, iter, r.pc)
      ∧ pack_iter_remaining iter = 0 ∧ iter.short_packet = false
      ∧ iter.bad_string = false ∧ iter.bad_bit_string = false := by
  have hlen : (send_packet_diplomacy_info pt info).length = 23 := by
    rw [send_packet_diplomacy_info_bytes]; simp [put_uint32]
  rw [hlen] at hbuf
  have hhl : header_len pc = 23 := by
    unfold header_len
    rw [hbuf, send_packet_diplomacy_info_bytes]
    simp [get_uint16, peek]
  have hht : header_type pc = pt := by
    unfold header_type
    rw [hbuf, send_packet_diplomacy_info_bytes]
    simp only [get_uint8, peek, List.cons_append, List.getD_cons_succ, List.getD_cons_zero]
    omega
  have hrs : resolved_byte_swap pc = false := by
    unfold resolved_byte_swap
    rw [hhl, hswap]
    split_ifs <;> decide
  have hdl : declared_length pc = 23 := by
    unfold declared_length
    rw [hrs, hhl]
    rfl
  have hd := dispatched_fields pc
  have hdb : (dispatched pc).buffer = pc.buffer := by
    unfold dispatched
    have := byte_order_resolved_swap pc
    unfold byte_order_resolved at this
    rw [hrs] at this
    simp only [this, Bool.false_eq_true, if_false]
    split_ifs <;> rfl
  have hrecv := receive_diplomacy_info_of_sent (dispatched pc) pt info rest
    (by rw [hd.2.2.2.1, hrs]) hpt0 hpt1 h0 h1 h2 h3 h4 (by rw [hdb, hbuf])
  rw [get_packet_complete_eq E pc hu (by simp [hbuf]) (by simp [hdl, hbuf])]
  rw [hht]
  simp only [hreg, receive, hrecv, Option.map_some']
  refine ⟨_, _, rfl, rfl, rfl, rfl, ?_, rfl, rfl, rfl, rfl, rfl⟩
  simp [held]

theorem diplomacy_info_round_trip_witness :
    (sample_connection false
        (send_packet_diplomacy_info 50 ⟨-1, 5, 70000, -2147483648, 2147483647⟩)).used = true
    ∧ (sample_connection false
        (send_packet_diplomacy_info 50 ⟨-1, 5, 70000, -2147483648, 2147483647⟩)).byte_swap = false
    ∧ (0 : Int) ≤ 50 ∧ (50 : Int) < 256
    ∧ sample_env.registry 50 = some receive_fn.receive_packet_diplomacy_info
    ∧ is_int32 (-1) ∧ is_int32 5 ∧ is_int32 70000 ∧ is_int32 (-2147483648)
    ∧ is_int32 2147483647
    ∧ ∃ r iter, get_packet_from_connection sample_env
          (sample_connection false
            (send_packet_diplomacy_info 50 ⟨-1, 5, 70000, -2147483648, 2147483647⟩)) = some r
      ∧ r.packet = some (packet.diplomacy_info ⟨-1, 5, 70000, -2147483648, 2147483647⟩)
      ∧ r.ptype = some 50
      ∧ r.pc.buffer.ndata = 0 ∧ held r.pc.buffer = []
      ∧ receive_packet_diplomacy_info
          (dispatched (sample_connection false
            (send_packet_diplomacy_info 50 ⟨-1, 5, 70000, -2147483648, 2147483647⟩)))
          = some (⟨-1, 5, 70000, -2147483648, 2147483647⟩, iter, r.pc)
      ∧ pack_iter_remaining iter = 0 ∧ iter.short_packet = false
      ∧ iter.bad_string = false ∧ iter.bad_bit_string = false :=
  ⟨rfl, rfl, by decide, by decide, by decide, by unfold is_int32; decide,
    by unfold is_int32; decide, by unfold is_int32; decide, by unfold is_int32; decide,
    by unfold is_int32; decide,
    diplomacy_info_round_trip sample_env
      (sample_connection false
        (send_packet_diplomacy_info 50 ⟨-1, 5, 70000, -2147483648, 2147483647⟩))
      50 ⟨-1, 5, 70000, -2147483648, 2147483647⟩ []
      rfl rfl (by decide) (by decide) (by decide) (by unfold is_int32; decide)
      (by unfold is_int32; decide) (by unfold is_int32; decide) (by unfold is_int32; decide)
      (by unfold is_int32; decide) (by simp [sample_connection])⟩

/-- C2 as stated fails on a closed connection (`used` = 0) that is not in
byte-swap mode: with the 23 bytes written by `send_packet_diplomacy_info` for
the fields 1, 2, 3, 4, 5 under type code 50 in its buffer,
`get_packet_from_connection` returns `NULL` and leaves the 23 bytes in the
buffer. -/
theorem diplomacy_info_round_trip_closed :
    let pc : connection :=
      { used := false, first_packet := false, byte_swap := false
        buffer := { ndata := 23, data := send_packet_diplomacy_info 50 ⟨1, 2, 3, 4, 5⟩ }
        capability := [] }
    (send_packet_diplomacy_info 50 ⟨1, 2, 3, 4, 5⟩).length = 23
    ∧ sample_env.registry 50 = some receive_fn.receive_packet_diplomacy_info
    ∧ get_packet_from_connection sample_env pc
        = some { packet := none, ptype := none, pc := pc }
    ∧ pc.buffer.ndata = 23 := by
  decide

/-! ## Assertions and bounds the decoders miss -/

/-- C6 fails on the code. A technology ruleset packet cut right after its
header (`00 03 3D`), and one whose name has no terminator
(`00 0B 3D 01 02 03 00 00 00 00 41`): after the fields before the help text
the cursor is short, `pack_iter_remaining` is -1, and this -1 is the
capacity `receive_packet_ruleset_tech` passes to `iget_string`, whose
assertion `navail > 0` fails. -/
theorem ruleset_tech_helptext_capacity :
    (let pc := sample_connection false [0, 3, 61]
     ((pack_iter_init pc).bind fun iter =>
        (receive_packet_ruleset_tech_fields freeciv_header iter).map fun r =>
          (pack_iter_remaining r.2, iget_string r.2 (pack_iter_remaining r.2)))
        = some (-1, none)
     ∧ receive_packet_ruleset_tech freeciv_header pc = none)
    ∧ (let pc := sample_connection false [0, 11, 61, 1, 2, 3, 0, 0, 0, 0, 65]
       ((pack_iter_init pc).bind fun iter =>
          (receive_packet_ruleset_tech_fields freeciv_header iter).map fun r =>
            (pack_iter_remaining r.2, iget_string r.2 (pack_iter_remaining r.2)))
          = some (-1, none)
       ∧ receive_packet_ruleset_tech freeciv_header pc = none) := by
  decide

/-- The number of elements `receive_packet_ruleset_nation` stores in
`leader_name` and in `leader_sex` is the `leader_count` byte of the packet,
whatever it is. -/
theorem ruleset_nation_leaders_length (H : header) (leader_count : Int) (fuel i : Nat)
    (iter : pack_iter) (h : 0 < H.MAX_LEN_NAME) :
    ∃ r, receive_packet_ruleset_nation_leaders H leader_count fuel i iter = some r
      ∧ r.1.length = min fuel (leader_count - (i : Int)).toNat := by
  induction fuel generalizing i iter with
  | zero => exact ⟨_, rfl, by simp⟩
  | succ n ih =>
    unfold receive_packet_ruleset_nation_leaders
    by_cases hi : (i : Int) < leader_count
    · rw [if_pos hi]
      obtain ⟨r1, hr1⟩ := iget_string_some iter H.MAX_LEN_NAME h
      obtain ⟨rest, hrest, hlen⟩ := ih (i + 1) (iget_uint8 r1.2).2
      simp only [hr1, hrest]
      refine ⟨_, rfl, ?_⟩
      simp only [List.length_cons, hlen]
      omega
    · rw [if_neg hi]
      refine ⟨_, rfl, ?_⟩
      simp only [List.length_nil]
      omega

set_option maxRecDepth 100000 in
/-- C7 fails on the code. The nation ruleset packet `00 09 44 01 00 00 00 00
FF`: id 1, four empty strings, `leader_count` 255.  The loop of
`receive_packet_ruleset_nation` runs 255 times and stores at
`leader_name[i]` and `leader_sex[i]` for every `i` below 255, past the
`MAX_NUM_LEADERS` = 16 elements of the arrays. -/
theorem ruleset_nation_leader_count_unchecked :
    (receive_packet_ruleset_nation freeciv_header
        (sample_connection false [0, 9, 68, 1, 0, 0, 0, 0, 255])).map
      (fun r => (r.1.leader_count, r.1.leader_name.length, r.1.leader_sex.length))
      = some (255, 255, 255)
    ∧ freeciv_header.MAX_NUM_LEADERS = 16 := by
  decide

/-- C8 fails on the code. A cursor at offset 3 of the packet `00 05 07 41 42`
(declared length 5, the buffer holding exactly these 5 bytes, no `00` in
the payload): the scan of `iget_string` evaluates `*c` at the offsets 3, 4
and 5.  Offset 5 is the declared length and the length of the buffer. -/
theorem iget_string_scan_reads_offset_len :
    let piter : pack_iter :=
      { len := 5, type := 7, base := [0, 5, 7, 65, 66], ptr := 3, swap_bytes := false,
        short_packet := false, bad_string := false, bad_bit_string := false }
    1 ≤ pack_iter_remaining piter
    ∧ (iget_string_c piter).2 = [3, 4, 5]
    ∧ ¬ ((5 : Int) < piter.len) ∧ ¬ (5 < piter.base.length) := by
  decide

/-- Whenever the bytes from the read offset to the declared length hold no
terminator, the scan of `iget_string` evaluates `*c` at offset `len`. -/
theorem iget_string_scan_unterminated (piter : pack_iter)
    (hrem : 1 ≤ pack_iter_remaining piter)
    (hno : ∀ k, piter.ptr ≤ k → (k : Int) < piter.len → peek piter.base k ≠ 0) :
    piter.len.toNat ∈ (iget_string_c piter).2 := by
  obtain ⟨c1, c2, c3, c4, c5⟩ := iget_string_c_spec piter
  have hs : piter.short_packet = false := by
    unfold pack_iter_remaining at hrem
    by_contra hc
    simp only [Bool.not_eq_false] at hc
    simp [hc] at hrem
  unfold pack_iter_remaining at hrem
  simp only [hs, Bool.false_eq_true, if_false] at hrem
  have hle := c2 (by omega)
  have hc : ((iget_string_c piter).1 : Int) = piter.len := by
    by_contra hne
    have hlt : ((iget_string_c piter).1 : Int) < piter.len := by omega
    exact hno _ c1 hlt (c4 hlt)
  rw [c5, List.mem_range']
  refine ⟨piter.len.toNat - piter.ptr, by omega, by omega⟩

/-! ## What each read consumes -/

theorem remaining_not_short (p : pack_iter) (n : Int) (hn : 0 ≤ n)
    (h : n ≤ pack_iter_remaining p) :
    p.short_packet = false ∧ pack_iter_remaining p = p.len - (p.ptr : Int) := by
  unfold pack_iter_remaining at h ⊢
  by_cases hs : p.short_packet = true
  · simp only [hs, if_true] at h; omega
  · simp only [Bool.not_eq_true] at hs
    simp [hs]

theorem iget_uint8_short (p : pack_iter) (h : pack_iter_remaining p < 1) :
    iget_uint8 p = (0, { p with short_packet := true }) := by
  unfold iget_uint8; rw [if_pos h]

theorem iget_uint8_value (p : pack_iter) (h : 1 ≤ pack_iter_remaining p) :
    iget_uint8 p = (((peek p.base p.ptr : Nat) : Int), { p with ptr := p.ptr + 1 }) := by
  unfold iget_uint8; rw [if_neg (by omega)]; rfl

theorem iget_uint16_short (p : pack_iter) (h : pack_iter_remaining p < 2) :
    iget_uint16 p = (0, { p with short_packet := true }) := by
  unfold iget_uint16; rw [if_pos h]

theorem iget_sint16_short (p : pack_iter) (h : pack_iter_remaining p < 2) :
    iget_sint16 p = (0, { p with short_packet := true }) := by
  unfold iget_sint16; rw [if_pos h]

theorem iget_uint32_short (p : pack_iter) (h : pack_iter_remaining p < 4) :
    iget_uint32 p = (0, { p with short_packet := true }) := by
  unfold iget_uint32; rw [if_pos h]

theorem iget_uint16_value (p : pack_iter) (h : 2 ≤ pack_iter_remaining p) :
    iget_uint16 p
      = ((if p.swap_bytes then ((peek p.base (p.ptr + 1) * 256 + peek p.base p.ptr : Nat) : Int)
          else ((peek p.base p.ptr * 256 + peek p.base (p.ptr + 1) : Nat) : Int)),
        { p with ptr := p.ptr + 2 }) := by
  unfold iget_uint16
  rw [if_neg (by omega)]
  have h0 := peek_lt p.base p.ptr
  have h1 := peek_lt p.base (p.ptr + 1)
  by_cases hs : p.swap_bytes = true
  · simp only [hs, if_true, get_uint16]
    rw [swab_puint16_eq _ (by omega) (by omega), Int.toNat_ofNat]
    have e1 : (peek p.base p.ptr * 256 + peek p.base (p.ptr + 1)) % 256
        = peek p.base (p.ptr + 1) := by omega
    have e2 : (peek p.base p.ptr * 256 + peek p.base (p.ptr + 1)) / 256
        = peek p.base p.ptr := by omega
    rw [e1, e2]
  · simp only [hs, if_false, Bool.false_eq_true, get_uint16]

theorem to_unsigned_to_int (x : Nat) (h : x < 4294967296) : to_unsigned (to_int x) = x := by
  unfold to_unsigned to_int
  split_ifs <;> omega

theorem swab_puint32_to_int (a b c d : Nat) (ha : a < 256) (hb : b < 256) (hc : c < 256)
    (hd : d < 256) :
    swab_puint32 (to_int (a * 16777216 + b * 65536 + c * 256 + d))
      = to_int (d * 16777216 + c * 65536 + b * 256 + a) := by
  have key : ∀ val : Nat, val = a * 16777216 + b * 65536 + c * 256 + d →
      val % 256 * 16777216 + val / 256 % 256 * 65536 + val / 65536 % 256 * 256
        + val / 16777216 % 256 = d * 16777216 + c * 65536 + b * 256 + a := by
    intro val hval
    omega
  unfold swab_puint32
  rw [to_unsigned_to_int _ (by omega), swab_uint32_eq, key _ rfl]

theorem iget_uint32_value (p : pack_iter) (h : 4 ≤ pack_iter_remaining p) :
    iget_uint32 p
      = ((if p.swap_bytes then
            to_int (peek p.base (p.ptr + 3) * 16777216 + peek p.base (p.ptr + 2) * 65536
              + peek p.base (p.ptr + 1) * 256 + peek p.base p.ptr)
          else
            to_int (peek p.base p.ptr * 16777216 + peek p.base (p.ptr + 1) * 65536
              + peek p.base (p.ptr + 2) * 256 + peek p.base (p.ptr + 3))),
        { p with ptr := p.ptr + 4 }) := by
  unfold iget_uint32
  rw [if_neg (by omega)]
  by_cases hs : p.swap_bytes = true
  · simp only [hs, if_true, get_uint32]
    rw [swab_puint32_to_int _ _ _ _ (peek_lt _ _) (peek_lt _ _) (peek_lt _ _) (peek_lt _ _)]
  · simp only [hs, if_false, Bool.false_eq_true, get_uint32]

/-- C4. For `iget_uint8`, `iget_uint16` and `iget_uint32` (widths 1, 2, 4)
and every cursor: a cursor that is already short has `pack_iter_remaining`
-1; with fewer than the width remaining the operation sets `short_packet`,
yields 0 and leaves the read offset (and everything else) as it was;
otherwise it yields the value of the bytes at the read offset (in network
order, or byte-reversed when `swap_bytes` is set; a 32-bit value as an
`int`), advances the read offset by exactly the width and leaves
`short_packet` clear. -/
theorem iget_uint_short_or_value (p : pack_iter) :
    (p.short_packet = true → pack_iter_remaining p = -1)
    ∧ (pack_iter_remaining p < 1 → iget_uint8 p = (0, { p with short_packet := true }))
    ∧ (1 ≤ pack_iter_remaining p →
        iget_uint8 p = (((peek p.base p.ptr : Nat) : Int), { p with ptr := p.ptr + 1 })
        ∧ (iget_uint8 p).2.short_packet = false)
    ∧ (pack_iter_remaining p < 2 → iget_uint16 p = (0, { p with short_packet := true }))
    ∧ (2 ≤ pack_iter_remaining p →
        iget_uint16 p
          = ((if p.swap_bytes then
                ((peek p.base (p.ptr + 1) * 256 + peek p.base p.ptr : Nat) : Int)
              else ((peek p.base p.ptr * 256 + peek p.base (p.ptr + 1) : Nat) : Int)),
            { p with ptr := p.ptr + 2 })
        ∧ (iget_uint16 p).2.short_packet = false)
    ∧ (pack_iter_remaining p < 4 → iget_uint32 p = (0, { p with short_packet := true }))
    ∧ (4 ≤ pack_iter_remaining p →
        iget_uint32 p
          = ((if p.swap_bytes then
                to_int (peek p.base (p.ptr + 3) * 16777216 + peek p.base (p.ptr + 2) * 65536
                  + peek p.base (p.ptr + 1) * 256 + peek p.base p.ptr)
              else
                to_int (peek p.base p.ptr * 16777216 + peek p.base (p.ptr + 1) * 65536
                  + peek p.base (p.ptr + 2) * 256 + peek p.base (p.ptr + 3))),
            { p with ptr := p.ptr + 4 })
        ∧ (iget_uint32 p).2.short_packet = false) := by
  refine ⟨?_, iget_uint8_short p, ?_, iget_uint16_short p, ?_, iget_uint32_short p, ?_⟩
  · intro h
    unfold pack_iter_remaining
    rw [if_pos h]
  · intro h
    refine ⟨iget_uint8_value p h, ?_⟩
    rw [iget_uint8_value p h]
    exact (remaining_not_short p 1 (by omega) h).1
  · intro h
    refine ⟨iget_uint16_value p h, ?_⟩
    rw [iget_uint16_value p h]
    exact (remaining_not_short p 2 (by omega) h).1
  · intro h
    refine ⟨iget_uint32_value p h, ?_⟩
    rw [iget_uint32_value p h]
    exact (remaining_not_short p 4 (by omega) h).1

theorem iget_uint_short_or_value_witness :
    ((sample_cursor 2 [0, 2] false).short_packet = true
      ∧ pack_iter_remaining (sample_cursor 2 [0, 2] false) = -1
      ∧ iget_uint8 (sample_cursor 2 [0, 2] false)
          = (0, { sample_cursor 2 [0, 2] false with short_packet := true })
      ∧ iget_uint16 (sample_cursor 2 [0, 2] false)
          = (0, { sample_cursor 2 [0, 2] false with short_packet := true })
      ∧ iget_uint32 (sample_cursor 2 [0, 2] false)
          = (0, { sample_cursor 2 [0, 2] false with short_packet := true }))
    ∧ (4 ≤ pack_iter_remaining (sample_cursor 7 [0, 7, 7, 1, 2, 3, 4] true)
      ∧ (iget_uint8 (sample_cursor 7 [0, 7, 7, 1, 2, 3, 4] true)).1 = 1
      ∧ (iget_uint16 (sample_cursor 7 [0, 7, 7, 1, 2, 3, 4] true)).1 = 513
      ∧ (iget_uint32 (sample_cursor 7 [0, 7, 7, 1, 2, 3, 4] true)).1 = 67305985
      ∧ (iget_uint32 (sample_cursor 7 [0, 7, 7, 1, 2, 3, 4] true)).2.ptr = 7
      ∧ (iget_uint32 (sample_cursor 7 [0, 7, 7, 1, 2, 3, 4] true)).2.short_packet = false) :=
  have a := iget_uint_short_or_value (sample_cursor 2 [0, 2] false)
  have b := iget_uint_short_or_value (sample_cursor 7 [0, 7, 7, 1, 2, 3, 4] true)
  have hb : 4 ≤ pack_iter_remaining (sample_cursor 7 [0, 7, 7, 1, 2, 3, 4] true) := by decide
  ⟨⟨rfl, a.1 rfl, a.2.1 (by decide), a.2.2.2.1 (by decide), a.2.2.2.2.2.1 (by decide)⟩,
    hb, (congrArg Prod.fst (b.2.2.1 (by decide)).1).trans (by decide),
    (congrArg Prod.fst (b.2.2.2.2.1 (by decide)).1).trans (by decide),
    (congrArg Prod.fst (b.2.2.2.2.2.2 hb).1).trans (by decide),
    (congrArg (fun r => r.2.ptr) (b.2.2.2.2.2.2 hb).1).trans (by decide),
    (b.2.2.2.2.2.2 hb).2⟩

/-! ## Reads that run short, and reads that do not -/

theorem iget_uint8_consumed (p : pack_iter) (h : (iget_uint8 p).2.short_packet = false) :
    (iget_uint8 p).2.ptr = p.ptr + 1 := by
  by_cases h1 : pack_iter_remaining p < 1
  · rw [iget_uint8_short p h1] at h
    simp at h
  · rw [iget_uint8_value p (by omega)]

theorem iget_uint16_consumed (p : pack_iter) (h : (iget_uint16 p).2.short_packet = false) :
    (iget_uint16 p).2.ptr = p.ptr + 2 := by
  by_cases h1 : pack_iter_remaining p < 2
  · rw [iget_uint16_short p h1] at h
    simp at h
  · rw [iget_uint16_value p (by omega)]

theorem cursor_step_not_short {p q : pack_iter} (h : cursor_step p q)
    (hq : q.short_packet = false) : p.short_packet = false := by
  by_contra hc
  simp only [Bool.not_eq_false] at hc
  have := (h.sticky hc).1
  rw [hq] at this
  exact Bool.noConfusion this

theorem iget_string_consumed (p : pack_iter) (navail : Int) (r : List Nat × pack_iter)
    (h : iget_string p navail = some r) (z : Nat) (hz : first_zero p.base p.ptr z) :
    ((z : Int) < p.len → p.short_packet = false →
        r.2.ptr = z + 1 ∧ r.2.short_packet = false)
    ∧ (p.len ≤ (z : Int) → r.2.short_packet = true ∧ r.2.ptr = p.ptr) := by
  obtain ⟨z1, z2, z3⟩ := hz
  obtain ⟨c1, c2, c3, c4, -⟩ := iget_string_c_spec p
  unfold iget_string at h
  split_ifs at h with h1 h2
  · simp only [Option.some.injEq] at h
    subst h
    refine ⟨?_, fun _ => ⟨rfl, rfl⟩⟩
    intro hlt hs
    exfalso
    unfold pack_iter_remaining at h2
    simp only [hs, Bool.false_eq_true, if_false] at h2
    omega
  · simp only [Option.some.injEq] at h
    subst h
    obtain ⟨hs, hr⟩ := remaining_not_short p 1 (by omega) (by omega)
    rw [hr] at h2
    have hcz : (iget_string_c p).1 ≤ z := by
      by_contra hgt
      exact c3 z z1 (by omega) z2
    have hle := c2 (by omega)
    constructor
    · intro hlt _
      have hclt : ((iget_string_c p).1 : Int) < p.len := by omega
      have hzc : z ≤ (iget_string_c p).1 := by
        by_contra hgt
        exact z3 _ c1 (by omega) (c4 hclt)
      have hc : (iget_string_c p).1 = z := by omega
      have hu : ¬ (((iget_string_c p).1 : Int) ≥ p.len) := by omega
      simp only [hu, decide_False, Bool.false_eq_true, if_false]
      have hadv : p.ptr + ((z : Int) - (p.ptr : Int) + 1).toNat = z + 1 := by omega
      split_ifs <;> simp_all
    · intro hge
      have hc : ((iget_string_c p).1 : Int) ≥ p.len := by
        by_contra hlt
        have hclt : ((iget_string_c p).1 : Int) < p.len := by omega
        have hzc : z ≤ (iget_string_c p).1 := by
          by_contra hgt
          exact z3 _ c1 (by omega) (c4 hclt)
        omega
      simp only [hc, decide_True, if_true]
      split_ifs <;> simp_all

theorem iget_bit_string_loop_consumed (npack navail fuel i : Nat) (p : pack_iter)
    (hfuel : (npack - i + 7) / 8 ≤ fuel)
    (h : (iget_bit_string_loop npack navail fuel i p).2.short_packet = false) :
    (iget_bit_string_loop npack navail fuel i p).2.ptr = p.ptr + (npack - i + 7) / 8 := by
  induction fuel generalizing i p with
  | zero =>
    unfold iget_bit_string_loop
    simp only
    omega
  | succ n ih =>
    unfold iget_bit_string_loop at h ⊢
    dsimp only at h ⊢
    by_cases hi : i < npack
    · rw [if_pos hi] at h ⊢
      dsimp only at h ⊢
      have hmid := cursor_step_not_short
        (iget_bit_string_loop_step npack navail n (i + 8) (iget_uint8 p).2) h
      rw [ih (i + 8) (iget_uint8 p).2 (by omega) h, iget_uint8_consumed p hmid]
      omega
    · rw [if_neg hi]
      simp only
      omega

theorem iget_tech_list_from_consumed (A_LAST : Int) (n : Nat) (p : pack_iter)
    (h : (iget_tech_list_from A_LAST n p).2.short_packet = false) :
    (iget_tech_list_from A_LAST n p).2.ptr = p.ptr + tech_list_extent A_LAST p.base n p.ptr := by
  induction n generalizing p with
  | zero => rfl
  | succ n ih =>
    unfold iget_tech_list_from at h ⊢
    unfold tech_list_extent
    dsimp only at h ⊢
    have hstep := (iget_uint8_step p).1
    by_cases ha : (iget_uint8 p).1 = A_LAST
    · rw [if_pos ha] at h ⊢
      dsimp only at h ⊢
      have hp := cursor_step_not_short hstep h
      have hv := iget_uint8_value p (by
        unfold pack_iter_remaining
        by_contra hc
        have := iget_uint8_short p (by unfold pack_iter_remaining; omega)
        rw [this] at h
        simp at h)
      rw [hv] at ha
      rw [if_pos ha, iget_uint8_consumed p h]
    · rw [if_neg ha] at h ⊢
      dsimp only at h ⊢
      have hmid := cursor_step_not_short (iget_tech_list_from_step A_LAST n (iget_uint8 p).2) h
      have hv := iget_uint8_value p (by
        unfold pack_iter_remaining
        by_contra hc
        have := iget_uint8_short p (by unfold pack_iter_remaining; omega)
        rw [this] at hmid
        simp at hmid)
      have ha' : ¬ ((peek p.base p.ptr : Nat) : Int) = A_LAST := by
        rw [hv] at ha; exact ha
      rw [if_neg ha', ih (iget_uint8 p).2 h, iget_uint8_consumed p hmid]
      have hb := hstep.base_eq
      rw [hb]
      omega

theorem iget_worklist_slot_consumed (H : header) (pc : connection) (p : pack_iter)
    (h : (iget_worklist_slot H pc p).2.short_packet = false) :
    (iget_worklist_slot H pc p).2.ptr = p.ptr + 2 := by
  unfold iget_worklist_slot at h ⊢
  dsimp only at h ⊢
  split_ifs at h ⊢
  · exact iget_uint16_consumed p h
  · exact iget_uint16_consumed p h
  · exact iget_uint16_consumed p h
  · have hmid := cursor_step_not_short (iget_uint8_step (iget_uint8 p).2).1 h
    rw [iget_uint8_consumed _ h, iget_uint8_consumed p hmid]

theorem iget_worklist_slots_consumed (H : header) (pc : connection) (n : Nat) (p : pack_iter)
    (h : (iget_worklist_slots H pc n p).2.short_packet = false) :
    (iget_worklist_slots H pc n p).2.ptr = p.ptr + 2 * n := by
  induction n generalizing p with
  | zero => rfl
  | succ n ih =>
    unfold iget_worklist_slots at h ⊢
    dsimp only at h ⊢
    have hmid := cursor_step_not_short (iget_worklist_slots_step H pc n _) h
    rw [ih _ h, iget_worklist_slot_consumed H pc p hmid]
    omega

theorem stays_short_of_step {p q : pack_iter} (h : cursor_step p q)
    (hs : p.short_packet = true) : stays_short p q := by
  obtain ⟨h1, h2⟩ := h.sticky hs
  refine ⟨h1, ?_, h2⟩
  unfold pack_iter_remaining
  rw [if_pos h1]

/-- C5. `short_packet` is sticky: on a cursor in which it is set, after every
read operation it is still set, `pack_iter_remaining` is still -1 and the
read offset is where it was.  The string operations are called with the
capacity their assertions ask for, and then return. -/
theorem short_packet_sticky (H : header) (pc : connection) (p : pack_iter) (stop : Int)
    (navail_string navail_bits navail_map : Int) (hshort : p.short_packet = true)
    (hs : 0 < navail_string) (hb : 0 < navail_bits) (hm : 26 ≤ navail_map)
    (hn : 0 < H.MAX_LEN_NAME) :
    stays_short p (iget_uint8 p).2 ∧ stays_short p (iget_uint16 p).2
    ∧ stays_short p (iget_sint16 p).2 ∧ stays_short p (iget_uint32 p).2
    ∧ stays_short p (iget_uint8_vec8 p stop).2 ∧ stays_short p (iget_uint16_vec8 p stop).2
    ∧ (∃ r, iget_string p navail_string = some r ∧ stays_short p r.2)
    ∧ (∃ r, iget_bit_string p navail_bits = some r ∧ stays_short p r.2)
    ∧ (∃ r, iget_city_map p navail_map = some r ∧ stays_short p r.2)
    ∧ stays_short p (iget_tech_list H.MAX_NUM_TECH_LIST H.A_LAST p).2
    ∧ (∃ r, iget_worklist H p pc = some r ∧ stays_short p r.2) := by
  obtain ⟨r1, h1⟩ := iget_string_some p navail_string hs
  obtain ⟨r2, h2⟩ := iget_bit_string_some p navail_bits hb
  obtain ⟨r3, h3⟩ := iget_city_map_some p navail_map hm
  obtain ⟨r4, h4⟩ := iget_worklist_some H p pc hn
  exact ⟨stays_short_of_step (iget_uint8_step p).1 hshort,
    stays_short_of_step (iget_uint16_step p).1 hshort,
    stays_short_of_step (iget_sint16_step p).1 hshort,
    stays_short_of_step (iget_uint32_step p).1 hshort,
    stays_short_of_step (iget_uint8_vec8_step p stop).1 hshort,
    stays_short_of_step (iget_uint16_vec8_step p stop).1 hshort,
    ⟨r1, h1, stays_short_of_step (iget_string_step p _ r1 h1).1 hshort⟩,
    ⟨r2, h2, stays_short_of_step (iget_bit_string_step p _ r2 h2) hshort⟩,
    ⟨r3, h3, stays_short_of_step (iget_city_map_step p _ r3 h3).1 hshort⟩,
    stays_short_of_step (iget_tech_list_step _ _ p) hshort,
    ⟨r4, h4, stays_short_of_step (iget_worklist_step H p pc r4 h4) hshort⟩⟩

theorem short_packet_sticky_witness :
    (sample_cursor 2 [0, 2, 7, 1, 2, 3, 4] false).short_packet = true
    ∧ (0 : Int) < 32 ∧ (0 : Int) < 90 ∧ (26 : Int) ≤ 26 ∧ 0 < freeciv_header.MAX_LEN_NAME
    ∧ stays_short (sample_cursor 2 [0, 2, 7, 1, 2, 3, 4] false)
        (iget_uint8 (sample_cursor 2 [0, 2, 7, 1, 2, 3, 4] false)).2
    ∧ (∃ r, iget_string (sample_cursor 2 [0, 2, 7, 1, 2, 3, 4] false) 32 = some r
        ∧ stays_short (sample_cursor 2 [0, 2, 7, 1, 2, 3, 4] false) r.2)
    ∧ (∃ r, iget_worklist freeciv_header (sample_cursor 2 [0, 2, 7, 1, 2, 3, 4] false)
          (sample_connection false [0, 2, 7, 1, 2, 3, 4]) = some r
        ∧ stays_short (sample_cursor 2 [0, 2, 7, 1, 2, 3, 4] false) r.2) :=
  have h := short_packet_sticky freeciv_header (sample_connection false [0, 2, 7, 1, 2, 3, 4])
    (sample_cursor 2 [0, 2, 7, 1, 2, 3, 4] false) 255 32 90 26 rfl (by decide) (by decide)
    (by decide) (by decide)
  ⟨rfl, by decide, by decide, by decide, by decide, h.1, h.2.2.2.2.2.2.1,
    h.2.2.2.2.2.2.2.2.2.2⟩

theorem bounded_of_consumed {p q : pack_iter} (n : Nat) (hstep : cursor_step p q)
    (hwithin : (p.ptr : Int) ≤ p.len)
    (hcons : q.short_packet = false → q.ptr = p.ptr + n) : bounded_read p q n := by
  refine ⟨hstep.within hwithin, ?_⟩
  intro hrem
  by_contra hq
  simp only [Bool.not_eq_true] at hq
  have hp := cursor_step_not_short hstep hq
  have h1 := hstep.within hwithin
  rw [hcons hq] at h1
  unfold pack_iter_remaining at hrem
  simp only [hp, Bool.false_eq_true, if_false] at hrem
  push_cast at h1
  omega

theorem iget_sint16_consumed (p : pack_iter) (h : (iget_sint16 p).2.short_packet = false) :
    (iget_sint16 p).2.ptr = p.ptr + 2 := by
  unfold iget_sint16 at h ⊢
  by_cases h1 : pack_iter_remaining p < 2
  · rw [if_pos h1] at h
    simp at h
  · rw [if_neg h1]
    rfl

theorem iget_uint32_consumed (p : pack_iter) (h : (iget_uint32 p).2.short_packet = false) :
    (iget_uint32 p).2.ptr = p.ptr + 4 := by
  by_cases h1 : pack_iter_remaining p < 4
  · rw [iget_uint32_short p h1] at h
    simp at h
  · rw [iget_uint32_value p (by omega)]

theorem iget_uint8_vec8_consumed (p : pack_iter) (stop : Int)
    (h : (iget_uint8_vec8 p stop).2.short_packet = false) :
    (iget_uint8_vec8 p stop).2.ptr = p.ptr + (1 + peek p.base p.ptr) := by
  unfold iget_uint8_vec8 at h ⊢
  dsimp only at h ⊢
  split_ifs at h ⊢ with h1 h2
  simp [get_uint8_vec8, get_uint8, Nat.add_assoc]

theorem iget_uint16_vec8_consumed (p : pack_iter) (stop : Int)
    (h : (iget_uint16_vec8 p stop).2.short_packet = false) :
    (iget_uint16_vec8 p stop).2.ptr = p.ptr + (1 + 2 * peek p.base p.ptr) := by
  unfold iget_uint16_vec8 at h ⊢
  dsimp only at h ⊢
  split_ifs at h ⊢ with h1 h2
  simp [get_uint16_vec8, get_uint8, Nat.add_assoc]

theorem iget_city_map_consumed (p : pack_iter) (navail : Int) (r : List Nat × pack_iter)
    (h : iget_city_map p navail = some r) (hq : r.2.short_packet = false) :
    r.2.ptr = p.ptr + 4 := by
  unfold iget_city_map at h
  split_ifs at h with h1 h2
  · simp only [iget_city_map_round, if_true, Option.some.injEq] at h
    subst h
    simp at hq
  · have hs := (remaining_not_short p 4 (by omega) (by omega)).1
    simp only [iget_city_map_round, hs, Bool.false_eq_true, if_false, Option.some.injEq] at h
    subst h
    simp [Nat.add_assoc]

theorem iget_bit_string_consumed (p : pack_iter) (navail : Int) (r : List Nat × pack_iter)
    (h : iget_bit_string p navail = some r) (hq : r.2.short_packet = false) :
    r.2.ptr = p.ptr + (1 + (peek p.base p.ptr + 7) / 8) := by
  have hstep := iget_bit_string_step p navail r h
  have hp := cursor_step_not_short hstep hq
  unfold iget_bit_string at h
  dsimp only at h
  by_cases h0 : navail ≤ 0
  · rw [if_pos h0] at h
    exact absurd h (by simp)
  rw [if_neg h0] at h
  by_cases h1 : pack_iter_remaining p < 1
  · rw [if_pos h1] at h
    simp only [Option.some.injEq] at h
    subst h
    simp at hq
  rw [if_neg h1] at h
  have hv := iget_uint8_value p (by omega)
  have hb := peek_lt p.base p.ptr
  rw [hv] at h
  dsimp only at h
  by_cases h2 : ((peek p.base p.ptr : Nat) : Int) ≤ 0
  · rw [if_pos h2] at h
    simp only [Option.some.injEq] at h
    subst h
    have : peek p.base p.ptr = 0 := by omega
    simp [this]
  rw [if_neg h2] at h
  simp only [Int.toNat_ofNat, Option.some.injEq] at h
  have hloop : (iget_bit_string_loop (peek p.base p.ptr) navail.toNat (peek p.base p.ptr) 0
      { p with ptr := p.ptr + 1 }).2.short_packet = false := by
    subst h
    revert hq
    dsimp only
    split_ifs <;> simp_all
  have hc := iget_bit_string_loop_consumed (peek p.base p.ptr) navail.toNat (peek p.base p.ptr) 0
    { p with ptr := p.ptr + 1 } (by omega) hloop
  subst h
  dsimp only
  split_ifs <;> simp_all <;> omega

theorem iget_worklist_consumed (H : header) (p : pack_iter) (pc : connection)
    (r : worklist × pack_iter) (h : iget_worklist H p pc = some r) (zw : Nat)
    (hzw : first_zero p.base (p.ptr + 1) zw) (hq : r.2.short_packet = false) :
    r.2.ptr = p.ptr + (zw - p.ptr + 1 + 2 * H.MAX_LEN_WORKLIST) := by
  have hstep := iget_worklist_step H p pc r h
  have hp := cursor_step_not_short hstep hq
  unfold iget_worklist at h
  dsimp only at h
  cases hs : iget_string (iget_uint8 p).2 H.MAX_LEN_NAME with
  | none => simp [hs] at h
  | some r2 =>
    simp only [hs, Option.some.injEq] at h
    subst h
    dsimp only at hq ⊢
    have hslots := cursor_step_not_short (iget_worklist_slots_step H pc H.MAX_LEN_WORKLIST r2.2) hq
    have hstr := cursor_step_not_short (iget_string_step _ _ r2 hs).1 hslots
    have h1 := iget_uint8_consumed p hstr
    have hb := (iget_uint8_step p).1.base_eq
    have hl := (iget_uint8_step p).1.len_eq
    have hz' : first_zero (iget_uint8 p).2.base (iget_uint8 p).2.ptr zw := by
      rw [hb, h1]; exact hzw
    obtain ⟨c1, c2⟩ := iget_string_consumed _ _ r2 hs zw hz'
    have hzlt : (zw : Int) < p.len := by
      by_contra hge
      have := (c2 (by rw [hl]; omega)).1
      rw [hslots] at this
      exact Bool.noConfusion this
    have hptr := (c1 (by rw [hl]; exact hzlt) hstr).1
    rw [iget_worklist_slots_consumed H pc _ _ hq, hptr]
    have := hzw.1
    omega

/-! ## The read offset never passes the declared length -/

/-- C3, as the code has it. On a cursor whose read offset is at most `len`,
each read operation leaves the read offset at most `len`, and sets
`short_packet` when the bytes it needs are not all left before `len`
(`bounded_read`).  The fixed-width reads, the count-prefixed vectors,
`iget_string` and `iget_city_map` then do not advance (`all_or_nothing`).
`iget_bit_string`, `iget_tech_list` and `iget_worklist` read their field
piece by piece: nothing is said here about where below `len` they stop when
they run short.  A string needs the bytes up to its terminator, the byte at
`z`; the string operations are called with the capacity their assertions ask
for, and then return. -/
theorem reads_stay_within_len (H : header) (pc : connection) (p : pack_iter) (stop : Int)
    (navail_string navail_bits navail_map : Int)
    (hwithin : (p.ptr : Int) ≤ p.len)
    (hs : 0 < navail_string) (hb : 0 < navail_bits) (hm : 26 ≤ navail_map)
    (hn : 0 < H.MAX_LEN_NAME) :
    (bounded_read p (iget_uint8 p).2 1 ∧ all_or_nothing p (iget_uint8 p).2)
    ∧ (bounded_read p (iget_uint16 p).2 2 ∧ all_or_nothing p (iget_uint16 p).2)
    ∧ (bounded_read p (iget_sint16 p).2 2 ∧ all_or_nothing p (iget_sint16 p).2)
    ∧ (bounded_read p (iget_uint32 p).2 4 ∧ all_or_nothing p (iget_uint32 p).2)
    ∧ (bounded_read p (iget_uint8_vec8 p stop).2 ((1 + peek p.base p.ptr : Nat) : Int)
        ∧ all_or_nothing p (iget_uint8_vec8 p stop).2)
    ∧ (bounded_read p (iget_uint16_vec8 p stop).2 ((1 + 2 * peek p.base p.ptr : Nat) : Int)
        ∧ all_or_nothing p (iget_uint16_vec8 p stop).2)
    ∧ (∃ r, iget_string p navail_string = some r ∧ all_or_nothing p r.2
        ∧ ∀ z, first_zero p.base p.ptr z → bounded_read p r.2 ((z - p.ptr + 1 : Nat) : Int))
    ∧ (∃ r, iget_city_map p navail_map = some r
        ∧ bounded_read p r.2 4 ∧ all_or_nothing p r.2)
    ∧ (∃ r, iget_bit_string p navail_bits = some r
        ∧ bounded_read p r.2 ((1 + (peek p.base p.ptr + 7) / 8 : Nat) : Int))
    ∧ bounded_read p (iget_tech_list H.MAX_NUM_TECH_LIST H.A_LAST p).2
        ((tech_list_extent H.A_LAST p.base H.MAX_NUM_TECH_LIST p.ptr : Nat) : Int)
    ∧ (∃ r, iget_worklist H p pc = some r
        ∧ ∀ z, first_zero p.base (p.ptr + 1) z →
            bounded_read p r.2 ((z - p.ptr + 1 + 2 * H.MAX_LEN_WORKLIST : Nat) : Int)) := by
  obtain ⟨r1, h1⟩ := iget_string_some p navail_string hs
  obtain ⟨r2, h2⟩ := iget_bit_string_some p navail_bits hb
  obtain ⟨r3, h3⟩ := iget_city_map_some p navail_map hm
  obtain ⟨r4, h4⟩ := iget_worklist_some H p pc hn
  have hstr := iget_string_step p _ r1 h1
  have hmap := iget_city_map_step p _ r3 h3
  refine ⟨⟨?_, (iget_uint8_step p).2⟩, ⟨?_, (iget_uint16_step p).2⟩,
    ⟨?_, (iget_sint16_step p).2⟩, ⟨?_, (iget_uint32_step p).2⟩,
    ⟨?_, (iget_uint8_vec8_step p stop).2⟩, ⟨?_, (iget_uint16_vec8_step p stop).2⟩,
    ⟨r1, h1, hstr.2, ?_⟩, ⟨r3, h3, ?_, hmap.2⟩, ⟨r2, h2, ?_⟩, ?_, ⟨r4, h4, ?_⟩⟩
  · exact bounded_of_consumed 1 (iget_uint8_step p).1 hwithin (iget_uint8_consumed p)
  · exact bounded_of_consumed 2 (iget_uint16_step p).1 hwithin (iget_uint16_consumed p)
  · exact bounded_of_consumed 2 (iget_sint16_step p).1 hwithin (iget_sint16_consumed p)
  · exact bounded_of_consumed 4 (iget_uint32_step p).1 hwithin (iget_uint32_consumed p)
  · exact bounded_of_consumed _ (iget_uint8_vec8_step p stop).1 hwithin
      (iget_uint8_vec8_consumed p stop)
  · exact bounded_of_consumed _ (iget_uint16_vec8_step p stop).1 hwithin
      (iget_uint16_vec8_consumed p stop)
  · intro z hz
    refine bounded_of_consumed _ hstr.1 hwithin ?_
    intro hq
    have hp := cursor_step_not_short hstr.1 hq
    obtain ⟨c1, c2⟩ := iget_string_consumed p _ r1 h1 z hz
    by_cases hlt : (z : Int) < p.len
    · rw [(c1 hlt hp).1]
      have := hz.1
      omega
    · have := (c2 (by omega)).1
      rw [hq] at this
      exact Bool.noConfusion this
  · exact bounded_of_consumed 4 hmap.1 hwithin (iget_city_map_consumed p _ r3 h3)
  · exact bounded_of_consumed _ (iget_bit_string_step p _ r2 h2) hwithin
      (iget_bit_string_consumed p _ r2 h2)
  · exact bounded_of_consumed _ (iget_tech_list_step _ _ p) hwithin
      (iget_tech_list_from_consumed _ _ p)
  · intro z hz
    exact bounded_of_consumed _ (iget_worklist_step H p pc r4 h4) hwithin
      (iget_worklist_consumed H p pc r4 h4 z hz)

theorem reads_stay_within_len_witness :
    ((sample_cursor 10 [0, 10, 7, 65, 0, 1, 2, 3, 4, 5] false).ptr : Int)
        ≤ (sample_cursor 10 [0, 10, 7, 65, 0, 1, 2, 3, 4, 5] false).len
    ∧ (0 : Int) < 32 ∧ (0 : Int) < 90 ∧ (26 : Int) ≤ 26 ∧ 0 < freeciv_header.MAX_LEN_NAME
    ∧ (bounded_read (sample_cursor 10 [0, 10, 7, 65, 0, 1, 2, 3, 4, 5] false)
          (iget_uint32 (sample_cursor 10 [0, 10, 7, 65, 0, 1, 2, 3, 4, 5] false)).2 4
        ∧ all_or_nothing (sample_cursor 10 [0, 10, 7, 65, 0, 1, 2, 3, 4, 5] false)
          (iget_uint32 (sample_cursor 10 [0, 10, 7, 65, 0, 1, 2, 3, 4, 5] false)).2)
    ∧ (∃ r, iget_string (sample_cursor 10 [0, 10, 7, 65, 0, 1, 2, 3, 4, 5] false) 32 = some r
        ∧ all_or_nothing (sample_cursor 10 [0, 10, 7, 65, 0, 1, 2, 3, 4, 5] false) r.2
        ∧ ∀ z, first_zero (sample_cursor 10 [0, 10, 7, 65, 0, 1, 2, 3, 4, 5] false).base
              (sample_cursor 10 [0, 10, 7, 65, 0, 1, 2, 3, 4, 5] false).ptr z →
            bounded_read (sample_cursor 10 [0, 10, 7, 65, 0, 1, 2, 3, 4, 5] false) r.2
              ((z - (sample_cursor 10 [0, 10, 7, 65, 0, 1, 2, 3, 4, 5] false).ptr + 1 : Nat)
                : Int))
    ∧ (∃ r, iget_bit_string (sample_cursor 10 [0, 10, 7, 65, 0, 1, 2, 3, 4, 5] false) 90
          = some r
        ∧ bounded_read (sample_cursor 10 [0, 10, 7, 65, 0, 1, 2, 3, 4, 5] false) r.2
            ((1 + (peek (sample_cursor 10 [0, 10, 7, 65, 0, 1, 2, 3, 4, 5] false).base
                (sample_cursor 10 [0, 10, 7, 65, 0, 1, 2, 3, 4, 5] false).ptr + 7) / 8 : Nat)
              : Int)) :=
  have h := reads_stay_within_len freeciv_header
    (sample_connection false [0, 10, 7, 65, 0, 1, 2, 3, 4, 5])
    (sample_cursor 10 [0, 10, 7, 65, 0, 1, 2, 3, 4, 5] false) 255 32 90 26
    (by decide) (by decide) (by decide) (by decide) (by decide)
  ⟨by decide, by decide, by decide, by decide, by decide, h.2.2.2.1,
    h.2.2.2.2.2.2.1, h.2.2.2.2.2.2.2.2.1⟩

/-- C3 as stated fails for `iget_bit_string`. A cursor at offset 3 of the
packet `00 05 07 10 FF` (declared length 5): the bit count is 16, so the
field needs 3 bytes and 2 are left.  The operation sets `short_packet`, and
it has advanced the read offset from 3 to 5. -/
theorem iget_bit_string_advances_when_short :
    let p := sample_cursor 5 [0, 5, 7, 16, 255] false
    (p.ptr : Int) ≤ p.len ∧ p.ptr = 3 ∧ p.short_packet = false
    ∧ pack_iter_remaining p < ((1 + (peek p.base p.ptr + 7) / 8 : Nat) : Int)
    ∧ (iget_bit_string p 90).map (fun r => (r.2.short_packet, r.2.ptr)) = some (true, 5) := by
  decide

/-! ## When a receive function runs to its end -/

/-- With a cursor that is short after the fields before the help text, the
technology ruleset decoder fails the assertion of `iget_string`. -/
theorem ruleset_tech_short_aborts (H : header) (pc : connection) (iter : pack_iter)
    (r : packet_ruleset_tech × pack_iter) (hi : pack_iter_init pc = some iter)
    (hf : receive_packet_ruleset_tech_fields H iter = some r)
    (hshort : r.2.short_packet = true) :
    pack_iter_remaining r.2 = -1 ∧ receive_packet_ruleset_tech H pc = none := by
  have hrem : pack_iter_remaining r.2 = -1 := by
    unfold pack_iter_remaining
    rw [if_pos hshort]
  refine ⟨hrem, ?_⟩
  unfold receive_packet_ruleset_tech
  simp only [hi, hf, hrem]
  rw [if_pos (by decide)]
  simp [iget_string]

/-! ## The primitives: round trip and byte order -/

theorem put_uint16_bytes (v : Int) :
    put_uint16 v = [(v / 256 % 256).toNat, (v % 256).toNat] := by
  unfold put_uint16
  simp only [List.cons.injEq, and_true]
  constructor <;> omega

theorem put_uint32_bytes (v : Int) :
    put_uint32 v = [(v / 16777216 % 256).toNat, (v / 65536 % 256).toNat,
      (v / 256 % 256).toNat, (v % 256).toNat] := by
  unfold put_uint32 to_unsigned
  simp only [List.cons.injEq, and_true]
  refine ⟨?_, ?_, ?_, ?_⟩ <;> omega

/-- C13. Without byte swapping, for every memory that holds the bytes written
by a `put_` at offset `p`: `get_uint8` yields `v` for `v` in 0..255,
`get_uint16` yields `v` for `v` in 0..65535, and `get_uint32` yields `v` for
every 32-bit `int` `v`; each `get_` returns the pointer advanced by the
number of bytes the `put_` wrote, which is 1, 2 and 4. -/
theorem primitive_round_trip (buffer : List Nat) (p : Nat) (v : Int) :
    (0 ≤ v → v ≤ 255 → stored_at buffer p (put_uint8 v) →
      get_uint8 buffer p = (v, p + (put_uint8 v).length))
    ∧ (0 ≤ v → v ≤ 65535 → stored_at buffer p (put_uint16 v) →
      get_uint16 buffer p = (v, p + (put_uint16 v).length))
    ∧ (is_int32 v → stored_at buffer p (put_uint32 v) →
      get_uint32 buffer p = (v, p + (put_uint32 v).length))
    ∧ (put_uint8 v).length = 1 ∧ (put_uint16 v).length = 2 ∧ (put_uint32 v).length = 4 := by
  refine ⟨?_, ?_, ?_, rfl, rfl, rfl⟩
  · intro h0 h1 hs
    have e0 := hs 0 (by simp [put_uint8])
    simp only [put_uint8, List.getD_cons_zero, add_zero] at e0
    unfold get_uint8
    rw [e0]
    simp only [put_uint8, List.length_singleton, Prod.mk.injEq, and_true]
    omega
  · intro h0 h1 hs
    have e0 := hs 0 (by simp [put_uint16])
    have e1 := hs 1 (by simp [put_uint16])
    simp only [put_uint16, List.getD_cons_zero, List.getD_cons_succ, add_zero] at e0 e1
    unfold get_uint16
    rw [e0, e1]
    simp only [put_uint16, List.length_cons, List.length_nil, Prod.mk.injEq, and_true]
    omega
  · intro hv hs
    have e0 := hs 0 (by simp [put_uint32])
    have e1 := hs 1 (by simp [put_uint32])
    have e2 := hs 2 (by simp [put_uint32])
    have e3 := hs 3 (by simp [put_uint32])
    simp only [put_uint32, List.getD_cons_zero, List.getD_cons_succ, add_zero] at e0 e1 e2 e3
    unfold get_uint32
    rw [e0, e1, e2, e3]
    simp only [put_uint32, List.length_cons, List.length_nil, Prod.mk.injEq, and_true]
    have hx : to_unsigned v < 4294967296 := by unfold to_unsigned; omega
    have e : to_unsigned v / 16777216 = to_unsigned v / 16777216 % 256 := by omega
    rw [e]
    exact to_int_to_unsigned_bytes v hv

theorem primitive_round_trip_witness :
    get_uint8 [7, 200, 9] 1 = (200, 2)
    ∧ get_uint16 [7, 1, 44, 9] 1 = (300, 3)
    ∧ get_uint32 [7, 255, 255, 255, 254, 9] 1 = (-2, 5) :=
  ⟨(primitive_round_trip [7, 200, 9] 1 200).1 (by decide) (by decide) (by decide),
    (primitive_round_trip [7, 1, 44, 9] 1 300).2.1 (by decide) (by decide) (by decide),
    (primitive_round_trip [7, 255, 255, 255, 254, 9] 1 (-2)).2.2.1 (by decide) (by decide)⟩

theorem send_frame_header (b : frame_body) (ht0 : 0 ≤ b.type) (ht1 : b.type < 256)
    (hlen : 3 + b.fields.length < 65536) :
    (send_frame b).length = 3 + b.fields.length
    ∧ get_uint16 (send_frame b) 0 = ((((send_frame b).length : Nat) : Int), 2)
    ∧ (get_uint8 (send_frame b) 2).1 = b.type
    ∧ (send_frame b).drop 3 = b.fields := by
  have hl : (send_frame b).length = 3 + b.fields.length := by
    simp [send_frame, put_uint16, put_uint8]; omega
  refine ⟨hl, ?_, ?_, ?_⟩
  · rw [hl]
    simp only [send_frame, put_uint16, put_uint8, get_uint16, peek, List.cons_append,
      List.nil_append, List.getD_cons_zero, List.getD_cons_succ, zero_add, Prod.mk.injEq,
      and_true]
    omega
  · simp only [send_frame, put_uint16, put_uint8, get_uint8, peek, List.cons_append,
      List.nil_append, List.getD_cons_zero, List.getD_cons_succ]
    omega
  · simp [send_frame, put_uint16, put_uint8]

theorem send_packet_generic_integer_frame (type : Int) (packet : packet_generic_integer) :
    send_packet_generic_integer type packet
      = send_frame { type := type, fields := put_uint32 packet.value } := by
  simp [send_packet_generic_integer, send_frame, put_uint8, put_uint16, put_uint32]

theorem send_packet_diplomacy_info_frame (pt : Int) (packet : packet_diplomacy_info) :
    send_packet_diplomacy_info pt packet
      = send_frame { type := pt, fields := put_uint32 packet.plrno0 ++ put_uint32 packet.plrno1
          ++ put_uint32 packet.plrno_from ++ put_uint32 packet.clause_type
          ++ put_uint32 packet.value } := by
  simp [send_packet_diplomacy_info, send_frame, put_uint8, put_uint16, put_uint32]

theorem send_packet_join_game_reply_frame (t : Int) (pc : connection)
    (reply : packet_join_game_reply) (body : send_fn → frame_body) (identity : Bool)
    (hb : body send_fn.send_packet_join_game_reply
      = { type := t, fields := put_uint32 reply.you_can_join ++ put_string reply.message
            ++ put_string reply.capability
            ++ (if has_capability "conn_info" pc.capability then put_uint32 pc.id else []) }) :
    send body identity pc send_fn.send_packet_join_game_reply
      = some (send_packet_join_game_reply t pc reply) := by
  simp only [send, hb, send_packet_join_game_reply, put_uint8, List.length_append,
    List.length_singleton, List.append_assoc, List.singleton_append, List.length_cons]
  have e : ∀ a b c d : Nat, 3 + (a + (b + (c + d))) = 2 + (a + 1 + (b + (c + d))) := by
    intros; omega
  rw [e]
  rfl

theorem swab_bytes (n : Nat) (h : n < 65536) :
    (n % 256 * 256 + n / 256 % 256) / 256 = n % 256
    ∧ (n % 256 * 256 + n / 256 % 256) % 256 = n / 256 := by
  constructor <;> omega

theorem put_uint16_nat (n : Nat) (h : n < 65536) : put_uint16 (n : Int) = [n / 256, n % 256] := by
  unfold put_uint16
  have e : ((n : Int) % 65536).toNat = n := by omega
  simp only [e]

/-- C14, as the code has it. `put_uint16(v)` writes the two bytes
`[(v / 256) mod 256, v mod 256]` and `put_uint32(v)` the four bytes
`[(v / 2^24) mod 256, (v / 2^16) mod 256, (v / 2^8) mod 256, v mod 256]`, for
every `int` `v` (division rounding down, so a negative `v` gives the bytes of
its two's complement).  Every send function, whatever its field list stores
(type codes in 0..255, packets shorter than 65536 bytes), hands over a packet
except three, which send nothing: `send_packet_conn_info` on a connection
without the capability `conn_info`, `send_packet_ruleset_game` on one without
`game_ruleset`, and `send_packet_unit_info` on one without
`diplomat_investigate_fix` when the packet is not used for identity
(`identity` false).  The packet is that of the function
itself, or of `send_packet_city_info` when `send_packet_short_city` serves a
connection without the capability `packet_short_city`; it carries the type
code in byte 2, the fields from byte 3 on, and in bytes 0..1 the total length
big-endian, except for `send_packet_join_game_reply` on a connection in the
old byte order, where byte 0 is the low and byte 1 the high byte of the
length. -/
theorem big_endian_bytes (v : Int) (body : send_fn → frame_body) (identity : Bool)
    (pc : connection) (f : send_fn)
    (htype : ∀ g, 0 ≤ (body g).type ∧ (body g).type < 256)
    (hlen : ∀ g, 3 + (body g).fields.length < 65536) :
    put_uint16 v = [(v / 256 % 256).toNat, (v % 256).toNat]
    ∧ put_uint32 v = [(v / 16777216 % 256).toNat, (v / 65536 % 256).toNat,
        (v / 256 % 256).toNat, (v % 256).toNat]
    ∧ (send body identity pc f = none ↔
        (f = send_fn.send_packet_conn_info ∧ has_capability "conn_info" pc.capability = false)
        ∨ (f = send_fn.send_packet_ruleset_game
            ∧ has_capability "game_ruleset" pc.capability = false)
        ∨ (f = send_fn.send_packet_unit_info
            ∧ has_capability "diplomat_investigate_fix" pc.capability = false
            ∧ identity = false))
    ∧ ∀ bytes, send body identity pc f = some bytes →
        ∃ g, (g = f ∨ (f = send_fn.send_packet_short_city
                ∧ has_capability "packet_short_city" pc.capability = false
                ∧ g = send_fn.send_packet_city_info))
          ∧ bytes.length = 3 + (body g).fields.length
          ∧ (get_uint8 bytes 2).1 = (body g).type
          ∧ bytes.drop 3 = (body g).fields
          ∧ (¬ (f = send_fn.send_packet_join_game_reply ∧ pc.byte_swap = true) →
              get_uint16 bytes 0 = (((bytes.length : Nat) : Int), 2))
          ∧ (f = send_fn.send_packet_join_game_reply ∧ pc.byte_swap = true →
              peek bytes 0 + 256 * peek bytes 1 = bytes.length) := by
  refine ⟨put_uint16_bytes v, put_uint32_bytes v, ?_, ?_⟩
  · cases f <;> simp [send]
    split_ifs <;> simp
  · intro bytes hb
    have key : ∀ g, (send_frame (body g)).length = 3 + (body g).fields.length
        ∧ (get_uint8 (send_frame (body g)) 2).1 = (body g).type
        ∧ (send_frame (body g)).drop 3 = (body g).fields
        ∧ get_uint16 (send_frame (body g)) 0 = ((((send_frame (body g)).length : Nat) : Int), 2) :=
      fun g =>
        have a := send_frame_header (body g) (htype g).1 (htype g).2 (hlen g)
        ⟨a.1, a.2.2.1, a.2.2.2, a.2.1⟩
    cases f
    case send_packet_conn_info =>
      simp only [send] at hb
      split_ifs at hb
      simp only [Option.some.injEq] at hb
      subst hb
      obtain ⟨b2, b3, b4, b5⟩ := key send_fn.send_packet_conn_info
      exact ⟨_, Or.inl rfl, b2, b3, b4, fun _ => b5, fun h => nomatch h.1⟩
    case send_packet_ruleset_game =>
      simp only [send] at hb
      split_ifs at hb
      simp only [Option.some.injEq] at hb
      subst hb
      obtain ⟨b2, b3, b4, b5⟩ := key send_fn.send_packet_ruleset_game
      exact ⟨_, Or.inl rfl, b2, b3, b4, fun _ => b5, fun h => nomatch h.1⟩
    case send_packet_unit_info =>
      simp only [send] at hb
      split_ifs at hb
      simp only [Option.some.injEq] at hb
      subst hb
      obtain ⟨b2, b3, b4, b5⟩ := key send_fn.send_packet_unit_info
      exact ⟨_, Or.inl rfl, b2, b3, b4, fun _ => b5, fun h => nomatch h.1⟩
    case send_packet_short_city =>
      simp only [send] at hb
      split_ifs at hb with hc
      · simp only [Option.some.injEq] at hb
        subst hb
        obtain ⟨b2, b3, b4, b5⟩ := key send_fn.send_packet_short_city
        exact ⟨_, Or.inl rfl, b2, b3, b4, fun _ => b5, fun h => nomatch h.1⟩
      · simp only [Option.some.injEq] at hb
        subst hb
        obtain ⟨b2, b3, b4, b5⟩ := key send_fn.send_packet_city_info
        exact ⟨send_fn.send_packet_city_info, Or.inr ⟨rfl, by simpa using hc, rfl⟩, b2, b3, b4,
          fun _ => b5, fun h => nomatch h.1⟩
    case send_packet_join_game_reply =>
      obtain ⟨b2, b3, b4, b5⟩ := key send_fn.send_packet_join_game_reply
      have hl := hlen send_fn.send_packet_join_game_reply
      have ht := htype send_fn.send_packet_join_game_reply
      by_cases hs : pc.byte_swap = true
      · simp only [send, hs, if_true, Option.some.injEq] at hb
        subst hb
        rw [swab_uint16_eq, put_uint16_nat _ (by omega)]
        have e := swab_bytes _ hl
        rw [e.1, e.2]
        refine ⟨send_fn.send_packet_join_game_reply, Or.inl rfl, ?_, ?_, ?_,
          fun h => absurd ⟨rfl, hs⟩ h, fun _ => ?_⟩
        · simp [put_uint8]; omega
        · simp only [put_uint8, get_uint8, peek, List.cons_append,
            List.nil_append, List.getD_cons_zero, List.getD_cons_succ]
          omega
        · simp [put_uint8]
        · simp only [put_uint8, peek, List.cons_append, List.nil_append,
            List.getD_cons_zero, List.getD_cons_succ, List.length_cons, List.length_nil,
            List.length_append]
          omega
      · simp only [send, hs, if_false, Bool.false_eq_true, Option.some.injEq] at hb
        have hb' : bytes = send_frame (body send_fn.send_packet_join_game_reply) := by
          rw [← hb]; rfl
        subst hb'
        exact ⟨send_fn.send_packet_join_game_reply, Or.inl rfl, b2, b3, b4, fun _ => b5,
          fun h => absurd h.2 hs⟩
    all_goals
      simp only [send, Option.some.injEq] at hb
      subst hb
      exact ⟨_, Or.inl rfl, (key _).1, (key _).2.1, (key _).2.2.1, fun _ => (key _).2.2.2,
        fun h => nomatch h.1⟩

theorem big_endian_bytes_witness :
    (∀ g, 0 ≤ (sample_body g).type ∧ (sample_body g).type < 256)
    ∧ (∀ g, 3 + (sample_body g).fields.length < 65536)
    ∧ put_uint16 300 = [1, 44]
    ∧ send sample_body false (sample_connection false []) send_fn.send_packet_generic_integer
        = some [0, 7, 10, 0, 0, 1, 44]
    ∧ get_uint16 [0, 7, 10, 0, 0, 1, 44] 0 = (7, 2)
    ∧ send sample_body false (sample_connection true []) send_fn.send_packet_join_game_reply
        = some [7, 0, 10, 0, 0, 1, 44]
    ∧ peek [7, 0, 10, 0, 0, 1, 44] 0 + 256 * peek [7, 0, 10, 0, 0, 1, 44] 1 = 7 :=
  have h := big_endian_bytes 300 sample_body false (sample_connection false [])
    send_fn.send_packet_generic_integer (fun _ => by dsimp only [sample_body]; decide)
    (fun _ => by dsimp only [sample_body]; decide)
  have h' := big_endian_bytes 300 sample_body false (sample_connection true [])
    send_fn.send_packet_join_game_reply (fun _ => by dsimp only [sample_body]; decide)
    (fun _ => by dsimp only [sample_body]; decide)
  ⟨fun _ => by dsimp only [sample_body]; decide, fun _ => by dsimp only [sample_body]; decide,
    h.1.trans (by decide), by decide,
    by
      obtain ⟨g, -, -, -, -, h5, -⟩ := h.2.2.2 [0, 7, 10, 0, 0, 1, 44] (by decide)
      exact h5 (fun h₀ => nomatch h₀.1),
    by decide,
    by
      obtain ⟨g, -, -, -, -, -, h6⟩ := h'.2.2.2 [7, 0, 10, 0, 0, 1, 44] (by decide)
      exact h6 ⟨rfl, rfl⟩⟩

/-- C14 as stated fails for four send functions.
* `send_packet_join_game_reply` on a connection in the old byte order, for a
  refusal with the message `no`: the packet has 11 bytes and starts `0B 00`,
  the length with its low byte first; read big-endian these bytes say 2816.
* `send_packet_conn_info`, `send_packet_ruleset_game` and (for a packet not
  used for identity) `send_packet_unit_info` send no packet at all on a
  connection without any capability. -/
theorem join_game_reply_length_swapped :
    send_packet_join_game_reply 1 (sample_connection true [])
        { you_can_join := 0, message := [110, 111, 0], capability := [0] }
      = [11, 0, 1, 0, 0, 0, 0, 110, 111, 0, 0]
    ∧ (get_uint16 [11, 0, 1, 0, 0, 0, 0, 110, 111, 0, 0] 0).1 = 2816
    ∧ send sample_body false (sample_connection false []) send_fn.send_packet_conn_info = none
    ∧ send sample_body false (sample_connection false []) send_fn.send_packet_ruleset_game = none
    ∧ send sample_body false (sample_connection false []) send_fn.send_packet_unit_info = none := by
  decide

/-! ## The old byte order is a matter of the read path -/

/-- C15, as the code has it. `put_uint16` takes no connection and writes
every value in network order.  For a 16-bit value `v` and a cursor positioned
at the two bytes `put_uint16(v)` wrote, `iget_uint16` yields `v` when
`swap_bytes` is clear and the byte-reversed value `(v mod 256)*256 + v div 256`
when it is set, which is `v` only if the two bytes of `v` are equal.  With
`swap_bytes` set, `v` comes back when the writer reversed the bytes itself,
`put_uint16(swab_uint16(v))`, as `send_packet_join_game_reply` does for the
length. -/
theorem iget_uint16_of_put_uint16 (p : pack_iter) (v : Int) (h0 : 0 ≤ v) (h1 : v ≤ 65535) :
    (positioned_at p (put_uint16 v) →
      iget_uint16 p = (if p.swap_bytes then v % 256 * 256 + v / 256 else v,
        { p with ptr := p.ptr + 2 }))
    ∧ (positioned_at p (put_uint16 ((swab_uint16 v.toNat : Nat) : Int)) → p.swap_bytes = true →
      iget_uint16 p = (v, { p with ptr := p.ptr + 2 }))
    ∧ (v % 256 * 256 + v / 256 = v ↔ v % 256 = v / 256) := by
  lift v to Nat using h0
  have hv : v < 65536 := by omega
  refine ⟨?_, ?_, by omega⟩
  · rintro ⟨hr, hs⟩
    rw [put_uint16_nat v hv] at hr hs
    have e0 := hs 0 (by simp)
    have e1 := hs 1 (by simp)
    simp only [List.getD_cons_zero, List.getD_cons_succ, add_zero] at e0 e1
    rw [iget_uint16_value p (by simpa using hr), e0, e1]
    by_cases hsw : p.swap_bytes = true
    · simp only [hsw, if_true, Prod.mk.injEq, and_true]
      omega
    · simp only [hsw, if_false, Bool.false_eq_true, Prod.mk.injEq, and_true]
      omega
  · rintro ⟨hr, hs⟩ hsw
    rw [Int.toNat_ofNat, swab_uint16_eq, put_uint16_nat _ (by omega)] at hr hs
    have e := swab_bytes v hv
    rw [e.1, e.2] at hs
    have e0 := hs 0 (by simp)
    have e1 := hs 1 (by simp)
    simp only [List.getD_cons_zero, List.getD_cons_succ, add_zero] at e0 e1
    rw [iget_uint16_value p (by simpa using hr), e0, e1]
    simp only [hsw, if_true, Prod.mk.injEq, and_true]
    omega

theorem iget_uint16_of_put_uint16_witness :
    positioned_at (cursor_at 5 [0, 5, 7, 1, 44] 3 true) (put_uint16 300)
    ∧ iget_uint16 (cursor_at 5 [0, 5, 7, 1, 44] 3 true)
        = (11265, { cursor_at 5 [0, 5, 7, 1, 44] 3 true with ptr := 5 })
    ∧ positioned_at (cursor_at 5 [0, 5, 7, 44, 1] 3 true)
        (put_uint16 ((swab_uint16 (300 : Int).toNat : Nat) : Int))
    ∧ iget_uint16 (cursor_at 5 [0, 5, 7, 44, 1] 3 true)
        = (300, { cursor_at 5 [0, 5, 7, 44, 1] 3 true with ptr := 5 }) :=
  ⟨by decide,
    ((iget_uint16_of_put_uint16 (cursor_at 5 [0, 5, 7, 1, 44] 3 true) 300 (by decide)
      (by decide)).1 (by decide)).trans (by decide),
    by decide,
    (iget_uint16_of_put_uint16 (cursor_at 5 [0, 5, 7, 44, 1] 3 true) 300 (by decide)
      (by decide)).2.1 (by decide) rfl⟩

/-- C15 as stated fails: `put_uint16(300)` writes `01 2C` whatever the mode
of the connection, and `iget_uint16` on a cursor with `swap_bytes` set reads
these two bytes as 11265. -/
theorem put_uint16_swap_not_transparent :
    put_uint16 300 = [1, 44]
    ∧ positioned_at (cursor_at 2 (put_uint16 300) 0 true) (put_uint16 300)
    ∧ (iget_uint16 (cursor_at 2 (put_uint16 300) 0 true)).1 = 11265 := by
  decide

/-! ## The byte order of a connection -/

theorem get_packet_closed_or_short (E : env) (pc : connection)
    (h : pc.used = false ∨ pc.buffer.ndata < 3) :
    get_packet_from_connection E pc = some { packet := none, ptype := none, pc := pc } := by
  unfold get_packet_from_connection
  by_cases hu : pc.used = false
  · rw [if_pos hu]
  · rw [if_neg hu, if_pos (h.resolve_left hu)]

/-- C11, as the code has it. On a connection in use whose `first_packet` flag
is set and whose buffer holds at least 3 bytes, `get_packet_from_connection`
sets `byte_swap` iff the length read in canonical order exceeds 1024, and
clears `first_packet`.  On every connection whose `first_packet` flag is
clear it leaves both flags as they are, so the byte order chosen on the first
packet stays.  When the receive function stops at an assertion nothing is
returned, and the connection it was handed carries these flags already. -/
theorem first_packet_decides_byte_swap (E : env) (pc : connection) :
    (pc.used = true → 3 ≤ pc.buffer.ndata → pc.first_packet = true →
      (∀ r, get_packet_from_connection E pc = some r →
        r.pc.byte_swap = decide (header_len pc > 1024) ∧ r.pc.first_packet = false)
      ∧ (get_packet_from_connection E pc = none →
        ∃ f, E.registry (header_type pc) = some f ∧ receive E f (dispatched pc) = none
          ∧ (dispatched pc).byte_swap = decide (header_len pc > 1024)
          ∧ (dispatched pc).first_packet = false))
    ∧ (pc.first_packet = false →
      (∀ r, get_packet_from_connection E pc = some r →
        r.pc.byte_swap = pc.byte_swap ∧ r.pc.first_packet = false)
      ∧ (get_packet_from_connection E pc = none →
        ∃ f, E.registry (header_type pc) = some f ∧ receive E f (dispatched pc) = none
          ∧ (dispatched pc).byte_swap = pc.byte_swap
          ∧ (dispatched pc).first_packet = false)) := by
  have main : pc.used = true → 3 ≤ pc.buffer.ndata →
      (∀ r, get_packet_from_connection E pc = some r →
        r.pc.byte_swap = resolved_byte_swap pc ∧ r.pc.first_packet = false)
      ∧ (get_packet_from_connection E pc = none →
        ∃ f, E.registry (header_type pc) = some f ∧ receive E f (dispatched pc) = none
          ∧ (dispatched pc).byte_swap = resolved_byte_swap pc
          ∧ (dispatched pc).first_packet = false) := by
    intro hu h3
    obtain ⟨d1, d2, d3, d4, d5⟩ := dispatched_fields pc
    by_cases hL : declared_length pc ≤ (pc.buffer.ndata : Int)
    · rw [get_packet_complete_eq E pc hu h3 hL]
      cases hreg : E.registry (header_type pc) with
      | none =>
        simp only
        refine ⟨fun r hr => ?_, fun h => by simp at h⟩
        simp only [Option.some.injEq] at hr
        rw [← hr]
        exact ⟨d4, d3⟩
      | some f =>
        simp only
        cases hrec : receive E f (dispatched pc) with
        | none => exact ⟨fun r hr => by simp at hr, fun _ => ⟨f, rfl, hrec, d4, d3⟩⟩
        | some q =>
          have hb := receive_buffer E f (dispatched pc) q hrec
          refine ⟨fun r hr => ?_, fun h => by simp at h⟩
          simp only [Option.map_some', Option.some.injEq] at hr
          rw [← hr, hb]
          exact ⟨d4, d3⟩
    · rw [get_packet_incomplete_eq E pc hu h3 (by omega)]
      refine ⟨fun r hr => ?_, fun h => by simp at h⟩
      simp only [Option.some.injEq] at hr
      rw [← hr]
      refine ⟨byte_order_resolved_swap pc, ?_⟩
      unfold byte_order_resolved
      split_ifs with hf
      · rfl
      · simpa using hf
  constructor
  · intro hu h3 hf
    have e : resolved_byte_swap pc = decide (header_len pc > 1024) := by
      unfold resolved_byte_swap; rw [if_pos hf]
    rw [← e]
    exact main hu h3
  · intro hf
    have e : resolved_byte_swap pc = pc.byte_swap := by
      unfold resolved_byte_swap; rw [if_neg (by simp [hf])]
    by_cases hd : pc.used = true ∧ 3 ≤ pc.buffer.ndata
    · rw [← e]
      exact main hd.1 hd.2
    · rw [get_packet_closed_or_short E pc (by
        by_cases hu : pc.used = true
        · exact Or.inr (by by_contra h3; exact hd ⟨hu, by omega⟩)
        · exact Or.inl (by simpa using hu))]
      exact ⟨fun r hr => by simp only [Option.some.injEq] at hr; rw [← hr]; exact ⟨rfl, hf⟩,
        fun h => by simp at h⟩

theorem first_packet_decides_byte_swap_witness :
    get_packet_from_connection sample_env
        { sample_connection false [5, 0, 7] with first_packet := true }
      = some { packet := none, ptype := none, pc := sample_connection true [5, 0, 7] }
    ∧ ((sample_connection true [5, 0, 7]).byte_swap
        = decide (header_len { sample_connection false [5, 0, 7] with first_packet := true }
            > 1024)
      ∧ (sample_connection true [5, 0, 7]).first_packet = false)
    ∧ (get_packet_from_connection sample_env (sample_connection true [5, 0, 10, 1, 2])).map
        (fun r => r.packet) = some (some (packet.fields_of receive_fn.receive_packet_generic_integer))
    ∧ ∀ r, get_packet_from_connection sample_env (sample_connection true [5, 0, 10, 1, 2])
          = some r →
        r.pc.byte_swap = (sample_connection true [5, 0, 10, 1, 2]).byte_swap
        ∧ r.pc.first_packet = false :=
  ⟨by decide,
    ((first_packet_decides_byte_swap sample_env
      { sample_connection false [5, 0, 7] with first_packet := true }).1 rfl (by decide) rfl).1
      { packet := none, ptype := none, pc := sample_connection true [5, 0, 7] } (by decide),
    by decide,
    ((first_packet_decides_byte_swap sample_env
      (sample_connection true [5, 0, 10, 1, 2])).2 rfl).1⟩

/-- C11 as stated fails on a closed connection: `first_packet` is set and the
buffer holds the three bytes `05 00 07`, yet the call returns before it looks
at them, `first_packet` stays set and `byte_swap` stays clear although the
length read in canonical order is 1280. -/
theorem first_packet_kept_when_closed :
    let pc : connection :=
      { used := false, first_packet := true, byte_swap := false
        buffer := { ndata := 3, data := [5, 0, 7] }, capability := [] }
    3 ≤ pc.buffer.ndata ∧ header_len pc = 1280
    ∧ get_packet_from_connection sample_env pc
        = some { packet := none, ptype := none, pc := pc }
    ∧ pc.first_packet = true ∧ pc.byte_swap = false := by
  decide

/-- C12, as the code has it. A connection in use, past its first packet,
whose buffer holds at least 3 bytes and a whole packet (declared length `L`
at most the number of bytes held) with a type code that is not in the
registry: `get_packet_from_connection` returns no packet, leaves the buffer
holding the old bytes with exactly the first `L` removed, and leaves
`byte_swap`, `first_packet` and every other field of the connection as it
was.  In the old byte order this is stated for `L` other than 1. -/
theorem unknown_type_discarded (E : env) (pc : connection)
    (hu : pc.used = true) (hwf : well_formed pc.buffer) (h3 : 3 ≤ pc.buffer.ndata)
    (hf : pc.first_packet = false)
    (hL : declared_length pc ≤ (pc.buffer.ndata : Int))
    (hreg : E.registry (header_type pc) = none)
    (hedge : ¬ (pc.byte_swap = true ∧ declared_length pc = 1)) :
    ∃ r, get_packet_from_connection E pc = some r
      ∧ r.packet = none ∧ r.ptype = some (header_type pc)
      ∧ (r.pc.buffer.ndata : Int) = (pc.buffer.ndata : Int) - declared_length pc
      ∧ held r.pc.buffer = (held pc.buffer).drop (declared_length pc).toNat
      ∧ r.pc.byte_swap = pc.byte_swap ∧ r.pc.first_packet = pc.first_packet
      ∧ r.pc.used = pc.used ∧ r.pc.capability = pc.capability ∧ r.pc.id = pc.id := by
  have hres : resolved_byte_swap pc = pc.byte_swap := by
    unfold resolved_byte_swap; rw [if_neg (by simp [hf])]
  rw [get_packet_complete_eq E pc hu h3 hL]
  simp only [hreg]
  obtain ⟨d1, d2, d3, -, d5⟩ := dispatched_buffer pc hwf h3 (by rw [hres]; exact hedge)
  obtain ⟨f1, f2, f3, f4, -⟩ := dispatched_fields pc
  have hid : (dispatched pc).id = pc.id := by
    unfold dispatched
    dsimp only
    split_ifs <;> rfl
  have hrange := declared_length_range pc
  refine ⟨_, rfl, rfl, rfl, ?_, ?_, by rw [← hres]; exact f4, by rw [hf]; exact f3, f1, f2, hid⟩
  · simp only [remove_packet_from_buffer, d1, d3]
    omega
  · simp only
    rw [held_remove _ (by rw [d1, d2]; exact hwf.2), d3, d5]

theorem unknown_type_discarded_witness :
    well_formed (sample_connection false [0, 4, 99, 1, 7, 8]).buffer
    ∧ declared_length (sample_connection false [0, 4, 99, 1, 7, 8]) = 4
    ∧ sample_env.registry (header_type (sample_connection false [0, 4, 99, 1, 7, 8])) = none
    ∧ ∃ r, get_packet_from_connection sample_env (sample_connection false [0, 4, 99, 1, 7, 8])
          = some r
      ∧ r.packet = none
      ∧ r.ptype = some (header_type (sample_connection false [0, 4, 99, 1, 7, 8]))
      ∧ (r.pc.buffer.ndata : Int)
          = ((sample_connection false [0, 4, 99, 1, 7, 8]).buffer.ndata : Int)
            - declared_length (sample_connection false [0, 4, 99, 1, 7, 8])
      ∧ held r.pc.buffer
          = (held (sample_connection false [0, 4, 99, 1, 7, 8]).buffer).drop
              (declared_length (sample_connection false [0, 4, 99, 1, 7, 8])).toNat
      ∧ r.pc.byte_swap = (sample_connection false [0, 4, 99, 1, 7, 8]).byte_swap
      ∧ r.pc.first_packet = (sample_connection false [0, 4, 99, 1, 7, 8]).first_packet
      ∧ r.pc.used = (sample_connection false [0, 4, 99, 1, 7, 8]).used
      ∧ r.pc.capability = (sample_connection false [0, 4, 99, 1, 7, 8]).capability
      ∧ r.pc.id = (sample_connection false [0, 4, 99, 1, 7, 8]).id :=
  have hwf : well_formed (sample_connection false [0, 4, 99, 1, 7, 8]).buffer :=
    ⟨by decide, by decide⟩
  ⟨hwf, by decide, by decide,
    unknown_type_discarded sample_env (sample_connection false [0, 4, 99, 1, 7, 8]) rfl hwf
      (by decide) rfl (by decide) (by decide) (by decide)⟩

/-- C12 as stated fails, at two connections past their first packet whose
buffer holds a whole packet of a type code outside the registry.
* A closed connection (`used` = 0) holding `00 04 63 01 07 08`: `NULL` is
  returned and the buffer keeps its 6 bytes.
* A connection in the old byte order holding `01 00 63` (declared length 1):
  the buffer then holds `01 63`, not the old bytes with the first removed,
  `00 63`. -/
theorem unknown_type_discarded_fails :
    (let pc : connection :=
      { used := false, first_packet := false, byte_swap := false
        buffer := { ndata := 6, data := [0, 4, 99, 1, 7, 8] }, capability := [] }
     declared_length pc = 4 ∧ sample_env.registry (header_type pc) = none
     ∧ get_packet_from_connection sample_env pc
        = some { packet := none, ptype := none, pc := pc })
    ∧ (let pc := sample_connection true [1, 0, 99]
       declared_length pc = 1 ∧ sample_env.registry (header_type pc) = none
       ∧ (get_packet_from_connection sample_env pc).map (fun r => held r.pc.buffer)
          = some [1, 99]
       ∧ (held pc.buffer).drop 1 = [0, 99]) := by
  decide

/-! ## Strings -/

theorem stored_at_range (buffer : List Nat) (p : Nat) (bytes : List Nat)
    (h : stored_at buffer p bytes) (n : Nat) (hn : n ≤ bytes.length) :
    (List.range n).map (fun i => peek buffer (p + i)) = bytes.take n := by
  apply List.ext_getElem
  · simp [List.length_take]; omega
  · intro i h1 h2
    simp only [List.length_map, List.length_range] at h1
    rw [List.getElem_map, List.getElem_range, List.getElem_take, h i (by omega),
      List.getD_eq_getElem _ _ (by omega)]

theorem put_string_no_zero (s : List Nat) (hs : no_zero s) : put_string s = s ++ [0] := by
  unfold put_string c_string
  rw [List.takeWhile_eq_self_iff.mpr]
  intro x hx
  simpa using hs x hx

theorem first_zero_of_stored (buffer : List Nat) (p : Nat) (s : List Nat) (hs : no_zero s)
    (h : stored_at buffer p (s ++ [0])) : first_zero buffer p (p + s.length) := by
  refine ⟨by omega, ?_, ?_⟩
  · rw [h s.length (by simp), List.getD_append_right _ _ _ _ le_rfl]
    simp
  · intro k h1 h2
    obtain ⟨i, rfl⟩ : ∃ i, k = p + i := ⟨k - p, by omega⟩
    rw [h i (by simp; omega), List.getD_append _ _ _ _ (by omega),
      List.getD_eq_getElem _ _ (by omega)]
    exact hs _ (List.getElem_mem _)

theorem iget_string_c_found (p : pack_iter) (z : Nat) (hz : first_zero p.base p.ptr z)
    (hlt : (z : Int) < p.len) : (iget_string_c p).1 = z := by
  obtain ⟨z1, z2, z3⟩ := hz
  obtain ⟨c1, c2, c3, c4, -⟩ := iget_string_c_spec p
  have hcz : (iget_string_c p).1 ≤ z := by
    by_contra hgt
    exact c3 z z1 (by omega) z2
  have hzc : z ≤ (iget_string_c p).1 := by
    by_contra hgt
    exact z3 _ c1 (by omega) (c4 (by omega))
  omega

theorem iget_string_c_none (p : pack_iter) (hle : (p.ptr : Int) ≤ p.len)
    (hno : ∀ k, p.ptr ≤ k → (k : Int) < p.len → peek p.base k ≠ 0) :
    ((iget_string_c p).1 : Int) = p.len := by
  obtain ⟨c1, c2, c3, c4, -⟩ := iget_string_c_spec p
  have h2 := c2 hle
  by_contra hne
  have hlt : ((iget_string_c p).1 : Int) < p.len := by omega
  exact hno _ c1 hlt (c4 hlt)

/-- The string operation on a cursor whose next zero byte lies at offset `z`
within the declared length. -/
theorem iget_string_terminated (p : pack_iter) (navail : Int) (z : Nat) (h0 : 0 < navail)
    (hs : p.short_packet = false) (hz : first_zero p.base p.ptr z) (hlt : (z : Int) < p.len) :
    iget_string p navail
      = some ((List.range (min (z - p.ptr) (navail.toNat - 1))).map
                (fun i => peek p.base (p.ptr + i)) ++ [0],
          { p with bad_string := p.bad_string || decide (navail ≤ ((z - p.ptr : Nat) : Int)),
                   ptr := z + 1 }) := by
  have hc := iget_string_c_found p z hz hlt
  have hzp := hz.1
  unfold iget_string
  have hrem : pack_iter_remaining p = p.len - (p.ptr : Int) := by
    unfold pack_iter_remaining; simp [hs]
  rw [if_neg (by omega), if_neg (by omega)]
  simp only [hc]
  have hu : ¬ ((z : Int) ≥ p.len) := by omega
  simp only [hu, decide_False, Bool.false_eq_true, if_false]
  by_cases ht : (z : Int) - (p.ptr : Int) ≥ navail
  · have e1 : (navail - 1).toNat = min (z - p.ptr) (navail.toNat - 1) := by omega
    have e2 : p.ptr + ((z : Int) - (p.ptr : Int) + 1).toNat = z + 1 := by omega
    have e3 : navail ≤ ((z - p.ptr : Nat) : Int) := by omega
    simp only [ht, decide_True, if_true, hs, Bool.false_eq_true, if_false, e1, e2, e3,
      Bool.or_true]
  · have e1 : ((z : Int) - (p.ptr : Int)).toNat = min (z - p.ptr) (navail.toNat - 1) := by omega
    have e2 : p.ptr + ((z : Int) - (p.ptr : Int) + 1).toNat = z + 1 := by omega
    have e3 : ¬ navail ≤ ((z - p.ptr : Nat) : Int) := by omega
    simp only [ht, decide_False, if_false, hs, Bool.false_eq_true, e1, e2, e3, Bool.or_false]

/-- The string operation on a cursor with `R >= 1` bytes remaining, none of
them zero. -/
theorem iget_string_unterminated (p : pack_iter) (navail : Int) (h0 : 0 < navail)
    (hrem : 1 ≤ pack_iter_remaining p)
    (hno : ∀ k, p.ptr ≤ k → (k : Int) < p.len → peek p.base k ≠ 0) :
    iget_string p navail
      = some ((List.range (min (pack_iter_remaining p) (navail - 1)).toNat).map
                (fun i => peek p.base (p.ptr + i)) ++ [0],
          { p with short_packet := true, bad_string := true }) := by
  obtain ⟨hs, hr⟩ := remaining_not_short p 1 (by omega) hrem
  have hc := iget_string_c_none p (by omega) hno
  unfold iget_string
  rw [if_neg (by omega), if_neg (by omega)]
  have hu : ((iget_string_c p).1 : Int) ≥ p.len := by omega
  simp only [hu, decide_True, if_true]
  by_cases ht : pack_iter_remaining p ≥ navail
  · have e1 : min (pack_iter_remaining p) (navail - 1) = navail - 1 := by omega
    simp only [ht, decide_True, if_true, e1]
  · have e1 : min (pack_iter_remaining p) (navail - 1) = pack_iter_remaining p := by omega
    simp only [ht, decide_False, if_false, Bool.false_eq_true, e1, if_true]

/-- C16. For every string `s` of length `L` without a zero byte and every
destination capacity `C > L`: `put_string(s)` writes the `L` bytes of `s` and
one `0x00`, and on a cursor positioned at these bytes (all within the
declared length) `iget_string` yields exactly `s` with its terminator,
advances the read offset by `L+1`, and leaves every flag as it was;
`short_packet` is clear. -/
theorem iget_string_round_trip (p : pack_iter) (s : List Nat) (C : Int) (hs : no_zero s)
    (hC : (s.length : Int) < C) (hp : positioned_at p (put_string s)) :
    put_string s = s ++ [0]
    ∧ iget_string p C = some (s ++ [0], { p with ptr := p.ptr + (s.length + 1) })
    ∧ p.short_packet = false := by
  have hput := put_string_no_zero s hs
  rw [hput] at hp
  obtain ⟨hr, hst⟩ := hp
  simp only [List.length_append, List.length_singleton, Nat.cast_add, Nat.cast_one] at hr
  obtain ⟨hsp, hrem⟩ := remaining_not_short p ((s.length : Int) + 1) (by omega) hr
  have hz := first_zero_of_stored p.base p.ptr s hs hst
  refine ⟨hput, ?_, hsp⟩
  rw [iget_string_terminated p C (p.ptr + s.length) (by omega) hsp hz (by push_cast; omega)]
  have e1 : min (p.ptr + s.length - p.ptr) (C.toNat - 1) = s.length := by omega
  have e2 : ¬ C ≤ ((p.ptr + s.length - p.ptr : Nat) : Int) := by omega
  rw [e1, stored_at_range p.base p.ptr (s ++ [0]) hst s.length (by simp)]
  simp only [e2, decide_False, Bool.or_false, List.take_left']
  rfl

theorem iget_string_round_trip_witness :
    no_zero [104, 105, 33]
    ∧ positioned_at (cursor_at 8 [0, 8, 7, 104, 105, 33, 0, 9] 3 false) (put_string [104, 105, 33])
    ∧ iget_string (cursor_at 8 [0, 8, 7, 104, 105, 33, 0, 9] 3 false) 4
        = some ([104, 105, 33, 0], cursor_at 8 [0, 8, 7, 104, 105, 33, 0, 9] 7 false) :=
  ⟨by decide, by decide,
    (iget_string_round_trip (cursor_at 8 [0, 8, 7, 104, 105, 33, 0, 9] 3 false) [104, 105, 33] 4
      (by decide) (by decide) (by decide)).2.1⟩

/-- C17. For every string `s` of length `L` without a zero byte and every
destination capacity `C` with `0 < C <= L`: on a cursor positioned at the
bytes `put_string(s)` wrote, `iget_string` yields the first `C-1` characters
of `s` and the terminator, sets `bad_string`, leaves `short_packet` clear,
and advances the read offset by `L+1`. -/
theorem iget_string_truncation (p : pack_iter) (s : List Nat) (C : Int) (hs : no_zero s)
    (h0 : 0 < C) (hC : C ≤ (s.length : Int)) (hp : positioned_at p (put_string s)) :
    iget_string p C
      = some (s.take (C - 1).toNat ++ [0],
          { p with bad_string := true, ptr := p.ptr + (s.length + 1) })
    ∧ p.short_packet = false := by
  have hput := put_string_no_zero s hs
  rw [hput] at hp
  obtain ⟨hr, hst⟩ := hp
  simp only [List.length_append, List.length_singleton, Nat.cast_add, Nat.cast_one] at hr
  obtain ⟨hsp, hrem⟩ := remaining_not_short p ((s.length : Int) + 1) (by omega) hr
  have hz := first_zero_of_stored p.base p.ptr s hs hst
  refine ⟨?_, hsp⟩
  rw [iget_string_terminated p C (p.ptr + s.length) h0 hsp hz (by push_cast; omega)]
  have e1 : min (p.ptr + s.length - p.ptr) (C.toNat - 1) = (C - 1).toNat := by omega
  have e2 : C ≤ ((p.ptr + s.length - p.ptr : Nat) : Int) := by omega
  rw [e1, stored_at_range p.base p.ptr (s ++ [0]) hst (C - 1).toNat (by simp; omega),
    List.take_append_of_le_length (by omega)]
  simp only [e2, decide_True, Bool.or_true]
  rfl

theorem iget_string_truncation_witness :
    no_zero [104, 105, 33]
    ∧ positioned_at (cursor_at 8 [0, 8, 7, 104, 105, 33, 0, 9] 3 false) (put_string [104, 105, 33])
    ∧ iget_string (cursor_at 8 [0, 8, 7, 104, 105, 33, 0, 9] 3 false) 3
        = some ([104, 105, 0],
            { cursor_at 8 [0, 8, 7, 104, 105, 33, 0, 9] 7 false with bad_string := true }) :=
  ⟨by decide, by decide,
    (iget_string_truncation (cursor_at 8 [0, 8, 7, 104, 105, 33, 0, 9] 3 false) [104, 105, 33] 3
      (by decide) (by decide) (by decide) (by decide)).1⟩

/-- C18. For every destination capacity `C > 0` and every cursor: with
`R >= 1` bytes remaining, none of them zero, `iget_string` sets `bad_string`
(and `short_packet`, without advancing) and writes the first `min(R, C-1)`
remaining bytes and a terminator; and whatever the cursor, the result written
is a string without a zero byte, of length at most `C-1`, and its
terminator. -/
theorem iget_string_no_terminator (p : pack_iter) (C : Int) (hC : 0 < C) :
    (1 ≤ pack_iter_remaining p →
      (∀ k, p.ptr ≤ k → (k : Int) < p.len → peek p.base k ≠ 0) →
      iget_string p C
        = some ((List.range (min (pack_iter_remaining p) (C - 1)).toNat).map
                  (fun i => peek p.base (p.ptr + i)) ++ [0],
            { p with short_packet := true, bad_string := true }))
    ∧ ∃ text q, iget_string p C = some (text ++ [0], q)
        ∧ (text.length : Int) ≤ C - 1 ∧ no_zero text := by
  refine ⟨fun hrem hno => iget_string_unterminated p C hC hrem hno, ?_⟩
  obtain ⟨c1, c2, c3, c4, -⟩ := iget_string_c_spec p
  by_cases h2 : pack_iter_remaining p < 1
  · unfold iget_string
    rw [if_neg (by omega), if_pos h2]
    exact ⟨[], _, rfl, by simp; omega, by intro ch hch; simp at hch⟩
  · obtain ⟨hsp, hrem⟩ := remaining_not_short p 1 (by omega) (by omega)
    by_cases hu : ((iget_string_c p).1 : Int) < p.len
    · rw [iget_string_terminated p C _ hC hsp ⟨c1, c4 hu, c3⟩ hu]
      refine ⟨_, _, rfl, ?_, ?_⟩
      · simp only [List.length_map, List.length_range]
        omega
      · intro ch hch
        simp only [List.mem_map, List.mem_range] at hch
        obtain ⟨i, hi, rfl⟩ := hch
        exact c3 _ (by omega) (by omega)
    · rw [iget_string_unterminated p C hC (by omega) (fun k h1 h2 => c3 k h1 (by omega))]
      refine ⟨_, _, rfl, ?_, ?_⟩
      · simp only [List.length_map, List.length_range]
        omega
      · intro ch hch
        simp only [List.mem_map, List.mem_range] at hch
        obtain ⟨i, hi, rfl⟩ := hch
        have hle := c2 (by omega)
        exact c3 _ (by omega) (by omega)

theorem iget_string_no_terminator_witness :
    iget_string (cursor_at 7 [0, 7, 7, 104, 105, 33, 5] 3 false) 3
      = some ([104, 105, 0],
          { cursor_at 7 [0, 7, 7, 104, 105, 33, 5] 3 false with
            short_packet := true, bad_string := true }) :=
  ((iget_string_no_terminator (cursor_at 7 [0, 7, 7, 104, 105, 33, 5] 3 false) 3 (by decide)).1
    (by decide) (by
      intro k h1 h2
      have h3 : k = 3 ∨ k = 4 ∨ k = 5 ∨ k = 6 := by
        simp only [cursor_at] at h1 h2; omega
      rcases h3 with rfl | rfl | rfl | rfl <;> decide)).trans (by decide)

/-! ## Bit strings -/

theorem pack_bits (c0 c1 c2 c3 c4 c5 c6 c7 : Bool) (d : Nat)
    (hd : d = [0, 1, 2, 3, 4, 5, 6, 7].foldl
      (fun data b => if [c0, c1, c2, c3, c4, c5, c6, c7].getD b false = true
        then data ||| (1 <<< b) else data) 0) :
    d < 256
    ∧ ∀ k, k < 8 → (d &&& (1 <<< k) ≠ 0 ↔ [c0, c1, c2, c3, c4, c5, c6, c7].getD k false = true) := by
  subst hd
  constructor
  · cases c0 <;> cases c1 <;> cases c2 <;> cases c3 <;> cases c4 <;> cases c5 <;> cases c6
      <;> cases c7 <;> decide
  · intro k hk
    interval_cases k <;> cases c0 <;> cases c1 <;> cases c2 <;> cases c3 <;> cases c4
      <;> cases c5 <;> cases c6 <;> cases c7 <;> decide

/-- The byte `put_bit_string` packs from the first eight characters of `str`
has bit `k` set exactly when character `k` is `'1'`. -/
theorem bit_byte (str : List Nat) (d : Nat)
    (hd : d = (List.range 8).foldl
      (fun data b => if str.getD b 0 = 49 then data ||| (1 <<< b) else data) 0) :
    d < 256 ∧ ∀ k, k < 8 → (d &&& (1 <<< k) ≠ 0 ↔ str.getD k 0 = 49) := by
  have hr : List.range 8 = [0, 1, 2, 3, 4, 5, 6, 7] := by decide
  have h := pack_bits (decide (str.getD 0 0 = 49)) (decide (str.getD 1 0 = 49))
    (decide (str.getD 2 0 = 49)) (decide (str.getD 3 0 = 49)) (decide (str.getD 4 0 = 49))
    (decide (str.getD 5 0 = 49)) (decide (str.getD 6 0 = 49)) (decide (str.getD 7 0 = 49)) d
    (by
      rw [hd, hr]
      simp only [List.foldl_cons, List.foldl_nil, List.getD_cons_zero, List.getD_cons_succ,
        decide_eq_true_eq])
  refine ⟨h.1, fun k hk => ?_⟩
  have h2 := h.2 k hk
  interval_cases k <;>
    simpa only [List.getD_cons_zero, List.getD_cons_succ, decide_eq_true_eq] using h2

theorem filter_range_lt (n L : Nat) :
    (List.range n).filter (fun b => decide (b < L)) = List.range (min n L) := by
  induction n with
  | zero => simp
  | succ m ih =>
    rw [List.range_succ, List.filter_append, ih]
    by_cases h : m < L
    · have e : min (m + 1) L = min m L + 1 := by omega
      have e2 : min m L = m := by omega
      rw [e, List.range_succ, e2]
      simp [h]
    · have e : min (m + 1) L = min m L := by omega
      rw [e]
      simp [h]

/-- The characters `iget_bit_string` stores for one byte of a packed string
are the (at most eight) characters the byte was packed from. -/
theorem bits_of_byte (t : List Nat) (ht : is_bit_string t) (i npack navail : Nat)
    (hlen : t.length = npack - i) (hnav : npack < navail) (d : Nat)
    (hd : d = (List.range 8).foldl
      (fun data b => if t.getD b 0 = 49 then data ||| (1 <<< b) else data) 0) :
    ((List.range 8).filter (fun b => i + b < npack ∧ i + b < navail)).map
        (fun b => if d &&& (1 <<< b) ≠ 0 then 49 else 48)
      = t.take 8 := by
  have hf : (List.range 8).filter (fun b => decide (i + b < npack ∧ i + b < navail))
      = (List.range 8).filter (fun b => decide (b < t.length)) := by
    apply List.filter_congr
    intro b _
    simp only [decide_eq_decide]
    omega
  rw [hf, filter_range_lt]
  obtain ⟨-, hb⟩ := bit_byte t d hd
  apply List.ext_getElem
  · simp [List.length_take]
  · intro k h1 h2
    simp only [List.length_map, List.length_range] at h1
    rw [List.getElem_map, List.getElem_range, List.getElem_take]
    have hk := hb k (by omega)
    rw [List.getD_eq_getElem _ _ (by omega)] at hk
    rcases ht _ (List.getElem_mem (by omega : k < t.length)) with h48 | h49
    · rw [if_neg (by rw [hk, h48]; decide), h48]
    · rw [if_pos (by rw [hk, h49]), h49]

theorem put_bit_string_bytes_nil (g : Nat) : put_bit_string_bytes g [] = [] := by
  cases g <;> simp [put_bit_string_bytes]

/-- The loop of `iget_bit_string` over the bytes the loop of `put_bit_string`
packed from `t`, the characters from bit `i` on: it stores `t` and consumes
exactly these bytes. -/
theorem bit_string_loop_round_trip (npack navail : Nat) (hnav : npack < navail) :
    ∀ (f g : Nat) (t : List Nat) (i : Nat) (p : pack_iter), is_bit_string t →
      t.length = npack - i → t.length ≤ f → t.length ≤ g →
      positioned_at p (put_bit_string_bytes g t) →
      iget_bit_string_loop npack navail f i p
        = (t, { p with ptr := p.ptr + (put_bit_string_bytes g t).length }) := by
  intro f
  induction f with
  | zero =>
    intro g t i p _ _ hf _ _
    have ht : t = [] := List.length_eq_zero.mp (by omega)
    subst ht
    rw [put_bit_string_bytes_nil]
    rfl
  | succ f ih =>
    intro g t i p ht hlen hf hg hp
    by_cases hte : t = []
    · subst hte
      rw [put_bit_string_bytes_nil]
      unfold iget_bit_string_loop
      simp only [List.length_nil] at hlen
      rw [if_neg (by omega)]
      rfl
    · have hpos : 0 < t.length := List.length_pos.mpr hte
      obtain ⟨g', rfl⟩ : ∃ g', g = g' + 1 := ⟨g - 1, by omega⟩
      unfold put_bit_string_bytes at hp ⊢
      rw [if_neg hte] at hp ⊢
      obtain ⟨hr, hst⟩ := hp
      simp only [List.length_cons, Nat.cast_add, Nat.cast_one] at hr
      obtain ⟨hsp, hrem⟩ := remaining_not_short p 1 (by omega) (by omega)
      have hbyte := hst 0 (by simp)
      simp only [add_zero, List.getD_cons_zero] at hbyte
      have hdrop : (t.drop 8).length = t.length - 8 := List.length_drop 8 t
      have hp' : positioned_at { p with ptr := p.ptr + 1 }
          (put_bit_string_bytes g' (t.drop 8)) := by
        constructor
        · unfold pack_iter_remaining
          simp only [hsp, Bool.false_eq_true, if_false]
          push_cast
          omega
        · intro j hj
          have := hst (j + 1) (by simp; omega)
          simp only [List.getD_cons_succ] at this
          have e : p.ptr + 1 + j = p.ptr + (j + 1) := by omega
          show peek p.base (p.ptr + 1 + j) = _
          rw [e, this]
      have hrest := ih g' (t.drop 8) (i + 8) { p with ptr := p.ptr + 1 }
        (fun ch hch => ht ch (List.mem_of_mem_drop hch)) (by omega) (by omega) (by omega) hp'
      unfold iget_bit_string_loop
      rw [if_pos (by omega)]
      dsimp only
      rw [iget_uint8_value p (by omega), hbyte]
      dsimp only
      rw [hrest, Int.toNat_ofNat, bits_of_byte t ht i npack navail hlen hnav _ rfl,
        List.take_append_drop]
      simp only [List.length_cons, Prod.mk.injEq, true_and]
      congr 1
      omega

theorem c_string_bit_string (s : List Nat) (hs : is_bit_string s) : c_string s = s := by
  unfold c_string
  rw [List.takeWhile_eq_self_iff]
  intro x hx
  rcases hs x hx with h | h <;> simp [h]

/-- C19. For every string `s` of `'0'`/`'1'` characters of length `N <= 255`
and every destination capacity `C > N`: on a cursor positioned at the bytes
`put_bit_string(s)` wrote (all within the declared length), `iget_bit_string`
yields exactly `s` with its terminator and leaves the cursor with the read
offset advanced by the number of bytes written, `short_packet` clear, and
`bad_bit_string` as it was (for the empty string: clear). -/
theorem bit_string_round_trip (p : pack_iter) (s : List Nat) (C : Int) (hs : is_bit_string s)
    (hN : s.length ≤ 255) (hC : (s.length : Int) < C) (hp : positioned_at p (put_bit_string s)) :
    iget_bit_string p C
      = some (s ++ [0],
          { p with ptr := p.ptr + (put_bit_string s).length
                   bad_bit_string := if s = [] then false else p.bad_bit_string })
    ∧ p.short_packet = false := by
  have hcs := c_string_bit_string s hs
  unfold put_bit_string at hp ⊢
  rw [hcs] at hp ⊢
  obtain ⟨hr, hst⟩ := hp
  simp only [List.length_cons, Nat.cast_add, Nat.cast_one] at hr
  obtain ⟨hsp, hrem⟩ := remaining_not_short p 1 (by omega) (by omega)
  refine ⟨?_, hsp⟩
  have hbyte := hst 0 (by simp)
  simp only [add_zero, List.getD_cons_zero] at hbyte
  have hmod : s.length % 256 = s.length := by omega
  rw [hmod] at hbyte
  unfold iget_bit_string
  rw [if_neg (by omega), if_neg (by omega), iget_uint8_value p (by omega), hbyte]
  dsimp only
  by_cases hte : s = []
  · subst hte
    simp only [List.length_nil, Nat.cast_zero, le_refl, if_true, lt_self_iff_false,
      decide_False, put_bit_string_bytes_nil, List.nil_append, zero_add]
    rfl
  · have hpos : 0 < s.length := List.length_pos.mpr hte
    have hp' : positioned_at { p with ptr := p.ptr + 1 }
        (put_bit_string_bytes s.length s) := by
      constructor
      · unfold pack_iter_remaining
        simp only [hsp, Bool.false_eq_true, if_false]
        push_cast
        omega
      · intro j hj
        have := hst (j + 1) (by simp; omega)
        simp only [List.getD_cons_succ] at this
        have e : p.ptr + 1 + j = p.ptr + (j + 1) := by omega
        show peek p.base (p.ptr + 1 + j) = _
        rw [e, this]
    have hloop := bit_string_loop_round_trip s.length C.toNat (by omega) s.length s.length s 0
      { p with ptr := p.ptr + 1 } hs (by omega) le_rfl le_rfl hp'
    rw [if_neg (by omega), Int.toNat_ofNat, hloop]
    simp only [hC, if_true, hsp, Bool.false_eq_true, if_false, hte, List.length_cons]
    have e : p.ptr + 1 + (put_bit_string_bytes s.length s).length
        = p.ptr + ((put_bit_string_bytes s.length s).length + 1) := by omega
    rw [e]

theorem bit_string_round_trip_witness :
    is_bit_string [49, 48, 49, 49, 48, 48, 48, 48, 49]
    ∧ put_bit_string [49, 48, 49, 49, 48, 48, 48, 48, 49] = [9, 13, 1]
    ∧ positioned_at (cursor_at 7 [0, 7, 7, 9, 13, 1, 5] 3 false)
        (put_bit_string [49, 48, 49, 49, 48, 48, 48, 48, 49])
    ∧ iget_bit_string (cursor_at 7 [0, 7, 7, 9, 13, 1, 5] 3 false) 10
        = some ([49, 48, 49, 49, 48, 48, 48, 48, 49, 0], cursor_at 7 [0, 7, 7, 9, 13, 1, 5] 6 false) :=
  ⟨by decide, by decide, by decide,
    ((bit_string_round_trip (cursor_at 7 [0, 7, 7, 9, 13, 1, 5] 3 false)
      [49, 48, 49, 49, 48, 48, 48, 48, 49] 10 (by decide) (by decide) (by decide)
      (by decide)).1).trans (by decide)⟩

/-- C20, as the code has it. For every cursor with at least one byte
remaining whose bit-count byte is 0, and every destination capacity `C > 0`:
`iget_bit_string` yields the empty string, advances past the count byte, and
assigns `npack < 0`, that is 0, to `bad_bit_string`: the flag is clear
afterwards. -/
theorem bit_string_count_zero (p : pack_iter) (C : Int) (hC : 0 < C)
    (hrem : 1 ≤ pack_iter_remaining p) (hN : peek p.base p.ptr = 0) :
    iget_bit_string p C
      = some ([0], { p with ptr := p.ptr + 1, bad_bit_string := false }) := by
  unfold iget_bit_string
  rw [if_neg (by omega), if_neg (by omega), iget_uint8_value p hrem, hN]
  simp

theorem bit_string_count_zero_witness :
    iget_bit_string (cursor_at 5 [0, 5, 7, 0, 9] 3 false) 10
      = some ([0], cursor_at 5 [0, 5, 7, 0, 9] 4 false) :=
  (bit_string_count_zero (cursor_at 5 [0, 5, 7, 0, 9] 3 false) 10 (by decide) (by decide)
    (by decide)).trans (by decide)

/-- C20 as stated fails: a cursor with two bytes remaining, the first a
bit-count byte 0.  `iget_bit_string` yields the empty string and leaves
`bad_bit_string` clear; on a cursor that had the flag set by an earlier
field it even clears it. -/
theorem bit_string_count_zero_not_flagged :
    1 ≤ pack_iter_remaining (cursor_at 5 [0, 5, 7, 0, 9] 3 false)
    ∧ peek (cursor_at 5 [0, 5, 7, 0, 9] 3 false).base 3 = 0
    ∧ (iget_bit_string (cursor_at 5 [0, 5, 7, 0, 9] 3 false) 10).map
        (fun r => (r.1, r.2.bad_bit_string)) = some ([0], false)
    ∧ (iget_bit_string
        { cursor_at 5 [0, 5, 7, 0, 9] 3 false with bad_bit_string := true } 10).map
        (fun r => (r.1, r.2.bad_bit_string)) = some ([0], false) := by
  decide

/-! ## Count-prefixed vectors -/

theorem stored_at_cons (buffer : List Nat) (p b : Nat) (bs : List Nat) :
    stored_at buffer p (b :: bs) ↔ peek buffer p = b ∧ stored_at buffer (p + 1) bs := by
  unfold stored_at
  constructor
  · intro h
    refine ⟨by simpa using h 0 (by simp), fun i hi => ?_⟩
    have := h (i + 1) (by simp; omega)
    simp only [List.getD_cons_succ] at this
    rw [← this]
    congr 1
    omega
  · rintro ⟨h0, h1⟩ i hi
    cases i with
    | zero => simpa using h0
    | succ j =>
      have := h1 j (by simp at hi; omega)
      simp only [List.getD_cons_succ]
      rw [← this]
      congr 1
      omega

theorem stored_at_append (buffer : List Nat) (p : Nat) (l1 l2 : List Nat) :
    stored_at buffer p (l1 ++ l2)
      ↔ stored_at buffer p l1 ∧ stored_at buffer (p + l1.length) l2 := by
  induction l1 generalizing p with
  | nil => simp [stored_at]
  | cons b bs ih =>
    rw [List.cons_append, stored_at_cons, stored_at_cons, ih]
    have e : p + 1 + bs.length = p + (b :: bs).length := by simp; omega
    rw [e]
    tauto

theorem vec_until_append_stop (e : List Int) (stop : Int) (rest : List Int)
    (h : ∀ x ∈ e, x ≠ stop) : vec_until stop (e ++ stop :: rest) = e := by
  induction e with
  | nil => simp [vec_until]
  | cons x xs ih =>
    have hx : x ≠ stop := h x (by simp)
    simp only [List.cons_append, vec_until, hx, if_false]
    exact congrArg _ (ih (fun y hy => h y (by simp [hy])))

theorem get_uint8_elems (buffer : List Nat) (e : List Int) :
    ∀ p, (∀ x ∈ e, 0 ≤ x ∧ x ≤ 255) → stored_at buffer p (e.map put_uint8).flatten →
      (List.range e.length).map (fun inx => (get_uint8 buffer (p + inx)).1) = e := by
  induction e with
  | nil => intros; rfl
  | cons x xs ih =>
    intro p hv hs
    simp only [List.map_cons, List.flatten_cons, put_uint8, List.singleton_append] at hs
    rw [stored_at_cons] at hs
    have hx := hv x (by simp)
    rw [List.length_cons, List.range_succ_eq_map, List.map_cons, List.map_map]
    have h0 : (get_uint8 buffer (p + 0)).1 = x := by
      simp only [get_uint8, add_zero, hs.1]
      omega
    rw [h0]
    congr 1
    refine Eq.trans ?_ (ih (p + 1) (fun y hy => hv y (by simp [hy])) hs.2)
    apply List.map_congr_left
    intro i _
    have e : p + Nat.succ i = p + 1 + i := by omega
    simp only [Function.comp, get_uint8, e]

theorem get_uint16_elems (buffer : List Nat) (e : List Int) :
    ∀ p, (∀ x ∈ e, 0 ≤ x ∧ x ≤ 65535) → stored_at buffer p (e.map put_uint16).flatten →
      (List.range e.length).map (fun inx => (get_uint16 buffer (p + 2 * inx)).1) = e := by
  induction e with
  | nil => intros; rfl
  | cons x xs ih =>
    intro p hv hs
    simp only [List.map_cons, List.flatten_cons, put_uint16, List.cons_append,
      List.nil_append] at hs
    rw [stored_at_cons, stored_at_cons] at hs
    have hx := hv x (by simp)
    rw [List.length_cons, List.range_succ_eq_map, List.map_cons, List.map_map]
    have h0 : (get_uint16 buffer (p + 2 * 0)).1 = x := by
      simp only [get_uint16, Nat.mul_zero, add_zero, hs.1, hs.2.1]
      omega
    rw [h0]
    congr 1
    refine Eq.trans ?_ (ih (p + 1 + 1) (fun y hy => hv y (by simp [hy])) hs.2.2)
    apply List.map_congr_left
    intro i _
    have e : p + 2 * Nat.succ i = p + 1 + 1 + 2 * i := by omega
    simp only [Function.comp, get_uint16, e]

theorem flatten_put_uint8_length (e : List Int) : (e.map put_uint8).flatten.length = e.length := by
  induction e with
  | nil => rfl
  | cons x xs ih => simp [put_uint8, ih]

theorem flatten_put_uint16_length (e : List Int) :
    (e.map put_uint16).flatten.length = 2 * e.length := by
  induction e with
  | nil => rfl
  | cons x xs ih => simp [put_uint16, ih]; omega

/-- C24. For every sequence `e` of `n <= 255` elements in 0..255, none of
them the sentinel `stop`: `put_uint8_vec8` given `e` followed by `stop`
writes `1+n` bytes, and `get_uint8_vec8` applied to a memory holding them
yields the `n+1` slots `e` followed by `stop`, with the pointer advanced by
`1+n`.  Likewise `put_uint16_vec8` and `get_uint16_vec8` for elements in
0..65535, with `1+2n` bytes. -/
theorem vec8_round_trip (buffer : List Nat) (p : Nat) (e : List Int) (stop : Int)
    (hn : e.length ≤ 255) (hstop : ∀ x ∈ e, x ≠ stop) :
    ((∀ x ∈ e, 0 ≤ x ∧ x ≤ 255) → stored_at buffer p (put_uint8_vec8 (e ++ [stop]) stop) →
      (put_uint8_vec8 (e ++ [stop]) stop).length = 1 + e.length
      ∧ get_uint8_vec8 buffer p stop = (e ++ [stop], p + (1 + e.length)))
    ∧ ((∀ x ∈ e, 0 ≤ x ∧ x ≤ 65535) →
      stored_at buffer p (put_uint16_vec8 (e ++ [stop]) stop) →
      (put_uint16_vec8 (e ++ [stop]) stop).length = 1 + 2 * e.length
      ∧ get_uint16_vec8 buffer p stop = (e ++ [stop], p + (1 + 2 * e.length))) := by
  have hvu := vec_until_append_stop e stop [] hstop
  constructor
  · intro hv hs
    unfold put_uint8_vec8 at hs ⊢
    simp only [hvu] at hs ⊢
    simp only [put_uint8, List.singleton_append] at hs ⊢
    rw [stored_at_cons] at hs
    have hc : ((peek buffer p : Nat) : Int).toNat = e.length := by
      rw [hs.1]; omega
    refine ⟨by rw [List.length_cons, flatten_put_uint8_length]; omega, ?_⟩
    unfold get_uint8_vec8
    simp only [get_uint8, hc]
    have := get_uint8_elems buffer e (p + 1) hv hs.2
    simp only [get_uint8] at this
    rw [this]
    simp only [Prod.mk.injEq, true_and]
    omega
  · intro hv hs
    unfold put_uint16_vec8 at hs ⊢
    simp only [hvu] at hs ⊢
    simp only [put_uint8, List.singleton_append] at hs ⊢
    rw [stored_at_cons] at hs
    have hc : ((peek buffer p : Nat) : Int).toNat = e.length := by
      rw [hs.1]; omega
    refine ⟨by rw [List.length_cons, flatten_put_uint16_length]; omega, ?_⟩
    unfold get_uint16_vec8
    simp only [get_uint8, hc]
    have := get_uint16_elems buffer e (p + 1) hv hs.2
    rw [this]
    simp only [Prod.mk.injEq, true_and]
    omega

theorem vec8_round_trip_witness :
    put_uint8_vec8 ([3, 4, 5] ++ [9]) 9 = [3, 3, 4, 5]
    ∧ get_uint8_vec8 [1, 3, 3, 4, 5, 7] 1 9 = ([3, 4, 5] ++ [9], 1 + (1 + 3))
    ∧ put_uint16_vec8 ([300, 4, 5] ++ [9]) 9 = [3, 1, 44, 0, 4, 0, 5]
    ∧ get_uint16_vec8 [1, 3, 1, 44, 0, 4, 0, 5, 7] 1 9 = ([300, 4, 5] ++ [9], 1 + (1 + 2 * 3)) :=
  ⟨by decide,
    ((vec8_round_trip [1, 3, 3, 4, 5, 7] 1 [3, 4, 5] 9 (by decide) (by decide)).1 (by decide)
      (by decide)).2,
    by decide,
    ((vec8_round_trip [1, 3, 1, 44, 0, 4, 0, 5, 7] 1 [300, 4, 5] 9 (by decide) (by decide)).2
      (by decide) (by decide)).2⟩

/-- C25. For every cursor, with `c` the byte at the read offset:
`iget_uint8_vec8` sets `short_packet`, yields the null vector and leaves the
cursor otherwise as it was when fewer than `1 + c` bytes remain; otherwise it
yields the `c` following bytes and the sentinel and advances the read offset
by `1 + c`.  `iget_uint16_vec8` does the same with `1 + 2c` bytes and `c`
16-bit elements in network order. -/
theorem iget_vec8_short_or_elements (p : pack_iter) (stop : Int) :
    (pack_iter_remaining p < 1 + (peek p.base p.ptr : Int) →
      iget_uint8_vec8 p stop = (none, { p with short_packet := true }))
    ∧ (1 + (peek p.base p.ptr : Int) ≤ pack_iter_remaining p →
      iget_uint8_vec8 p stop
        = (some ((List.range (peek p.base p.ptr)).map
              (fun i => ((peek p.base (p.ptr + 1 + i) : Nat) : Int)) ++ [stop]),
            { p with ptr := p.ptr + 1 + peek p.base p.ptr }))
    ∧ (pack_iter_remaining p < 1 + 2 * (peek p.base p.ptr : Int) →
      iget_uint16_vec8 p stop = (none, { p with short_packet := true }))
    ∧ (1 + 2 * (peek p.base p.ptr : Int) ≤ pack_iter_remaining p →
      iget_uint16_vec8 p stop
        = (some ((List.range (peek p.base p.ptr)).map
              (fun i => ((peek p.base (p.ptr + 1 + 2 * i) * 256
                + peek p.base (p.ptr + 1 + 2 * i + 1) : Nat) : Int)) ++ [stop]),
            { p with ptr := p.ptr + 1 + 2 * peek p.base p.ptr })) := by
  refine ⟨?_, ?_, ?_, ?_⟩
  · intro h
    unfold iget_uint8_vec8
    by_cases h1 : pack_iter_remaining p < 1
    · rw [if_pos h1]
    · rw [if_neg h1]
      simp only [get_uint8]
      rw [if_pos (by omega)]
  · intro h
    unfold iget_uint8_vec8
    rw [if_neg (by omega)]
    simp only [get_uint8]
    rw [if_neg (by omega)]
    simp only [get_uint8_vec8, get_uint8, Int.toNat_ofNat]
  · intro h
    unfold iget_uint16_vec8
    by_cases h1 : pack_iter_remaining p < 1
    · rw [if_pos h1]
    · rw [if_neg h1]
      simp only [get_uint8]
      rw [if_pos (by omega)]
  · intro h
    unfold iget_uint16_vec8
    rw [if_neg (by omega)]
    simp only [get_uint8]
    rw [if_neg (by omega)]
    simp only [get_uint16_vec8, get_uint8, get_uint16, Int.toNat_ofNat]

theorem iget_vec8_short_or_elements_witness :
    iget_uint8_vec8 (cursor_at 5 [0, 5, 7, 3, 8] 3 false) 99
      = (none, { cursor_at 5 [0, 5, 7, 3, 8] 3 false with short_packet := true })
    ∧ iget_uint8_vec8 (cursor_at 6 [0, 6, 7, 2, 8, 9] 3 false) 99
      = (some [8, 9, 99], cursor_at 6 [0, 6, 7, 2, 8, 9] 6 false)
    ∧ iget_uint16_vec8 (cursor_at 6 [0, 6, 7, 2, 8, 9] 3 false) 99
      = (none, { cursor_at 6 [0, 6, 7, 2, 8, 9] 3 false with short_packet := true })
    ∧ iget_uint16_vec8 (cursor_at 6 [0, 6, 7, 1, 1, 44] 3 false) 99
      = (some [300, 99], cursor_at 6 [0, 6, 7, 1, 1, 44] 6 false) :=
  ⟨(iget_vec8_short_or_elements (cursor_at 5 [0, 5, 7, 3, 8] 3 false) 99).1 (by decide),
    ((iget_vec8_short_or_elements (cursor_at 6 [0, 6, 7, 2, 8, 9] 3 false) 99).2.1
      (by decide)).trans (by decide),
    (iget_vec8_short_or_elements (cursor_at 6 [0, 6, 7, 2, 8, 9] 3 false) 99).2.2.1 (by decide),
    ((iget_vec8_short_or_elements (cursor_at 6 [0, 6, 7, 1, 1, 44] 3 false) 99).2.2.2
      (by decide)).trans (by decide)⟩

/-! ## Tech lists -/

theorem put_tech_list_take (A_LAST : Int) :
    ∀ (n : Nat) (t : List Int), t.length = n →
      put_tech_list A_LAST n t
        = ((t.take ((vec_until A_LAST t).length + 1)).map put_uint8).flatten := by
  intro n
  induction n with
  | zero =>
    intro t ht
    have : t = [] := List.length_eq_zero.mp ht
    subst this
    rfl
  | succ n ih =>
    intro t ht
    obtain ⟨x, xs, rfl⟩ : ∃ x xs, t = x :: xs := by
      cases t with
      | nil => simp at ht
      | cons x xs => exact ⟨x, xs, rfl⟩
    simp only [List.length_cons, Nat.add_right_cancel_iff] at ht
    unfold put_tech_list
    simp only [List.headD_cons, List.tail_cons, vec_until]
    by_cases hx : x = A_LAST
    · simp [hx]
    · simp only [hx, if_false, List.length_cons, List.take_succ_cons, List.map_cons,
        List.flatten_cons]
      rw [ih xs ht]

/-- The loop of `iget_tech_list` over the bytes `put_tech_list` wrote for
`t`. -/
theorem tech_list_from_round_trip (A_LAST : Int) :
    ∀ (n : Nat) (t : List Int) (p : pack_iter), t.length = n →
      (∀ x ∈ t, 0 ≤ x ∧ x ≤ 255) →
      (∀ i j, i ≤ j → j < t.length → t.getD i 0 = A_LAST → t.getD j 0 = A_LAST) →
      positioned_at p (put_tech_list A_LAST n t) →
      iget_tech_list_from A_LAST n p
        = (t, { p with ptr := p.ptr + (put_tech_list A_LAST n t).length }) := by
  intro n
  induction n with
  | zero =>
    intro t p ht _ _ _
    have : t = [] := List.length_eq_zero.mp ht
    subst this
    rfl
  | succ n ih =>
    intro t p ht hv hpad hp
    obtain ⟨x, xs, rfl⟩ : ∃ x xs, t = x :: xs := by
      cases t with
      | nil => simp at ht
      | cons x xs => exact ⟨x, xs, rfl⟩
    simp only [List.length_cons, Nat.add_right_cancel_iff] at ht
    have hx := hv x (by simp)
    unfold put_tech_list at hp ⊢
    simp only [List.headD_cons, List.tail_cons, put_uint8, List.singleton_append] at hp ⊢
    obtain ⟨hr, hs⟩ := hp
    rw [stored_at_cons] at hs
    simp only [List.length_cons, Nat.cast_add, Nat.cast_one] at hr
    obtain ⟨hsp, hrem⟩ := remaining_not_short p 1 (by omega) (by omega)
    have hbyte : ((peek p.base p.ptr : Nat) : Int) = x := by rw [hs.1]; omega
    unfold iget_tech_list_from
    rw [iget_uint8_value p (by omega), hbyte]
    dsimp only
    by_cases hxa : x = A_LAST
    · rw [if_pos hxa]
      have hrep : List.replicate (n + 1) A_LAST = x :: xs := by
        symm
        rw [List.eq_replicate_iff]
        refine ⟨by simp [ht], ?_⟩
        intro b hb
        obtain ⟨j, hj, rfl⟩ := List.mem_iff_getElem.mp hb
        have := hpad 0 j (by omega) hj (by simpa using hxa)
        rw [List.getD_eq_getElem _ _ hj] at this
        exact this
      rw [hrep, if_pos hxa]
      rfl
    · rw [if_neg hxa]
      simp only [hxa, if_false] at hr hs ⊢
      have hp' : positioned_at { p with ptr := p.ptr + 1 } (put_tech_list A_LAST n xs) := by
        refine ⟨?_, hs.2⟩
        unfold pack_iter_remaining
        simp only [hsp, Bool.false_eq_true, if_false]
        push_cast
        omega
      rw [ih xs { p with ptr := p.ptr + 1 } ht (fun y hy => hv y (by simp [hy]))
        (fun i j hij hj h => by
          have := hpad (i + 1) (j + 1) (by omega) (by simp; omega)
            (by simpa using h)
          simpa using this) hp']
      simp only [Prod.mk.injEq, true_and]
      have e : p.ptr + 1 + (put_tech_list A_LAST n xs).length
          = p.ptr + ((put_tech_list A_LAST n xs).length + 1) := by omega
      rw [e]
      rfl

/-- C26. For every array `t` of `MAX_NUM_TECH_LIST` entries with values in
0..255 in which every entry after the first `A_LAST` is `A_LAST` too:
`put_tech_list` writes the entries up to and including the first `A_LAST`
(all entries if there is none), one byte each, and on a cursor positioned at
these bytes `iget_tech_list` yields exactly `t` and advances the read offset
by the number of bytes written, leaving every flag as it was. -/
theorem tech_list_round_trip (MAX_NUM_TECH_LIST : Nat) (A_LAST : Int) (p : pack_iter)
    (t : List Int) (hlen : t.length = MAX_NUM_TECH_LIST) (hv : ∀ x ∈ t, 0 ≤ x ∧ x ≤ 255)
    (hpad : sentinel_padded A_LAST t)
    (hp : positioned_at p (put_tech_list A_LAST MAX_NUM_TECH_LIST t)) :
    put_tech_list A_LAST MAX_NUM_TECH_LIST t
      = ((t.take ((vec_until A_LAST t).length + 1)).map put_uint8).flatten
    ∧ (put_tech_list A_LAST MAX_NUM_TECH_LIST t).length
      = min ((vec_until A_LAST t).length + 1) MAX_NUM_TECH_LIST
    ∧ iget_tech_list MAX_NUM_TECH_LIST A_LAST p
      = (t, { p with ptr := p.ptr + (put_tech_list A_LAST MAX_NUM_TECH_LIST t).length }) := by
  refine ⟨put_tech_list_take A_LAST _ t hlen, ?_,
    tech_list_from_round_trip A_LAST _ t p hlen hv (fun i j hij hj => hpad j hj i hij) hp⟩
  rw [put_tech_list_take A_LAST _ t hlen, flatten_put_uint8_length, List.length_take, hlen]

theorem tech_list_round_trip_witness :
    sentinel_padded 89 [1, 2, 89, 89]
    ∧ put_tech_list 89 4 [1, 2, 89, 89] = [1, 2, 89]
    ∧ positioned_at (cursor_at 7 [0, 7, 7, 1, 2, 89, 5] 3 false) (put_tech_list 89 4 [1, 2, 89, 89])
    ∧ iget_tech_list 4 89 (cursor_at 7 [0, 7, 7, 1, 2, 89, 5] 3 false)
        = ([1, 2, 89, 89], cursor_at 7 [0, 7, 7, 1, 2, 89, 5] 6 false) :=
  ⟨by decide, by decide, by decide,
    ((tech_list_round_trip 4 89 (cursor_at 7 [0, 7, 7, 1, 2, 89, 5] 3 false) [1, 2, 89, 89] rfl
      (by decide) (by decide) (by decide)).2.2).trans (by decide)⟩

/-! ## Bit strings: the wire shape, and truncation -/

theorem mask_bit (d k : Nat) : d &&& (1 <<< k) ≠ 0 ↔ d / 2 ^ k % 2 = 1 := by
  rw [Nat.one_shiftLeft, Nat.and_two_pow, Nat.testBit_to_div_mod]
  by_cases h : d / 2 ^ k % 2 = 1
  · simp [h]
  · simp [h]

theorem getD_drop (t : List Nat) (n j : Nat) : (t.drop n).getD j 0 = t.getD (n + j) 0 := by
  simp [List.getD_eq_getElem?_getD, List.getElem?_drop]

/-- The bytes the loop of `put_bit_string` packs from `t`: one for every
eight characters, each below 256, bit `k mod 8` of byte `k div 8` set exactly
when character `k` is `'1'`. -/
theorem put_bit_string_bytes_bits :
    ∀ (g : Nat) (t : List Nat), t.length ≤ g →
      (put_bit_string_bytes g t).length = (t.length + 7) / 8
      ∧ (∀ b ∈ put_bit_string_bytes g t, b < 256)
      ∧ ∀ k, k < 8 * ((t.length + 7) / 8) →
          ((put_bit_string_bytes g t).getD (k / 8) 0 / 2 ^ (k % 8) % 2 = 1 ↔ t.getD k 0 = 49) := by
  intro g
  induction g with
  | zero =>
    intro t ht
    have : t = [] := List.length_eq_zero.mp (by omega)
    subst this
    refine ⟨rfl, by simp [put_bit_string_bytes], fun k hk => by simp at hk⟩
  | succ g ih =>
    intro t ht
    by_cases hte : t = []
    · subst hte
      refine ⟨rfl, by simp [put_bit_string_bytes], fun k hk => by simp at hk⟩
    · have hpos : 0 < t.length := List.length_pos.mpr hte
      have hdrop : (t.drop 8).length = t.length - 8 := List.length_drop 8 t
      obtain ⟨i1, i2, i3⟩ := ih (t.drop 8) (by omega)
      obtain ⟨b1, b2⟩ := bit_byte t _ rfl
      unfold put_bit_string_bytes
      rw [if_neg hte]
      refine ⟨by rw [List.length_cons, i1, hdrop]; omega, ?_, ?_⟩
      · intro b hb
        rcases List.mem_cons.mp hb with rfl | hb'
        · exact b1
        · exact i2 b hb'
      · intro k hk
        by_cases hk8 : k < 8
        · have e1 : k / 8 = 0 := by omega
          have e2 : k % 8 = k := by omega
          rw [e1, e2, List.getD_cons_zero, ← mask_bit]
          exact b2 k hk8
        · obtain ⟨m, rfl⟩ : ∃ m, k = 8 + m := ⟨k - 8, by omega⟩
          have e1 : (8 + m) / 8 = m / 8 + 1 := by omega
          have e2 : (8 + m) % 8 = m % 8 := by omega
          rw [e1, e2, List.getD_cons_succ, i3 m (by rw [hdrop]; omega), getD_drop]

/-- C22. For every string `s` of `'0'`/`'1'` characters of length
`N <= 255`, `put_bit_string` writes `1 + ceil(N/8)` bytes: the first is `N`,
and for every `i < N` bit `i mod 8` of payload byte `i div 8` (bit 0 the
least significant) is 1 exactly when `s[i]` is `'1'`; the bits of the last
byte from `N` on are 0. -/
theorem put_bit_string_shape (s : List Nat) (hs : is_bit_string s) (hN : s.length ≤ 255) :
    (put_bit_string s).length = 1 + (s.length + 7) / 8
    ∧ (put_bit_string s).getD 0 0 = s.length
    ∧ (∀ b ∈ put_bit_string s, b < 256)
    ∧ (∀ i, i < s.length →
        ((put_bit_string s).getD (1 + i / 8) 0 / 2 ^ (i % 8) % 2 = 1 ↔ s.getD i 0 = 49))
    ∧ (∀ k, s.length ≤ k → k < 8 * ((s.length + 7) / 8) →
        (put_bit_string s).getD (1 + k / 8) 0 / 2 ^ (k % 8) % 2 = 0) := by
  obtain ⟨a1, a2, a3⟩ := put_bit_string_bytes_bits s.length s le_rfl
  unfold put_bit_string
  rw [c_string_bit_string s hs]
  have hmod : s.length % 256 = s.length := by omega
  refine ⟨by rw [List.length_cons, a1]; omega, by simp [hmod], ?_, ?_, ?_⟩
  · intro b hb
    rcases List.mem_cons.mp hb with rfl | hb'
    · omega
    · exact a2 b hb'
  · intro i hi
    rw [show 1 + i / 8 = i / 8 + 1 by omega, List.getD_cons_succ]
    exact a3 i (by omega)
  · intro k hk1 hk2
    rw [show 1 + k / 8 = k / 8 + 1 by omega, List.getD_cons_succ]
    have h := a3 k hk2
    rw [List.getD_eq_default _ _ hk1] at h
    have : ¬ ((put_bit_string_bytes s.length s).getD (k / 8) 0 / 2 ^ (k % 8) % 2 = 1) :=
      fun hc => absurd (h.mp hc) (by decide)
    omega

theorem put_bit_string_shape_witness :
    is_bit_string [49, 48, 49, 49, 48, 48, 48, 48, 49]
    ∧ put_bit_string [49, 48, 49, 49, 48, 48, 48, 48, 49] = [9, 13, 1]
    ∧ (put_bit_string [49, 48, 49, 49, 48, 48, 48, 48, 49]).length = 1 + (9 + 7) / 8 :=
  ⟨by decide, by decide,
    (put_bit_string_shape [49, 48, 49, 49, 48, 48, 48, 48, 49] (by decide) (by decide)).1⟩

/-- The characters `iget_bit_string` stores for the byte `data` read in the
round that starts at bit `i`, a multiple of 8. -/
theorem bits_of_wire_byte (base : List Nat) (start q npack navail : Nat) :
    ((List.range 8).filter (fun b => 8 * q + b < npack ∧ 8 * q + b < navail)).map
        (fun b => if peek base (start + q) &&& (1 <<< b) ≠ 0 then 49 else 48)
      = (List.range' (8 * q) (min 8 (min npack navail - 8 * q))).map (bit_char base start) := by
  have hf : (List.range 8).filter (fun b => decide (8 * q + b < npack ∧ 8 * q + b < navail))
      = (List.range 8).filter (fun b => decide (b < min npack navail - 8 * q)) := by
    apply List.filter_congr
    intro b _
    simp only [decide_eq_decide]
    omega
  rw [hf, filter_range_lt, List.range'_eq_map_range, List.map_map]
  apply List.map_congr_left
  intro b hb
  simp only [List.mem_range] at hb
  have e1 : (8 * q + b) / 8 = q := by omega
  have e2 : (8 * q + b) % 8 = b := by omega
  simp only [Function.comp, bit_char, e1, e2]
  by_cases h : peek base (start + q) / 2 ^ b % 2 = 1
  · rw [if_pos ((mask_bit _ _).mpr h), if_pos h]
  · rw [if_neg (fun hc => h ((mask_bit _ _).mp hc)), if_neg h]

/-- The loop of `iget_bit_string` from bit `8q` on, with the data bytes it
needs within the declared length: it stores the characters of the bits below
`npack` and `navail` and consumes one byte for every eight bits up to
`npack`. -/
theorem iget_bit_string_loop_chars (npack navail start : Nat) :
    ∀ (fuel q : Nat) (p : pack_iter), (npack - 8 * q + 7) / 8 ≤ fuel →
      p.ptr = start + q → p.short_packet = false →
      (p.ptr : Int) + ((npack - 8 * q + 7) / 8 : Nat) ≤ p.len →
      iget_bit_string_loop npack navail fuel (8 * q) p
        = ((List.range' (8 * q) (min npack navail - 8 * q)).map (bit_char p.base start),
            { p with ptr := p.ptr + (npack - 8 * q + 7) / 8 }) := by
  intro fuel
  induction fuel with
  | zero =>
    intro q p hf _ _ _
    have e1 : (npack - 8 * q + 7) / 8 = 0 := by omega
    have e2 : min npack navail - 8 * q = 0 := by omega
    rw [e1, e2]
    rfl
  | succ fuel ih =>
    intro q p hf hptr hsp hlen
    unfold iget_bit_string_loop
    by_cases hi : 8 * q < npack
    · rw [if_pos hi]
      dsimp only
      have hrem : pack_iter_remaining p = p.len - (p.ptr : Int) := by
        unfold pack_iter_remaining; simp [hsp]
      rw [iget_uint8_value p (by omega)]
      dsimp only
      have hrest := ih (q + 1) { p with ptr := p.ptr + 1 } (by omega)
        (by simp only [hptr]; omega) hsp (by push_cast; omega)
      rw [show 8 * q + 8 = 8 * (q + 1) by omega, hrest, Int.toNat_ofNat, hptr,
        bits_of_wire_byte p.base start q npack navail, ← List.map_append]
      have e3 : 8 * (q + 1) = 8 * q + min 8 (min npack navail - 8 * q)
          ∨ min npack navail - 8 * (q + 1) = 0 := by omega
      have e4 : List.range' (8 * q) (min 8 (min npack navail - 8 * q))
            ++ List.range' (8 * (q + 1)) (min npack navail - 8 * (q + 1))
          = List.range' (8 * q) (min npack navail - 8 * q) := by
        rcases e3 with h | h
        · rw [h, List.range'_append_1]
          congr 1
          omega
        · rw [h]
          simp only [List.range'_zero, List.append_nil]
          congr 1
          omega
      rw [e4]
      simp only [Prod.mk.injEq, true_and]
      have e5 : start + q + 1 + (npack - 8 * (q + 1) + 7) / 8
          = start + q + (npack - 8 * q + 7) / 8 := by omega
      rw [e5]
    · rw [if_neg hi]
      have e1 : (npack - 8 * q + 7) / 8 = 0 := by omega
      have e2 : min npack navail - 8 * q = 0 := by omega
      rw [e1, e2]
      rfl

/-- C21. For every cursor holding a count byte `N` and `ceil(N/8)` data bytes
within the declared length, and every destination capacity `C` with
`0 < C <= N`: `iget_bit_string` yields the first `C-1` bits of the field as
`'0'`/`'1'` characters and the terminator, sets `bad_bit_string`, leaves
`short_packet` clear, and advances the read offset by `1 + ceil(N/8)`. -/
theorem bit_string_truncation (p : pack_iter) (C : Int) (hC : 0 < C)
    (hN : C ≤ (peek p.base p.ptr : Int))
    (hrem : 1 + (((peek p.base p.ptr + 7) / 8 : Nat) : Int) ≤ pack_iter_remaining p) :
    iget_bit_string p C
      = some ((List.range (C - 1).toNat).map (bit_char p.base (p.ptr + 1)) ++ [0],
          { p with ptr := p.ptr + (1 + (peek p.base p.ptr + 7) / 8), bad_bit_string := true })
    ∧ p.short_packet = false := by
  obtain ⟨hsp, hr⟩ := remaining_not_short p 1 (by omega) (by omega)
  refine ⟨?_, hsp⟩
  unfold iget_bit_string
  rw [if_neg (by omega), if_neg (by omega), iget_uint8_value p (by omega)]
  dsimp only
  rw [if_neg (by omega), Int.toNat_ofNat]
  have hloop := iget_bit_string_loop_chars (peek p.base p.ptr) C.toNat (p.ptr + 1)
    (peek p.base p.ptr) 0 { p with ptr := p.ptr + 1 } (by omega) rfl hsp
    (by push_cast; simp only [Nat.mul_zero, Nat.sub_zero]; omega)
  simp only [Nat.mul_zero, Nat.sub_zero] at hloop
  rw [hloop]
  have hmin : min (peek p.base p.ptr) C.toNat = C.toNat := by omega
  rw [hmin, ← List.range_eq_range', ← List.map_take, List.take_range]
  have hmin2 : min (C.toNat - 1) C.toNat = (C - 1).toNat := by omega
  rw [hmin2]
  have hlt : ¬ ((peek p.base p.ptr : Int) < C) := by omega
  simp only [hlt, if_false, hsp, Bool.false_eq_true]
  have e : p.ptr + 1 + (peek p.base p.ptr + 7) / 8
      = p.ptr + (1 + (peek p.base p.ptr + 7) / 8) := by omega
  rw [e]

theorem bit_string_truncation_witness :
    iget_bit_string (cursor_at 6 [0, 6, 7, 9, 13, 1] 3 false) 5
      = some ([49, 48, 49, 49, 0],
          { cursor_at 6 [0, 6, 7, 9, 13, 1] 6 false with bad_bit_string := true }) :=
  ((bit_string_truncation (cursor_at 6 [0, 6, 7, 9, 13, 1] 3 false) 5 (by decide) (by decide)
    (by decide)).1).trans (by decide)

/-! ## The city map -/

theorem list_eq_map_getD (g : List Nat) : g = (List.range g.length).map (fun i => g.getD i 0) := by
  apply List.ext_getElem
  · simp
  · intro n h1 h2
    rw [List.getElem_map, List.getElem_range, List.getD_eq_getElem _ _ h1]

theorem list_of_length_25 (g : List Nat) (hg : g.length = 25) :
    ∃ g0 g1 g2 g3 g4 g5 g6 g7 g8 g9 g10 g11 g12 g13 g14 g15 g16 g17 g18 g19 g20 g21 g22 g23 g24,
      g = [g0, g1, g2, g3, g4, g5, g6, g7, g8, g9, g10, g11, g12, g13, g14, g15, g16, g17, g18,
        g19, g20, g21, g22, g23, g24] := by
  have h := list_eq_map_getD g
  rw [hg] at h
  exact ⟨_, _, _, _, _, _, _, _, _, _, _, _, _, _, _, _, _, _, _, _, _, _, _, _, _, h⟩

theorem put_city_map_cells (g0 g1 g2 g3 g4 g5 g6 g7 g8 g9 g10 g11 g12 g13 g14 g15 g16 g17 g18
    g19 g20 g21 g22 g23 g24 : Nat) :
    put_city_map [g0, g1, g2, g3, g4, g5, g6, g7, g8, g9, g10, g11, g12, g13, g14, g15, g16,
        g17, g18, g19, g20, g21, g22, g23, g24]
      = [((((g1 : Int) - 48) * 81 + ((g2 : Int) - 48) * 27 + ((g3 : Int) - 48) * 9
            + ((g5 : Int) - 48) * 3 + ((g6 : Int) - 48) * 1) % 256).toNat,
         ((((g7 : Int) - 48) * 81 + ((g8 : Int) - 48) * 27 + ((g9 : Int) - 48) * 9
            + ((g10 : Int) - 48) * 3 + ((g11 : Int) - 48) * 1) % 256).toNat,
         ((((g13 : Int) - 48) * 81 + ((g14 : Int) - 48) * 27 + ((g15 : Int) - 48) * 9
            + ((g16 : Int) - 48) * 3 + ((g17 : Int) - 48) * 1) % 256).toNat,
         ((((g18 : Int) - 48) * 81 + ((g19 : Int) - 48) * 27 + ((g21 : Int) - 48) * 9
            + ((g22 : Int) - 48) * 3 + ((g23 : Int) - 48) * 1) % 256).toNat] := by
  simp only [put_city_map, city_map_index, List.map_cons, List.map_nil, List.getD_cons_zero,
    List.getD_cons_succ, Nat.reduceAdd, zero_add]

/-- One round of the loop of `iget_city_map` on a cursor that is not short:
five cells from the base-3 digits of the byte at the read offset. -/
theorem iget_city_map_round_value (p : pack_iter) (str : List Nat) (i : Nat)
    (hs : p.short_packet = false) :
    iget_city_map_round p str i
      = (((((str.set (city_map_index.getD (i + 0) 0) (48 + peek p.base p.ptr / 81)).set
            (city_map_index.getD (i + 1) 0) (48 + peek p.base p.ptr % 81 / 27)).set
            (city_map_index.getD (i + 2) 0) (48 + peek p.base p.ptr % 81 % 27 / 9)).set
            (city_map_index.getD (i + 3) 0) (48 + peek p.base p.ptr % 81 % 27 % 9 / 3)).set
            (city_map_index.getD (i + 4) 0) (48 + peek p.base p.ptr % 81 % 27 % 9 % 3),
          { p with ptr := p.ptr + 1 }) := by
  unfold iget_city_map_round
  simp only [hs, Bool.false_eq_true, if_false]

theorem base3_digits (d0 d1 d2 d3 d4 : Nat) (j : Nat)
    (h0 : d0 = 48 ∨ d0 = 49 ∨ d0 = 50) (h1 : d1 = 48 ∨ d1 = 49 ∨ d1 = 50)
    (h2 : d2 = 48 ∨ d2 = 49 ∨ d2 = 50) (h3 : d3 = 48 ∨ d3 = 49 ∨ d3 = 50)
    (h4 : d4 = 48 ∨ d4 = 49 ∨ d4 = 50)
    (hj : j = ((((d0 : Int) - 48) * 81 + ((d1 : Int) - 48) * 27 + ((d2 : Int) - 48) * 9
            + ((d3 : Int) - 48) * 3 + ((d4 : Int) - 48) * 1) % 256).toNat) :
    48 + j / 81 = d0 ∧ 48 + j % 81 / 27 = d1 ∧ 48 + j % 81 % 27 / 9 = d2
    ∧ 48 + j % 81 % 27 % 9 / 3 = d3 ∧ 48 + j % 81 % 27 % 9 % 3 = d4 := by
  subst hj
  rcases h0 with rfl | rfl | rfl <;> rcases h1 with rfl | rfl | rfl <;>
    rcases h2 with rfl | rfl | rfl <;> rcases h3 with rfl | rfl | rfl <;>
    rcases h4 with rfl | rfl | rfl <;> decide

/-- C23. For every 25-cell grid `g` whose 20 transmitted cells are `'0'`,
`'1'` or `'2'`, and a destination of at least 26 chars: `put_city_map` writes
4 bytes, and on a cursor positioned at them `iget_city_map` yields `g` with
the cells 0, 4, 20, 24 replaced by `'2'` and the cell 12 by `'1'`, followed
by the terminator at index 25; it advances the read offset by 4 and sets no
flag. -/
theorem city_map_round_trip (p : pack_iter) (g : List Nat) (navail : Int) (hg : g.length = 25)
    (hcells : ∀ i ∈ city_map_index, g.getD i 0 = 48 ∨ g.getD i 0 = 49 ∨ g.getD i 0 = 50)
    (hnav : 26 ≤ navail) (hp : positioned_at p (put_city_map g)) :
    (put_city_map g).length = 4
    ∧ iget_city_map p navail
      = some (((((g.set 0 50).set 4 50).set 12 49).set 20 50).set 24 50 ++ [0],
          { p with ptr := p.ptr + 4 })
    ∧ p.short_packet = false := by
  obtain ⟨g0, g1, g2, g3, g4, g5, g6, g7, g8, g9, g10, g11, g12, g13, g14, g15, g16, g17, g18,
    g19, g20, g21, g22, g23, g24, rfl⟩ := list_of_length_25 g hg
  have c1 := hcells 1 (by decide)
  have c2 := hcells 2 (by decide)
  have c3 := hcells 3 (by decide)
  have c5 := hcells 5 (by decide)
  have c6 := hcells 6 (by decide)
  have c7 := hcells 7 (by decide)
  have c8 := hcells 8 (by decide)
  have c9 := hcells 9 (by decide)
  have c10 := hcells 10 (by decide)
  have c11 := hcells 11 (by decide)
  have c13 := hcells 13 (by decide)
  have c14 := hcells 14 (by decide)
  have c15 := hcells 15 (by decide)
  have c16 := hcells 16 (by decide)
  have c17 := hcells 17 (by decide)
  have c18 := hcells 18 (by decide)
  have c19 := hcells 19 (by decide)
  have c21 := hcells 21 (by decide)
  have c22 := hcells 22 (by decide)
  have c23 := hcells 23 (by decide)
  simp only [List.getD_cons_zero, List.getD_cons_succ] at c1 c2 c3 c5 c6 c7 c8 c9 c10 c11
  simp only [List.getD_cons_zero, List.getD_cons_succ] at c13 c14 c15 c16 c17 c18 c19 c21 c22 c23
  rw [put_city_map_cells] at hp ⊢
  obtain ⟨hr, hs⟩ := hp
  simp only [List.length_cons, List.length_nil, Nat.cast_ofNat, Nat.reduceAdd] at hr
  obtain ⟨hsp, hrem⟩ := remaining_not_short p 4 (by omega) hr
  have b0 := hs 0 (by simp)
  have b1 := hs 1 (by simp)
  have b2 := hs 2 (by simp)
  have b3 := hs 3 (by simp)
  simp only [List.getD_cons_zero, List.getD_cons_succ, add_zero] at b0 b1 b2 b3
  obtain ⟨x1, x2, x3, x5, x6⟩ := base3_digits g1 g2 g3 g5 g6 _ c1 c2 c3 c5 c6 b0
  obtain ⟨x7, x8, x9, x10, x11⟩ := base3_digits g7 g8 g9 g10 g11 _ c7 c8 c9 c10 c11 b1
  obtain ⟨x13, x14, x15, x16, x17⟩ := base3_digits g13 g14 g15 g16 g17 _ c13 c14 c15 c16 c17 b2
  obtain ⟨x18, x19, x21, x22, x23⟩ := base3_digits g18 g19 g21 g22 g23 _ c18 c19 c21 c22 c23 b3
  refine ⟨rfl, ?_, hsp⟩
  unfold iget_city_map
  rw [if_neg (by omega), if_neg (by omega)]
  dsimp only
  rw [iget_city_map_round_value p _ 0 hsp]
  dsimp only
  rw [iget_city_map_round_value { p with ptr := p.ptr + 1 } _ 5 hsp]
  dsimp only
  rw [iget_city_map_round_value { p with ptr := p.ptr + 1 + 1 } _ 10 hsp]
  dsimp only
  rw [iget_city_map_round_value { p with ptr := p.ptr + 1 + 1 + 1 } _ 15 hsp]
  dsimp only
  simp only [city_map_index, List.getD_cons_zero, List.getD_cons_succ, Nat.reduceAdd, zero_add,
    x1, x2, x3, x5, x6, x7, x8, x9, x10, x11, x13, x14, x15, x16, x17, x18, x19, x21, x22, x23,
    List.replicate, List.set_cons_zero, List.set_cons_succ, List.cons_append, List.nil_append]

theorem city_map_round_trip_witness :
    put_city_map [48, 49, 50, 48, 49, 50, 48, 49, 50, 48, 49, 50, 48, 49, 50, 48, 49, 50, 48, 49,
        50, 48, 49, 50, 48] = [141, 140, 140, 32]
    ∧ iget_city_map (cursor_at 7 [0, 7, 7, 141, 140, 140, 32] 3 false) 26
      = some ([50, 49, 50, 48, 50, 50, 48, 49, 50, 48, 49, 50, 49, 49, 50, 48, 49, 50, 48, 49,
          50, 48, 49, 50, 50, 0], cursor_at 7 [0, 7, 7, 141, 140, 140, 32] 7 false) :=
  ⟨by decide,
    ((city_map_round_trip (cursor_at 7 [0, 7, 7, 141, 140, 140, 32] 3 false)
      [48, 49, 50, 48, 49, 50, 48, 49, 50, 48, 49, 50, 48, 49, 50, 48, 49, 50, 48, 49, 50, 48, 49,
        50, 48] 26 rfl (by decide) (by decide) (by decide)).2.1).trans (by decide)⟩

/-! ## Worklists -/

theorem iget_worklist_slots_iterate (H : header) (pc : connection) :
    ∀ (n : Nat) (c : pack_iter),
      iget_worklist_slots H pc n c
        = ((List.range n).map
              (fun i => (iget_worklist_slot H pc
                ((fun q => (iget_worklist_slot H pc q).2)^[i] c)).1),
            (fun q => (iget_worklist_slot H pc q).2)^[n] c) := by
  intro n
  induction n with
  | zero => intro c; rfl
  | succ n ih =>
    intro c
    unfold iget_worklist_slots
    dsimp only
    rw [ih, List.range_succ_eq_map, List.map_cons, List.map_map]
    rfl

theorem iget_worklist_slot_legacy (H : header) (pc : connection) (p : pack_iter)
    (hcap : has_capability "worklist_true_ids" pc.capability = false) :
    iget_worklist_slot H pc p = (legacy_slot H (iget_uint16 p).1, (iget_uint16 p).2) := by
  unfold iget_worklist_slot legacy_slot
  simp only [hcap, Bool.not_false, if_true]
  by_cases h1 : (iget_uint16 p).1 = 284
  · simp only [h1, if_true]
  · by_cases h2 : (iget_uint16 p).1 ≥ 68
    · simp only [h1, h2, if_false, if_true, ne_eq, not_false_eq_true, and_self]
    · simp only [h1, h2, if_false, false_and]

theorem iget_worklist_slot_true_ids (H : header) (pc : connection) (p : pack_iter)
    (hcap : has_capability "worklist_true_ids" pc.capability = true) :
    iget_worklist_slot H pc p
      = (((iget_uint8 p).1, (iget_uint8 (iget_uint8 p).2).1), (iget_uint8 (iget_uint8 p).2).2) := by
  unfold iget_worklist_slot
  simp only [hcap, Bool.not_true, Bool.false_eq_true, if_false]

/-- C27. `iget_worklist` reads `is_valid` as a byte and the name as a string
of capacity `MAX_LEN_NAME`, then `MAX_LEN_WORKLIST` slots one after the
other.  For a peer without the capability `worklist_true_ids` slot `i` is
the 16-bit value `v` that `iget_uint16` yields at the cursor left by the
slots before it, decoded as `(WEF_END, 0)` for `v = 284`, `(WEF_UNIT, v - 68)`
for `v >= 68` other than 284, and `(WEF_IMPR, v)` for `v < 68`.  For a peer
with the capability slot `i` is a kind byte followed by an id byte. -/
theorem worklist_slots_by_capability (H : header) (p : pack_iter) (pc : connection)
    (hname : 0 < H.MAX_LEN_NAME) :
    ∃ nm w q, iget_string (iget_uint8 p).2 H.MAX_LEN_NAME = some nm
      ∧ iget_worklist H p pc = some (w, q)
      ∧ w.is_valid = (iget_uint8 p).1 ∧ w.name = nm.1
      ∧ w.wlefs.length = H.MAX_LEN_WORKLIST ∧ w.wlids.length = H.MAX_LEN_WORKLIST
      ∧ (has_capability "worklist_true_ids" pc.capability = false →
          (∀ i, i < H.MAX_LEN_WORKLIST →
            (w.wlefs.getD i 0, w.wlids.getD i 0)
              = legacy_slot H (iget_uint16 ((fun c => (iget_uint16 c).2)^[i] nm.2)).1)
          ∧ q = (fun c => (iget_uint16 c).2)^[H.MAX_LEN_WORKLIST] nm.2)
      ∧ (has_capability "worklist_true_ids" pc.capability = true →
          (∀ i, i < H.MAX_LEN_WORKLIST →
            (w.wlefs.getD i 0, w.wlids.getD i 0)
              = ((iget_uint8 ((fun c => (iget_uint8 (iget_uint8 c).2).2)^[i] nm.2)).1,
                 (iget_uint8 (iget_uint8
                    ((fun c => (iget_uint8 (iget_uint8 c).2).2)^[i] nm.2)).2).1))
          ∧ q = (fun c => (iget_uint8 (iget_uint8 c).2).2)^[H.MAX_LEN_WORKLIST] nm.2) := by
  obtain ⟨nm, hnm⟩ := iget_string_some (iget_uint8 p).2 H.MAX_LEN_NAME hname
  refine ⟨nm,
    { is_valid := (iget_uint8 p).1, name := nm.1,
      wlefs := (iget_worklist_slots H pc H.MAX_LEN_WORKLIST nm.2).1.map Prod.fst,
      wlids := (iget_worklist_slots H pc H.MAX_LEN_WORKLIST nm.2).1.map Prod.snd },
    (iget_worklist_slots H pc H.MAX_LEN_WORKLIST nm.2).2, hnm, ?_, rfl, rfl, ?_, ?_, ?_, ?_⟩
  · unfold iget_worklist
    simp only [hnm]
  · simp [iget_worklist_slots_iterate]
  · simp [iget_worklist_slots_iterate]
  · intro hcap
    have hstep : (fun q => (iget_worklist_slot H pc q).2) = (fun c => (iget_uint16 c).2) := by
      funext c; rw [iget_worklist_slot_legacy H pc c hcap]
    rw [iget_worklist_slots_iterate, hstep]
    refine ⟨fun i hi => ?_, rfl⟩
    simp only [List.map_map]
    rw [List.getD_eq_getElem _ _ (by simpa using hi), List.getD_eq_getElem _ _ (by simpa using hi)]
    simp only [List.getElem_map, List.getElem_range, Function.comp]
    rw [iget_worklist_slot_legacy H pc _ hcap]
  · intro hcap
    have hstep : (fun q => (iget_worklist_slot H pc q).2)
        = (fun c => (iget_uint8 (iget_uint8 c).2).2) := by
      funext c; rw [iget_worklist_slot_true_ids H pc c hcap]
    rw [iget_worklist_slots_iterate, hstep]
    refine ⟨fun i hi => ?_, rfl⟩
    simp only [List.map_map]
    rw [List.getD_eq_getElem _ _ (by simpa using hi), List.getD_eq_getElem _ _ (by simpa using hi)]
    simp only [List.getElem_map, List.getElem_range, Function.comp]
    rw [iget_worklist_slot_true_ids H pc _ hcap]

theorem worklist_slots_by_capability_witness :
    0 < short_worklist_header.MAX_LEN_NAME
    ∧ has_capability "worklist_true_ids" (peer []).capability = false
    ∧ (iget_worklist short_worklist_header
          (cursor_at 10 [0, 10, 7, 1, 97, 0, 1, 28, 0, 70] 3 false) (peer [])).map (fun r => r.1)
        = some { is_valid := 1, name := [97, 0], wlefs := [0, 2], wlids := [0, 2] }
    ∧ (∃ nm w q,
        iget_string (iget_uint8 (cursor_at 10 [0, 10, 7, 1, 97, 0, 1, 28, 0, 70] 3 false)).2
          short_worklist_header.MAX_LEN_NAME = some nm
        ∧ iget_worklist short_worklist_header
          (cursor_at 10 [0, 10, 7, 1, 97, 0, 1, 28, 0, 70] 3 false) (peer []) = some (w, q)
        ∧ (w.wlefs.getD 0 0, w.wlids.getD 0 0)
          = legacy_slot short_worklist_header (iget_uint16 nm.2).1)
    ∧ has_capability "worklist_true_ids" (peer ["worklist_true_ids"]).capability = true
    ∧ ∃ nm w q,
        iget_string (iget_uint8 (cursor_at 10 [0, 10, 7, 1, 97, 0, 1, 28, 0, 70] 3 false)).2
          short_worklist_header.MAX_LEN_NAME = some nm
        ∧ iget_worklist short_worklist_header
          (cursor_at 10 [0, 10, 7, 1, 97, 0, 1, 28, 0, 70] 3 false) (peer ["worklist_true_ids"])
          = some (w, q)
        ∧ (w.wlefs.getD 0 0, w.wlids.getD 0 0)
          = ((iget_uint8 nm.2).1, (iget_uint8 (iget_uint8 nm.2).2).1) := by
  obtain ⟨nm, w, q, h1, h2, -, -, -, -, h3, -⟩ := worklist_slots_by_capability
    short_worklist_header (cursor_at 10 [0, 10, 7, 1, 97, 0, 1, 28, 0, 70] 3 false) (peer [])
    (by decide)
  obtain ⟨nm', w', q', h1', h2', -, -, -, -, -, h4⟩ := worklist_slots_by_capability
    short_worklist_header (cursor_at 10 [0, 10, 7, 1, 97, 0, 1, 28, 0, 70] 3 false)
    (peer ["worklist_true_ids"]) (by decide)
  exact ⟨by decide, by decide, by decide, ⟨nm, w, q, h1, h2, (h3 (by decide)).1 0 (by decide)⟩,
    by decide, nm', w', q', h1', h2', (h4 (by decide)).1 0 (by decide)⟩

theorem iget_string_positioned (p : pack_iter) (s : List Nat) (C : Int) (hs : no_zero s)
    (hC : (s.length : Int) < C) (hp : positioned_at p (s ++ [0])) :
    iget_string p C = some (s ++ [0], { p with ptr := p.ptr + (s.length + 1) }) := by
  obtain ⟨hr, hst⟩ := hp
  simp only [List.length_append, List.length_singleton, Nat.cast_add, Nat.cast_one] at hr
  obtain ⟨hsp, hrem⟩ := remaining_not_short p ((s.length : Int) + 1) (by omega) hr
  have hz := first_zero_of_stored p.base p.ptr s hs hst
  rw [iget_string_terminated p C (p.ptr + s.length) (by omega) hsp hz (by push_cast; omega)]
  have e1 : min (p.ptr + s.length - p.ptr) (C.toNat - 1) = s.length := by omega
  have e2 : ¬ C ≤ ((p.ptr + s.length - p.ptr : Nat) : Int) := by omega
  rw [e1, stored_at_range p.base p.ptr (s ++ [0]) hst s.length (by simp)]
  simp only [e2, decide_False, Bool.or_false, List.take_left']
  rfl

theorem c_string_terminated (s rest : List Nat) (hs : no_zero s) : c_string (s ++ 0 :: rest) = s := by
  unfold c_string
  induction s with
  | nil => simp [List.takeWhile]
  | cons x xs ih =>
    have hx : x ≠ 0 := hs x (by simp)
    simp only [List.cons_append, List.takeWhile_cons, hx, ne_eq, not_false_eq_true,
      decide_True, if_true]
    rw [ih (fun y hy => hs y (by simp [hy]))]

theorem positioned_at_append (p : pack_iter) (l1 l2 : List Nat)
    (h : positioned_at p (l1 ++ l2)) :
    positioned_at p l1 ∧ positioned_at { p with ptr := p.ptr + l1.length } l2 := by
  obtain ⟨hr, hs⟩ := h
  rw [stored_at_append] at hs
  simp only [List.length_append, Nat.cast_add] at hr
  obtain ⟨hsp, hrem⟩ := remaining_not_short p 0 le_rfl (by omega)
  refine ⟨⟨by omega, hs.1⟩, ?_, hs.2⟩
  unfold pack_iter_remaining
  simp only [hsp, Bool.false_eq_true, if_false]
  push_cast
  omega

/-- A legacy slot that survives the 16-bit encoding: the end mark with id 0,
an improvement with id below 68, or a unit with id below 216. -/
theorem legacy_slot_round_trip (H : header) (pc : connection) (p : pack_iter) (x : Int × Int)
    (hcap : has_capability "worklist_true_ids" pc.capability = false)
    (hsw : p.swap_bytes = false)
    (h1 : H.WEF_END ≠ H.WEF_UNIT)
    (hx : (x.1 = H.WEF_END ∧ x.2 = 0)
      ∨ (x.1 = H.WEF_IMPR ∧ H.WEF_IMPR ≠ H.WEF_END ∧ H.WEF_IMPR ≠ H.WEF_UNIT
          ∧ 0 ≤ x.2 ∧ x.2 < 68)
      ∨ (x.1 = H.WEF_UNIT ∧ 0 ≤ x.2 ∧ x.2 < 216))
    (hp : positioned_at p (put_worklist_slot H pc x.1 x.2)) :
    (put_worklist_slot H pc x.1 x.2).length = 2
    ∧ iget_worklist_slot H pc p = (x, { p with ptr := p.ptr + 2 }) := by
  have key : ∀ v : Nat, v < 65536 → positioned_at p (put_uint16 (v : Int)) →
      iget_uint16 p = ((v : Int), { p with ptr := p.ptr + 2 }) := by
    intro v hv ⟨hr, hs⟩
    rw [put_uint16_nat v hv] at hr hs
    have e0 := hs 0 (by simp)
    have e1 := hs 1 (by simp)
    simp only [List.getD_cons_zero, List.getD_cons_succ, add_zero] at e0 e1
    rw [iget_uint16_value p (by simpa using hr), e0, e1]
    simp only [hsw, Bool.false_eq_true, if_false, Prod.mk.injEq, and_true]
    omega
  rw [iget_worklist_slot_legacy H pc p hcap]
  unfold put_worklist_slot at hp ⊢
  simp only [hcap, Bool.not_false, if_true] at hp ⊢
  obtain ⟨x1, x2⟩ := x
  dsimp only at hx hp ⊢
  rcases hx with ⟨rfl, rfl⟩ | ⟨rfl, i1, i2, i3, i4⟩ | ⟨rfl, u1, u2⟩
  · simp only [if_true] at hp ⊢
    rw [key 284 (by omega) hp]
    exact ⟨rfl, rfl⟩
  · simp only [i1, i2, if_false] at hp ⊢
    lift x2 to Nat using i3
    rw [key x2 (by omega) hp]
    refine ⟨rfl, ?_⟩
    unfold legacy_slot
    rw [if_neg (by omega), if_neg (by omega)]
  · simp only [Ne.symm h1, if_false, if_true] at hp ⊢
    lift x2 to Nat using u1
    have hp' : positioned_at p (put_uint16 ((x2 + 68 : Nat) : Int)) := by
      simpa using hp
    rw [key (x2 + 68) (by omega) hp']
    refine ⟨rfl, ?_⟩
    unfold legacy_slot
    rw [if_neg (by push_cast; omega), if_pos (by push_cast; omega)]
    simp

theorem legacy_slots_round_trip (H : header) (pc : connection)
    (hcap : has_capability "worklist_true_ids" pc.capability = false)
    (henum : distinct_kinds H) :
    ∀ (l : List (Int × Int)) (p : pack_iter), p.swap_bytes = false →
      (∀ x ∈ l, legacy_entry H x) →
      positioned_at p ((l.map (fun x => put_worklist_slot H pc x.1 x.2)).flatten) →
      ((l.map (fun x => put_worklist_slot H pc x.1 x.2)).flatten).length = 2 * l.length
      ∧ iget_worklist_slots H pc l.length p = (l, { p with ptr := p.ptr + 2 * l.length }) := by
  intro l
  induction l with
  | nil => intro p _ _ _; exact ⟨rfl, rfl⟩
  | cons x xs ih =>
    intro p hsw hv hp
    simp only [List.map_cons, List.flatten_cons] at hp ⊢
    obtain ⟨hp1, hp2⟩ := positioned_at_append p _ _ hp
    have hx := hv x (by simp)
    have hx' : (x.1 = H.WEF_END ∧ x.2 = 0)
        ∨ (x.1 = H.WEF_IMPR ∧ H.WEF_IMPR ≠ H.WEF_END ∧ H.WEF_IMPR ≠ H.WEF_UNIT
            ∧ 0 ≤ x.2 ∧ x.2 < 68)
        ∨ (x.1 = H.WEF_UNIT ∧ 0 ≤ x.2 ∧ x.2 < 216) := by
      rcases hx with h | ⟨h, a, b⟩ | h
      · exact Or.inl h
      · exact Or.inr (Or.inl ⟨h, henum.2.1, henum.2.2, a, b⟩)
      · exact Or.inr (Or.inr h)
    obtain ⟨s1, s2⟩ := legacy_slot_round_trip H pc p x hcap hsw henum.1 hx' hp1
    rw [s1] at hp2
    obtain ⟨r1, r2⟩ := ih { p with ptr := p.ptr + 2 } hsw (fun y hy => hv y (by simp [hy])) hp2
    refine ⟨by rw [List.length_append, s1, r1, List.length_cons]; omega, ?_⟩
    rw [List.length_cons]
    unfold iget_worklist_slots
    dsimp only
    rw [s2]
    dsimp only
    rw [r2]
    simp only [List.length_cons, Prod.mk.injEq, true_and]
    have e : p.ptr + 2 + 2 * xs.length = p.ptr + 2 * (xs.length + 1) := by omega
    rw [e]

theorem range_map_zip (efs ids : List Int) (n : Nat) (h1 : efs.length = n) (h2 : ids.length = n)
    (f : Int → Int → List Nat) :
    (List.range n).map (fun i => f (efs.getD i 0) (ids.getD i 0))
      = (efs.zip ids).map (fun x => f x.1 x.2) := by
  apply List.ext_getElem
  · simp [h1, h2]
  · intro i hi1 hi2
    simp only [List.length_map, List.length_range] at hi1
    simp only [List.getElem_map, List.getElem_range, List.getElem_zip]
    rw [List.getD_eq_getElem _ _ (by omega), List.getD_eq_getElem _ _ (by omega)]

/-- C28, as the code has it. For a peer without the capability
`worklist_true_ids`, a cursor that does not swap bytes, and every worklist `w`
with `is_valid` in 0..255, a name shorter than `MAX_LEN_NAME` and
`MAX_LEN_WORKLIST` entries, each the end mark with id 0, an improvement with
id in 0..67 or a unit with id in 0..215: on a cursor positioned at the bytes
`put_worklist(w)` wrote, `iget_worklist` returns `w` and advances the read
offset by the number of bytes written, leaving every flag as it was. -/
theorem legacy_worklist_round_trip (H : header) (pc : connection) (p : pack_iter)
    (w : worklist) (s : List Nat)
    (hcap : has_capability "worklist_true_ids" pc.capability = false)
    (hsw : p.swap_bytes = false) (henum : distinct_kinds H)
    (hvalid : 0 ≤ w.is_valid ∧ w.is_valid ≤ 255)
    (hname : w.name = s ++ [0]) (hs : no_zero s) (hlen : (s.length : Int) < H.MAX_LEN_NAME)
    (hefs : w.wlefs.length = H.MAX_LEN_WORKLIST) (hids : w.wlids.length = H.MAX_LEN_WORKLIST)
    (hslots : ∀ i, i < H.MAX_LEN_WORKLIST → legacy_entry H (w.wlefs.getD i 0, w.wlids.getD i 0))
    (hp : positioned_at p (put_worklist H w pc)) :
    (put_worklist H w pc).length = 1 + (s.length + 1) + 2 * H.MAX_LEN_WORKLIST
    ∧ iget_worklist H p pc
      = some (w, { p with ptr := p.ptr + (put_worklist H w pc).length }) := by
  have hzl : (w.wlefs.zip w.wlids).length = H.MAX_LEN_WORKLIST := by
    simp [hefs, hids]
  have hput : put_worklist H w pc
      = [w.is_valid.toNat] ++ ((s ++ [0])
          ++ ((w.wlefs.zip w.wlids).map (fun x => put_worklist_slot H pc x.1 x.2)).flatten) := by
    unfold put_worklist
    rw [range_map_zip w.wlefs w.wlids _ hefs hids (put_worklist_slot H pc), hname]
    unfold put_string put_uint8
    rw [c_string_terminated s [] hs]
    have e : (w.is_valid % 256).toNat = w.is_valid.toNat := by omega
    rw [e, List.append_assoc]
  rw [hput] at hp ⊢
  obtain ⟨hp1, hp2⟩ := positioned_at_append p _ _ hp
  obtain ⟨hp3, hp4⟩ := positioned_at_append _ _ _ hp2
  have hentries : ∀ x ∈ w.wlefs.zip w.wlids, legacy_entry H x := by
    intro x hx
    obtain ⟨i, hi, rfl⟩ := List.mem_iff_getElem.mp hx
    have := hslots i (by omega)
    rw [List.getD_eq_getElem _ _ (by simp at hi; omega),
      List.getD_eq_getElem _ _ (by simp at hi; omega)] at this
    simpa [List.getElem_zip] using this
  dsimp only at hp3 hp4
  simp only [List.length_singleton, List.length_append] at hp3 hp4
  obtain ⟨r1, r2⟩ := legacy_slots_round_trip H pc hcap henum (w.wlefs.zip w.wlids)
    { p with ptr := p.ptr + 1 + (s.length + 1) } hsw hentries hp4
  refine ⟨by simp only [List.length_append, List.length_singleton, List.length_cons,
    List.length_nil, r1, hzl]; omega, ?_⟩
  obtain ⟨hr1, hs1⟩ := hp1
  have hbyte := hs1 0 (by simp)
  simp only [add_zero, List.getD_cons_zero, List.singleton_append] at hbyte
  simp only [List.length_singleton, Nat.cast_one] at hr1
  unfold iget_worklist
  rw [iget_uint8_value p hr1]
  dsimp only
  rw [iget_string_positioned { p with ptr := p.ptr + 1 } s H.MAX_LEN_NAME hs hlen hp3]
  dsimp only
  rw [hzl] at r2
  simp only [List.length_append, List.length_singleton]
  rw [r2]
  simp only [Option.some.injEq, Prod.mk.injEq]
  constructor
  · have e1 : (w.wlefs.zip w.wlids).map Prod.fst = w.wlefs :=
      List.map_fst_zip _ _ (by omega)
    have e2 : (w.wlefs.zip w.wlids).map Prod.snd = w.wlids :=
      List.map_snd_zip _ _ (by omega)
    rw [e1, e2, hbyte, ← hname]
    have e3 : ((w.is_valid.toNat : Nat) : Int) = w.is_valid := by omega
    rw [e3]
  · simp only [List.length_append, List.length_singleton, List.length_cons, List.length_nil,
      r1, hzl]
    congr 1
    omega

theorem legacy_worklist_round_trip_witness :
    has_capability "worklist_true_ids" (peer []).capability = false
    ∧ distinct_kinds short_worklist_header
    ∧ positioned_at (cursor_at 11 [0, 11, 7, 1, 97, 0, 0, 67, 1, 27] 3 false)
        (put_worklist short_worklist_header
          { is_valid := 1, name := [97, 0], wlefs := [1, 2], wlids := [67, 215] } (peer []))
    ∧ (put_worklist short_worklist_header
          { is_valid := 1, name := [97, 0], wlefs := [1, 2], wlids := [67, 215] }
          (peer [])).length = 1 + (1 + 1) + 2 * 2
    ∧ iget_worklist short_worklist_header
        (cursor_at 11 [0, 11, 7, 1, 97, 0, 0, 67, 1, 27] 3 false) (peer [])
      = some ({ is_valid := 1, name := [97, 0], wlefs := [1, 2], wlids := [67, 215] },
          { cursor_at 11 [0, 11, 7, 1, 97, 0, 0, 67, 1, 27] 3 false with
            ptr := 3 + (put_worklist short_worklist_header
              { is_valid := 1, name := [97, 0], wlefs := [1, 2], wlids := [67, 215] }
              (peer [])).length }) :=
  ⟨by decide, by decide, by decide,
    legacy_worklist_round_trip short_worklist_header (peer [])
      (cursor_at 11 [0, 11, 7, 1, 97, 0, 0, 67, 1, 27] 3 false)
      { is_valid := 1, name := [97, 0], wlefs := [1, 2], wlids := [67, 215] } [97]
      (by decide) rfl (by decide) (by decide) rfl (by decide) (by decide) rfl rfl
      (by decide) (by decide)⟩

/-- C28, counterexample. Without `worklist_true_ids`, the worklist with the
entries (WEF_IMPR, 100) and (WEF_UNIT, 216) is written as the 16-bit values
100 and 284 and read back as (WEF_UNIT, 32) and (WEF_END, 0); and a cursor in
byte-swap mode reads the entries (WEF_IMPR, 5), (WEF_UNIT, 7) back as
(WEF_UNIT, 1212), (WEF_UNIT, 19132). -/
theorem legacy_worklist_id_collision :
    has_capability "worklist_true_ids" (peer []).capability = false
    ∧ put_worklist short_worklist_header
        { is_valid := 1, name := [97, 0], wlefs := [1, 2], wlids := [100, 216] } (peer [])
      = [1, 97, 0, 0, 100, 1, 28]
    ∧ positioned_at (cursor_at 10 [0, 10, 7, 1, 97, 0, 0, 100, 1, 28] 3 false)
        [1, 97, 0, 0, 100, 1, 28]
    ∧ (iget_worklist short_worklist_header
          (cursor_at 10 [0, 10, 7, 1, 97, 0, 0, 100, 1, 28] 3 false) (peer [])).map
        (fun r => r.1)
      = some { is_valid := 1, name := [97, 0], wlefs := [2, 0], wlids := [32, 0] }
    ∧ put_worklist short_worklist_header
        { is_valid := 1, name := [97, 0], wlefs := [1, 2], wlids := [5, 7] } (peer [])
      = [1, 97, 0, 0, 5, 0, 75]
    ∧ positioned_at (cursor_at 10 [0, 10, 7, 1, 97, 0, 0, 5, 0, 75] 3 true)
        [1, 97, 0, 0, 5, 0, 75]
    ∧ (iget_worklist short_worklist_header
          (cursor_at 10 [0, 10, 7, 1, 97, 0, 0, 5, 0, 75] 3 true) (peer [])).map
        (fun r => r.1)
      = some { is_valid := 1, name := [97, 0], wlefs := [2, 2], wlids := [1212, 19132] } := by
  decide

theorem pack_iter_init_cursor (pc : connection) (hn : 3 ≤ pc.buffer.ndata)
    (hlen : 3 ≤ header_len pc) : pack_iter_init pc = some (cursor_of pc 3 false) := by
  unfold pack_iter_init
  rw [if_neg (by omega)]
  unfold header_len at hlen
  simp only [cursor_of, header_len, header_type, get_uint16, get_uint8, Option.some.injEq,
    pack_iter.mk.injEq, decide_eq_false_iff_not, not_lt, true_and, and_true]
  simpa [get_uint16] using hlen

theorem iget_uint8_cursor_of (pc : connection) (k : Nat) (h : (k : Int) < header_len pc) :
    iget_uint8 (cursor_of pc k false)
      = (((peek pc.buffer.data k : Nat) : Int), cursor_of pc (k + 1) false) := by
  rw [iget_uint8_value _ (by simp only [pack_iter_remaining, cursor_of]; simp; omega)]
  rfl

theorem iget_uint8_cursor_of_end (pc : connection) (k : Nat) (h : header_len pc ≤ (k : Int)) :
    iget_uint8 (cursor_of pc k false) = (0, cursor_of pc k true) := by
  unfold iget_uint8
  rw [if_pos (by simp only [pack_iter_remaining, cursor_of]; simp; omega)]
  rfl

/-- C29. On a packet with a declared length of at least 10 (3 header bytes and
7 payload bytes): without the token `nuclear_fallout`,
`receive_packet_ruleset_game` fills the seven fields from the bytes at offsets
3..9 in order, sets `nuke_contamination` to `CONTAMINATION_POLLUTION`, leaves
the cursor at offset 10 with no flag set, so that the remaining count is the
declared length less 10 (0 for a packet of length 10); with the token it reads
`nuke_contamination` from the byte at offset 10 when the declared length is at
least 11, and marks the packet short when the declared length is 10. -/
theorem ruleset_game_fallout_gate (H : header) (pc : connection)
    (hn : 3 ≤ pc.buffer.ndata) (hlen : 10 ≤ header_len pc) :
    (has_capability "nuclear_fallout" pc.capability = false →
      receive_packet_ruleset_game H pc
        = some ({ min_city_center_food := (peek pc.buffer.data 3 : Nat)
                  min_city_center_shield := (peek pc.buffer.data 4 : Nat)
                  min_city_center_trade := (peek pc.buffer.data 5 : Nat)
                  min_dist_bw_cities := (peek pc.buffer.data 6 : Nat)
                  init_vis_radius_sq := (peek pc.buffer.data 7 : Nat)
                  hut_overflight := (peek pc.buffer.data 8 : Nat)
                  pillage_select := (peek pc.buffer.data 9 : Nat)
                  nuke_contamination := H.CONTAMINATION_POLLUTION },
                cursor_of pc 10 false,
                { pc with buffer := remove_packet_from_buffer pc.buffer })
      ∧ pack_iter_remaining (cursor_of pc 10 false) = header_len pc - 10)
    ∧ (has_capability "nuclear_fallout" pc.capability = true → 11 ≤ header_len pc →
      receive_packet_ruleset_game H pc
        = some ({ min_city_center_food := (peek pc.buffer.data 3 : Nat)
                  min_city_center_shield := (peek pc.buffer.data 4 : Nat)
                  min_city_center_trade := (peek pc.buffer.data 5 : Nat)
                  min_dist_bw_cities := (peek pc.buffer.data 6 : Nat)
                  init_vis_radius_sq := (peek pc.buffer.data 7 : Nat)
                  hut_overflight := (peek pc.buffer.data 8 : Nat)
                  pillage_select := (peek pc.buffer.data 9 : Nat)
                  nuke_contamination := (peek pc.buffer.data 10 : Nat) },
                cursor_of pc 11 false,
                { pc with buffer := remove_packet_from_buffer pc.buffer }))
    ∧ (has_capability "nuclear_fallout" pc.capability = true → header_len pc = 10 →
      receive_packet_ruleset_game H pc
        = some ({ min_city_center_food := (peek pc.buffer.data 3 : Nat)
                  min_city_center_shield := (peek pc.buffer.data 4 : Nat)
                  min_city_center_trade := (peek pc.buffer.data 5 : Nat)
                  min_dist_bw_cities := (peek pc.buffer.data 6 : Nat)
                  init_vis_radius_sq := (peek pc.buffer.data 7 : Nat)
                  hut_overflight := (peek pc.buffer.data 8 : Nat)
                  pillage_select := (peek pc.buffer.data 9 : Nat)
                  nuke_contamination := 0 },
                cursor_of pc 10 true,
                { pc with buffer := remove_packet_from_buffer pc.buffer })) := by
  have h7 : receive_packet_ruleset_game H pc
      = some ({ min_city_center_food := (peek pc.buffer.data 3 : Nat)
                min_city_center_shield := (peek pc.buffer.data 4 : Nat)
                min_city_center_trade := (peek pc.buffer.data 5 : Nat)
                min_dist_bw_cities := (peek pc.buffer.data 6 : Nat)
                init_vis_radius_sq := (peek pc.buffer.data 7 : Nat)
                hut_overflight := (peek pc.buffer.data 8 : Nat)
                pillage_select := (peek pc.buffer.data 9 : Nat)
                nuke_contamination :=
                  (if has_capability "nuclear_fallout" pc.capability
                    then iget_uint8 (cursor_of pc 10 false)
                    else (H.CONTAMINATION_POLLUTION, cursor_of pc 10 false)).1 },
              (if has_capability "nuclear_fallout" pc.capability
                then iget_uint8 (cursor_of pc 10 false)
                else (H.CONTAMINATION_POLLUTION, cursor_of pc 10 false)).2,
              { pc with buffer := remove_packet_from_buffer pc.buffer }) := by
    unfold receive_packet_ruleset_game
    rw [pack_iter_init_cursor pc hn (by omega)]
    dsimp only
    rw [iget_uint8_cursor_of pc 3 (by omega)]
    dsimp only
    rw [iget_uint8_cursor_of pc 4 (by omega)]
    dsimp only
    rw [iget_uint8_cursor_of pc 5 (by omega)]
    dsimp only
    rw [iget_uint8_cursor_of pc 6 (by omega)]
    dsimp only
    rw [iget_uint8_cursor_of pc 7 (by omega)]
    dsimp only
    rw [iget_uint8_cursor_of pc 8 (by omega)]
    dsimp only
    rw [iget_uint8_cursor_of pc 9 (by omega)]
  refine ⟨fun hc => ⟨?_, ?_⟩, fun hc h11 => ?_, fun hc h10 => ?_⟩
  · rw [h7, hc]; rfl
  · simp [pack_iter_remaining, cursor_of]
  · rw [h7, hc, if_pos rfl, iget_uint8_cursor_of pc 10 (by omega)]
  · rw [h7, hc, if_pos rfl, iget_uint8_cursor_of_end pc 10 (by omega)]

theorem ruleset_game_fallout_gate_witness :
    3 ≤ (holding (peer []) [0, 10, 70, 1, 2, 3, 4, 5, 6, 7]).buffer.ndata
    ∧ header_len (holding (peer []) [0, 10, 70, 1, 2, 3, 4, 5, 6, 7]) = 10
    ∧ has_capability "nuclear_fallout"
        (holding (peer []) [0, 10, 70, 1, 2, 3, 4, 5, 6, 7]).capability = false
    ∧ (receive_packet_ruleset_game freeciv_header
          (holding (peer []) [0, 10, 70, 1, 2, 3, 4, 5, 6, 7])).map (fun r => (r.1, r.2.1))
        = some ({ min_city_center_food := 1, min_city_center_shield := 2,
                  min_city_center_trade := 3, min_dist_bw_cities := 4,
                  init_vis_radius_sq := 5, hut_overflight := 6, pillage_select := 7,
                  nuke_contamination := freeciv_header.CONTAMINATION_POLLUTION },
                cursor_of (holding (peer []) [0, 10, 70, 1, 2, 3, 4, 5, 6, 7]) 10 false)
    ∧ pack_iter_remaining
        (cursor_of (holding (peer []) [0, 10, 70, 1, 2, 3, 4, 5, 6, 7]) 10 false) = 0 := by
  have h := (ruleset_game_fallout_gate freeciv_header
    (holding (peer []) [0, 10, 70, 1, 2, 3, 4, 5, 6, 7]) (by decide) (by decide)).1 (by decide)
  refine ⟨by decide, by decide, by decide, ?_, by decide⟩
  rw [h.1]
  rfl

theorem pack_iter_init_some (pc : connection) (hn : 3 ≤ pc.buffer.ndata) :
    ∃ iter, pack_iter_init pc = some iter := by
  unfold pack_iter_init
  rw [if_neg (by omega)]
  exact ⟨_, rfl⟩

theorem receive_packet_city_info_first_some (H : header) (iter : pack_iter)
    (h : 0 < H.MAX_LEN_NAME) : ∃ first, receive_packet_city_info_first H iter = some first := by
  unfold receive_packet_city_info_first
  dsimp only
  obtain ⟨r, hr⟩ := iget_string_some
    (iget_uint8 (iget_uint8 (iget_uint8 (iget_uint16 iter).2).2).2).2 H.MAX_LEN_NAME h
  rw [hr]
  exact ⟨_, rfl⟩

/-- C30. `receive_packet_city_info` returns a packet on every connection
holding at least 3 bytes. When the peer lacks `production_change_fix`, the
worklist is read from the cursor left by the read of `currently_building`, the
flag byte, city map, improvements and `city_options` from the cursors that
follow, and the packet has `turn_last_built = turn_changed_target =
GAME_START_YEAR`, `changed_from_id` = the decoded `currently_building`,
`before_change_shields` = the decoded `shield_stock`, `changed_from_is_unit` =
the decoded `is_building_unit` (bit 0 of the flag byte). When the peer has the
token, the four gated fields are read first, as two signed 16-bit values, a
byte and a 16-bit value, the worklist from the cursor after them, and
`changed_from_is_unit` is bit 6 of the flag byte. -/
theorem city_info_production_change_gate (H : header) (pc : connection)
    (hn : 3 ≤ pc.buffer.ndata) (hname : 0 < H.MAX_LEN_NAME) (hmap : 26 ≤ H.sizeof_city_map)
    (himp : 0 < H.sizeof_improvements) :
    ∃ iter first r, pack_iter_init pc = some iter
      ∧ receive_packet_city_info_first H iter = some first
      ∧ receive_packet_city_info H pc = some r
      ∧ r.1.currently_building = first.1.currently_building
      ∧ r.1.shield_stock = first.1.shield_stock
      ∧ (has_capability "production_change_fix" pc.capability = false →
          ∃ wl m b, iget_worklist H first.2 pc = some wl
            ∧ iget_city_map (iget_uint8 wl.2).2 H.sizeof_city_map = some m
            ∧ iget_bit_string m.2 H.sizeof_improvements = some b
            ∧ r.1.turn_last_built = H.GAME_START_YEAR
            ∧ r.1.turn_changed_target = H.GAME_START_YEAR
            ∧ r.1.changed_from_id = r.1.currently_building
            ∧ r.1.before_change_shields = r.1.shield_stock
            ∧ r.1.changed_from_is_unit = r.1.is_building_unit
            ∧ r.1.worklist = wl.1
            ∧ r.1.is_building_unit = flag_bit (iget_uint8 wl.2).1 0
            ∧ r.1.city_map = m.1
            ∧ r.1.improvements = b.1
            ∧ r.1.city_options = (iget_uint8 b.2).1
            ∧ r.2.1 = (receive_packet_city_info_trade 4 (iget_uint8 b.2).2).2)
      ∧ (has_capability "production_change_fix" pc.capability = true →
          ∃ wl, iget_worklist H
              (iget_uint16 (iget_uint8 (iget_sint16 (iget_sint16 first.2).2).2).2).2 pc = some wl
            ∧ r.1.turn_last_built = (iget_sint16 first.2).1
            ∧ r.1.turn_changed_target = (iget_sint16 (iget_sint16 first.2).2).1
            ∧ r.1.changed_from_id = (iget_uint8 (iget_sint16 (iget_sint16 first.2).2).2).1
            ∧ r.1.before_change_shields
              = (iget_uint16 (iget_uint8 (iget_sint16 (iget_sint16 first.2).2).2).2).1
            ∧ r.1.worklist = wl.1
            ∧ r.1.is_building_unit = flag_bit (iget_uint8 wl.2).1 0
            ∧ r.1.changed_from_is_unit = flag_bit (iget_uint8 wl.2).1 6) := by
  obtain ⟨iter, hi⟩ := pack_iter_init_some pc hn
  obtain ⟨first, hf⟩ := receive_packet_city_info_first_some H iter hname
  cases hcap : has_capability "production_change_fix" pc.capability with
  | false =>
    obtain ⟨wl, hw⟩ := iget_worklist_some H first.2 pc hname
    obtain ⟨m, hm⟩ := iget_city_map_some (iget_uint8 wl.2).2 _ hmap
    obtain ⟨b, hb⟩ := iget_bit_string_some m.2 _ himp
    have hrest : ∃ r, receive_packet_city_info_rest H pc first = some r
        ∧ r.1.currently_building = first.1.currently_building
        ∧ r.1.shield_stock = first.1.shield_stock
        ∧ r.1.turn_last_built = H.GAME_START_YEAR
        ∧ r.1.turn_changed_target = H.GAME_START_YEAR
        ∧ r.1.changed_from_id = r.1.currently_building
        ∧ r.1.before_change_shields = r.1.shield_stock
        ∧ r.1.changed_from_is_unit = r.1.is_building_unit
        ∧ r.1.worklist = wl.1
        ∧ r.1.is_building_unit = flag_bit (iget_uint8 wl.2).1 0
        ∧ r.1.city_map = m.1
        ∧ r.1.improvements = b.1
        ∧ r.1.city_options = (iget_uint8 b.2).1
        ∧ r.2 = (receive_packet_city_info_trade 4 (iget_uint8 b.2).2).2 := by
      unfold receive_packet_city_info_rest
      simp only [hcap, Bool.false_eq_true, if_false]
      rw [hw]
      dsimp only
      rw [hm]
      dsimp only
      rw [hb]
      exact ⟨_, rfl, rfl, rfl, rfl, rfl, rfl, rfl, rfl, rfl, rfl, rfl, rfl, rfl, rfl⟩
    obtain ⟨r, hr, c1, c2, c3, c4, c5, c6, c7, c8, c9, c10, c11, c12, c13⟩ := hrest
    refine ⟨iter, first, (r.1, r.2, { pc with buffer := remove_packet_from_buffer pc.buffer }),
      hi, hf, ?_, c1, c2, fun _ => ⟨wl, m, b, hw, hm, hb, c3, c4, c5, c6, c7, c8, c9, c10, c11,
        c12, c13⟩, fun h => by simp at h⟩
    unfold receive_packet_city_info
    rw [hi]
    dsimp only
    rw [hf]
    dsimp only
    rw [hr]
  | true =>
    obtain ⟨wl, hw⟩ := iget_worklist_some H
      (iget_uint16 (iget_uint8 (iget_sint16 (iget_sint16 first.2).2).2).2).2 pc hname
    obtain ⟨m, hm⟩ := iget_city_map_some (iget_uint8 wl.2).2 _ hmap
    obtain ⟨b, hb⟩ := iget_bit_string_some m.2 _ himp
    have hrest : ∃ r, receive_packet_city_info_rest H pc first = some r
        ∧ r.1.currently_building = first.1.currently_building
        ∧ r.1.shield_stock = first.1.shield_stock
        ∧ r.1.turn_last_built = (iget_sint16 first.2).1
        ∧ r.1.turn_changed_target = (iget_sint16 (iget_sint16 first.2).2).1
        ∧ r.1.changed_from_id = (iget_uint8 (iget_sint16 (iget_sint16 first.2).2).2).1
        ∧ r.1.before_change_shields
          = (iget_uint16 (iget_uint8 (iget_sint16 (iget_sint16 first.2).2).2).2).1
        ∧ r.1.worklist = wl.1
        ∧ r.1.is_building_unit = flag_bit (iget_uint8 wl.2).1 0
        ∧ r.1.changed_from_is_unit = flag_bit (iget_uint8 wl.2).1 6 := by
      unfold receive_packet_city_info_rest
      simp only [hcap, if_true]
      rw [hw]
      dsimp only
      rw [hm]
      dsimp only
      rw [hb]
      exact ⟨_, rfl, rfl, rfl, rfl, rfl, rfl, rfl, rfl, rfl, rfl⟩
    obtain ⟨r, hr, c1, c2, c3, c4, c5, c6, c7, c8, c9⟩ := hrest
    refine ⟨iter, first, (r.1, r.2, { pc with buffer := remove_packet_from_buffer pc.buffer }),
      hi, hf, ?_, c1, c2, fun h => by simp at h,
      fun _ => ⟨wl, hw, c3, c4, c5, c6, c7, c8, c9⟩⟩
    unfold receive_packet_city_info
    rw [hi]
    dsimp only
    rw [hf]
    dsimp only
    rw [hr]

set_option maxRecDepth 100000 in
theorem city_info_production_change_gate_witness :
    3 ≤ (holding (peer []) sample_city_info).buffer.ndata
    ∧ 0 < short_worklist_header.MAX_LEN_NAME
    ∧ 26 ≤ short_worklist_header.sizeof_city_map
    ∧ 0 < short_worklist_header.sizeof_improvements
    ∧ has_capability "production_change_fix" (holding (peer []) sample_city_info).capability
        = false
    ∧ (∃ r, receive_packet_city_info short_worklist_header (holding (peer []) sample_city_info)
          = some r
        ∧ r.1.turn_last_built = short_worklist_header.GAME_START_YEAR
        ∧ r.1.turn_changed_target = short_worklist_header.GAME_START_YEAR
        ∧ r.1.changed_from_id = r.1.currently_building
        ∧ r.1.before_change_shields = r.1.shield_stock
        ∧ r.1.changed_from_is_unit = r.1.is_building_unit)
    ∧ (receive_packet_city_info short_worklist_header
          (holding (peer []) sample_city_info)).map
        (fun r => (r.1.currently_building, r.1.shield_stock, r.1.changed_from_id,
          r.1.before_change_shields, r.1.worklist))
      = some (23, 33, 23, 33,
          { is_valid := 1, name := [0], wlefs := [1, 0], wlids := [23, 0] })
    ∧ (receive_packet_city_info short_worklist_header
          (holding (peer []) sample_city_info)).map
        (fun r => (r.1.is_building_unit, r.1.changed_from_is_unit, r.1.city_options,
          pack_iter_remaining r.2.1))
      = some (0, 0, 3, 0)
    ∧ (receive_packet_city_info short_worklist_header
          (holding (peer ["production_change_fix"]) sample_city_info)).map
        (fun r => (r.1.currently_building, r.1.turn_last_built, r.1.turn_changed_target,
          r.1.changed_from_id, r.1.before_change_shields))
      = some (23, 256, 23, 1, 7232) := by
  obtain ⟨iter, first, r, -, -, hr, -, -, hno, -⟩ := city_info_production_change_gate
    short_worklist_header (holding (peer []) sample_city_info) (by decide) (by decide)
    (by decide) (by decide)
  obtain ⟨wl, m, b, -, -, -, c1, c2, c3, c4, c5, -⟩ := hno (by decide)
  exact ⟨by decide, by decide, by decide, by decide, by decide, ⟨r, hr, c1, c2, c3, c4, c5⟩,
    by decide, by decide, by decide⟩

/-! ## Signed 16-bit reads in the old byte order -/

theorem swab_low_bytes (k b0 b1 : Nat) (hk : k % 65536 = 0) (h0 : b0 < 256) (h1 : b1 < 256) :
    (k + (b0 * 256 + b1)) % 256 * 256 + (k + (b0 * 256 + b1)) / 256 % 256 = b0 + 256 * b1 := by
  have m1 : (k + (b0 * 256 + b1)) % 256 = b1 := by omega
  have d1 : (k + (b0 * 256 + b1)) / 256 = k / 256 + b0 := by omega
  have d2 : (k / 256 + b0) % 256 = b0 := by omega
  rw [m1, d1, d2]
  omega

theorem swab_puint16_signed (b0 b1 : Nat) (h0 : b0 < 256) (h1 : b1 < 256) :
    swab_puint16 (get_sint16 [b0, b1] 0).1 = ((b0 + 256 * b1 : Nat) : Int) := by
  have p0 : peek [b0, b1] 0 = b0 := by simp [peek]; omega
  have p1 : peek [b0, b1] (0 + 1) = b1 := by simp [peek]; omega
  have hm : (b0 + 256 * b1) % 4294967296 = b0 + 256 * b1 := by omega
  have hto : to_int (b0 + 256 * b1) = ((b0 + 256 * b1 : Nat) : Int) := by
    unfold to_int
    rw [hm, if_pos (by omega)]
  unfold get_sint16 swab_puint16
  simp only [p0, p1]
  by_cases hn : ((b0 * 256 + b1 : Nat) : Int) > 0x7fff
  · rw [if_pos hn]
    have hu : to_unsigned (((b0 * 256 + b1 : Nat) : Int) - 0x10000)
        = 4294901760 + (b0 * 256 + b1) := by
      unfold to_unsigned; omega
    rw [hu, swab_uint16_eq]
    have e := swab_low_bytes 4294901760 b0 b1 (by decide) h0 h1
    rw [e, hto]
  · rw [if_neg hn]
    have hu : to_unsigned ((b0 * 256 + b1 : Nat) : Int) = b0 * 256 + b1 := by
      unfold to_unsigned; omega
    rw [hu, swab_uint16_eq]
    have e := swab_low_bytes 0 b0 b1 (by decide) h0 h1
    simp only [zero_add] at e
    rw [e, hto]

/-- C40, as the code has it. For every cursor with at least 2 bytes `b0`, `b1`
remaining, `iget_sint16` advances by 2; with `swap_bytes` clear it yields the
signed reading of `256*b0 + b1`; with `swap_bytes` set it yields
`b0 + 256*b1` itself, a value in 0..65535 that is never negative, so it
differs from the signed reading of `b0 + 256*b1` exactly when `b1 >= 128`. -/
theorem iget_sint16_swap_unsigned (p : pack_iter) (h : 2 ≤ pack_iter_remaining p) :
    (p.swap_bytes = false →
      iget_sint16 p
        = (signed16 (256 * peek p.base p.ptr + peek p.base (p.ptr + 1)),
            { p with ptr := p.ptr + 2 }))
    ∧ (p.swap_bytes = true →
      iget_sint16 p
        = (((peek p.base p.ptr + 256 * peek p.base (p.ptr + 1) : Nat) : Int),
            { p with ptr := p.ptr + 2 })
      ∧ 0 ≤ (iget_sint16 p).1
      ∧ ((iget_sint16 p).1 ≠ signed16 (peek p.base p.ptr + 256 * peek p.base (p.ptr + 1))
          ↔ 128 ≤ peek p.base (p.ptr + 1))) := by
  have h0 := peek_lt p.base p.ptr
  have h1 := peek_lt p.base (p.ptr + 1)
  have hval : p.swap_bytes = true →
      iget_sint16 p
        = (((peek p.base p.ptr + 256 * peek p.base (p.ptr + 1) : Nat) : Int),
            { p with ptr := p.ptr + 2 }) := by
    intro hs
    unfold iget_sint16
    rw [if_neg (by omega)]
    simp only [hs, if_true, Prod.mk.injEq]
    have := swab_puint16_signed (peek p.base p.ptr) (peek p.base (p.ptr + 1)) h0 h1
    have p0 : peek [peek p.base p.ptr, peek p.base (p.ptr + 1)] 0 = peek p.base p.ptr := by
      simp [peek]
    have p1 : peek [peek p.base p.ptr, peek p.base (p.ptr + 1)] (0 + 1)
        = peek p.base (p.ptr + 1) := by
      simp [peek]
    simp only [get_sint16, p0, p1] at this
    simp only [get_sint16]
    exact ⟨this, trivial⟩
  constructor
  · intro hs
    unfold iget_sint16
    rw [if_neg (by omega)]
    simp only [hs, Bool.false_eq_true, if_false, get_sint16, Prod.mk.injEq, and_true]
    unfold signed16
    split_ifs <;> omega
  · intro hs
    refine ⟨hval hs, ?_, ?_⟩
    · rw [hval hs]; exact Int.natCast_nonneg _
    · rw [hval hs]
      unfold signed16
      dsimp only
      split_ifs <;> omega

theorem iget_sint16_swap_unsigned_witness :
    iget_sint16 (cursor_at 5 [0, 5, 7, 255, 52] 3 false) = (-204, cursor_at 5 [0, 5, 7, 255, 52] 5 false)
    ∧ iget_sint16 (cursor_at 5 [0, 5, 7, 52, 255] 3 true)
        = (65332, cursor_at 5 [0, 5, 7, 52, 255] 5 true)
    ∧ signed16 (52 + 256 * 255) = -204 :=
  ⟨((iget_sint16_swap_unsigned (cursor_at 5 [0, 5, 7, 255, 52] 3 false) (by decide)).1
      rfl).trans (by decide),
    (((iget_sint16_swap_unsigned (cursor_at 5 [0, 5, 7, 52, 255] 3 true) (by decide)).2
      rfl).1).trans (by decide),
    by decide⟩

/-! ## The city map: wire bytes that are no five base-3 digits -/

/-- What `iget_city_map` stores for the four bytes at the read offset: the five
digits of each byte at the transmitted cells, the fixed cells, and the
terminator. -/
theorem iget_city_map_cells (p : pack_iter) (navail : Int) (hnav : 26 ≤ navail)
    (hrem : 4 ≤ pack_iter_remaining p) :
    iget_city_map p navail
      = some ([50, 48 + peek p.base p.ptr / 81, 48 + peek p.base p.ptr % 81 / 27,
            48 + peek p.base p.ptr % 81 % 27 / 9, 50, 48 + peek p.base p.ptr % 81 % 27 % 9 / 3,
            48 + peek p.base p.ptr % 81 % 27 % 9 % 3,
            48 + peek p.base (p.ptr + 1) / 81, 48 + peek p.base (p.ptr + 1) % 81 / 27,
            48 + peek p.base (p.ptr + 1) % 81 % 27 / 9,
            48 + peek p.base (p.ptr + 1) % 81 % 27 % 9 / 3,
            48 + peek p.base (p.ptr + 1) % 81 % 27 % 9 % 3, 49,
            48 + peek p.base (p.ptr + 1 + 1) / 81, 48 + peek p.base (p.ptr + 1 + 1) % 81 / 27,
            48 + peek p.base (p.ptr + 1 + 1) % 81 % 27 / 9,
            48 + peek p.base (p.ptr + 1 + 1) % 81 % 27 % 9 / 3,
            48 + peek p.base (p.ptr + 1 + 1) % 81 % 27 % 9 % 3,
            48 + peek p.base (p.ptr + 1 + 1 + 1) / 81,
            48 + peek p.base (p.ptr + 1 + 1 + 1) % 81 / 27, 50,
            48 + peek p.base (p.ptr + 1 + 1 + 1) % 81 % 27 / 9,
            48 + peek p.base (p.ptr + 1 + 1 + 1) % 81 % 27 % 9 / 3,
            48 + peek p.base (p.ptr + 1 + 1 + 1) % 81 % 27 % 9 % 3, 50, 0],
          { p with ptr := p.ptr + 4 }) := by
  obtain ⟨hsp, -⟩ := remaining_not_short p 4 (by omega) hrem
  unfold iget_city_map
  rw [if_neg (by omega), if_neg (by omega)]
  dsimp only
  rw [iget_city_map_round_value p _ 0 hsp]
  dsimp only
  rw [iget_city_map_round_value { p with ptr := p.ptr + 1 } _ 5 hsp]
  dsimp only
  rw [iget_city_map_round_value { p with ptr := p.ptr + 1 + 1 } _ 10 hsp]
  dsimp only
  rw [iget_city_map_round_value { p with ptr := p.ptr + 1 + 1 + 1 } _ 15 hsp]
  dsimp only
  simp only [city_map_index, List.getD_cons_zero, List.getD_cons_succ, Nat.reduceAdd, zero_add,
    List.replicate, List.set_cons_zero, List.set_cons_succ]

/-- C39, as the code has it. For every cursor with at least 4 bytes remaining
(and a destination of at least 26 chars), `iget_city_map` reads the four
bytes; the first cell of each group of five (cells 1, 7, 13 and 18) is the
character `'3'` exactly when the byte of the group is 243 or more, and every
other transmitted cell is `'0'`, `'1'` or `'2'`. -/
theorem iget_city_map_digit_three (p : pack_iter) (navail : Int) (hnav : 26 ≤ navail)
    (hrem : 4 ≤ pack_iter_remaining p) :
    ∃ str, iget_city_map p navail = some (str, { p with ptr := p.ptr + 4 })
      ∧ (∀ k, k < 4 →
          (str.getD (city_map_index.getD (5 * k) 0) 0 = 51 ↔ 243 ≤ peek p.base (p.ptr + k)))
      ∧ (∀ i, i < 20 → i % 5 ≠ 0 →
          str.getD (city_map_index.getD i 0) 0 = 48 ∨ str.getD (city_map_index.getD i 0) 0 = 49
            ∨ str.getD (city_map_index.getD i 0) 0 = 50) := by
  have h0 := peek_lt p.base p.ptr
  have h1 := peek_lt p.base (p.ptr + 1)
  have h2 := peek_lt p.base (p.ptr + 1 + 1)
  have h3 := peek_lt p.base (p.ptr + 1 + 1 + 1)
  refine ⟨_, iget_city_map_cells p navail hnav hrem, ?_, ?_⟩
  · intro k hk
    interval_cases k
    · simp only [city_map_index, List.getD_cons_zero, List.getD_cons_succ, Nat.reduceMul,
        add_zero]
      omega
    · simp only [city_map_index, List.getD_cons_zero, List.getD_cons_succ, Nat.reduceMul]
      omega
    · simp only [city_map_index, List.getD_cons_zero, List.getD_cons_succ, Nat.reduceMul]
      have e : p.ptr + 2 = p.ptr + 1 + 1 := by omega
      rw [e]
      omega
    · simp only [city_map_index, List.getD_cons_zero, List.getD_cons_succ, Nat.reduceMul]
      have e : p.ptr + 3 = p.ptr + 1 + 1 + 1 := by omega
      rw [e]
      omega
  · intro i hi hmod
    interval_cases i <;>
      first
      | (exfalso; exact hmod rfl)
      | (simp only [city_map_index, List.getD_cons_zero, List.getD_cons_succ]; omega)

theorem iget_city_map_digit_three_witness :
    4 ≤ pack_iter_remaining (cursor_at 7 [0, 7, 7, 243, 0, 255, 32] 3 false)
    ∧ (∃ str, iget_city_map (cursor_at 7 [0, 7, 7, 243, 0, 255, 32] 3 false) 26
          = some (str, cursor_at 7 [0, 7, 7, 243, 0, 255, 32] 7 false)
        ∧ str.getD 1 0 = 51 ∧ str.getD 13 0 = 51)
    ∧ iget_city_map (cursor_at 7 [0, 7, 7, 243, 0, 255, 32] 3 false) 26
      = some ([50, 51, 48, 48, 50, 48, 48, 48, 48, 48, 48, 48, 49, 51, 48, 49, 49, 48, 48, 49,
          50, 48, 49, 50, 50, 0], cursor_at 7 [0, 7, 7, 243, 0, 255, 32] 7 false) := by
  obtain ⟨str, h, hk, -⟩ := iget_city_map_digit_three
    (cursor_at 7 [0, 7, 7, 243, 0, 255, 32] 3 false) 26 (by decide) (by decide)
  exact ⟨by decide, ⟨str, h, (hk 0 (by decide)).2 (by decide), (hk 2 (by decide)).2 (by decide)⟩,
    by decide⟩

/-! ## Progress of the frame reader -/

/-- The buffer handed to the receive function holds as many bytes as before,
and its length field is the declared length in canonical order, whatever the
byte order and the length. -/
theorem dispatched_header_len (pc : connection) (hwf : well_formed pc.buffer)
    (h3 : 3 ≤ pc.buffer.ndata) :
    (dispatched pc).buffer.ndata = pc.buffer.ndata
    ∧ (get_uint16 (dispatched pc).buffer.data 0).1 = declared_length pc := by
  obtain ⟨hbytes, hcap⟩ := hwf
  obtain ⟨a, b, c, rest, hd⟩ := data_cons3 pc.buffer.data (by omega)
  have hrange := declared_length_range pc
  have hswap := byte_order_resolved_swap pc
  have ha : a < 256 := hbytes a (by rw [hd]; simp)
  have hb : b < 256 := hbytes b (by rw [hd]; simp)
  by_cases hs : resolved_byte_swap pc = true
  · have hdisp : (dispatched pc).buffer
        = { ndata := pc.buffer.ndata
            data := ((declared_length pc) % 65536).toNat / 256
              :: ((declared_length pc) % 65536).toNat % 256 :: c :: rest } := by
      unfold dispatched
      unfold byte_order_resolved at hswap
      simp only [hs] at hswap
      simp only [hswap, if_true]
      split_ifs <;> simp [hd, poke, put_uint16]
    have hhl : header_len pc = ((a * 256 + b : Nat) : Int) := by
      unfold header_len get_uint16
      rw [hd]
      simp only [peek, List.getD_cons_zero, zero_add, List.getD_cons_succ]
      have e1 : a % 256 = a := by omega
      have e2 : b % 256 = b := by omega
      rw [e1, e2]
    have hlen : declared_length pc = ((b * 256 + a : Nat) : Int) := by
      have hh := header_len_range pc
      unfold declared_length
      rw [if_pos hs, swab_puint16_eq _ hh.1 hh.2, hhl, Int.toNat_ofNat]
      have e1 : (a * 256 + b) % 256 = b := by omega
      have e2 : (a * 256 + b) / 256 = a := by omega
      rw [e1, e2]
    have hx : (declared_length pc % 65536).toNat = b * 256 + a := by rw [hlen]; omega
    have e3 : (b * 256 + a) / 256 = b := by omega
    have e4 : (b * 256 + a) % 256 = a := by omega
    rw [hx, e3, e4] at hdisp
    rw [hdisp]
    refine ⟨rfl, ?_⟩
    simp only [get_uint16, peek, List.getD_cons_zero, zero_add, List.getD_cons_succ]
    rw [hlen]
    have e5 : b % 256 = b := by omega
    have e6 : a % 256 = a := by omega
    rw [e5, e6]
  · have hdisp : (dispatched pc).buffer = pc.buffer := by
      unfold dispatched
      unfold byte_order_resolved at hswap
      simp only [Bool.not_eq_true] at hs
      simp only [hs] at hswap
      simp only [hswap, Bool.false_eq_true, if_false]
      split_ifs <;> rfl
    rw [hdisp]
    refine ⟨rfl, ?_⟩
    unfold declared_length
    rw [if_neg hs]
    rfl

/-- A call that returns a packet leaves as many bytes as the buffer held less
the declared length of the packet. -/
theorem get_packet_ndata (E : env) (pc : connection) (r : received)
    (hwf : well_formed pc.buffer) (h : get_packet_from_connection E pc = some r)
    (hp : r.packet.isSome = true) :
    declared_length pc ≤ (pc.buffer.ndata : Int)
    ∧ r.pc.buffer.ndata = pc.buffer.ndata - (declared_length pc).toNat := by
  by_cases hc : pc.used = false ∨ pc.buffer.ndata < 3
  · rw [get_packet_closed_or_short E pc hc] at h
    simp only [Option.some.injEq] at h
    subst h
    simp at hp
  · have hu : pc.used = true := by
      cases hx : pc.used with
      | true => rfl
      | false => exact absurd (Or.inl hx) hc
    have h3 : 3 ≤ pc.buffer.ndata := by
      by_contra hn
      exact hc (Or.inr (by omega))
    by_cases hl : (pc.buffer.ndata : Int) < declared_length pc
    · rw [get_packet_incomplete_eq E pc hu h3 hl] at h
      simp only [Option.some.injEq] at h
      subst h
      simp at hp
    · rw [get_packet_complete_eq E pc hu h3 (by omega)] at h
      cases hreg : E.registry (header_type pc) with
      | none =>
        simp only [hreg, Option.some.injEq] at h
        subst h
        simp at hp
      | some f =>
        simp only [hreg] at h
        cases hrec : receive E f (dispatched pc) with
        | none => simp [hrec] at h
        | some q =>
          simp only [hrec, Option.map_some', Option.some.injEq] at h
          subst h
          have hb := receive_buffer E f (dispatched pc) q hrec
          obtain ⟨d1, d2⟩ := dispatched_header_len pc hwf h3
          refine ⟨by omega, ?_⟩
          dsimp only
          rw [hb]
          simp only [remove_packet_from_buffer, d1, d2]

/-- C37, as the code has it. A call of `get_packet_from_connection` that
returns a packet leaves `ndata - L` bytes in the buffer, `L` being the declared
length of the packet: the count decreases strictly exactly when `L >= 1`.  On
a connection past its first packet, in network byte order, whose front packet
declares the length 0 and has a registered type, the call returns a packet
and leaves the connection exactly as it was, so that every further call does
the same and a loop that calls it until no packet is returned does not
end. -/
theorem zero_length_packet_stalls (E : env) (pc : connection) (hwf : well_formed pc.buffer) :
    (∀ r, get_packet_from_connection E pc = some r → r.packet.isSome = true →
      r.pc.buffer.ndata = pc.buffer.ndata - (declared_length pc).toNat
      ∧ (r.pc.buffer.ndata < pc.buffer.ndata ↔ 1 ≤ declared_length pc))
    ∧ (∀ f, pc.used = true → pc.first_packet = false → pc.byte_swap = false →
        3 ≤ pc.buffer.ndata → header_len pc = 0 → E.registry (header_type pc) = some f →
        completes E f pc →
        ∃ pk, get_packet_from_connection E pc
          = some { packet := some pk, ptype := some (header_type pc), pc := pc }) := by
  constructor
  · intro r h hp
    obtain ⟨h1, h2⟩ := get_packet_ndata E pc r hwf h hp
    have hr := declared_length_range pc
    refine ⟨h2, ?_⟩
    rw [h2]
    omega
  · intro f hu hfp hsw h3 hlen hreg hc
    have hres : resolved_byte_swap pc = false := by
      unfold resolved_byte_swap; simp [hfp, hsw]
    have hdl : declared_length pc = 0 := by
      unfold declared_length; simp [hres, hlen]
    have hdisp : dispatched pc = pc := by
      unfold dispatched
      simp [hfp, hsw]
    rw [get_packet_complete_eq E pc hu h3 (by omega)]
    simp only [hreg, hdisp]
    unfold completes at hc
    cases hrec : receive E f pc with
    | none => simp [hrec] at hc
    | some q =>
      have hb := receive_buffer E f pc q hrec
      refine ⟨q.1, ?_⟩
      simp only [Option.map_some', Option.some.injEq, received.mk.injEq, true_and]
      rw [hb]
      have hz : (get_uint16 pc.buffer.data 0).1.toNat = 0 := by
        unfold header_len at hlen; rw [hlen]; rfl
      unfold remove_packet_from_buffer
      simp only [hz, Nat.sub_zero, List.drop_zero, List.take_append_drop]

theorem zero_length_packet_stalls_witness :
    well_formed (sample_connection false [0, 0, 50, 9]).buffer
    ∧ header_len (sample_connection false [0, 0, 50, 9]) = 0
    ∧ sample_env.registry (header_type (sample_connection false [0, 0, 50, 9]))
        = some receive_fn.receive_packet_diplomacy_info
    ∧ (∃ pk, get_packet_from_connection sample_env (sample_connection false [0, 0, 50, 9])
        = some { packet := some pk
                 ptype := some (header_type (sample_connection false [0, 0, 50, 9]))
                 pc := sample_connection false [0, 0, 50, 9] })
    ∧ get_packet_from_connection sample_env (sample_connection false [0, 0, 50, 9])
        = some { packet := some (packet.diplomacy_info
                    { plrno0 := 0, plrno1 := 0, plrno_from := 0, clause_type := 0, value := 0 })
                 ptype := some 50
                 pc := sample_connection false [0, 0, 50, 9] } :=
  ⟨⟨by decide, by decide⟩, by decide, by decide,
    (zero_length_packet_stalls sample_env (sample_connection false [0, 0, 50, 9])
      ⟨by decide, by decide⟩).2 receive_fn.receive_packet_diplomacy_info rfl rfl rfl (by decide) (by decide)
      (by decide) (completes_diplomacy_info sample_env _ (by decide)),
    by decide⟩

/-! ## The generic integer and the generic message -/

/-- C33. On a connection whose buffer holds at least 3 bytes (all inside the
array) and whose front packet declares the length 3,
`receive_packet_generic_integer` returns a struct with `value = 0`, leaves
the cursor at offset 3 with `short_packet` set and no other flag, and removes
exactly 3 bytes from the buffer: the count drops by 3 and the bytes that
followed stay, in order. -/
theorem generic_integer_short_packet (pc : connection) (h3 : 3 ≤ pc.buffer.ndata)
    (hcap : pc.buffer.ndata ≤ pc.buffer.data.length) (hlen : header_len pc = 3) :
    receive_packet_generic_integer pc
      = some ({ value := 0 }, cursor_of pc 3 true,
          { pc with buffer := remove_packet_from_buffer pc.buffer })
    ∧ (remove_packet_from_buffer pc.buffer).ndata = pc.buffer.ndata - 3
    ∧ held (remove_packet_from_buffer pc.buffer) = (held pc.buffer).drop 3 := by
  have hz : (get_uint16 pc.buffer.data 0).1.toNat = 3 := by
    unfold header_len at hlen; rw [hlen]; rfl
  refine ⟨?_, ?_, ?_⟩
  · unfold receive_packet_generic_integer
    rw [pack_iter_init_cursor pc h3 (by omega)]
    dsimp only
    rw [iget_uint32_short (cursor_of pc 3 false)
      (by simp only [pack_iter_remaining, cursor_of]; simp; omega)]
    rfl
  · unfold remove_packet_from_buffer
    simp only [hz]
  · rw [held_remove pc.buffer hcap, hz]

theorem generic_integer_short_packet_witness :
    header_len (holding (peer []) [0, 3, 10, 0, 7, 10, 0, 0, 1, 44]) = 3
    ∧ (receive_packet_generic_integer (holding (peer []) [0, 3, 10, 0, 7, 10, 0, 0, 1, 44])).map
        (fun r => (r.1, r.2.1, r.2.2.buffer.ndata, held r.2.2.buffer))
      = some ({ value := 0 },
          cursor_of (holding (peer []) [0, 3, 10, 0, 7, 10, 0, 0, 1, 44]) 3 true,
          7, [0, 7, 10, 0, 0, 1, 44])
    ∧ (receive_packet_generic_integer (holding (peer []) [0, 7, 10, 0, 0, 1, 44])).map
        (fun r => (r.1, r.2.1, r.2.2.buffer.ndata, held r.2.2.buffer))
      = some ({ value := 300 }, cursor_of (holding (peer []) [0, 7, 10, 0, 0, 1, 44]) 7 false,
          0, []) := by
  have h := generic_integer_short_packet (holding (peer []) [0, 3, 10, 0, 7, 10, 0, 0, 1, 44])
    (by decide) (by decide) (by decide)
  refine ⟨by decide, ?_, by decide⟩
  rw [h.1]
  decide

theorem iget_uint32_cursor_of (pc : connection) (k : Nat) (h : (k : Int) + 4 ≤ header_len pc) :
    (iget_uint32 (cursor_of pc k false)).2 = cursor_of pc (k + 4) false := by
  rw [iget_uint32_value _ (by simp only [pack_iter_remaining, cursor_of]; simp; omega)]
  rfl

/-- C32, as the code has it. The generic message carries the coordinates `x`
and `y` (one byte each) and the event (four bytes) in front of the message
string.  On a buffer holding exactly the 11 bytes
`00 0B 07 x y e3 e2 e1 e0 41 00` (length 11, type 7, the payload `x`, `y`,
the event, `"A"` and its terminator), with a destination of at least 2 chars,
`receive_packet_generic_message` yields `message = "A"`, leaves zero bytes
remaining in the cursor, and sets none of `short_packet`, `bad_string`,
`bad_bit_string`. -/
theorem generic_message_example (H : header) (pc0 : connection) (x y e3 e2 e1 e0 : Nat)
    (hsize : 2 ≤ H.sizeof_message) :
    ∃ r, receive_packet_generic_message H (holding pc0 [0, 11, 7, x, y, e3, e2, e1, e0, 65, 0])
        = some r
      ∧ r.1.message = [65, 0]
      ∧ r.2.1.ptr = 11 ∧ pack_iter_remaining r.2.1 = 0
      ∧ r.2.1.short_packet = false ∧ r.2.1.bad_string = false
      ∧ r.2.1.bad_bit_string = false := by
  have hl : header_len (holding pc0 [0, 11, 7, x, y, e3, e2, e1, e0, 65, 0]) = 11 := by
    simp [header_len, holding, get_uint16, peek]
  have hpos : positioned_at
      (cursor_of (holding pc0 [0, 11, 7, x, y, e3, e2, e1, e0, 65, 0]) 9 false) ([65] ++ [0]) := by
    refine ⟨?_, ?_⟩
    · simp only [pack_iter_remaining, cursor_of, hl]
      decide
    · intro i hi
      simp only [List.singleton_append, List.length_cons, List.length_nil] at hi
      interval_cases i <;> simp [cursor_of, holding, peek]
  have hs := iget_string_positioned _ [65] H.sizeof_message (by decide)
    (by simp only [List.length_singleton, Nat.cast_one]; omega) hpos
  unfold receive_packet_generic_message
  rw [pack_iter_init_cursor _ (by simp [holding]) (by omega)]
  dsimp only
  rw [iget_uint8_cursor_of _ 3 (by omega)]
  dsimp only
  rw [iget_uint8_cursor_of _ 4 (by omega)]
  dsimp only
  rw [iget_uint32_cursor_of _ 5 (by omega), hs]
  refine ⟨_, rfl, rfl, rfl, ?_, rfl, rfl, rfl⟩
  simp only [pack_iter_remaining, cursor_of, hl]
  decide

theorem generic_message_example_witness :
    2 ≤ freeciv_header.sizeof_message
    ∧ (∃ r, receive_packet_generic_message freeciv_header
          (holding (peer []) [0, 11, 7, 1, 2, 0, 0, 0, 3, 65, 0]) = some r
        ∧ r.1.message = [65, 0]
        ∧ r.2.1.ptr = 11 ∧ pack_iter_remaining r.2.1 = 0
        ∧ r.2.1.short_packet = false ∧ r.2.1.bad_string = false
        ∧ r.2.1.bad_bit_string = false)
    ∧ (receive_packet_generic_message freeciv_header
          (holding (peer []) [0, 11, 7, 1, 2, 0, 0, 0, 3, 65, 0])).map (fun r => r.1)
      = some { x := 1, y := 2, event := 3, message := [65, 0] } :=
  ⟨by decide, generic_message_example freeciv_header (peer []) 1 2 0 0 0 3 (by decide),
    by decide⟩

/-- C32, counterexample. On the buffer `00 05 07 41 00` the byte `41` is read
as `x` and the byte `00` as `y`; nothing is left for the event and the
message, so the event is 0, the message is empty and `short_packet` is set,
with the remaining count -1. -/
theorem generic_message_example_short :
    (receive_packet_generic_message freeciv_header (holding (peer []) [0, 5, 7, 65, 0])).map
        (fun r => (r.1, r.2.1.ptr, pack_iter_remaining r.2.1, r.2.1.short_packet))
      = some ({ x := 65, y := 0, event := 0, message := [0] }, 5, -1, true)
    ∧ (receive_packet_generic_message freeciv_header
          (holding (peer ["event00_fix"]) [0, 5, 7, 65, 0])).map
        (fun r => (r.1, r.2.1.ptr, pack_iter_remaining r.2.1, r.2.1.short_packet))
      = some ({ x := 65, y := 0, event := 0, message := [0] }, 5, -1, true) := by
  decide

/-! ## Packets as the send functions frame them -/

/-- A packet as every send function builds it, placed in the buffer of a
connection: its declared length is its length, and `pack_iter_init` leaves
the cursor behind the 3-byte header. -/
theorem framed_header (pc0 : connection) (type : Int) (fields : List Nat)
    (hlen : 3 + fields.length < 65536) :
    header_len (holding pc0
        (put_uint16 ((2 + (put_uint8 type ++ fields).length : Nat) : Int)
          ++ (put_uint8 type ++ fields))) = ((3 + fields.length : Nat) : Int)
    ∧ pack_iter_init (holding pc0
        (put_uint16 ((2 + (put_uint8 type ++ fields).length : Nat) : Int)
          ++ (put_uint8 type ++ fields)))
      = some (cursor_of (holding pc0
          (put_uint16 ((2 + (put_uint8 type ++ fields).length : Nat) : Int)
            ++ (put_uint8 type ++ fields))) 3 false)
    ∧ ∀ i, peek (holding pc0
          (put_uint16 ((2 + (put_uint8 type ++ fields).length : Nat) : Int)
            ++ (put_uint8 type ++ fields))).buffer.data (3 + i) = fields.getD i 0 % 256 := by
  have e : (2 + (put_uint8 type ++ fields).length : Nat) = 3 + fields.length := by
    simp [put_uint8]; omega
  rw [e, put_uint16_nat _ hlen]
  have hl : header_len (holding pc0
      ([(3 + fields.length) / 256, (3 + fields.length) % 256] ++ (put_uint8 type ++ fields)))
      = ((3 + fields.length : Nat) : Int) := by
    simp only [header_len, holding, get_uint16, peek, List.cons_append, List.nil_append,
      List.getD_cons_zero, List.getD_cons_succ, zero_add]
    congr 1
    omega
  refine ⟨hl, ?_, ?_⟩
  · exact pack_iter_init_cursor _ (by simp [holding, put_uint8]) (by rw [hl]; omega)
  · intro i
    simp only [holding, put_uint8, List.cons_append, List.nil_append, peek]
    rw [show 3 + i = i + 1 + 1 + 1 by omega]
    simp only [List.getD_cons_succ]

/-- The cursor of `framed_header` is positioned at the field list when the
field list consists of bytes. -/
theorem framed_fields (pc0 : connection) (type : Int) (fields : List Nat)
    (hlen : 3 + fields.length < 65536) (hb : all_bytes fields) :
    positioned_at (cursor_of (holding pc0
        (put_uint16 ((2 + (put_uint8 type ++ fields).length : Nat) : Int)
          ++ (put_uint8 type ++ fields))) 3 false) fields := by
  obtain ⟨hl, -, hpk⟩ := framed_header pc0 type fields hlen
  refine ⟨?_, ?_⟩
  · simp only [pack_iter_remaining, cursor_of, hl]
    simp
  · intro i hi
    simp only [cursor_of]
    rw [hpk i, List.getD_eq_getElem _ _ hi]
    exact Nat.mod_eq_of_lt (hb _ (List.getElem_mem _))

theorem iget_uint8_positioned (p : pack_iter) (v : Int) (rest : List Nat)
    (hp : positioned_at p (put_uint8 v ++ rest)) :
    iget_uint8 p = (v % 256, { p with ptr := p.ptr + 1 })
    ∧ positioned_at { p with ptr := p.ptr + 1 } rest := by
  obtain ⟨h1, h2⟩ := positioned_at_append p _ _ hp
  refine ⟨?_, h2⟩
  obtain ⟨hr, hs⟩ := h1
  rw [iget_uint8_value p (by simpa [put_uint8] using hr)]
  have := hs 0 (by simp [put_uint8])
  simp only [put_uint8, add_zero, List.getD_cons_zero] at this
  rw [this]
  simp only [Prod.mk.injEq, and_true]
  omega

/-! ## The coordinates of a generic message -/

theorem iget_uint8_rebase (p : pack_iter) (b : List Nat) (t : Int) (h : agree p.len p.base b) :
    iget_uint8 (rebase p b t) = ((iget_uint8 p).1, rebase (iget_uint8 p).2 b t) := by
  unfold iget_uint8
  have hr : pack_iter_remaining (rebase p b t) = pack_iter_remaining p := rfl
  rw [hr]
  by_cases h1 : pack_iter_remaining p < 1
  · rw [if_pos h1, if_pos h1]; rfl
  · rw [if_neg h1, if_neg h1]
    obtain ⟨-, hrem⟩ := remaining_not_short p 1 (by omega) (by omega)
    have e := h p.ptr (by omega)
    simp only [get_uint8, rebase, e]

theorem iget_uint32_rebase (p : pack_iter) (b : List Nat) (t : Int) (h : agree p.len p.base b) :
    iget_uint32 (rebase p b t) = ((iget_uint32 p).1, rebase (iget_uint32 p).2 b t) := by
  unfold iget_uint32
  have hr : pack_iter_remaining (rebase p b t) = pack_iter_remaining p := rfl
  rw [hr]
  by_cases h1 : pack_iter_remaining p < 4
  · rw [if_pos h1, if_pos h1]; rfl
  · rw [if_neg h1, if_neg h1]
    obtain ⟨-, hrem⟩ := remaining_not_short p 4 (by omega) (by omega)
    have e0 := h p.ptr (by omega)
    have e1 := h (p.ptr + 1) (by push_cast; omega)
    have e2 := h (p.ptr + 2) (by push_cast; omega)
    have e3 := h (p.ptr + 3) (by push_cast; omega)
    simp only [get_uint32, rebase, e0, e1, e2, e3]

theorem iget_string_scan_agree (b1 b2 : List Nat) (len : Int) (h : agree len b1 b2) :
    ∀ (fuel c : Nat), (iget_string_scan b2 len fuel c).1 = (iget_string_scan b1 len fuel c).1 := by
  intro fuel
  induction fuel with
  | zero => intro c; rfl
  | succ n ih =>
    intro c
    unfold iget_string_scan
    by_cases hc : (c : Int) < len
    · rw [h c hc]
      split_ifs
      · rfl
      · exact ih (c + 1)
    · split_ifs <;> rfl

theorem iget_string_rebase (p : pack_iter) (b : List Nat) (t : Int) (navail : Int)
    (h : agree p.len p.base b) :
    iget_string (rebase p b t) navail
      = (iget_string p navail).map (fun r => (r.1, rebase r.2 b t)) := by
  unfold iget_string
  have hr : pack_iter_remaining (rebase p b t) = pack_iter_remaining p := rfl
  rw [hr]
  by_cases h0 : navail ≤ 0
  · rw [if_pos h0, if_pos h0]; rfl
  rw [if_neg h0, if_neg h0]
  by_cases h1 : pack_iter_remaining p < 1
  · rw [if_pos h1, if_pos h1]; rfl
  rw [if_neg h1, if_neg h1]
  obtain ⟨hsp, hrem⟩ := remaining_not_short p 1 (by omega) (by omega)
  have hc : (iget_string_c (rebase p b t)).1 = (iget_string_c p).1 := by
    unfold iget_string_c
    exact iget_string_scan_agree p.base b p.len h _ _
  have hcs := (iget_string_c_spec p).1
  simp only [hc, hr]
  simp only [rebase]
  by_cases hu : ((iget_string_c p).1 : Int) ≥ p.len
  · by_cases ht : pack_iter_remaining p ≥ navail
    · simp only [hu, ht, decide_True, if_true, Option.map_some', Option.some.injEq,
        Prod.mk.injEq, and_true]
      congr 1
      apply List.map_congr_left
      intro i hi
      rw [List.mem_range] at hi
      exact h _ (by push_cast; omega)
    · simp only [hu, ht, decide_True, decide_False, if_true, if_false, Bool.false_eq_true,
        Option.map_some', Option.some.injEq, Prod.mk.injEq, and_true]
      congr 1
      apply List.map_congr_left
      intro i hi
      rw [List.mem_range] at hi
      exact h _ (by push_cast; omega)
  · by_cases ht : ((iget_string_c p).1 : Int) - (p.ptr : Int) ≥ navail
    · simp only [hu, ht, decide_True, decide_False, if_true, if_false, Bool.false_eq_true,
        hsp, Option.map_some', Option.some.injEq, Prod.mk.injEq, and_true]
      congr 1
      apply List.map_congr_left
      intro i hi
      rw [List.mem_range] at hi
      exact h _ (by push_cast; omega)
    · simp only [hu, ht, decide_True, decide_False, if_true, if_false, Bool.false_eq_true,
        hsp, Option.map_some', Option.some.injEq, Prod.mk.injEq, and_true]
      congr 1
      apply List.map_congr_left
      intro i hi
      rw [List.mem_range] at hi
      exact h _ (by push_cast; omega)

theorem generic_message_fields_rebase (H : header) (p : pack_iter)
    (b : List Nat) (t : Int) (h : agree p.len p.base b) :
    (iget_string (iget_uint32 (iget_uint8 (iget_uint8 (rebase p b t)).2).2).2 H.sizeof_message)
      = (iget_string (iget_uint32 (iget_uint8 (iget_uint8 p).2).2).2 H.sizeof_message).map
          (fun r => (r.1, rebase r.2 b t))
    ∧ (iget_uint8 (rebase p b t)).1 = (iget_uint8 p).1
    ∧ (iget_uint8 (iget_uint8 (rebase p b t)).2).1 = (iget_uint8 (iget_uint8 p).2).1
    ∧ (iget_uint32 (iget_uint8 (iget_uint8 (rebase p b t)).2).2).1
        = (iget_uint32 (iget_uint8 (iget_uint8 p).2).2).1 := by
  have s1 := iget_uint8_step p
  have s2 := iget_uint8_step (iget_uint8 p).2
  have s3 := iget_uint32_step (iget_uint8 (iget_uint8 p).2).2
  have a1 : agree (iget_uint8 p).2.len (iget_uint8 p).2.base b := by
    rw [s1.1.len_eq, s1.1.base_eq]; exact h
  have a2 : agree (iget_uint8 (iget_uint8 p).2).2.len (iget_uint8 (iget_uint8 p).2).2.base b := by
    rw [s2.1.len_eq, s2.1.base_eq]; exact a1
  have a3 : agree (iget_uint32 (iget_uint8 (iget_uint8 p).2).2).2.len
      (iget_uint32 (iget_uint8 (iget_uint8 p).2).2).2.base b := by
    rw [s3.1.len_eq, s3.1.base_eq]; exact a2
  rw [iget_uint8_rebase p b t h]
  dsimp only
  rw [iget_uint8_rebase _ b t a1]
  dsimp only
  rw [iget_uint32_rebase _ b t a2]
  dsimp only
  rw [iget_string_rebase _ b t _ a3]
  exact ⟨rfl, rfl, rfl, rfl⟩

/-- C38. Two connections whose buffers hold at least 3 bytes, whose front
packets declare the same length `L` and agree on every byte below offset `L`,
with the same `byte_swap` flag and the same capabilities (and a message
destination of at least one char): `receive_packet_generic_message` returns
on both, with the same struct and with cursors that differ only in the memory
they point into: the same read offset and the same `short_packet`,
`bad_string` and `bad_bit_string` flags.  Nothing depends on a byte at an
offset of `L` or more. -/
theorem generic_message_own_bytes (H : header) (pc1 pc2 : connection)
    (h1 : 3 ≤ pc1.buffer.ndata) (h2 : 3 ≤ pc2.buffer.ndata) (hsize : 0 < H.sizeof_message)
    (hlen : header_len pc2 = header_len pc1)
    (hbytes : agree (header_len pc1) pc1.buffer.data pc2.buffer.data)
    (hsw : pc2.byte_swap = pc1.byte_swap) (hcap : pc2.capability = pc1.capability) :
    ∃ r1 r2, receive_packet_generic_message H pc1 = some r1
      ∧ receive_packet_generic_message H pc2 = some r2
      ∧ r2.1 = r1.1
      ∧ r2.2.1 = rebase r1.2.1 pc2.buffer.data (header_type pc2)
      ∧ r2.2.1.ptr = r1.2.1.ptr
      ∧ r2.2.1.short_packet = r1.2.1.short_packet
      ∧ r2.2.1.bad_string = r1.2.1.bad_string
      ∧ r2.2.1.bad_bit_string = r1.2.1.bad_bit_string := by
  have i1 : pack_iter_init pc1
      = some { len := header_len pc1, type := header_type pc1, base := pc1.buffer.data, ptr := 3,
               swap_bytes := pc1.byte_swap, short_packet := decide (header_len pc1 < 3),
               bad_string := false, bad_bit_string := false } := by
    unfold pack_iter_init
    rw [if_neg (by omega)]
    rfl
  have i2 : pack_iter_init pc2
      = some (rebase { len := header_len pc1, type := header_type pc1, base := pc1.buffer.data,
                       ptr := 3, swap_bytes := pc1.byte_swap,
                       short_packet := decide (header_len pc1 < 3),
                       bad_string := false, bad_bit_string := false }
                pc2.buffer.data (header_type pc2)) := by
    unfold pack_iter_init
    rw [if_neg (by omega), ← hlen, ← hsw]
    rfl
  obtain ⟨g1, g2, g3, g4⟩ := generic_message_fields_rebase H
    { len := header_len pc1, type := header_type pc1, base := pc1.buffer.data, ptr := 3,
      swap_bytes := pc1.byte_swap, short_packet := decide (header_len pc1 < 3),
      bad_string := false, bad_bit_string := false }
    pc2.buffer.data (header_type pc2) hbytes
  obtain ⟨s, hs⟩ := iget_string_some
    (iget_uint32 (iget_uint8 (iget_uint8
      { len := header_len pc1, type := header_type pc1, base := pc1.buffer.data, ptr := 3,
        swap_bytes := pc1.byte_swap, short_packet := decide (header_len pc1 < 3),
        bad_string := false, bad_bit_string := false }).2).2).2 H.sizeof_message hsize
  rw [hs] at g1
  unfold receive_packet_generic_message
  rw [i1, i2]
  dsimp only
  rw [g1, hs, g2, g3, g4, hcap]
  exact ⟨_, _, rfl, rfl, rfl, rfl, rfl, rfl, rfl, rfl⟩

theorem generic_message_own_bytes_witness :
    agree (header_len (holding (peer []) [0, 10, 7, 1, 2, 0, 0, 0, 3, 65, 0]))
      (holding (peer []) [0, 10, 7, 1, 2, 0, 0, 0, 3, 65, 0]).buffer.data
      (holding (peer []) [0, 10, 7, 1, 2, 0, 0, 0, 3, 65, 66, 9]).buffer.data
    ∧ (∃ r1 r2, receive_packet_generic_message freeciv_header
          (holding (peer []) [0, 10, 7, 1, 2, 0, 0, 0, 3, 65, 0]) = some r1
        ∧ receive_packet_generic_message freeciv_header
          (holding (peer []) [0, 10, 7, 1, 2, 0, 0, 0, 3, 65, 66, 9]) = some r2
        ∧ r2.1 = r1.1
        ∧ r2.2.1.ptr = r1.2.1.ptr
        ∧ r2.2.1.short_packet = r1.2.1.short_packet
        ∧ r2.2.1.bad_string = r1.2.1.bad_string
        ∧ r2.2.1.bad_bit_string = r1.2.1.bad_bit_string)
    ∧ (receive_packet_generic_message freeciv_header
          (holding (peer []) [0, 10, 7, 1, 2, 0, 0, 0, 3, 65, 0])).map
        (fun r => (r.1, r.2.1.short_packet, r.2.1.bad_string))
      = some ({ x := 1, y := 2, event := 3, message := [65, 0] }, true, true)
    ∧ (receive_packet_generic_message freeciv_header
          (holding (peer []) [0, 10, 7, 1, 2, 0, 0, 0, 3, 65, 66, 9])).map
        (fun r => (r.1, r.2.1.short_packet, r.2.1.bad_string))
      = some ({ x := 1, y := 2, event := 3, message := [65, 0] }, true, true) := by
  have ha : agree (header_len (holding (peer []) [0, 10, 7, 1, 2, 0, 0, 0, 3, 65, 0]))
      (holding (peer []) [0, 10, 7, 1, 2, 0, 0, 0, 3, 65, 0]).buffer.data
      (holding (peer []) [0, 10, 7, 1, 2, 0, 0, 0, 3, 65, 66, 9]).buffer.data := by
    intro i hi
    have hi' : i < 10 := by
      have : header_len (holding (peer []) [0, 10, 7, 1, 2, 0, 0, 0, 3, 65, 0]) = 10 := by
        decide
      omega
    interval_cases i <;> decide
  obtain ⟨r1, r2, a, b, c, -, d, e, f, g⟩ := generic_message_own_bytes freeciv_header
    (holding (peer []) [0, 10, 7, 1, 2, 0, 0, 0, 3, 65, 0])
    (holding (peer []) [0, 10, 7, 1, 2, 0, 0, 0, 3, 65, 66, 9])
    (by decide) (by decide) (by decide) (by decide) ha rfl rfl
  exact ⟨ha, ⟨r1, r2, a, b, c, d, e, f, g⟩, by decide, by decide⟩

/-! ## Reading what was written, field by field -/

theorem read_uint8 (pc : connection) (k k' : Nat) (v : Int) (rest : List Nat) (hk : k' = k + 1)
    (hp : positioned_at (cursor_of pc k false) (put_uint8 v ++ rest)) :
    iget_uint8 (cursor_of pc k false) = (v % 256, cursor_of pc k' false)
    ∧ positioned_at (cursor_of pc k' false) rest := by
  subst hk
  exact iget_uint8_positioned _ v rest hp

theorem read_uint16 (pc : connection) (k k' : Nat) (v : Int) (rest : List Nat) (hk : k' = k + 2)
    (hp : positioned_at (cursor_of pc k false) (put_uint16 v ++ rest)) :
    (iget_uint16 (cursor_of pc k false)).2 = cursor_of pc k' false
    ∧ (pc.byte_swap = false → (iget_uint16 (cursor_of pc k false)).1 = v % 65536)
    ∧ positioned_at (cursor_of pc k' false) rest := by
  subst hk
  obtain ⟨h1, h2⟩ := positioned_at_append _ _ _ hp
  obtain ⟨hr, hs⟩ := h1
  have hr2 : 2 ≤ pack_iter_remaining (cursor_of pc k false) := by
    simpa [put_uint16] using hr
  rw [iget_uint16_value _ hr2]
  refine ⟨rfl, ?_, h2⟩
  intro hsw
  have b0 := hs 0 (by simp [put_uint16])
  have b1 := hs 1 (by simp [put_uint16])
  simp only [put_uint16, add_zero, List.getD_cons_zero, List.getD_cons_succ] at b0 b1
  simp only [cursor_of] at b0 b1
  simp only [cursor_of, hsw, Bool.false_eq_true, if_false, b0, b1]
  omega

theorem read_uint32 (pc : connection) (k k' : Nat) (v : Int) (rest : List Nat) (hk : k' = k + 4)
    (hp : positioned_at (cursor_of pc k false) (put_uint32 v ++ rest)) :
    (iget_uint32 (cursor_of pc k false)).2 = cursor_of pc k' false
    ∧ positioned_at (cursor_of pc k' false) rest := by
  subst hk
  obtain ⟨h1, h2⟩ := positioned_at_append _ _ _ hp
  obtain ⟨hr, -⟩ := h1
  have hr4 : 4 ≤ pack_iter_remaining (cursor_of pc k false) := by
    simpa [put_uint32] using hr
  rw [iget_uint32_value _ hr4]
  exact ⟨rfl, h2⟩

theorem read_string (pc : connection) (k k' : Nat) (s rest : List Nat) (C : Int)
    (hk : k' = k + ((c_string s).length + 1)) (hC : ((c_string s).length : Int) < C)
    (hp : positioned_at (cursor_of pc k false) (put_string s ++ rest)) :
    iget_string (cursor_of pc k false) C = some (c_string s ++ [0], cursor_of pc k' false)
    ∧ positioned_at (cursor_of pc k' false) rest := by
  subst hk
  have hnz : no_zero (c_string s) := by
    intro ch hch
    unfold c_string at hch
    have := (List.mem_takeWhile_imp hch)
    simpa using this
  unfold put_string at hp
  obtain ⟨h1, h2⟩ := positioned_at_append _ _ _ hp
  rw [iget_string_positioned _ (c_string s) C hnz hC h1]
  refine ⟨rfl, ?_⟩
  simpa using h2

theorem all_bytes_append (a b : List Nat) : all_bytes (a ++ b) ↔ all_bytes a ∧ all_bytes b := by
  unfold all_bytes
  simp only [List.mem_append]
  constructor
  · intro h; exact ⟨fun x hx => h x (Or.inl hx), fun x hx => h x (Or.inr hx)⟩
  · rintro ⟨h1, h2⟩ x (hx | hx)
    · exact h1 x hx
    · exact h2 x hx

theorem all_bytes_put_uint8 (v : Int) : all_bytes (put_uint8 v) := by
  intro b hb
  simp only [put_uint8, List.mem_singleton] at hb
  omega

theorem all_bytes_put_uint16 (v : Int) : all_bytes (put_uint16 v) := by
  intro b hb
  simp only [put_uint16, List.mem_cons, List.mem_singleton, List.not_mem_nil, or_false] at hb
  omega

theorem all_bytes_put_uint32 (v : Int) : all_bytes (put_uint32 v) := by
  intro b hb
  simp only [put_uint32, to_unsigned, List.mem_cons, List.mem_singleton, List.not_mem_nil,
    or_false] at hb
  omega

theorem all_bytes_put_string (s : List Nat) (h : all_bytes s) : all_bytes (put_string s) := by
  unfold put_string
  rw [all_bytes_append]
  refine ⟨fun b hb => h b ?_, by decide⟩
  unfold c_string at hb
  exact (List.takeWhile_sublist _).subset hb

theorem flag_bits_of_byte (h c w : Int) (hh : h = 0 ∨ h = 1) (hc : c = 0 ∨ c = 1)
    (hw : w = 0 ∨ w = 1) :
    ((((((if h ≠ 0 then 1 else 0) ||| (if c ≠ 0 then 2 else 0) ||| (if w ≠ 0 then 4 else 0)
        : Nat) : Int) % 256).toNat &&& 1 : Nat) : Int) = h
    ∧ ((((((if h ≠ 0 then 1 else 0) ||| (if c ≠ 0 then 2 else 0) ||| (if w ≠ 0 then 4 else 0)
        : Nat) : Int) % 256).toNat &&& 2 : Nat) : Int) = 2 * c
    ∧ ((((((if h ≠ 0 then 1 else 0) ||| (if c ≠ 0 then 2 else 0) ||| (if w ≠ 0 then 4 else 0)
        : Nat) : Int) % 256).toNat &&& 4 : Nat) : Int) = 4 * w := by
  rcases hh with rfl | rfl <;> rcases hc with rfl | rfl <;> rcases hw with rfl | rfl <;> decide

/-! ## The flags of a short city packet -/

/-- C35, as the code has it. For a peer with the capability
`packet_short_city` and every `packet_short_city` whose `happy`, `capital`
and `walls` are each 0 or 1 (with a name of byte chars shorter than
`MAX_LEN_NAME`, in a packet below 65536 bytes), `receive_packet_short_city`
applied to the bytes written by `send_packet_short_city` returns the same
`happy`, but not the same `capital` and `walls`: the decoder stores the
masked bits `i & 2` and `i & 4` without bringing them back to 0 or 1, so
`capital` comes back as `2 * capital` and `walls` as `4 * walls`, equal to
what was sent only when the flag is 0. -/
theorem short_city_flags_read_as_masks (H : header) (PACKET_SHORT_CITY PACKET_CITY_INFO : Int)
    (num_impr_types : Nat) (init : worklist) (fresh : packet_city_info) (pc : connection)
    (req : packet_short_city)
    (hcap : has_capability "packet_short_city" pc.capability = true)
    (hh : req.happy = 0 ∨ req.happy = 1) (hc : req.capital = 0 ∨ req.capital = 1)
    (hw : req.walls = 0 ∨ req.walls = 1)
    (hname : all_bytes req.name) (hfit : ((c_string req.name).length : Int) < H.MAX_LEN_NAME)
    (hlen : (send_packet_short_city H PACKET_SHORT_CITY PACKET_CITY_INFO num_impr_types init
      fresh pc req).length < 65536) :
    ∃ r, receive_packet_short_city H (holding pc
          (send_packet_short_city H PACKET_SHORT_CITY PACKET_CITY_INFO num_impr_types init fresh
            pc req)) = some r
      ∧ r.1.happy = req.happy ∧ r.1.capital = 2 * req.capital ∧ r.1.walls = 4 * req.walls
      ∧ (r.1.capital = req.capital ↔ req.capital = 0)
      ∧ (r.1.walls = req.walls ↔ req.walls = 0) := by
  have hsend : send_packet_short_city H PACKET_SHORT_CITY PACKET_CITY_INFO num_impr_types init
      fresh pc req
      = put_uint16 ((2 + (put_uint8 PACKET_SHORT_CITY
          ++ (put_uint16 req.id ++ (put_uint8 req.owner ++ (put_uint8 req.x ++ (put_uint8 req.y
            ++ (put_string req.name ++ (put_uint8 req.size
            ++ (put_uint8 (((if req.happy ≠ 0 then 1 else 0) ||| (if req.capital ≠ 0 then 2 else 0)
                ||| (if req.walls ≠ 0 then 4 else 0) : Nat) : Int) ++ [])))))))).length : Nat)
            : Int)
        ++ (put_uint8 PACKET_SHORT_CITY
          ++ (put_uint16 req.id ++ (put_uint8 req.owner ++ (put_uint8 req.x ++ (put_uint8 req.y
            ++ (put_string req.name ++ (put_uint8 req.size
            ++ (put_uint8 (((if req.happy ≠ 0 then 1 else 0) ||| (if req.capital ≠ 0 then 2 else 0)
                ||| (if req.walls ≠ 0 then 4 else 0) : Nat) : Int) ++ [])))))))) := by
    unfold send_packet_short_city
    rw [if_neg (by simp [hcap])]
    simp only [List.append_assoc, List.append_nil]
  rw [hsend] at hlen ⊢
  have hl3 : 3 + (put_uint16 req.id ++ (put_uint8 req.owner ++ (put_uint8 req.x
      ++ (put_uint8 req.y ++ (put_string req.name ++ (put_uint8 req.size
      ++ (put_uint8 (((if req.happy ≠ 0 then 1 else 0) ||| (if req.capital ≠ 0 then 2 else 0)
          ||| (if req.walls ≠ 0 then 4 else 0) : Nat) : Int) ++ []))))))).length < 65536 := by
    simp only [List.length_append, put_uint16, put_uint8, List.length_cons, List.length_nil]
      at hlen ⊢
    omega
  have hb : all_bytes (put_uint16 req.id ++ (put_uint8 req.owner ++ (put_uint8 req.x
      ++ (put_uint8 req.y ++ (put_string req.name ++ (put_uint8 req.size
      ++ (put_uint8 (((if req.happy ≠ 0 then 1 else 0) ||| (if req.capital ≠ 0 then 2 else 0)
          ||| (if req.walls ≠ 0 then 4 else 0) : Nat) : Int) ++ []))))))) := by
    simp only [all_bytes_append]
    exact ⟨all_bytes_put_uint16 _, all_bytes_put_uint8 _, all_bytes_put_uint8 _,
      all_bytes_put_uint8 _, all_bytes_put_string _ hname, all_bytes_put_uint8 _,
      all_bytes_put_uint8 _, by decide⟩
  obtain ⟨-, hinit, -⟩ := framed_header pc PACKET_SHORT_CITY _ hl3
  have p0 := framed_fields pc PACKET_SHORT_CITY _ hl3 hb
  obtain ⟨e1, -, p1⟩ := read_uint16 _ 3 5 _ _ rfl p0
  obtain ⟨e2, p2⟩ := read_uint8 _ 5 6 _ _ rfl p1
  obtain ⟨e3, p3⟩ := read_uint8 _ 6 7 _ _ rfl p2
  obtain ⟨e4, p4⟩ := read_uint8 _ 7 8 _ _ rfl p3
  obtain ⟨e5, p5⟩ := read_string _ 8 (8 + ((c_string req.name).length + 1)) _ _ H.MAX_LEN_NAME
    rfl hfit p4
  obtain ⟨e6, p6⟩ := read_uint8 _ (8 + ((c_string req.name).length + 1))
    (8 + ((c_string req.name).length + 1) + 1) _ _ rfl p5
  obtain ⟨e7, -⟩ := read_uint8 _ (8 + ((c_string req.name).length + 1) + 1)
    (8 + ((c_string req.name).length + 1) + 1 + 1) _ _ rfl p6
  obtain ⟨f1, f2, f3⟩ := flag_bits_of_byte req.happy req.capital req.walls hh hc hw
  unfold receive_packet_short_city
  rw [hinit]
  simp only [e1, e2, e3, e4, e5, e6, e7]
  exact ⟨_, rfl, f1, f2, f3,
    ⟨fun h => by have h2 := f2.symm.trans h; omega, fun h => f2.trans (by omega)⟩,
    ⟨fun h => by have h3 := f3.symm.trans h; omega, fun h => f3.trans (by omega)⟩⟩

/-- Witness for C35: the packet `sample_short_city` (`happy = 1`,
`capital = 1`, `walls = 0`) between peers with the capability
`packet_short_city`; the twelve bytes written end in the flag byte 3. -/
theorem short_city_flags_read_as_masks_witness :
    has_capability "packet_short_city" (peer ["packet_short_city"]).capability = true
    ∧ send_packet_short_city freeciv_header 22 20 68 blank_worklist blank_city_info
        (peer ["packet_short_city"]) sample_short_city = [0, 12, 22, 1, 44, 1, 2, 3, 97, 0, 5, 3]
    ∧ ∃ r, receive_packet_short_city freeciv_header (holding (peer ["packet_short_city"])
          (send_packet_short_city freeciv_header 22 20 68 blank_worklist blank_city_info
            (peer ["packet_short_city"]) sample_short_city)) = some r
      ∧ r.1.happy = sample_short_city.happy ∧ r.1.capital = 2 * sample_short_city.capital
      ∧ r.1.walls = 4 * sample_short_city.walls
      ∧ (r.1.capital = sample_short_city.capital ↔ sample_short_city.capital = 0)
      ∧ (r.1.walls = sample_short_city.walls ↔ sample_short_city.walls = 0) :=
  ⟨by decide, by decide,
    short_city_flags_read_as_masks freeciv_header 22 20 68 blank_worklist blank_city_info
      (peer ["packet_short_city"]) sample_short_city (by decide) (by decide) (by decide)
      (by decide) (by decide) (by decide) (by decide)⟩

/-- C35, the failing input. With the capability `packet_short_city`, the
packet with `happy = 1`, `capital = 1`, `walls = 0` is written with the flag
byte 3 and read back with `capital = 2`; with `walls = 1` the flag byte is 7
and `walls` is read back as 4. -/
theorem short_city_capital_read_as_two :
    has_capability "packet_short_city" (peer ["packet_short_city"]).capability = true
    ∧ (receive_packet_short_city freeciv_header (holding (peer ["packet_short_city"])
          (send_packet_short_city freeciv_header 22 20 68 blank_worklist blank_city_info
            (peer ["packet_short_city"]) sample_short_city))).map
        (fun r => (r.1.happy, r.1.capital, r.1.walls)) = some (1, 2, 0)
    ∧ (receive_packet_short_city freeciv_header (holding (peer ["packet_short_city"])
          (send_packet_short_city freeciv_header 22 20 68 blank_worklist blank_city_info
            (peer ["packet_short_city"]) { sample_short_city with walls := 1 }))).map
        (fun r => (r.1.happy, r.1.capital, r.1.walls)) = some (1, 2, 4) := by
  decide

/-! ## The terrain-control ruleset: fields that are never assigned -/

theorem iget_uint16_cursor_of (pc : connection) (k : Nat) (h : (k : Int) + 2 ≤ header_len pc) :
    (iget_uint16 (cursor_of pc k false)).2 = cursor_of pc (k + 2) false := by
  rw [iget_uint16_value _ (by simp only [pack_iter_remaining, cursor_of]; simp; omega)]
  rfl

/-- The cursor behind the fields of a terrain-control packet that is long
enough for them, and the fields that depend on the capabilities: without
`nuclear_fallout` the three fallout penalties are those of `fresh`. -/
theorem terrain_control_fields_cursor (fresh : terrain_misc) (pc : connection)
    (hlen : 33 ≤ header_len pc)
    (hcap : has_capability "nuclear_fallout" pc.capability = false) :
    ((receive_packet_ruleset_terrain_control_fields fresh pc (cursor_of pc 3 false)).2
        = cursor_of pc
            (if has_capability "land_channel_requirement" pc.capability then 33 else 32) false)
    ∧ (receive_packet_ruleset_terrain_control_fields fresh pc
        (cursor_of pc 3 false)).1.fallout_food_penalty = fresh.fallout_food_penalty
    ∧ (receive_packet_ruleset_terrain_control_fields fresh pc
        (cursor_of pc 3 false)).1.fallout_shield_penalty = fresh.fallout_shield_penalty
    ∧ (receive_packet_ruleset_terrain_control_fields fresh pc
        (cursor_of pc 3 false)).1.fallout_trade_penalty = fresh.fallout_trade_penalty
    ∧ (receive_packet_ruleset_terrain_control_fields fresh pc
        (cursor_of pc 3 false)).1.land_channel_requirement
        = (if has_capability "land_channel_requirement" pc.capability then
            ((peek pc.buffer.data 9 : Nat) : Int) else 0) := by
  unfold receive_packet_ruleset_terrain_control_fields
  rw [hcap]
  dsimp only
  rw [iget_uint8_cursor_of pc 3 (by omega)]
  dsimp only
  rw [iget_uint8_cursor_of pc 4 (by omega)]
  dsimp only
  rw [iget_uint8_cursor_of pc 5 (by omega)]
  dsimp only
  rw [iget_uint8_cursor_of pc 6 (by omega)]
  dsimp only
  rw [iget_uint8_cursor_of pc 7 (by omega)]
  dsimp only
  rw [iget_uint8_cursor_of pc 8 (by omega)]
  dsimp only
  cases hland : has_capability "land_channel_requirement" pc.capability with
  | false =>
    simp only [Bool.false_eq_true, if_false]
    rw [iget_uint8_cursor_of pc 9 (by omega)]
    dsimp only
    rw [iget_uint16_cursor_of pc 10 (by omega)]
    rw [iget_uint16_cursor_of pc 12 (by omega)]
    rw [iget_uint16_cursor_of pc 14 (by omega)]
    rw [iget_uint16_cursor_of pc 16 (by omega)]
    rw [iget_uint16_cursor_of pc 18 (by omega)]
    rw [iget_uint16_cursor_of pc 20 (by omega)]
    rw [iget_uint16_cursor_of pc 22 (by omega)]
    rw [iget_uint16_cursor_of pc 24 (by omega)]
    rw [iget_uint16_cursor_of pc 26 (by omega)]
    rw [iget_uint16_cursor_of pc 28 (by omega)]
    rw [iget_uint16_cursor_of pc 30 (by omega)]
    refine ⟨?_, ?_, ?_, ?_, ?_⟩ <;> first | rfl | trivial
  | true =>
    simp only [if_true]
    rw [iget_uint8_cursor_of pc 9 (by omega)]
    dsimp only
    rw [iget_uint8_cursor_of pc 10 (by omega)]
    dsimp only
    rw [iget_uint16_cursor_of pc 11 (by omega)]
    rw [iget_uint16_cursor_of pc 13 (by omega)]
    rw [iget_uint16_cursor_of pc 15 (by omega)]
    rw [iget_uint16_cursor_of pc 17 (by omega)]
    rw [iget_uint16_cursor_of pc 19 (by omega)]
    rw [iget_uint16_cursor_of pc 21 (by omega)]
    rw [iget_uint16_cursor_of pc 23 (by omega)]
    rw [iget_uint16_cursor_of pc 25 (by omega)]
    rw [iget_uint16_cursor_of pc 27 (by omega)]
    rw [iget_uint16_cursor_of pc 29 (by omega)]
    rw [iget_uint16_cursor_of pc 31 (by omega)]
    exact ⟨rfl, rfl, rfl, rfl, rfl⟩

/-- C31, as the code has it. On a connection holding at least 3 bytes whose
front packet declares at least 33 bytes (enough for the fields before the help
text), `receive_packet_ruleset_terrain_control` returns a struct; for a peer
without the capability `nuclear_fallout` its fields `fallout_food_penalty`,
`fallout_shield_penalty` and `fallout_trade_penalty` are what the memory from
`fc_malloc` held: the function assigns them neither a wire value nor a
default.  `land_channel_requirement` is assigned in both cases: the byte at
offset 9 with the capability `land_channel_requirement`, 0 without. -/
theorem terrain_control_fallout_unassigned (fresh : terrain_misc) (pc : connection)
    (h3 : 3 ≤ pc.buffer.ndata) (hlen : 33 ≤ header_len pc)
    (hcap : has_capability "nuclear_fallout" pc.capability = false) :
    ∃ r, receive_packet_ruleset_terrain_control fresh pc = some r
      ∧ r.1.fallout_food_penalty = fresh.fallout_food_penalty
      ∧ r.1.fallout_shield_penalty = fresh.fallout_shield_penalty
      ∧ r.1.fallout_trade_penalty = fresh.fallout_trade_penalty
      ∧ r.1.land_channel_requirement
        = (if has_capability "land_channel_requirement" pc.capability then
            ((peek pc.buffer.data 9 : Nat) : Int) else 0) := by
  obtain ⟨hc, f1, f2, f3, f4⟩ := terrain_control_fields_cursor fresh pc hlen hcap
  have hrem : 0 ≤ pack_iter_remaining
      (receive_packet_ruleset_terrain_control_fields fresh pc (cursor_of pc 3 false)).2 := by
    rw [hc]
    have r33 : pack_iter_remaining (cursor_of pc 33 false) = header_len pc - 33 := rfl
    have r32 : pack_iter_remaining (cursor_of pc 32 false) = header_len pc - 32 := rfl
    split_ifs
    · rw [r33]; omega
    · rw [r32]; omega
  unfold receive_packet_ruleset_terrain_control
  rw [pack_iter_init_cursor pc h3 (by omega)]
  dsimp only
  by_cases hz : pack_iter_remaining
      (receive_packet_ruleset_terrain_control_fields fresh pc (cursor_of pc 3 false)).2 = 0
  · rw [if_neg (by simp [hz])]
    exact ⟨_, rfl, f1, f2, f3, f4⟩
  · rw [if_pos hz]
    obtain ⟨s, hs⟩ := iget_string_some
      (receive_packet_ruleset_terrain_control_fields fresh pc (cursor_of pc 3 false)).2
      (pack_iter_remaining
        (receive_packet_ruleset_terrain_control_fields fresh pc (cursor_of pc 3 false)).2)
      (by omega)
    rw [hs]
    exact ⟨_, rfl, f1, f2, f3, f4⟩

set_option maxRecDepth 100000 in
theorem terrain_control_fallout_unassigned_witness :
    3 ≤ (holding (peer []) sample_terrain_control).buffer.ndata
    ∧ 33 ≤ header_len (holding (peer []) sample_terrain_control)
    ∧ has_capability "nuclear_fallout" (holding (peer []) sample_terrain_control).capability
        = false
    ∧ (∃ r, receive_packet_ruleset_terrain_control (stale_terrain 7)
          (holding (peer []) sample_terrain_control) = some r
        ∧ r.1.fallout_food_penalty = (stale_terrain 7).fallout_food_penalty
        ∧ r.1.fallout_shield_penalty = (stale_terrain 7).fallout_shield_penalty
        ∧ r.1.fallout_trade_penalty = (stale_terrain 7).fallout_trade_penalty)
    ∧ (receive_packet_ruleset_terrain_control (stale_terrain 7)
          (holding (peer []) sample_terrain_control)).map
        (fun r => (r.1.pollution_trade_penalty, r.1.fallout_food_penalty,
          r.1.fallout_shield_penalty, r.1.fallout_trade_penalty, r.1.land_channel_requirement))
      = some (50, 7, 7, 7, 0)
    ∧ (receive_packet_ruleset_terrain_control (stale_terrain (-9))
          (holding (peer []) sample_terrain_control)).map
        (fun r => (r.1.pollution_trade_penalty, r.1.fallout_food_penalty,
          r.1.fallout_shield_penalty, r.1.fallout_trade_penalty, r.1.land_channel_requirement))
      = some (50, -9, -9, -9, 0) := by
  obtain ⟨r, h, a, b, c, -⟩ := terrain_control_fallout_unassigned (stale_terrain 7)
    (holding (peer []) sample_terrain_control) (by decide) (by decide) (by decide)
  exact ⟨by decide, by decide, by decide, ⟨r, h, a, b, c⟩, by decide, by decide⟩

/-! ## The trade routes of a city-info packet -/

theorem read_sint16 (pc : connection) (k k' : Nat) (v : Int) (rest : List Nat) (hk : k' = k + 2)
    (hp : positioned_at (cursor_of pc k false) (put_sint16 v ++ rest)) :
    (iget_sint16 (cursor_of pc k false)).2 = cursor_of pc k' false
    ∧ positioned_at (cursor_of pc k' false) rest := by
  subst hk
  unfold put_sint16 at hp
  obtain ⟨h1, h2⟩ := positioned_at_append _ _ _ hp
  obtain ⟨hr, -⟩ := h1
  have hr2 : 2 ≤ pack_iter_remaining (cursor_of pc k false) := by
    simpa [put_uint16] using hr
  refine ⟨?_, h2⟩
  unfold iget_sint16
  rw [if_neg (by omega)]
  rfl

theorem put_worklist_slot_length (H : header) (pc : connection) (a b : Int) :
    (put_worklist_slot H pc a b).length = 2 := by
  unfold put_worklist_slot
  split_ifs <;> simp [put_uint16, put_uint8]

theorem all_bytes_put_worklist_slot (H : header) (pc : connection) (a b : Int) :
    all_bytes (put_worklist_slot H pc a b) := by
  unfold put_worklist_slot
  split_ifs
  · exact all_bytes_put_uint16 _
  · exact all_bytes_put_uint16 _
  · exact all_bytes_put_uint16 _
  · exact (all_bytes_append _ _).mpr ⟨all_bytes_put_uint8 _, all_bytes_put_uint8 _⟩

theorem flatten_length_const (l : List (List Nat)) (n : Nat) (h : ∀ x ∈ l, x.length = n) :
    l.flatten.length = n * l.length := by
  induction l with
  | nil => simp
  | cons x xs ih =>
    rw [List.flatten_cons, List.length_append, h x (by simp),
      ih (fun y hy => h y (by simp [hy])), List.length_cons]
    ring

theorem all_bytes_flatten (l : List (List Nat)) (h : ∀ x ∈ l, all_bytes x) :
    all_bytes l.flatten := by
  intro b hb
  obtain ⟨x, hx, hbx⟩ := List.mem_flatten.mp hb
  exact h x hx b hbx

theorem put_worklist_shape (H : header) (w : worklist) (pc : connection) (hn : all_bytes w.name) :
    (put_worklist H w pc).length = 1 + ((c_string w.name).length + 1) + 2 * H.MAX_LEN_WORKLIST
    ∧ all_bytes (put_worklist H w pc) := by
  unfold put_worklist
  constructor
  · rw [List.length_append, List.length_append,
      flatten_length_const _ 2 (by
        intro x hx
        obtain ⟨i, -, rfl⟩ := List.mem_map.mp hx
        exact put_worklist_slot_length H pc _ _)]
    simp [put_uint8, put_string]
  · rw [all_bytes_append, all_bytes_append]
    refine ⟨⟨all_bytes_put_uint8 _, all_bytes_put_string _ hn⟩, all_bytes_flatten _ ?_⟩
    intro x hx
    obtain ⟨i, -, rfl⟩ := List.mem_map.mp hx
    exact all_bytes_put_worklist_slot H pc _ _

theorem iget_worklist_slots_cursor_of (H : header) (pc : connection) :
    ∀ (n k : Nat), (k : Int) + 2 * n ≤ header_len pc →
      (iget_worklist_slots H pc n (cursor_of pc k false)).2 = cursor_of pc (k + 2 * n) false := by
  intro n
  induction n with
  | zero => intro k _; rfl
  | succ n ih =>
    intro k hk
    unfold iget_worklist_slots
    dsimp only
    have hs : (iget_worklist_slot H pc (cursor_of pc k false)).2 = cursor_of pc (k + 2) false := by
      unfold iget_worklist_slot
      dsimp only
      split_ifs
      · exact iget_uint16_cursor_of pc k (by omega)
      · exact iget_uint16_cursor_of pc k (by omega)
      · exact iget_uint16_cursor_of pc k (by omega)
      · rw [iget_uint8_cursor_of pc k (by omega)]
        dsimp only
        rw [iget_uint8_cursor_of pc (k + 1) (by push_cast; omega)]
    rw [hs, ih (k + 2) (by push_cast; omega)]
    congr 1
    omega

theorem read_worklist (H : header) (pc : connection) (k k' : Nat) (w : worklist)
    (rest : List Nat)
    (hk : k' = k + (1 + ((c_string w.name).length + 1) + 2 * H.MAX_LEN_WORKLIST))
    (hfit : ((c_string w.name).length : Int) < H.MAX_LEN_NAME) (hn : all_bytes w.name)
    (hp : positioned_at (cursor_of pc k false) (put_worklist H w pc ++ rest)) :
    (∃ wl, iget_worklist H (cursor_of pc k false) pc = some (wl, cursor_of pc k' false))
    ∧ positioned_at (cursor_of pc k' false) rest := by
  subst hk
  obtain ⟨hlen, -⟩ := put_worklist_shape H w pc hn
  obtain ⟨h1, h2⟩ := positioned_at_append _ _ _ hp
  rw [hlen] at h2
  refine ⟨?_, h2⟩
  have hr := h1.1
  rw [hlen] at hr
  have hrem : pack_iter_remaining (cursor_of pc k false) = header_len pc - (k : Int) := rfl
  rw [hrem] at hr
  push_cast at hr
  unfold put_worklist at h1
  rw [List.append_assoc] at h1
  obtain ⟨e1, q1⟩ := read_uint8 pc k (k + 1) _ _ rfl h1
  obtain ⟨q2, -⟩ := positioned_at_append _ _ _ q1
  have q2' : positioned_at (cursor_of pc (k + 1) false) (put_string w.name ++ []) := by
    simpa using q2
  obtain ⟨e2, -⟩ := read_string pc (k + 1) (k + 1 + ((c_string w.name).length + 1)) w.name []
    H.MAX_LEN_NAME rfl hfit q2'
  unfold iget_worklist
  simp only [e1, e2]
  rw [iget_worklist_slots_cursor_of H pc _ _ (by push_cast; omega)]
  exact ⟨_, by
    simp only [Option.some.injEq, Prod.mk.injEq]
    refine ⟨rfl, ?_⟩
    congr 1
    omega⟩

theorem read_city_map (pc : connection) (k k' : Nat) (s rest : List Nat) (navail : Int)
    (hk : k' = k + 4) (hnav : 26 ≤ navail)
    (hp : positioned_at (cursor_of pc k false) (put_city_map s ++ rest)) :
    (∃ str, iget_city_map (cursor_of pc k false) navail = some (str, cursor_of pc k' false))
    ∧ positioned_at (cursor_of pc k' false) rest := by
  subst hk
  obtain ⟨h1, h2⟩ := positioned_at_append _ _ _ hp
  have hl : (put_city_map s).length = 4 := by simp [put_city_map]
  rw [hl] at h2
  refine ⟨?_, h2⟩
  obtain ⟨hr, -⟩ := h1
  rw [hl] at hr
  exact ⟨_, iget_city_map_cells _ navail hnav (by simpa using hr)⟩

theorem all_bytes_put_city_map (s : List Nat) : all_bytes (put_city_map s) := by
  intro b hb
  simp only [put_city_map, List.map_cons, List.map_nil, List.mem_cons, List.mem_singleton,
    List.not_mem_nil, or_false] at hb
  omega

theorem put_bit_string_length_bytes (s : List Nat) :
    (put_bit_string s).length = 1 + ((c_string s).length + 7) / 8
    ∧ all_bytes (put_bit_string s) := by
  obtain ⟨a1, a2, -⟩ := put_bit_string_bytes_bits (c_string s).length (c_string s) le_rfl
  unfold put_bit_string
  refine ⟨by rw [List.length_cons, a1]; omega, ?_⟩
  intro b hb
  rcases List.mem_cons.mp hb with rfl | hb'
  · omega
  · exact a2 b hb'

theorem read_bit_string (pc : connection) (k k' : Nat) (s rest : List Nat) (C : Int)
    (hk : k' = k + (1 + ((c_string s).length + 7) / 8)) (hN : (c_string s).length ≤ 255)
    (hC : ((c_string s).length : Int) < C)
    (hp : positioned_at (cursor_of pc k false) (put_bit_string s ++ rest)) :
    (∃ str, iget_bit_string (cursor_of pc k false) C = some (str, cursor_of pc k' false))
    ∧ positioned_at (cursor_of pc k' false) rest := by
  subst hk
  obtain ⟨hlen, -⟩ := put_bit_string_length_bytes s
  obtain ⟨h1, h2⟩ := positioned_at_append _ _ _ hp
  rw [hlen] at h2
  refine ⟨?_, h2⟩
  obtain ⟨hr, hst⟩ := h1
  rw [hlen] at hr
  have hrem : pack_iter_remaining (cursor_of pc k false) = header_len pc - (k : Int) := rfl
  have hbyte := hst 0 (by rw [hlen]; omega)
  simp only [put_bit_string, add_zero, List.getD_cons_zero] at hbyte
  have hmod : (c_string s).length % 256 = (c_string s).length := by omega
  rw [hmod] at hbyte
  have hbyte' : peek pc.buffer.data k = (c_string s).length := hbyte
  by_cases hz : (c_string s).length = 0
  · unfold iget_bit_string
    rw [if_neg (by omega), if_neg (by rw [hrem] at hr ⊢; omega),
      iget_uint8_cursor_of pc k (by rw [hrem] at hr; omega)]
    dsimp only
    rw [hbyte', hz]
    simp only [Nat.cast_zero, le_refl, if_true, lt_self_iff_false, decide_False]
    exact ⟨_, rfl⟩
  · unfold iget_bit_string
    rw [if_neg (by omega), if_neg (by rw [hrem] at hr ⊢; omega),
      iget_uint8_cursor_of pc k (by rw [hrem] at hr; omega)]
    dsimp only
    rw [hbyte', if_neg (by omega), Int.toNat_ofNat]
    have hloop := iget_bit_string_loop_chars (c_string s).length C.toNat (k + 1)
      (c_string s).length 0 (cursor_of pc (k + 1) false) (by omega) rfl rfl
      (by
        rw [hrem] at hr
        simp only [Nat.mul_zero, Nat.sub_zero]
        show ((k + 1 : Nat) : Int) + _ ≤ header_len pc
        push_cast at hr ⊢
        omega)
    simp only [Nat.mul_zero, Nat.sub_zero] at hloop
    rw [hloop]
    simp only [hC, if_true]
    exact ⟨_, by
      simp only [Option.some.injEq, Prod.mk.injEq]
      refine ⟨rfl, ?_⟩
      show cursor_of pc (k + 1 + ((c_string s).length + 7) / 8) false = _
      congr 1
      omega⟩

theorem send_trade_routes (req : packet_city_info) (routes : List (Int × Int))
    (hk : routes.length ≤ 4) (hr : ∀ x ∈ routes, x.1 ≠ 0)
    (ht : req.trade = routes.map Prod.fst ++ List.replicate (4 - routes.length) 0)
    (htv : req.trade_value = routes.map Prod.snd ++ List.replicate (4 - routes.length) 0) :
    send_packet_city_info_trade req
      = (routes.map (fun x => put_uint16 x.1 ++ put_uint8 x.2)).flatten := by
  have hrange : List.range 4 = [0, 1, 2, 3] := by decide
  unfold send_packet_city_info_trade
  rw [ht, htv, hrange]
  match routes, hk, hr with
  | [], _, _ => simp
  | [a], _, hr =>
    have ha := hr a (by simp)
    simp [ha]
  | [a, b], _, hr =>
    have ha := hr a (by simp)
    have hb := hr b (by simp)
    simp [ha, hb]
  | [a, b, c], _, hr =>
    have ha := hr a (by simp)
    have hb := hr b (by simp)
    have hc := hr c (by simp)
    simp [ha, hb, hc]
  | [a, b, c, d], _, hr =>
    have ha := hr a (by simp)
    have hb := hr b (by simp)
    have hc := hr c (by simp)
    have hd := hr d (by simp)
    simp [ha, hb, hc, hd]
  | _ :: _ :: _ :: _ :: _ :: _, hk, _ => simp at hk

theorem read_trade_routes (pc : connection) (hsw : pc.byte_swap = false) :
    ∀ (l : List (Int × Int)) (n k : Nat), l.length ≤ n →
      (∀ x ∈ l, 0 ≤ x.1 ∧ x.1 ≤ 65535 ∧ 0 ≤ x.2 ∧ x.2 ≤ 255) →
      positioned_at (cursor_of pc k false)
        ((l.map (fun x => put_uint16 x.1 ++ put_uint8 x.2)).flatten) →
      header_len pc = ((k + 3 * l.length : Nat) : Int) →
      (receive_packet_city_info_trade n (cursor_of pc k false)).1
        = l ++ List.replicate (n - l.length) (0, 0) := by
  intro l
  induction l with
  | nil =>
    intro n k _ _ _ hend
    have hrem : pack_iter_remaining (cursor_of pc k false) = header_len pc - (k : Int) := rfl
    cases n with
    | zero => rfl
    | succ n =>
      unfold receive_packet_city_info_trade
      rw [if_pos (by rw [hrem, hend]; simp)]
      simp
  | cons x xs ih =>
    intro n k hn hv hp hend
    have hrem : pack_iter_remaining (cursor_of pc k false) = header_len pc - (k : Int) := rfl
    obtain ⟨m, rfl⟩ : ∃ m, n = m + 1 := ⟨n - 1, by simp at hn; omega⟩
    have hx := hv x (by simp)
    simp only [List.map_cons, List.flatten_cons, List.append_assoc] at hp
    obtain ⟨e1, e1v, p1⟩ := read_uint16 pc k (k + 2) _ _ rfl hp
    obtain ⟨e2, p2⟩ := read_uint8 pc (k + 2) (k + 3) _ _ rfl p1
    have hrec := ih m (k + 3) (by simp at hn; omega) (fun y hy => hv y (by simp [hy])) p2
      (by rw [hend]; simp only [List.length_cons]; push_cast; omega)
    unfold receive_packet_city_info_trade
    rw [if_neg (by rw [hrem, hend]; simp only [List.length_cons]; push_cast; omega)]
    simp only [e1, e2, hrec, e1v hsw]
    have v1 : x.1 % 65536 = x.1 := by omega
    have v2 : x.2 % 256 = x.2 := by omega
    simp [v1, v2]

/-- The fields from `id` to `currently_building` of a city-info packet, read
where `send_packet_city_info` wrote them: the cursor ends behind them. -/
theorem read_city_info_first (H : header) (pc : connection) (req : packet_city_info)
    (rest : List Nat) (hfit : ((c_string req.name).length : Int) < H.MAX_LEN_NAME)
    (hp : positioned_at (cursor_of pc 3 false)
      (put_uint16 req.id ++ (put_uint8 req.owner ++ (put_uint8 req.x ++ (put_uint8 req.y
        ++ (put_string req.name
        ++ (put_uint8 req.size ++ (put_uint8 req.ppl_happy ++ (put_uint8 req.ppl_content
        ++ (put_uint8 req.ppl_unhappy ++ (put_uint8 req.ppl_elvis
        ++ (put_uint8 req.ppl_scientist ++ (put_uint8 req.ppl_taxman
        ++ (put_uint8 req.food_prod ++ (put_uint8 req.food_surplus
        ++ (put_uint16 req.shield_prod ++ (put_uint16 req.shield_surplus
        ++ (put_uint16 req.trade_prod ++ (put_uint16 req.corruption
        ++ (put_uint16 req.luxury_total ++ (put_uint16 req.tax_total
        ++ (put_uint16 req.science_total
        ++ (put_uint16 req.food_stock ++ (put_uint16 req.shield_stock
        ++ (put_uint16 req.pollution
        ++ (put_uint8 req.currently_building ++ rest)))))))))))))))))))))))))) :
    (∃ first, receive_packet_city_info_first H (cursor_of pc 3 false)
        = some (first, cursor_of pc (39 + (c_string req.name).length) false))
    ∧ positioned_at (cursor_of pc (39 + (c_string req.name).length) false) rest := by
  obtain ⟨A, hA⟩ : ∃ A, A = 9 + (c_string req.name).length := ⟨_, rfl⟩
  obtain ⟨e1, -, p1⟩ := read_uint16 pc 3 5 _ _ rfl hp
  obtain ⟨e2, p2⟩ := read_uint8 pc 5 6 _ _ rfl p1
  obtain ⟨e3, p3⟩ := read_uint8 pc 6 7 _ _ rfl p2
  obtain ⟨e4, p4⟩ := read_uint8 pc 7 8 _ _ rfl p3
  obtain ⟨e5, p5⟩ := read_string pc 8 A _ _ H.MAX_LEN_NAME (by omega) hfit p4
  obtain ⟨e6, p6⟩ := read_uint8 pc A (A + 1) _ _ rfl p5
  obtain ⟨e7, p7⟩ := read_uint8 pc (A + 1) (A + 2) _ _ rfl p6
  obtain ⟨e8, p8⟩ := read_uint8 pc (A + 2) (A + 3) _ _ rfl p7
  obtain ⟨e9, p9⟩ := read_uint8 pc (A + 3) (A + 4) _ _ rfl p8
  obtain ⟨e10, p10⟩ := read_uint8 pc (A + 4) (A + 5) _ _ rfl p9
  obtain ⟨e11, p11⟩ := read_uint8 pc (A + 5) (A + 6) _ _ rfl p10
  obtain ⟨e12, p12⟩ := read_uint8 pc (A + 6) (A + 7) _ _ rfl p11
  obtain ⟨e13, p13⟩ := read_uint8 pc (A + 7) (A + 8) _ _ rfl p12
  obtain ⟨e14, p14⟩ := read_uint8 pc (A + 8) (A + 9) _ _ rfl p13
  obtain ⟨e15, -, p15⟩ := read_uint16 pc (A + 9) (A + 11) _ _ rfl p14
  obtain ⟨e16, -, p16⟩ := read_uint16 pc (A + 11) (A + 13) _ _ rfl p15
  obtain ⟨e17, -, p17⟩ := read_uint16 pc (A + 13) (A + 15) _ _ rfl p16
  obtain ⟨e18, -, p18⟩ := read_uint16 pc (A + 15) (A + 17) _ _ rfl p17
  obtain ⟨e19, -, p19⟩ := read_uint16 pc (A + 17) (A + 19) _ _ rfl p18
  obtain ⟨e20, -, p20⟩ := read_uint16 pc (A + 19) (A + 21) _ _ rfl p19
  obtain ⟨e21, -, p21⟩ := read_uint16 pc (A + 21) (A + 23) _ _ rfl p20
  obtain ⟨e22, -, p22⟩ := read_uint16 pc (A + 23) (A + 25) _ _ rfl p21
  obtain ⟨e23, -, p23⟩ := read_uint16 pc (A + 25) (A + 27) _ _ rfl p22
  obtain ⟨e24, -, p24⟩ := read_uint16 pc (A + 27) (A + 29) _ _ rfl p23
  obtain ⟨e25, p25⟩ := read_uint8 pc (A + 29) (A + 30) _ _ rfl p24
  have hB : A + 30 = 39 + (c_string req.name).length := by omega
  rw [hB] at e25 p25
  refine ⟨?_, p25⟩
  unfold receive_packet_city_info_first
  simp only [e1, e2, e3, e4, e5, e6, e7, e8, e9, e10, e11, e12, e13, e14, e15, e16, e17, e18,
    e19, e20, e21, e22, e23, e24, e25]
  exact ⟨_, rfl⟩

/-- The fields behind `currently_building` of a city-info packet, read where
`send_packet_city_info` wrote them, the trade routes `routes` last: the trade
arrays of the struct are the routes followed by zeros. -/
theorem read_city_info_rest (H : header) (pc : connection) (req : packet_city_info)
    (first : packet_city_info) (routes : List (Int × Int)) (B : Nat)
    (hsw : pc.byte_swap = false)
    (hwfit : ((c_string req.worklist.name).length : Int) < H.MAX_LEN_NAME)
    (hwn : all_bytes req.worklist.name)
    (hmap : 26 ≤ H.sizeof_city_map)
    (hifit : ((c_string req.improvements).length : Int) < H.sizeof_improvements)
    (hi255 : (c_string req.improvements).length ≤ 255)
    (hk : routes.length ≤ 4)
    (hv : ∀ x ∈ routes, 0 ≤ x.1 ∧ x.1 ≤ 65535 ∧ 0 ≤ x.2 ∧ x.2 ≤ 255)
    (hp : positioned_at (cursor_of pc B false)
      ((if has_capability "production_change_fix" pc.capability then
          put_sint16 req.turn_last_built ++ (put_sint16 req.turn_changed_target
            ++ (put_uint8 req.changed_from_id ++ put_uint16 req.before_change_shields))
        else [])
      ++ (put_worklist H req.worklist pc
      ++ (put_uint8 (send_packet_city_info_flags pc req : Nat)
      ++ (put_city_map req.city_map
      ++ (put_bit_string req.improvements
      ++ (put_uint8 req.city_options
      ++ (routes.map (fun x => put_uint16 x.1 ++ put_uint8 x.2)).flatten)))))))
    (hend : header_len pc
      = ((B + (if has_capability "production_change_fix" pc.capability then 7 else 0)
          + (1 + ((c_string req.worklist.name).length + 1) + 2 * H.MAX_LEN_WORKLIST)
          + 1 + 4 + (1 + ((c_string req.improvements).length + 7) / 8) + 1
          + 3 * routes.length : Nat) : Int)) :
    ∃ r, receive_packet_city_info_rest H pc (first, cursor_of pc B false) = some r
      ∧ r.1.trade = (routes ++ List.replicate (4 - routes.length) (0, 0)).map Prod.fst
      ∧ r.1.trade_value = (routes ++ List.replicate (4 - routes.length) (0, 0)).map Prod.snd := by
  obtain ⟨G, hG⟩ : ∃ G, G = B + (if has_capability "production_change_fix" pc.capability
      then 7 else 0) := ⟨_, rfl⟩
  obtain ⟨W, hW⟩ : ∃ W, W = G + (1 + ((c_string req.worklist.name).length + 1)
      + 2 * H.MAX_LEN_WORKLIST) := ⟨_, rfl⟩
  obtain ⟨T, hT⟩ : ∃ T, T = W + 1 + 4 + (1 + ((c_string req.improvements).length + 7) / 8) + 1 :=
    ⟨_, rfl⟩
  have hend' : header_len pc = ((T + 3 * routes.length : Nat) : Int) := by
    rw [hend, hT, hW, hG]
  have tail : positioned_at (cursor_of pc G false)
        (put_worklist H req.worklist pc
        ++ (put_uint8 (send_packet_city_info_flags pc req : Nat)
        ++ (put_city_map req.city_map
        ++ (put_bit_string req.improvements
        ++ (put_uint8 req.city_options
        ++ (routes.map (fun x => put_uint16 x.1 ++ put_uint8 x.2)).flatten))))) →
      ∃ w m b, iget_worklist H (cursor_of pc G false) pc = some w
        ∧ iget_city_map (iget_uint8 w.2).2 H.sizeof_city_map = some m
        ∧ iget_bit_string m.2 H.sizeof_improvements = some b
        ∧ (receive_packet_city_info_trade 4 (iget_uint8 b.2).2).1
            = routes ++ List.replicate (4 - routes.length) (0, 0) := by
    intro q0
    obtain ⟨⟨wl, e1⟩, q1⟩ := read_worklist H pc G W req.worklist _ hW hwfit hwn q0
    obtain ⟨e2, q2⟩ := read_uint8 pc W (W + 1) _ _ rfl q1
    obtain ⟨⟨cm, e3⟩, q3⟩ := read_city_map pc (W + 1) (W + 1 + 4) _ _ H.sizeof_city_map rfl hmap q2
    obtain ⟨⟨bs, e4⟩, q4⟩ := read_bit_string pc (W + 1 + 4)
      (W + 1 + 4 + (1 + ((c_string req.improvements).length + 7) / 8)) _ _
      H.sizeof_improvements rfl hi255 hifit q3
    obtain ⟨e5, q5⟩ := read_uint8 pc
      (W + 1 + 4 + (1 + ((c_string req.improvements).length + 7) / 8)) T _ _ hT q4
    have e6 := read_trade_routes pc hsw routes 4 T hk hv q5 hend'
    refine ⟨(wl, cursor_of pc W false), (cm, cursor_of pc (W + 1 + 4) false),
      (bs, cursor_of pc (W + 1 + 4 + (1 + ((c_string req.improvements).length + 7) / 8)) false),
      e1, ?_, ?_, ?_⟩
    · rw [e2]; exact e3
    · exact e4
    · rw [e5]; exact e6
  unfold receive_packet_city_info_rest
  cases hfix : has_capability "production_change_fix" pc.capability with
  | false =>
    rw [hfix] at hp hG
    simp only [Bool.false_eq_true, if_false, List.nil_append, add_zero] at hp hG
    subst hG
    obtain ⟨w, m, b, t1, t3, t4, t6⟩ := tail hp
    simp only [Bool.false_eq_true, if_false, t1, t3, t4, t6]
    exact ⟨_, rfl, rfl, rfl⟩
  | true =>
    rw [hfix] at hp hG
    simp only [if_true, List.append_assoc] at hp hG
    obtain ⟨g1, q1⟩ := read_sint16 pc B (B + 2) _ _ rfl hp
    obtain ⟨g2, q2⟩ := read_sint16 pc (B + 2) (B + 4) _ _ rfl q1
    obtain ⟨g3, q3⟩ := read_uint8 pc (B + 4) (B + 5) _ _ rfl q2
    obtain ⟨g4, -, q4⟩ := read_uint16 pc (B + 5) G _ _ (by omega) q3
    obtain ⟨w, m, b, t1, t3, t4, t6⟩ := tail q4
    simp only [if_true, g1, g2, g3, g4, t1, t3, t4, t6]
    exact ⟨_, rfl, rfl, rfl⟩

/-- C34, as the code has it. `send_packet_city_info` writes the trade routes
whose `trade` entry is not 0, one after the other, and
`receive_packet_city_info` fills the arrays from index 0 on and zeroes the
rest.  So for a connection that does not swap bytes and every
`packet_city_info` whose routes in use come first (`routes`: at most four
pairs with `trade` in 1..65535 and `trade_value` in 0..255, followed by
entries with `trade = trade_value = 0`), with strings of byte chars that fit
their arrays (names shorter than `MAX_LEN_NAME`, an improvements string
shorter than its array and than 256 chars) in a packet below 65536 bytes:
`receive_packet_city_info` applied to the bytes written by
`send_packet_city_info` under the same capabilities returns the four pairs
`(trade[i], trade_value[i])` position by position. -/
theorem city_info_trade_round_trip (H : header) (PACKET_CITY_INFO : Int) (pc : connection)
    (req : packet_city_info) (routes : List (Int × Int))
    (hsw : pc.byte_swap = false)
    (hname : all_bytes req.name) (hfit : ((c_string req.name).length : Int) < H.MAX_LEN_NAME)
    (hwn : all_bytes req.worklist.name)
    (hwfit : ((c_string req.worklist.name).length : Int) < H.MAX_LEN_NAME)
    (hmap : 26 ≤ H.sizeof_city_map)
    (hifit : ((c_string req.improvements).length : Int) < H.sizeof_improvements)
    (hi255 : (c_string req.improvements).length ≤ 255)
    (hk : routes.length ≤ 4)
    (hv : ∀ x ∈ routes, 1 ≤ x.1 ∧ x.1 ≤ 65535 ∧ 0 ≤ x.2 ∧ x.2 ≤ 255)
    (ht : req.trade = routes.map Prod.fst ++ List.replicate (4 - routes.length) 0)
    (htv : req.trade_value = routes.map Prod.snd ++ List.replicate (4 - routes.length) 0)
    (hlen : (send_packet_city_info H PACKET_CITY_INFO pc req).length < 65536) :
    ∃ r, receive_packet_city_info H
        (holding pc (send_packet_city_info H PACKET_CITY_INFO pc req)) = some r
      ∧ r.1.trade = req.trade ∧ r.1.trade_value = req.trade_value := by
  have htrade := send_trade_routes req routes hk (fun x hx => by have := hv x hx; omega) ht htv
  obtain ⟨tail, htail⟩ : ∃ tail, tail =
      (if has_capability "production_change_fix" pc.capability then
          put_sint16 req.turn_last_built ++ (put_sint16 req.turn_changed_target
            ++ (put_uint8 req.changed_from_id ++ put_uint16 req.before_change_shields))
        else [])
      ++ (put_worklist H req.worklist pc
      ++ (put_uint8 (send_packet_city_info_flags pc req : Nat)
      ++ (put_city_map req.city_map
      ++ (put_bit_string req.improvements
      ++ (put_uint8 req.city_options
      ++ (routes.map (fun x => put_uint16 x.1 ++ put_uint8 x.2)).flatten))))) := ⟨_, rfl⟩
  obtain ⟨fields, hfields⟩ : ∃ fields, fields =
      put_uint16 req.id ++ (put_uint8 req.owner ++ (put_uint8 req.x ++ (put_uint8 req.y
        ++ (put_string req.name
        ++ (put_uint8 req.size ++ (put_uint8 req.ppl_happy ++ (put_uint8 req.ppl_content
        ++ (put_uint8 req.ppl_unhappy ++ (put_uint8 req.ppl_elvis
        ++ (put_uint8 req.ppl_scientist ++ (put_uint8 req.ppl_taxman
        ++ (put_uint8 req.food_prod ++ (put_uint8 req.food_surplus
        ++ (put_uint16 req.shield_prod ++ (put_uint16 req.shield_surplus
        ++ (put_uint16 req.trade_prod ++ (put_uint16 req.corruption
        ++ (put_uint16 req.luxury_total ++ (put_uint16 req.tax_total
        ++ (put_uint16 req.science_total
        ++ (put_uint16 req.food_stock ++ (put_uint16 req.shield_stock
        ++ (put_uint16 req.pollution
        ++ (put_uint8 req.currently_building ++ tail)))))))))))))))))))))))) := ⟨_, rfl⟩
  have hsend : send_packet_city_info H PACKET_CITY_INFO pc req
      = put_uint16 ((2 + (put_uint8 PACKET_CITY_INFO ++ fields).length : Nat) : Int)
        ++ (put_uint8 PACKET_CITY_INFO ++ fields) := by
    unfold send_packet_city_info
    rw [htrade, hfields, htail]
    simp only [List.append_assoc]
  obtain ⟨wl, wb⟩ := put_worklist_shape H req.worklist pc hwn
  obtain ⟨bl, bb⟩ := put_bit_string_length_bytes req.improvements
  have tl : (routes.map (fun x => put_uint16 x.1 ++ put_uint8 x.2)).flatten.length
      = 3 * routes.length := by
    rw [flatten_length_const _ 3 (by
        intro x hx
        obtain ⟨y, -, rfl⟩ := List.mem_map.mp hx
        simp [put_uint16, put_uint8]), List.length_map]
  have htl : tail.length
      = (if has_capability "production_change_fix" pc.capability then 7 else 0)
        + (1 + ((c_string req.worklist.name).length + 1) + 2 * H.MAX_LEN_WORKLIST)
        + 1 + 4 + (1 + ((c_string req.improvements).length + 7) / 8) + 1
        + 3 * routes.length := by
    rw [htail]
    simp only [List.length_append, wl, bl, tl]
    have c4 : (put_city_map req.city_map).length = 4 := by simp [put_city_map]
    rw [c4]
    split_ifs <;> simp [put_sint16, put_uint16, put_uint8] <;> omega
  have hfl : fields.length = 36 + (c_string req.name).length + tail.length := by
    rw [hfields]
    simp only [List.length_append, put_uint16, put_uint8, put_string, List.length_cons,
      List.length_nil]
    omega
  have htb : all_bytes tail := by
    rw [htail]
    simp only [all_bytes_append]
    refine ⟨?_, wb, all_bytes_put_uint8 _, all_bytes_put_city_map _, bb, all_bytes_put_uint8 _,
      all_bytes_flatten _ ?_⟩
    · split_ifs
      · simp only [all_bytes_append]
        exact ⟨all_bytes_put_uint16 _, all_bytes_put_uint16 _, all_bytes_put_uint8 _,
          all_bytes_put_uint16 _⟩
      · intro b hb; simp at hb
    · intro x hx
      obtain ⟨y, -, rfl⟩ := List.mem_map.mp hx
      exact (all_bytes_append _ _).mpr ⟨all_bytes_put_uint16 _, all_bytes_put_uint8 _⟩
  have hfb : all_bytes fields := by
    rw [hfields]
    simp only [all_bytes_append]
    exact ⟨all_bytes_put_uint16 _, all_bytes_put_uint8 _, all_bytes_put_uint8 _,
      all_bytes_put_uint8 _, all_bytes_put_string _ hname, all_bytes_put_uint8 _,
      all_bytes_put_uint8 _, all_bytes_put_uint8 _, all_bytes_put_uint8 _,
      all_bytes_put_uint8 _, all_bytes_put_uint8 _, all_bytes_put_uint8 _,
      all_bytes_put_uint8 _, all_bytes_put_uint8 _, all_bytes_put_uint16 _,
      all_bytes_put_uint16 _, all_bytes_put_uint16 _, all_bytes_put_uint16 _,
      all_bytes_put_uint16 _, all_bytes_put_uint16 _, all_bytes_put_uint16 _,
      all_bytes_put_uint16 _, all_bytes_put_uint16 _, all_bytes_put_uint16 _,
      all_bytes_put_uint8 _, htb⟩
  rw [hsend] at hlen ⊢
  have hl3 : 3 + fields.length < 65536 := by
    simp only [List.length_append, put_uint16, put_uint8, List.length_cons, List.length_nil]
      at hlen
    omega
  obtain ⟨hl, hinit, -⟩ := framed_header pc PACKET_CITY_INFO fields hl3
  have p0 := framed_fields pc PACKET_CITY_INFO fields hl3 hfb
  obtain ⟨P, hP⟩ : ∃ P, P = holding pc
      (put_uint16 ((2 + (put_uint8 PACKET_CITY_INFO ++ fields).length : Nat) : Int)
        ++ (put_uint8 PACKET_CITY_INFO ++ fields)) := ⟨_, rfl⟩
  rw [← hP] at hl hinit p0 ⊢
  have hPcap : P.capability = pc.capability := by rw [hP]; rfl
  have hPsw : P.byte_swap = false := by rw [hP]; exact hsw
  have hw2 : put_worklist H req.worklist pc = put_worklist H req.worklist P := by
    unfold put_worklist put_worklist_slot
    rw [hPcap]
  have hf2 : send_packet_city_info_flags pc req = send_packet_city_info_flags P req := by
    unfold send_packet_city_info_flags
    rw [hPcap]
  rw [hw2, hf2, ← hPcap] at htail
  rw [← hPcap] at htl
  rw [hfields] at p0
  obtain ⟨⟨first, e1⟩, p1⟩ := read_city_info_first H P req tail hfit p0
  rw [htail] at p1
  obtain ⟨r, e2, t1, t2⟩ := read_city_info_rest H P req first routes
    (39 + (c_string req.name).length) hPsw hwfit hwn hmap hifit hi255 hk
    (fun x hx => by have := hv x hx; omega) p1
    (by rw [hl, hfl, htl]; congr 1; omega)
  unfold receive_packet_city_info
  rw [hinit]
  simp only [e1, e2]
  refine ⟨_, rfl, ?_, ?_⟩
  · rw [t1, ht]; simp
  · rw [t2, htv]; simp

/-- Witness for C34: with worklists of two entries, the struct
`sample_trade_city` (routes 5 and 7 with values 9 and 2, then two entries not
in use) sent to and read by a peer without capabilities. -/
theorem city_info_trade_round_trip_witness :
    ∃ r, receive_packet_city_info short_worklist_header
        (holding (peer []) (send_packet_city_info short_worklist_header 20 (peer [])
          sample_trade_city)) = some r
      ∧ r.1.trade = [5, 7, 0, 0] ∧ r.1.trade_value = [9, 2, 0, 0] :=
  city_info_trade_round_trip short_worklist_header 20 (peer []) sample_trade_city
    [(5, 9), (7, 2)] rfl (by decide) (by decide) (by decide) (by decide) (by decide)
    (by decide) (by decide) (by decide) (by decide) rfl rfl (by decide)

set_option maxRecDepth 100000 in
/-- Counterexample for C34: with worklists of two entries, between peers
without capabilities, the struct `gap_trade_city` with `trade = [0, 5, 0, 0]`
and `trade_value = [0, 9, 0, 0]` is read back with `trade = [5, 0, 0, 0]` and
`trade_value = [9, 0, 0, 0]`: the route moves from entry 1 to entry 0.  The
struct `idle_value_city` with `trade = [5, 0, 0, 0]` and
`trade_value = [9, 3, 0, 0]` is read back with
`trade_value = [9, 0, 0, 0]`.  On a connection that swaps bytes the struct
`sample_trade_city` with `trade = [5, 7, 0, 0]` is read back with
`trade = [1280, 1792, 0, 0]`. -/
theorem city_info_trade_gap_closed :
    (gap_trade_city.trade, gap_trade_city.trade_value) = ([0, 5, 0, 0], [0, 9, 0, 0])
    ∧ (receive_packet_city_info short_worklist_header
        (holding (peer []) (send_packet_city_info short_worklist_header 20 (peer [])
          gap_trade_city))).map (fun r => (r.1.trade, r.1.trade_value))
      = some ([5, 0, 0, 0], [9, 0, 0, 0])
    ∧ (idle_value_city.trade, idle_value_city.trade_value) = ([5, 0, 0, 0], [9, 3, 0, 0])
    ∧ (receive_packet_city_info short_worklist_header
        (holding (peer []) (send_packet_city_info short_worklist_header 20 (peer [])
          idle_value_city))).map (fun r => (r.1.trade, r.1.trade_value))
      = some ([5, 0, 0, 0], [9, 0, 0, 0])
    ∧ (sample_trade_city.trade, sample_trade_city.trade_value) = ([5, 7, 0, 0], [9, 2, 0, 0])
    ∧ (receive_packet_city_info short_worklist_header
        (holding { peer [] with byte_swap := true }
          (send_packet_city_info short_worklist_header 20 (peer []) sample_trade_city))).map
        (fun r => (r.1.trade, r.1.trade_value))
      = some ([1280, 1792, 0, 0], [9, 2, 0, 0]) := by
  refine ⟨by decide, by decide, by decide, by decide, by decide, by decide⟩
end Packets
